import Mathlib

/-!
Read/write conflict resolution of the graph engine.

A shallow embedding of `ge/graph/optimize/mem_rw_conflict_optimize.cc`:
the read/write classification of anchors, the conflict table, the
aggregation of input classifications over a subgraph boundary, and the
graph rewriting driver `HandleMemoryRWConflict`.
-/

namespace ge

/-! ## Read/write classifications -/

/-- Read/write type of an input anchor (`enum class InputRWType`). The
declaration order fixes the integer value of each enumerator. -/
inductive InputRWType where
  | kReadOnly
  | kWriteable
  | kScopeWriteable
  | kInvalidRWType
deriving DecidableEq, Repr, Inhabited

/-- Read/write type of an output anchor (`enum class OutputRWType`). -/
inductive OutputRWType where
  | kReadOnly
  | kSoftRead
  | kWriteable
  | kInvalidRWType
deriving DecidableEq, Repr, Inhabited

/-- The conversion `static_cast<int>(rw_type)` on an input type. -/
def InputRWType.toInt : InputRWType → Int
  | .kReadOnly => 0
  | .kWriteable => 1
  | .kScopeWriteable => 2
  | .kInvalidRWType => 3

/-- The conversion `static_cast<int>(rw_type)` on an output type. -/
def OutputRWType.toInt : OutputRWType → Int
  | .kReadOnly => 0
  | .kSoftRead => 1
  | .kWriteable => 2
  | .kInvalidRWType => 3

/-- Name table of `InputRWTypeToSerialString`. -/
def InputRWTypeToSerialString : InputRWType → String
  | .kReadOnly => "ReadOnly"
  | .kWriteable => "Writeable"
  | .kScopeWriteable => "ScopeWriteable"
  | .kInvalidRWType => "InvalidRWType"

/-- Name table of `OutputRWTypeToSerialString`. -/
def OutputRWTypeToSerialString : OutputRWType → String
  | .kReadOnly => "ReadOnly"
  | .kSoftRead => "SoftRead"
  | .kWriteable => "Writeable"
  | .kInvalidRWType => "InvalidRWType"

/-- Verdict for one data edge (`enum ConflictResult`). -/
inductive ConflictResult where
  | DO_NOTHING
  | WRONG_GRAPH
  | INSERT_IDENTITY
deriving DecidableEq, Repr, Inhabited

open ConflictResult in
/-- The table `output_2_input_rwtype`: one row per output type
(ReadOnly, SoftRead, Writeable), one column per input type
(ReadOnly, Writeable, ScopeWriteable). -/
def output_2_input_rwtype : List (List ConflictResult) :=
  [[DO_NOTHING, WRONG_GRAPH, INSERT_IDENTITY],
   [DO_NOTHING, WRONG_GRAPH, DO_NOTHING],
   [DO_NOTHING, DO_NOTHING, INSERT_IDENTITY]]

/-- Embedding of `GetConflictResultBetweenNode`: the invalid guard, then the
lookup `output_2_input_rwtype[n][m]`. The fallback of the list access is never
taken: behind the guard both indices are below three. -/
def GetConflictResultBetweenNode (output_rw_type : OutputRWType)
    (input_rw_type : InputRWType) : ConflictResult :=
  if output_rw_type = OutputRWType.kInvalidRWType ∨
      input_rw_type = InputRWType.kInvalidRWType then
    ConflictResult.WRONG_GRAPH
  else
    let n := output_rw_type.toInt.toNat
    let m := input_rw_type.toInt.toNat
    (output_2_input_rwtype.getD n []).getD m ConflictResult.WRONG_GRAPH

/-- The value that an `int` holds after additions whose exact result is `v`:
the representative of `v` modulo 2^32 between -2^31 and 2^31 - 1. An addition
that leaves the range of `int` is undefined in the language; the model takes
the two's complement wrap of the compiled code. -/
def wrapInt (v : Int) : Int := (v + 2 ^ 31) % 2 ^ 32 - 2 ^ 31

/-- Embedding of `GetInputRwTypeInConflict`: the elements of the
`std::set<int>` are added into the `int` named `total_rw_type` and the total is
looked up in the switch. Addition modulo 2^32 is associative and commutative,
so the total is the wrapped sum of the set whatever the order of the walk. -/
def GetInputRwTypeInConflict (rw_type_set : Finset Int) : InputRWType :=
  let total_rw_type : Int := wrapInt (rw_type_set.sum id)
  if total_rw_type = 0 then InputRWType.kReadOnly
  else if total_rw_type = 2 then InputRWType.kScopeWriteable
  else if total_rw_type = 3 then InputRWType.kWriteable
  else if total_rw_type = 5 then InputRWType.kInvalidRWType
  else InputRWType.kInvalidRWType

/-! ## The graph

The graph library (nodes, anchors, `GraphUtils`, `NodeUtils`) is not among the
sources; its objects and functions are modelled here. Nodes live in an arena
and are named by their position in it. A data edge is stored once, on the input
anchor it ends in; the peers of an output anchor are the input anchors that
point at it, in arena order. Control edges and tensor descriptors are outside
the model. -/

/-- Status codes returned by the pass. -/
inductive Status where
  | SUCCESS
  | FAILED
  | PARAM_INVALID
  | INTERNAL_ERROR
  | GRAPH_FAILED
  | GRAPH_PARAM_INVALID
deriving DecidableEq, Repr, Inhabited

/-- An output data anchor: its owner node and its index on that node. -/
structure OutDataAnchor where
  node : Nat
  idx : Nat
deriving DecidableEq, Repr, Inhabited

/-- An input data anchor: its owner node and its index on that node. -/
structure InDataAnchor where
  node : Nat
  idx : Nat
deriving DecidableEq, Repr, Inhabited

/-- The part of an op descriptor the pass reads. Input and output names are
listed by index. -/
structure OpDesc where
  name : String
  type : String
  input_names : List String
  output_names : List String
  framework_original_type : Option String
  parent_node_index : Option Nat
  input_desc_parent_index : Bool
  subgraph_instance_names : List String
deriving DecidableEq, Repr, Inhabited

/-- A node object. `listed` says whether the node is still in the node list of
its owner graph; every input data anchor stores its peer output anchor. -/
structure Node where
  op_desc : Option OpDesc
  owner_graph : Option Nat
  listed : Bool
  in_data_anchors : List (Option OutDataAnchor)
  out_data_anchors : Nat
deriving DecidableEq, Repr, Inhabited

/-- A graph object: the root graph or one registered subgraph. -/
structure GraphInfo where
  name : String
  parent_node : Option Nat
deriving DecidableEq, Repr, Inhabited

/-- The root compute graph with everything reachable from it: the node arena
and the graph objects, the root first and then the subgraphs in registration
order. The direct nodes of a graph are its listed nodes in arena order. -/
structure ComputeGraph where
  nodes : List Node
  graphs : List GraphInfo
deriving DecidableEq, Repr, Inhabited

/-- Registry entry `NodeInputOutputRWType`: two maps from anchor index to type. -/
structure NodeInputOutputRWType where
  input_rw_type_map : List (Nat × InputRWType)
  output_rw_type_map : List (Nat × OutputRWType)
deriving DecidableEq, Repr, Inhabited

/-- Everything the pass reads and writes: the graph, the thread-local registry
`node_rwtype_map_` and the static counter `identity_num`. -/
structure PassState where
  graph : ComputeGraph
  node_rwtype_map_ : List (String × NodeInputOutputRWType)
  identity_num : Nat
deriving DecidableEq, Repr, Inhabited

/-- Modelled from the spec: the op type constants come from the framework's
type table, which is not among the sources. -/
def DATA : String := "Data"
def NETOUTPUT : String := "NetOutput"
def WHILE : String := "While"
def IDENTITY : String := "Identity"
def READVARIABLEOP : String := "ReadVariableOp"
def VARIABLE : String := "Variable"
def CONSTANT : String := "Const"
def CONSTANTOP : String := "Constant"
def FRAMEWORK_OP_TYPE : String := "FrameworkOp"
def REFSWITCH : String := "RefSwitch"
def HCOMALLREDUCE : String := "HcomAllReduce"
def HCOMALLGATHER : String := "HcomAllGather"
def HCOMREDUCESCATTER : String := "HcomReduceScatter"
def STREAMMERGE : String := "StreamMerge"

/-- Modelled from the spec: the set `kWhileOpTypes` of loop op types is
declared outside the sources. -/
def kWhileOpTypes : List String := ["While", "_While", "StatelessWhile"]

def kIdentityAnchorIndex : Nat := 0

namespace ComputeGraph

/-- Modelled from the spec: the graph library function `Node::GetOpDesc`; the
descriptor is absent when the node or the descriptor is. -/
def GetOpDesc (g : ComputeGraph) (n : Nat) : Option OpDesc :=
  match g.nodes[n]? with
  | some nd => nd.op_desc
  | none => none

/-- Modelled from the spec: the graph library function `Node::GetType`: the descriptor's type, the empty string without one. -/
def GetType (g : ComputeGraph) (n : Nat) : String :=
  match g.GetOpDesc n with
  | some d => d.type
  | none => ""

/-- Modelled from the spec: the graph library function `Node::GetName`. -/
def GetName (g : ComputeGraph) (n : Nat) : String :=
  match g.GetOpDesc n with
  | some d => d.name
  | none => ""

/-- Modelled from the spec: number of input data anchors of node `n`. -/
def inAnchorNum (g : ComputeGraph) (n : Nat) : Nat :=
  match g.nodes[n]? with
  | some nd => nd.in_data_anchors.length
  | none => 0

/-- Modelled from the spec: number of output data anchors of node `n`. -/
def outAnchorNum (g : ComputeGraph) (n : Nat) : Nat :=
  match g.nodes[n]? with
  | some nd => nd.out_data_anchors
  | none => 0

/-- Modelled from the spec: the graph library function `InDataAnchor::GetPeerOutAnchor`. -/
def GetPeerOutAnchor (g : ComputeGraph) (a : InDataAnchor) : Option OutDataAnchor :=
  match g.nodes[a.node]? with
  | some nd => (nd.in_data_anchors[a.idx]?).join
  | none => none

/-- Modelled from the spec: the graph library function `Node::GetAllInDataAnchors`. -/
def GetAllInDataAnchors (g : ComputeGraph) (n : Nat) : List InDataAnchor :=
  (List.range (g.inAnchorNum n)).map (fun j => ⟨n, j⟩)

/-- Modelled from the spec: the graph library function `Node::GetAllOutDataAnchors`. -/
def GetAllOutDataAnchors (g : ComputeGraph) (n : Nat) : List OutDataAnchor :=
  (List.range (g.outAnchorNum n)).map (fun k => ⟨n, k⟩)

/-- Modelled from the spec: every input data anchor of the arena, in arena
order. -/
def allInDataAnchors (g : ComputeGraph) : List InDataAnchor :=
  (List.range g.nodes.length).flatMap (fun n => g.GetAllInDataAnchors n)

/-- Modelled from the spec: the graph library function
`OutDataAnchor::GetPeerInDataAnchors`: the input anchors fed by `o`. The
library keeps them in the order in which the links were made; the model stores
a link on the input anchor only and lists them in arena order. The order
decides the arena index and the name of a node that a loop over the peers
creates, and which peer a loop that returns early sees first; the general
statements below take the peers as a set, name a new node by existence, or
are about an output with at most one peer. -/
def GetPeerInDataAnchors (g : ComputeGraph) (o : OutDataAnchor) : List InDataAnchor :=
  g.allInDataAnchors.filter (fun a => g.GetPeerOutAnchor a = some o)

/-- Modelled from the spec: the graph library function `OutDataAnchor::GetPeerInDataNodesSize`. -/
def GetPeerInDataNodesSize (g : ComputeGraph) (o : OutDataAnchor) : Nat :=
  (g.GetPeerInDataAnchors o).length

/-- Modelled from the spec: the graph library function `Node::GetOutDataNodesWithAnchorByIndex`: the peers of output `index`
(none when the anchor is absent), each with its owner node. -/
def GetOutDataNodesWithAnchorByIndex (g : ComputeGraph) (n index : Nat) : List InDataAnchor :=
  if index < g.outAnchorNum n then g.GetPeerInDataAnchors ⟨n, index⟩ else []

/-- Modelled from the spec: the graph library function `Node::GetOutDataNodes`: consumer nodes over all output anchors. -/
def GetOutDataNodes (g : ComputeGraph) (n : Nat) : List Nat :=
  (g.GetAllOutDataAnchors n).flatMap (fun o => (g.GetPeerInDataAnchors o).map (fun a => a.node))

/-- Modelled from the spec: the graph library function `Node::GetOutDataNodesSize`. -/
def GetOutDataNodesSize (g : ComputeGraph) (n : Nat) : Nat :=
  ((g.GetAllOutDataAnchors n).map (fun o => g.GetPeerInDataNodesSize o)).sum

/-- Modelled from the spec: the graph library function `Node::GetInDataNodes`: producer nodes of the linked input anchors. -/
def GetInDataNodes (g : ComputeGraph) (n : Nat) : List Nat :=
  (g.GetAllInDataAnchors n).filterMap (fun a => (g.GetPeerOutAnchor a).map (fun o => o.node))

/-- Modelled from the spec: the graph library function
`ComputeGraph::GetDirectNode`, the direct nodes of graph `gi`. -/
def GetDirectNode (g : ComputeGraph) (gi : Nat) : List Nat :=
  (List.range g.nodes.length).filter (fun n =>
    match g.nodes[n]? with
    | some nd => nd.listed && (nd.owner_graph == some gi)
    | none => false)

/-- Modelled from the spec: the graph library function
`ComputeGraph::GetParentNode`, the parent node of graph `gi`. -/
def GetParentNode (g : ComputeGraph) (gi : Nat) : Option Nat :=
  match g.graphs[gi]? with
  | some info => info.parent_node
  | none => none

/-- Modelled from the spec: the graph library function
`Node::GetOwnerComputeGraph`, the owner graph of node `n`. -/
def GetOwnerComputeGraph (g : ComputeGraph) (n : Nat) : Option Nat :=
  match g.nodes[n]? with
  | some nd => nd.owner_graph
  | none => none

/-- Modelled from the spec: the graph library function `ComputeGraph::GetAllSubgraphs` on the root: the registered subgraphs. -/
def GetAllSubgraphs (g : ComputeGraph) : List Nat :=
  (List.range g.graphs.length).drop 1

/-- Modelled from the spec: the graph library function `ComputeGraph::GetSubgraph`: a registered subgraph found by name. -/
def GetSubgraph (g : ComputeGraph) (name : String) : Option Nat :=
  g.GetAllSubgraphs.find? (fun gi =>
    match g.graphs[gi]? with
    | some info => info.name == name
    | none => false)

/-- Modelled from the spec: whether the input data anchor exists on its node
(a null check in the program). -/
def hasInAnchor (g : ComputeGraph) (a : InDataAnchor) : Bool :=
  decide (a.idx < g.inAnchorNum a.node)

/-- Modelled from the spec: whether the output data anchor exists on its node
(a null check in the program). -/
def hasOutAnchor (g : ComputeGraph) (o : OutDataAnchor) : Bool :=
  decide (o.idx < g.outAnchorNum o.node)

/-- The one primitive that changes a data edge: the peer stored on input
anchor `a` becomes `v`. -/
def setPeer (g : ComputeGraph) (a : InDataAnchor) (v : Option OutDataAnchor) : ComputeGraph :=
  { g with
    nodes := List.modify (fun nd => { nd with in_data_anchors := nd.in_data_anchors.set a.idx v })
      a.node g.nodes }

/-- Modelled from the spec: `Anchor::Unlink` is not among the sources. The edge
from `o` to `a` is removed; unlinking an edge that is not there fails. -/
def Unlink (g : ComputeGraph) (o : OutDataAnchor) (a : InDataAnchor) : Except Status ComputeGraph :=
  if g.GetPeerOutAnchor a = some o then .ok (g.setPeer a none) else .error .GRAPH_FAILED

/-- Modelled from the spec: `GraphUtils::AddEdge` is not among the sources. Both
anchors must exist and the input anchor must be free. -/
def AddEdge (g : ComputeGraph) (o : OutDataAnchor) (a : InDataAnchor) : Except Status ComputeGraph :=
  if g.hasOutAnchor o ∧ g.hasInAnchor a ∧ g.GetPeerOutAnchor a = none then
    .ok (g.setPeer a (some o))
  else .error .GRAPH_FAILED

/-- Modelled from the spec: `GraphUtils::InsertNodeBetweenDataAnchors` is not
among the sources. The edge from `src` to `dst` is replaced by an edge from
`src` to input 0 of `new_node` and an edge from output 0 of `new_node` to
`dst`; it fails when `new_node` lacks either anchor or `dst` is not fed by
`src`. -/
def InsertNodeBetweenDataAnchors (g : ComputeGraph) (src : OutDataAnchor) (dst : InDataAnchor)
    (new_node : Nat) : Except Status ComputeGraph :=
  if g.hasInAnchor ⟨new_node, 0⟩ ∧ g.hasOutAnchor ⟨new_node, 0⟩ ∧
      g.GetPeerOutAnchor dst = some src then
    .ok ((g.setPeer dst (some ⟨new_node, 0⟩)).setPeer ⟨new_node, 0⟩ (some src))
  else .error .GRAPH_FAILED

/-- Modelled from the spec: the graph library function `Anchor::UnlinkAll` on an
output anchor; every consumer of `o` loses its edge. -/
def UnlinkAllOut (g : ComputeGraph) (o : OutDataAnchor) : ComputeGraph :=
  (g.GetPeerInDataAnchors o).foldl (fun g1 a => g1.setPeer a none) g

/-- Modelled from the spec: the graph library function `Anchor::UnlinkAll` on
every input data anchor of node `n`. -/
def UnlinkAllIn (g : ComputeGraph) (n : Nat) : ComputeGraph :=
  (g.GetAllInDataAnchors n).foldl (fun g1 a => g1.setPeer a none) g

/-- Modelled from the spec: the graph library helper `ReplaceOutDataAnchor`;
every consumer of `old_anchor` is linked to `new_anchor` instead. -/
def ReplaceOutDataAnchor (g : ComputeGraph) (new_anchor old_anchor : OutDataAnchor) :
    ComputeGraph :=
  (g.GetPeerInDataAnchors old_anchor).foldl (fun g1 a => g1.setPeer a (some new_anchor)) g

/-- Modelled from the spec: the loop of the graph library helper `RelinkDataIO`
over the output anchors of `n`: output `i` is
mapped by `io_map` to an input index; a negative or missing entry unlinks the
output, otherwise the producer of that input takes over the output's
consumers. -/
def RelinkDataIOLoop (n : Nat) (io_map : List Int) :
    List Nat → ComputeGraph → Except Status ComputeGraph
  | [], g => .ok g
  | i :: rest, g =>
    let in_index : Int := io_map.getD i (-1)
    if in_index < 0 then
      RelinkDataIOLoop n io_map rest (g.UnlinkAllOut ⟨n, i⟩)
    else if (g.inAnchorNum n : Int) ≤ in_index then
      .error .GRAPH_PARAM_INVALID
    else
      match g.GetPeerOutAnchor ⟨n, in_index.toNat⟩ with
      | none => RelinkDataIOLoop n io_map rest g
      | some p =>
        RelinkDataIOLoop n io_map rest
          ((g.setPeer ⟨n, in_index.toNat⟩ none).ReplaceOutDataAnchor p ⟨n, i⟩)

/-- Modelled from the spec: `GraphUtils::IsolateNode` is not among the sources.
The data edges are relinked along `io_map`, then every data edge of the node is
cut. Control edges are outside the model. -/
def IsolateNode (g : ComputeGraph) (n : Nat) (io_map : List Int) : Except Status ComputeGraph :=
  if g.outAnchorNum n < io_map.length then .error .GRAPH_PARAM_INVALID
  else
    match RelinkDataIOLoop n io_map (List.range (g.outAnchorNum n)) g with
    | .error e => .error e
    | .ok g1 =>
      let g2 := g1.UnlinkAllIn n
      .ok ((g2.GetAllOutDataAnchors n).foldl (fun g3 o => g3.UnlinkAllOut o) g2)

/-- Modelled from the spec: node `n` is taken off the node list of its graph. -/
def unlist (g : ComputeGraph) (n : Nat) : ComputeGraph :=
  { g with nodes := List.modify (fun nd => { nd with listed := false }) n g.nodes }

/-- Modelled from the spec: `GraphUtils::RemoveNodeWithoutRelink` is not among
the sources. The node is erased from the node list of `graph`; it fails when
the graph is null or does not list the node. -/
def RemoveNodeWithoutRelink (g : ComputeGraph) (graph : Option Nat) (n : Nat) :
    Except Status ComputeGraph :=
  match graph with
  | none => .error .PARAM_INVALID
  | some gi => if n ∈ g.GetDirectNode gi then .ok (g.unlist n) else .error .GRAPH_FAILED

/-- Modelled from the spec: `NodeUtils::IsSubgraphInput` is not among the
sources. A node is a subgraph input when its graph has a parent node and its
descriptor carries the parent node index. -/
def IsSubgraphInput (g : ComputeGraph) (n : Nat) : Bool :=
  match g.GetOpDesc n, g.GetOwnerComputeGraph n with
  | some d, some gi => (g.GetParentNode gi).isSome && d.parent_node_index.isSome
  | _, _ => false

/-- Modelled from the spec: `NodeUtils::IsSubgraphOutput` is not among the
sources. A node is a subgraph output when its graph has a parent node and one
of its input descriptors carries a parent node index. -/
def IsSubgraphOutput (g : ComputeGraph) (n : Nat) : Bool :=
  match g.GetOpDesc n, g.GetOwnerComputeGraph n with
  | some d, some gi => (g.GetParentNode gi).isSome && d.input_desc_parent_index
  | _, _ => false

/-- Modelled from the spec: the graphs named by the subgraph instance names of
node `n`. -/
def subgraphsOf (g : ComputeGraph) (n : Nat) : List Nat :=
  match g.GetOpDesc n with
  | some d => d.subgraph_instance_names.filterMap (fun nm => g.GetSubgraph nm)
  | none => []

/-- Modelled from the spec: `NodeUtils::GetSubgraphOutputNodes` is not among
the sources: the subgraph outputs among the direct nodes of the subgraphs of
`n`. -/
def GetSubgraphOutputNodes (g : ComputeGraph) (n : Nat) : List Nat :=
  (g.subgraphsOf n).flatMap (fun gi => (g.GetDirectNode gi).filter (fun m => g.IsSubgraphOutput m))

/-- Modelled from the spec: `NodeUtils::GetSubgraphDataNodesByIndex` is not
among the sources: the subgraph inputs of the subgraphs of `n` whose parent node
index is `index`. -/
def GetSubgraphDataNodesByIndex (g : ComputeGraph) (n index : Nat) : List Nat :=
  (g.subgraphsOf n).flatMap (fun gi => (g.GetDirectNode gi).filter (fun m =>
    g.IsSubgraphInput m &&
      (match g.GetOpDesc m with
       | some d => d.parent_node_index == some index
       | none => false)))

/-- Modelled from the spec: the candidates loop of the graph library function
`ComputeGraph::AllGraphNodes`: the front candidate is
emitted and the direct nodes of its subgraphs are put in front of the rest. -/
def AllGraphNodes (g : ComputeGraph) : Nat → List Nat → List Nat
  | 0, _ => []
  | _ + 1, [] => []
  | fuel + 1, n :: rest =>
    n :: AllGraphNodes g fuel ((g.subgraphsOf n).flatMap (fun gi => g.GetDirectNode gi) ++ rest)

/-- Modelled from the spec: `ComputeGraph::GetAllNodes` is not among the
sources: the direct nodes of the root, each followed by the nodes of its
subgraphs. One unit of fuel is spent per emitted node, and a graph lists each
arena node at most once. -/
def GetAllNodes (g : ComputeGraph) : List Nat :=
  AllGraphNodes g g.nodes.length (g.GetDirectNode 0)

/-- Modelled from the spec: the graph library function `ComputeGraph::AddNode`;
a new node object is appended to the arena. -/
def AddNode (g : ComputeGraph) (nd : Node) : ComputeGraph :=
  { g with nodes := g.nodes ++ [nd] }

end ComputeGraph

/-! ## Classification of anchors -/

/-- Lookup in a `std::map` kept as a list of key and value pairs. -/
def mapFind {κ β : Type} [DecidableEq κ] (m : List (κ × β)) (k : κ) : Option β :=
  match m.find? (fun p => decide (p.1 = k)) with
  | some p => some p.2
  | none => none

/-- The member function `emplace` of `std::map`: an existing key keeps its
value. -/
def mapEmplace {κ β : Type} [DecidableEq κ] (m : List (κ × β)) (k : κ) (v : β) : List (κ × β) :=
  match mapFind m k with
  | some _ => m
  | none => m ++ [(k, v)]

/-- Name of output `i` of a descriptor, empty when there is none. -/
def OpDesc.GetOutputNameByIndex (d : OpDesc) (i : Nat) : String := d.output_names.getD i ""

/-- Name of input `i` of a descriptor, empty when there is none. -/
def OpDesc.GetInputNameByIndex (d : OpDesc) (i : Nat) : String := d.input_names.getD i ""

/-- Embedding of `GetSingleNodeOutputRWTypeByIndex`. -/
def GetSingleNodeOutputRWTypeByIndex (g : ComputeGraph) (node index : Nat) : OutputRWType :=
  match g.GetOpDesc node with
  | none => .kInvalidRWType
  | some op_desc =>
    if op_desc.type = VARIABLE then .kWriteable
    else if op_desc.input_names.any (fun nm => decide (op_desc.GetOutputNameByIndex index = nm)) then
      .kWriteable
    else if g.GetType node = FRAMEWORK_OP_TYPE ∧
        op_desc.framework_original_type = some REFSWITCH then .kWriteable
    else if op_desc.type = CONSTANT ∨ op_desc.type = CONSTANTOP then .kReadOnly
    else if g.hasOutAnchor ⟨node, index⟩ = false then .kInvalidRWType
    else if g.GetPeerInDataNodesSize ⟨node, index⟩ > 1 then .kReadOnly
    else .kSoftRead

/-- Embedding of `GetOutputRWTypeByIndex`; `reg` is `node_rwtype_map_`. -/
def GetOutputRWTypeByIndex (g : ComputeGraph) (reg : List (String × NodeInputOutputRWType))
    (node index : Nat) : OutputRWType :=
  match g.GetOpDesc node with
  | none => .kInvalidRWType
  | some op_desc =>
    if op_desc.type = WHILE then .kSoftRead
    else if op_desc.subgraph_instance_names.isEmpty then
      GetSingleNodeOutputRWTypeByIndex g node index
    else
      let output_node_vec := g.GetSubgraphOutputNodes node
      let found : Option OutputRWType :=
        match output_node_vec with
        | [output_node] =>
          match mapFind reg (g.GetName output_node) with
          | none => none
          | some entry => mapFind entry.output_rw_type_map index
        | _ => some .kSoftRead
      match found with
      | none => .kInvalidRWType
      | some output_rw_type =>
        if g.hasOutAnchor ⟨node, index⟩ = false then .kInvalidRWType
        else if g.GetPeerInDataNodesSize ⟨node, index⟩ > 1 then .kReadOnly
        else output_rw_type

/-- Embedding of `GetSingleNodeInputRWTypeByIndex`. -/
def GetSingleNodeInputRWTypeByIndex (g : ComputeGraph) (node index : Nat) : InputRWType :=
  match g.GetOpDesc node with
  | none => .kInvalidRWType
  | some op_desc =>
    if op_desc.type = HCOMALLREDUCE ∨ op_desc.type = HCOMALLGATHER ∨
        op_desc.type = HCOMREDUCESCATTER then .kScopeWriteable
    else if op_desc.output_names.any (fun nm => decide (op_desc.GetInputNameByIndex index = nm)) then
      .kWriteable
    else if g.GetType node = FRAMEWORK_OP_TYPE ∧
        op_desc.framework_original_type = some REFSWITCH ∧ index = 0 then .kWriteable
    else .kReadOnly

/-- The loop of `GetInputRWTypeByIndex` over the Data nodes of the subgraphs:
`none` is the early return of the invalid type. -/
def collectDataRWTypes (g : ComputeGraph) (reg : List (String × NodeInputOutputRWType)) :
    List Nat → Finset Int → Option (Finset Int)
  | [], acc => some acc
  | data_node :: rest, acc =>
    if g.hasOutAnchor ⟨data_node, 0⟩ = false then collectDataRWTypes g reg rest acc
    else
      match g.GetOpDesc data_node with
      | none => collectDataRWTypes g reg rest acc
      | some data_op_desc =>
        match mapFind reg data_op_desc.name with
        | none => none
        | some entry =>
          match mapFind entry.input_rw_type_map 0 with
          | none => none
          | some input_rw_type => collectDataRWTypes g reg rest (insert input_rw_type.toInt acc)

/-- Embedding of `GetInputRWTypeByIndex`; `reg` is `node_rwtype_map_`. -/
def GetInputRWTypeByIndex (g : ComputeGraph) (reg : List (String × NodeInputOutputRWType))
    (node index : Nat) : InputRWType :=
  match g.GetOpDesc node with
  | none => .kInvalidRWType
  | some op_desc =>
    if op_desc.type = WHILE then .kScopeWriteable
    else if op_desc.subgraph_instance_names.isEmpty then
      GetSingleNodeInputRWTypeByIndex g node index
    else
      match collectDataRWTypes g reg (g.GetSubgraphDataNodesByIndex node index) ∅ with
      | none => .kInvalidRWType
      | some anchor_rw_type_set => GetInputRwTypeInConflict anchor_rw_type_set

/-! ## Rewriting -/

/-- A loop that stops at the first status other than success. -/
def forEachM {α σ : Type} (f : α → σ → Status × σ) : List α → σ → Status × σ
  | [], s => (.SUCCESS, s)
  | x :: xs, s =>
    if (f x s).1 = .SUCCESS then forEachM f xs (f x s).2 else f x s

/-- The node object that `CreateIdentityAfterSrcNode` adds: an Identity with
one input `x` and one output `y`, owned by the graph of the source node. -/
def newIdentityNode (identity_name : String) (owner : Option Nat) : Node :=
  { op_desc := some
      { name := identity_name, type := IDENTITY, input_names := ["x"], output_names := ["y"],
        framework_original_type := none, parent_node_index := none,
        input_desc_parent_index := false, subgraph_instance_names := [] },
    owner_graph := owner, listed := true, in_data_anchors := [none], out_data_anchors := 1 }

/-- Embedding of `CreateIdentityAfterSrcNode`: the counter is advanced before
the owner graph is looked at; the result is the new node or null. The tensor
descriptor copied from the source output is outside the model, and with it
the output index argument. -/
def CreateIdentityAfterSrcNode (s : PassState) (src_node : Nat) : Option Nat × PassState :=
  match s.graph.GetOpDesc src_node with
  | none => (none, s)
  | some _ =>
    let next_num := s.identity_num
    let identity_name := s.graph.GetName src_node ++ "_" ++ IDENTITY ++ toString next_num
    match s.graph.GetOwnerComputeGraph src_node with
    | none => (none, { s with identity_num := next_num + 1 })
    | some gi =>
      (some s.graph.nodes.length,
        { s with identity_num := next_num + 1,
                 graph := s.graph.AddNode (newIdentityNode identity_name (some gi)) })

/-- Body of the loop of `MarkRWTypeForSubgraph` over the input anchors of a
NetOutput node; the second component is `output_rw_type_map`. -/
def MarkNetOutputAnchor (in_data_anchor : InDataAnchor)
    (st : PassState × List (Nat × OutputRWType)) :
    Status × (PassState × List (Nat × OutputRWType)) :=
  let s := st.1
  match s.graph.GetPeerOutAnchor in_data_anchor with
  | none => (.PARAM_INVALID, st)
  | some pre_out_anchor =>
    let pre_node := pre_out_anchor.node
    let pre_output_rw_type :=
      GetOutputRWTypeByIndex s.graph s.node_rwtype_map_ pre_node pre_out_anchor.idx
    if pre_output_rw_type = .kWriteable then
      match CreateIdentityAfterSrcNode s pre_node with
      | (none, s1) => (.PARAM_INVALID, (s1, st.2))
      | (some identity_node, s1) =>
        match s1.graph.InsertNodeBetweenDataAnchors pre_out_anchor in_data_anchor identity_node with
        | .error ret => (ret, (s1, st.2))
        | .ok g2 =>
          (.SUCCESS, ({ s1 with graph := g2 },
            mapEmplace st.2 in_data_anchor.idx OutputRWType.kSoftRead))
    else
      (.SUCCESS, (s, mapEmplace st.2 in_data_anchor.idx OutputRWType.kSoftRead))

/-- The Data branch of `MarkRWTypeForSubgraph`: the input types of the
consumers of output 0 are aggregated and recorded under the name of the node. -/
def MarkDataNode (node : Nat) (s : PassState) : PassState :=
  let anchor_2_node_vec := s.graph.GetOutDataNodesWithAnchorByIndex node 0
  let anchor_rw_type_set : Finset Int := anchor_2_node_vec.foldl
    (fun acc a =>
      insert (GetInputRWTypeByIndex s.graph s.node_rwtype_map_ a.node a.idx).toInt acc) ∅
  let anchor_rw_type := GetInputRwTypeInConflict anchor_rw_type_set
  let reg := mapEmplace s.node_rwtype_map_ (s.graph.GetName node) ⟨[(0, anchor_rw_type)], []⟩
  { s with node_rwtype_map_ := reg }

/-- The NetOutput branch of `MarkRWTypeForSubgraph`: every input anchor is
handled, then the output types are recorded under the name of the node. -/
def MarkNetOutputNode (node : Nat) (s : PassState) : Status × PassState :=
  let r := forEachM MarkNetOutputAnchor (s.graph.GetAllInDataAnchors node) (s, [])
  let s2 := r.2.1
  let reg := mapEmplace s2.node_rwtype_map_ (s2.graph.GetName node) ⟨[], r.2.2⟩
  if r.1 = .SUCCESS then (.SUCCESS, { s2 with node_rwtype_map_ := reg })
  else (r.1, s2)

/-- Body of the loop of `MarkRWTypeForSubgraph` over the direct nodes. -/
def MarkRWTypeForSubgraphNode (node : Nat) (s : PassState) : Status × PassState :=
  match s.graph.GetOpDesc node with
  | none => (.PARAM_INVALID, s)
  | some _ =>
    let s1 : PassState := if s.graph.GetType node = DATA then MarkDataNode node s else s
    if s1.graph.GetType node = NETOUTPUT then MarkNetOutputNode node s1
    else (.SUCCESS, s1)

/-- Embedding of `MarkRWTypeForSubgraph`. -/
def MarkRWTypeForSubgraph (sub_graph : Nat) (s : PassState) : Status × PassState :=
  forEachM MarkRWTypeForSubgraphNode (s.graph.GetDirectNode sub_graph) s

/-- Body of the loop of `MarkRWTypeForAllSubgraph`. -/
def MarkRWTypeForAllSubgraphStep (sub_graph : Nat) (s : PassState) : Status × PassState :=
  match s.graph.GetParentNode sub_graph with
  | none => (.SUCCESS, s)
  | some parent_node =>
    if s.graph.GetType parent_node = WHILE then (.SUCCESS, s)
    else MarkRWTypeForSubgraph sub_graph s

/-- Embedding of `MarkRWTypeForAllSubgraph`: the subgraphs are walked in
reverse order. -/
def MarkRWTypeForAllSubgraph (sub_graph_vec : List Nat) (s : PassState) : Status × PassState :=
  forEachM MarkRWTypeForAllSubgraphStep sub_graph_vec.reverse s

/-- Embedding of `CheckIdentityIsNearSubgraph`. -/
def CheckIdentityIsNearSubgraph (g : ComputeGraph) (node : Nat) : Bool :=
  (g.GetInDataNodes node).any (fun in_node =>
    (g.GetOpDesc in_node).isSome &&
      ((decide (g.GetType in_node = DATA) && g.IsSubgraphInput in_node) ||
        (match g.GetOpDesc in_node with
         | some d => !d.subgraph_instance_names.isEmpty
         | none => false))) ||
  (g.GetOutDataNodes node).any (fun out_node =>
    (g.GetOpDesc out_node).isSome &&
      ((decide (g.GetType out_node = NETOUTPUT) && g.IsSubgraphOutput out_node) ||
        (match g.GetOpDesc out_node with
         | some d => !d.subgraph_instance_names.isEmpty
         | none => false)))

/-- Embedding of `RemoveNoUseIdentity`. -/
def RemoveNoUseIdentity (node : Nat) (s : PassState) : Status × PassState :=
  let g := s.graph
  if (g.GetInDataNodes node).isEmpty ∨ g.GetOutDataNodesSize node > 1 then (.SUCCESS, s)
  else if g.GetOutDataNodesSize node = 1 ∧
      (match g.GetOutDataNodes node with
       | out_node :: _ => decide (g.GetType out_node = STREAMMERGE)
       | [] => false) = true then (.SUCCESS, s)
  else if CheckIdentityIsNearSubgraph g node then (.SUCCESS, s)
  else if g.hasInAnchor ⟨node, kIdentityAnchorIndex⟩ = false then (.PARAM_INVALID, s)
  else
    match g.GetPeerOutAnchor ⟨node, kIdentityAnchorIndex⟩ with
    | none => (.PARAM_INVALID, s)
    | some pre_out_anchor =>
      let pre_node := pre_out_anchor.node
      let pre_output_rw_type :=
        GetOutputRWTypeByIndex g s.node_rwtype_map_ pre_node pre_out_anchor.idx
      let anchor_2_outnode_vec := g.GetOutDataNodesWithAnchorByIndex node kIdentityAnchorIndex
      let conflict_result : ConflictResult :=
        match anchor_2_outnode_vec with
        | anchor_2_outnode :: _ =>
          GetConflictResultBetweenNode pre_output_rw_type
            (GetInputRWTypeByIndex g s.node_rwtype_map_ anchor_2_outnode.node anchor_2_outnode.idx)
        | [] => .DO_NOTHING
      if conflict_result ≠ .DO_NOTHING then (.SUCCESS, s)
      else
        match g.IsolateNode node [0] with
        | .error ret => (ret, s)
        | .ok g1 =>
          match g1.RemoveNodeWithoutRelink (g1.GetOwnerComputeGraph node) node with
          | .error ret => (ret, { s with graph := g1 })
          | .ok g2 => (.SUCCESS, { s with graph := g2 })

/-- Embedding of `SplitIdentityAlongAnchor`. Copying control edges is outside
the model and never fails. -/
def SplitIdentityAlongAnchor (out_data_anchor : OutDataAnchor) (pre_out_data_anchor : OutDataAnchor)
    (pre_node : Nat) (peer_in_data_anchor : InDataAnchor) (s : PassState) : Status × PassState :=
  let peer_in_data_node := peer_in_data_anchor.node
  let input_rw_type :=
    GetInputRWTypeByIndex s.graph s.node_rwtype_map_ peer_in_data_node peer_in_data_anchor.idx
  match s.graph.Unlink out_data_anchor peer_in_data_anchor with
  | .error ret => (ret, s)
  | .ok g1 =>
    if input_rw_type = .kScopeWriteable ∨ input_rw_type = .kWriteable then
      match CreateIdentityAfterSrcNode { s with graph := g1 } pre_node with
      | (none, s2) => (.PARAM_INVALID, s2)
      | (some new_identity, s2) =>
        match s2.graph.AddEdge pre_out_data_anchor ⟨new_identity, kIdentityAnchorIndex⟩ with
        | .error _ => (.INTERNAL_ERROR, s2)
        | .ok g3 =>
          match g3.AddEdge ⟨new_identity, kIdentityAnchorIndex⟩ peer_in_data_anchor with
          | .error _ => (.INTERNAL_ERROR, { s2 with graph := g3 })
          | .ok g4 => (.SUCCESS, { s2 with graph := g4 })
    else
      match g1.AddEdge pre_out_data_anchor peer_in_data_anchor with
      | .error _ => (.FAILED, { s with graph := g1 })
      | .ok g2 => (.SUCCESS, { s with graph := g2 })

/-- Embedding of `SplitIdentity`. -/
def SplitIdentity (node : Nat) (s : PassState) : Status × PassState :=
  let out_data_anchor : OutDataAnchor := ⟨node, kIdentityAnchorIndex⟩
  if s.graph.hasOutAnchor out_data_anchor = false then (.PARAM_INVALID, s)
  else if s.graph.GetPeerInDataNodesSize out_data_anchor ≤ 1 then (.SUCCESS, s)
  else if s.graph.hasInAnchor ⟨node, kIdentityAnchorIndex⟩ = false then (.PARAM_INVALID, s)
  else
    match s.graph.GetPeerOutAnchor ⟨node, kIdentityAnchorIndex⟩ with
    | none => (.PARAM_INVALID, s)
    | some pre_out_data_anchor =>
      let pre_node := pre_out_data_anchor.node
      let r := forEachM (SplitIdentityAlongAnchor out_data_anchor pre_out_data_anchor pre_node)
        (s.graph.GetPeerInDataAnchors out_data_anchor) s
      if r.1 ≠ .SUCCESS then r
      else
        let s1 := r.2
        if s1.graph.GetOutDataNodesSize node = 0 then
          match s1.graph.IsolateNode node [] with
          | .error _ => (.FAILED, s1)
          | .ok g2 =>
            match g2.RemoveNodeWithoutRelink (g2.GetOwnerComputeGraph node) node with
            | .error _ => (.FAILED, { s1 with graph := g2 })
            | .ok g3 => (.SUCCESS, { s1 with graph := g3 })
        else (.SUCCESS, s1)

/-- Body of the inner loop of `InsertIdentityAsNeeded` over the peers of one
output anchor. -/
def InsertIdentityOnPeer (node : Nat) (out_data_anchor : OutDataAnchor)
    (output_rw_type : OutputRWType) (peer_in_data_anchor : InDataAnchor) (s : PassState) :
    Status × PassState :=
  let peer_in_node := peer_in_data_anchor.node
  let input_rw_type :=
    GetInputRWTypeByIndex s.graph s.node_rwtype_map_ peer_in_node peer_in_data_anchor.idx
  match GetConflictResultBetweenNode output_rw_type input_rw_type with
  | .DO_NOTHING => (.SUCCESS, s)
  | .WRONG_GRAPH => (.SUCCESS, s)
  | .INSERT_IDENTITY =>
    match CreateIdentityAfterSrcNode s node with
    | (none, s1) => (.FAILED, s1)
    | (some identity_node, s1) =>
      match s1.graph.InsertNodeBetweenDataAnchors out_data_anchor peer_in_data_anchor
          identity_node with
      | .error _ => (.INTERNAL_ERROR, s1)
      | .ok g2 => (.SUCCESS, { s1 with graph := g2 })

/-- Body of the outer loop of `InsertIdentityAsNeeded` over the output anchors. -/
def InsertIdentityOnAnchor (node : Nat) (out_data_anchor : OutDataAnchor) (s : PassState) :
    Status × PassState :=
  let output_rw_type :=
    GetOutputRWTypeByIndex s.graph s.node_rwtype_map_ node out_data_anchor.idx
  forEachM (InsertIdentityOnPeer node out_data_anchor output_rw_type)
    (s.graph.GetPeerInDataAnchors out_data_anchor) s

/-- Embedding of `InsertIdentityAsNeeded`. -/
def InsertIdentityAsNeeded (node : Nat) (s : PassState) : Status × PassState :=
  match s.graph.GetOpDesc node with
  | none => (.PARAM_INVALID, s)
  | some _ =>
    if s.graph.GetOutDataNodesSize node = 0 then (.SUCCESS, s)
    else forEachM (InsertIdentityOnAnchor node) (s.graph.GetAllOutDataAnchors node) s

/-- Body of the loop of `HandleAllreduceDuplicateInput` over the input anchors
of one node; the second component is `pre_out_anchor_set`. -/
def HandleAllreduceInput (in_data_anchor : InDataAnchor)
    (st : PassState × List OutDataAnchor) : Status × (PassState × List OutDataAnchor) :=
  let s := st.1
  match s.graph.GetPeerOutAnchor in_data_anchor with
  | none => (.PARAM_INVALID, st)
  | some pre_out_anchor =>
    if pre_out_anchor ∉ st.2 then (.SUCCESS, (s, st.2 ++ [pre_out_anchor]))
    else
      let pre_node := pre_out_anchor.node
      match CreateIdentityAfterSrcNode s pre_node with
      | (none, s1) => (.PARAM_INVALID, (s1, st.2))
      | (some identity_node, s1) =>
        match s1.graph.InsertNodeBetweenDataAnchors pre_out_anchor in_data_anchor identity_node with
        | .error ret => (ret, (s1, st.2))
        | .ok g2 => (.SUCCESS, ({ s1 with graph := g2 }, st.2))

/-- Body of the loop of `HandleAllreduceDuplicateInput` over the direct nodes. -/
def HandleAllreduceNode (node : Nat) (s : PassState) : Status × PassState :=
  if s.graph.GetType node = HCOMALLREDUCE then
    let r := forEachM HandleAllreduceInput (s.graph.GetAllInDataAnchors node) (s, [])
    (r.1, r.2.1)
  else (.SUCCESS, s)

/-- Embedding of `HandleAllreduceDuplicateInput` on the root graph. -/
def HandleAllreduceDuplicateInput (s : PassState) : Status × PassState :=
  forEachM HandleAllreduceNode (s.graph.GetDirectNode 0) s

/-- Body of the loop of `HandleMemoryRWConflict` over all nodes. -/
def HandleMemoryRWConflictNode (node : Nat) (s : PassState) : Status × PassState :=
  let g := s.graph
  let parent_node : Option Nat :=
    match g.GetOwnerComputeGraph node with
    | some gi => g.GetParentNode gi
    | none => none
  let in_while : Bool :=
    match parent_node with
    | some p => decide (g.GetType p ∈ kWhileOpTypes)
    | none => false
  let has_parent_index : Bool :=
    match g.GetOpDesc node with
    | some d => d.parent_node_index.isSome
    | none => false
  if in_while then (.SUCCESS, s)
  else if g.GetType node = DATA ∧ has_parent_index = true then (.SUCCESS, s)
  else if g.GetType node = NETOUTPUT ∧ has_parent_index = true then (.SUCCESS, s)
  else if g.GetType node = IDENTITY ∨ g.GetType node = READVARIABLEOP then
    let r1 := SplitIdentity node s
    if r1.1 ≠ .SUCCESS then r1
    else
      let r2 := RemoveNoUseIdentity node r1.2
      if r2.1 ≠ .SUCCESS then r2
      else InsertIdentityAsNeeded node r2.2
  else InsertIdentityAsNeeded node s

/-- Embedding of `GraphOptimize::HandleMemoryRWConflict`. -/
def HandleMemoryRWConflict (s : PassState) : Status × PassState :=
  let s0 : PassState := { s with node_rwtype_map_ := [] }
  let sub_graph_vec := s0.graph.GetAllSubgraphs
  if sub_graph_vec.isEmpty then HandleAllreduceDuplicateInput s0
  else
    let r := MarkRWTypeForAllSubgraph sub_graph_vec s0
    if r.1 ≠ .SUCCESS then r
    else forEachM HandleMemoryRWConflictNode r.2.graph.GetAllNodes r.2

/-! ## Well-formed graphs and data dependencies -/

namespace ComputeGraph

/-- What the pass never changes on a node: descriptor, owner graph and the
numbers of input and output anchors. -/
def shape (g : ComputeGraph) (n : Nat) : Option (Option OpDesc × Option Nat × Nat × Nat) :=
  match g.nodes[n]? with
  | some nd => some (nd.op_desc, nd.owner_graph, nd.in_data_anchors.length, nd.out_data_anchors)
  | none => none

/-- Whether node `n` is still in the node list of its graph. -/
def isListed (g : ComputeGraph) (n : Nat) : Bool :=
  match g.nodes[n]? with
  | some nd => nd.listed
  | none => false

/-- The node types the driver treats as pass-through copies. -/
def isPassThrough (g : ComputeGraph) (n : Nat) : Bool :=
  decide (g.GetType n = IDENTITY) || decide (g.GetType n = READVARIABLEOP)

/-- Every stored peer names an output anchor that exists. In the program an
anchor holds a pointer to its peer, so this holds of every graph. -/
def linksValid (g : ComputeGraph) : Bool :=
  g.allInDataAnchors.all (fun a =>
    match g.GetPeerOutAnchor a with
    | some o => g.hasOutAnchor o
    | none => true)

/-- Every Identity or ReadVariableOp node has at most one output anchor, as
the definitions of these ops prescribe. -/
def passThroughSingleOutput (g : ComputeGraph) : Bool :=
  (List.range g.nodes.length).all (fun n => !g.isPassThrough n || decide (g.outAnchorNum n ≤ 1))

/-- Well-formed graphs: valid links, and pass-through nodes with one output. -/
def wellFormed (g : ComputeGraph) : Bool :=
  g.linksValid && g.passThroughSingleOutput

end ComputeGraph

/-- Following data edges backwards from output anchor `o`: a node that is not
pass-through is the producer; through a pass-through node the walk goes on
from the peer of its input anchor 0. -/
inductive Src (pt : Nat → Bool) (peer : InDataAnchor → Option OutDataAnchor) :
    OutDataAnchor → OutDataAnchor → Prop where
  | here (o : OutDataAnchor) : pt o.node = false → Src pt peer o o
  | through (o o2 q : OutDataAnchor) : pt o.node = true → peer ⟨o.node, 0⟩ = some o2 →
      Src pt peer o2 q → Src pt peer o q

/-- The producer output anchor `q` reaches input anchor `a`. -/
def ProducerOf (pt : Nat → Bool) (peer : InDataAnchor → Option OutDataAnchor)
    (a : InDataAnchor) (q : OutDataAnchor) : Prop :=
  ∃ o, peer a = some o ∧ Src pt peer o q

/-- The data dependency of input anchor `a` in graph `g`: the producer output
anchor `q` reaches `a` through Identity and ReadVariableOp nodes only. -/
def ComputeGraph.Producer (g : ComputeGraph) (a : InDataAnchor) (q : OutDataAnchor) : Prop :=
  ProducerOf g.isPassThrough g.GetPeerOutAnchor a q

/-- Executable companion of `Producer`: the walk with a bound on its length. -/
def ComputeGraph.findSrc (g : ComputeGraph) : Nat → OutDataAnchor → Option OutDataAnchor
  | 0, _ => none
  | fuel + 1, o =>
    if g.isPassThrough o.node then
      match g.GetPeerOutAnchor ⟨o.node, 0⟩ with
      | some o2 => g.findSrc fuel o2
      | none => none
    else some o

/-- What every rewriting step of the pass keeps: the graph stays well formed,
nodes are only ever added to the arena, the shape of an old node is untouched,
a node taken off its graph is never put back, and an input anchor of an old
node that is still listed keeps its producer. -/
structure PresFacts (g g' : ComputeGraph) : Prop where
  wf : g'.wellFormed = true
  len : g.nodes.length ≤ g'.nodes.length
  shape : ∀ n, n < g.nodes.length → g'.shape n = g.shape n
  listed : ∀ n, n < g.nodes.length → g'.isListed n = true → g.isListed n = true
  prod : ∀ a q, a.node < g.nodes.length → g'.isListed a.node = true →
    (g.Producer a q ↔ g'.Producer a q)

/-- The relation between the graph before and after a rewriting step, for a
well-formed graph before. -/
def Pres (g g' : ComputeGraph) : Prop :=
  g.wellFormed = true → PresFacts g g'

/-- The producers feeding the input anchors of node `n`, in anchor order. -/
def ComputeGraph.inputPeers (g : ComputeGraph) (n : Nat) : List (Option OutDataAnchor) :=
  (g.GetAllInDataAnchors n).map g.GetPeerOutAnchor

/-- Every input anchor of node `n` is linked, and no two of them are fed by
the same output anchor. -/
def ComputeGraph.inputsDistinct (g : ComputeGraph) (n : Nat) : Prop :=
  ∃ l : List OutDataAnchor, g.inputPeers n = l.map some ∧ l.Nodup

/-- What a run of `HandleAllreduceDuplicateInput` keeps: links stay valid, the
shape and listing of old nodes and the graph objects are untouched, no new
node is an HcomAllReduce, and the input anchors of old nodes outside `touched`
keep their peers. -/
structure Grows (touched : List Nat) (g g' : ComputeGraph) : Prop where
  links : g'.linksValid = true
  len : g.nodes.length ≤ g'.nodes.length
  shape : ∀ m, m < g.nodes.length → g'.shape m = g.shape m
  listed : ∀ m, m < g.nodes.length → g'.isListed m = g.isListed m
  fresh : ∀ m, g.nodes.length ≤ m → g'.GetType m ≠ HCOMALLREDUCE
  graphs : g'.graphs = g.graphs
  frame : ∀ a : InDataAnchor, a.node < g.nodes.length → a.node ∉ touched →
    g'.GetPeerOutAnchor a = g.GetPeerOutAnchor a

/-! ## Example graphs -/

/-- A descriptor without attributes and without subgraphs. -/
def plainOpDesc (name type : String) (input_names output_names : List String) : OpDesc :=
  { name := name, type := type, input_names := input_names, output_names := output_names,
    framework_original_type := none, parent_node_index := none,
    input_desc_parent_index := false, subgraph_instance_names := [] }

/-- A root graph in which a Variable feeds an Identity whose output fans out to
the ref input of an Assign and to a Relu; the Assign takes its value from a
Const. A While node with one body subgraph makes the driver take the path for
graphs with subgraphs. Nodes: 0 var, 1 id, 2 assign, 3 relu, 4 c, 5 loop. -/
def splitExampleGraph : ComputeGraph :=
  { nodes := [
      { op_desc := some (plainOpDesc "var" "Variable" [] ["y"]), owner_graph := some 0,
        listed := true, in_data_anchors := [], out_data_anchors := 1 },
      { op_desc := some (plainOpDesc "id" "Identity" ["x"] ["y"]), owner_graph := some 0,
        listed := true, in_data_anchors := [some ⟨0, 0⟩], out_data_anchors := 1 },
      { op_desc := some (plainOpDesc "assign" "Assign" ["ref", "value"] ["ref"]),
        owner_graph := some 0, listed := true,
        in_data_anchors := [some ⟨1, 0⟩, some ⟨4, 0⟩], out_data_anchors := 1 },
      { op_desc := some (plainOpDesc "relu" "Relu" ["x"] ["y"]), owner_graph := some 0,
        listed := true, in_data_anchors := [some ⟨1, 0⟩], out_data_anchors := 1 },
      { op_desc := some (plainOpDesc "c" "Const" [] ["y"]), owner_graph := some 0,
        listed := true, in_data_anchors := [], out_data_anchors := 1 },
      { op_desc := some
          { name := "loop", type := "While", input_names := [], output_names := [],
            framework_original_type := none, parent_node_index := none,
            input_desc_parent_index := false, subgraph_instance_names := ["body"] },
        owner_graph := some 0, listed := true, in_data_anchors := [], out_data_anchors := 0 }],
    graphs := [⟨"root", none⟩, ⟨"body", some 5⟩] }

/-- The pass state before the first run on `splitExampleGraph`. -/
def splitExampleState : PassState :=
  { graph := splitExampleGraph, node_rwtype_map_ := [], identity_num := 0 }

/-- A root graph without subgraphs: an HcomAllReduce with three inputs, of
which inputs 0 and 2 are fed by the same output anchor. Nodes: 0 x, 1 y,
2 allreduce. -/
def allreduceExampleGraph : ComputeGraph :=
  { nodes := [
      { op_desc := some (plainOpDesc "x" "Data" [] ["y"]), owner_graph := some 0,
        listed := true, in_data_anchors := [], out_data_anchors := 1 },
      { op_desc := some (plainOpDesc "y" "Data" [] ["y"]), owner_graph := some 0,
        listed := true, in_data_anchors := [], out_data_anchors := 1 },
      { op_desc := some (plainOpDesc "allreduce" "HcomAllReduce" ["x0", "x1", "x2"]
          ["y0", "y1", "y2"]),
        owner_graph := some 0, listed := true,
        in_data_anchors := [some ⟨0, 0⟩, some ⟨1, 0⟩, some ⟨0, 0⟩], out_data_anchors := 3 }],
    graphs := [⟨"root", none⟩] }

/-- The pass state before the first run on `allreduceExampleGraph`. -/
def allreduceExampleState : PassState :=
  { graph := allreduceExampleGraph, node_rwtype_map_ := [], identity_num := 0 }

/-- A root graph with a conditional node whose branch subgraph holds a Data
node feeding a nested conditional; the Data node of the nested branch has not
been recorded. Nodes: 0 cond, 1 arg, 2 inner, 3 out, 4 inner_arg, 5 relu. -/
def nestedExampleGraph : ComputeGraph :=
  { nodes := [
      { op_desc := some
          { name := "cond", type := "If", input_names := ["x"], output_names := ["y"],
            framework_original_type := none, parent_node_index := none,
            input_desc_parent_index := false, subgraph_instance_names := ["then"] },
        owner_graph := some 0, listed := true, in_data_anchors := [none], out_data_anchors := 1 },
      { op_desc := some
          { name := "arg", type := "Data", input_names := ["x"], output_names := ["y"],
            framework_original_type := none, parent_node_index := some 0,
            input_desc_parent_index := false, subgraph_instance_names := [] },
        owner_graph := some 1, listed := true, in_data_anchors := [none], out_data_anchors := 1 },
      { op_desc := some
          { name := "inner", type := "If", input_names := ["x"], output_names := ["y"],
            framework_original_type := none, parent_node_index := none,
            input_desc_parent_index := false, subgraph_instance_names := ["inner_then"] },
        owner_graph := some 1, listed := true, in_data_anchors := [some ⟨1, 0⟩],
        out_data_anchors := 1 },
      { op_desc := some
          { name := "out", type := "NetOutput", input_names := ["x"], output_names := [],
            framework_original_type := none, parent_node_index := none,
            input_desc_parent_index := true, subgraph_instance_names := [] },
        owner_graph := some 1, listed := true, in_data_anchors := [some ⟨2, 0⟩],
        out_data_anchors := 0 },
      { op_desc := some
          { name := "inner_arg", type := "Data", input_names := ["x"], output_names := ["y"],
            framework_original_type := none, parent_node_index := some 0,
            input_desc_parent_index := false, subgraph_instance_names := [] },
        owner_graph := some 2, listed := true, in_data_anchors := [none], out_data_anchors := 1 },
      { op_desc := some (plainOpDesc "relu" "Relu" ["x"] ["y"]), owner_graph := some 2,
        listed := true, in_data_anchors := [some ⟨4, 0⟩], out_data_anchors := 1 }],
    graphs := [⟨"root", none⟩, ⟨"then", some 0⟩, ⟨"inner_then", some 2⟩] }

/-- The pass state in which the branch subgraph of `nestedExampleGraph` is
marked before anything has been recorded. -/
def nestedExampleState : PassState :=
  { graph := nestedExampleGraph, node_rwtype_map_ := [], identity_num := 0 }

/-- A root graph in which a Const feeds the ref input of an Assign, next to a
While node with one body subgraph. Nodes: 0 c, 1 assign, 2 v, 3 loop. -/
def wrongExampleGraph : ComputeGraph :=
  { nodes := [
      { op_desc := some (plainOpDesc "c" "Const" [] ["y"]), owner_graph := some 0,
        listed := true, in_data_anchors := [], out_data_anchors := 1 },
      { op_desc := some (plainOpDesc "assign" "Assign" ["ref", "value"] ["ref"]),
        owner_graph := some 0, listed := true,
        in_data_anchors := [some ⟨0, 0⟩, some ⟨2, 0⟩], out_data_anchors := 1 },
      { op_desc := some (plainOpDesc "v" "Const" [] ["y"]), owner_graph := some 0,
        listed := true, in_data_anchors := [], out_data_anchors := 1 },
      { op_desc := some
          { name := "loop", type := "While", input_names := [], output_names := [],
            framework_original_type := none, parent_node_index := none,
            input_desc_parent_index := false, subgraph_instance_names := ["body"] },
        owner_graph := some 0, listed := true, in_data_anchors := [], out_data_anchors := 0 }],
    graphs := [⟨"root", none⟩, ⟨"body", some 3⟩] }

/-- The pass state before the driver runs on `wrongExampleGraph`. -/
def wrongExampleState : PassState :=
  { graph := wrongExampleGraph, node_rwtype_map_ := [], identity_num := 0 }

/-- The conflict result that the pass computes for the data edge from output
anchor `o` to input anchor `a`: the output type of `o` against the input type
of `a`. -/
def edgeConflict (g : ComputeGraph) (reg : List (String × NodeInputOutputRWType))
    (o : OutDataAnchor) (a : InDataAnchor) : ConflictResult :=
  GetConflictResultBetweenNode (GetOutputRWTypeByIndex g reg o.node o.idx)
    (GetInputRWTypeByIndex g reg a.node a.idx)

/-- Whether node `n` owns subgraphs: its descriptor names a subgraph instance. -/
def ComputeGraph.ownsSubgraphs (g : ComputeGraph) (n : Nat) : Bool :=
  match g.GetOpDesc n with
  | some d => !d.subgraph_instance_names.isEmpty
  | none => false

/-- The condition for removing an Identity as the specification words it: at
least one data predecessor; at most one data successor; no successor is a
StreamMerge; no predecessor is a subgraph-input Data node or owns subgraphs; no
successor is a subgraph-output NetOutput or owns subgraphs; and the conflict
result between the output feeding the node and the input of every successor is
DoNothing. -/
def removalConditionSpec (g : ComputeGraph) (reg : List (String × NodeInputOutputRWType))
    (node : Nat) : Prop :=
  g.GetInDataNodes node ≠ [] ∧
  g.GetOutDataNodesSize node ≤ 1 ∧
  (∀ m ∈ g.GetOutDataNodes node, g.GetType m ≠ STREAMMERGE) ∧
  (∀ m ∈ g.GetInDataNodes node,
    ¬ (g.GetType m = DATA ∧ g.IsSubgraphInput m = true) ∧ g.ownsSubgraphs m = false) ∧
  (∀ m ∈ g.GetOutDataNodes node,
    ¬ (g.GetType m = NETOUTPUT ∧ g.IsSubgraphOutput m = true) ∧ g.ownsSubgraphs m = false) ∧
  (∀ p ∈ g.GetPeerOutAnchor ⟨node, 0⟩, ∀ a ∈ g.GetPeerInDataAnchors ⟨node, 0⟩,
    edgeConflict g reg p a = .DO_NOTHING)

instance (g : ComputeGraph) (reg : List (String × NodeInputOutputRWType)) (node : Nat) :
    Decidable (removalConditionSpec g reg node) := by
  unfold removalConditionSpec
  infer_instance

/-- A root graph in which a Relu feeds an Identity that feeds a second Relu,
next to a While node with one body subgraph. Nodes: 0 x, 1 relu, 2 id, 3 relu2,
4 loop. -/
def removeExampleGraph : ComputeGraph :=
  { nodes := [
      { op_desc := some (plainOpDesc "x" "Data" [] ["y"]), owner_graph := some 0,
        listed := true, in_data_anchors := [], out_data_anchors := 1 },
      { op_desc := some (plainOpDesc "relu" "Relu" ["x"] ["y"]), owner_graph := some 0,
        listed := true, in_data_anchors := [some ⟨0, 0⟩], out_data_anchors := 1 },
      { op_desc := some (plainOpDesc "id" "Identity" ["x"] ["y"]), owner_graph := some 0,
        listed := true, in_data_anchors := [some ⟨1, 0⟩], out_data_anchors := 1 },
      { op_desc := some (plainOpDesc "relu2" "Relu" ["x"] ["y"]), owner_graph := some 0,
        listed := true, in_data_anchors := [some ⟨2, 0⟩], out_data_anchors := 1 },
      { op_desc := some
          { name := "loop", type := "While", input_names := [], output_names := [],
            framework_original_type := none, parent_node_index := none,
            input_desc_parent_index := false, subgraph_instance_names := ["body"] },
        owner_graph := some 0, listed := true, in_data_anchors := [], out_data_anchors := 0 }],
    graphs := [⟨"root", none⟩, ⟨"body", some 4⟩] }

/-- The pass state on `removeExampleGraph` with an empty registry. -/
def removeExampleState : PassState :=
  { graph := removeExampleGraph, node_rwtype_map_ := [], identity_num := 0 }

/-- What splicing Identity nodes onto data edges keeps of a graph: the arena
only grows, old nodes keep descriptor, owner, anchor numbers and listing, the
graph objects are untouched, every new node has the shape of an Identity made
by `CreateIdentityAfterSrcNode`, and every output anchor of an old node keeps
its number of consumers. -/
structure Extends (g g' : ComputeGraph) : Prop where
  len : g.nodes.length ≤ g'.nodes.length
  shape : ∀ m, m < g.nodes.length → g'.shape m = g.shape m
  listed : ∀ m, m < g.nodes.length → g'.isListed m = g.isListed m
  graphs : g'.graphs = g.graphs
  fresh : ∀ m, g.nodes.length ≤ m → m < g'.nodes.length →
    ∃ name owner, g'.shape m = some ((newIdentityNode name owner).op_desc, owner, 1, 1)
  fanout : ∀ o : OutDataAnchor, o.node < g.nodes.length →
    g'.GetPeerInDataNodesSize o = g.GetPeerInDataNodesSize o

/-- How the registry changes while subgraphs are marked: an entry, once made,
stays, and the output types of a new entry are all SoftRead. -/
structure RegGrows (reg reg' : List (String × NodeInputOutputRWType)) : Prop where
  keep : ∀ k v, mapFind reg k = some v → mapFind reg' k = some v
  soft : ∀ k v, mapFind reg k = none → mapFind reg' k = some v →
    ∀ i t, mapFind v.output_rw_type_map i = some t → t = OutputRWType.kSoftRead

/-- The graph `g'` is the graph `g` with one Identity spliced onto the data
edge into every input anchor in `T`: the graph has grown as `Extends` says,
an old input anchor outside `T` keeps its peer, an old input anchor in `T` is
fed by output 0 of a new node whose input 0 is fed by the old peer, and every
new node is the one spliced onto the edge into an anchor of `T` and feeds that
anchor only. -/
structure Spliced (T : InDataAnchor → Prop) (g g' : ComputeGraph) : Prop where
  ext : Extends g g'
  links : g'.linksValid = true
  kept : ∀ a : InDataAnchor, a.node < g.nodes.length → ¬ T a →
    g'.GetPeerOutAnchor a = g.GetPeerOutAnchor a
  spliced : ∀ a : InDataAnchor, a.node < g.nodes.length → T a →
    ∃ k, g.nodes.length ≤ k ∧ k < g'.nodes.length ∧
      g'.GetPeerOutAnchor a = some ⟨k, 0⟩ ∧ g'.GetPeerOutAnchor ⟨k, 0⟩ = g.GetPeerOutAnchor a
  fresh : ∀ k, g.nodes.length ≤ k → k < g'.nodes.length →
    ∃ a : InDataAnchor, a.node < g.nodes.length ∧ T a ∧
      ∀ b : InDataAnchor, g'.GetPeerOutAnchor b = some ⟨k, 0⟩ ↔ b = a

/-- The data edge into input anchor `a` comes from an output anchor of `node`
and has conflict result InsertIdentity. -/
def needsIdentity (g : ComputeGraph) (reg : List (String × NodeInputOutputRWType)) (node : Nat)
    (a : InDataAnchor) : Prop :=
  ∃ o, g.GetPeerOutAnchor a = some o ∧ o.node = node ∧ edgeConflict g reg o a = .INSERT_IDENTITY

/-- The set of input types, converted by `static_cast<int>`, of the consumers
of output 0 of `node`: the set that the Data branch of `MarkRWTypeForSubgraph`
collects. -/
def consumerRWTypes (g : ComputeGraph) (reg : List (String × NodeInputOutputRWType))
    (node : Nat) : Finset Int :=
  ((g.GetOutDataNodesWithAnchorByIndex node 0).map
    (fun a => (GetInputRWTypeByIndex g reg a.node a.idx).toInt)).toFinset

/-- The data edge into input anchor `a` of a NetOutput node comes from an
output anchor whose type is Writeable. -/
def exitNeedsIdentity (g : ComputeGraph) (reg : List (String × NodeInputOutputRWType))
    (a : InDataAnchor) : Prop :=
  g.GetType a.node = NETOUTPUT ∧
    ∃ p, g.GetPeerOutAnchor a = some p ∧
      GetOutputRWTypeByIndex g reg p.node p.idx = .kWriteable

/-- A root graph with a conditional node whose branch subgraph holds a Data
node feeding a Relu, a Variable, and a NetOutput fed by the Variable and by the
Relu. Nodes: 0 cond, 1 arg, 2 var, 3 relu, 4 out. -/
def exitExampleGraph : ComputeGraph :=
  { nodes := [
      { op_desc := some
          { name := "cond", type := "If", input_names := ["x"], output_names := ["y", "z"],
            framework_original_type := none, parent_node_index := none,
            input_desc_parent_index := false, subgraph_instance_names := ["then"] },
        owner_graph := some 0, listed := true, in_data_anchors := [none], out_data_anchors := 2 },
      { op_desc := some
          { name := "arg", type := "Data", input_names := ["x"], output_names := ["y"],
            framework_original_type := none, parent_node_index := some 0,
            input_desc_parent_index := false, subgraph_instance_names := [] },
        owner_graph := some 1, listed := true, in_data_anchors := [none], out_data_anchors := 1 },
      { op_desc := some (plainOpDesc "var" "Variable" [] ["y"]), owner_graph := some 1,
        listed := true, in_data_anchors := [], out_data_anchors := 1 },
      { op_desc := some (plainOpDesc "relu" "Relu" ["x"] ["y"]), owner_graph := some 1,
        listed := true, in_data_anchors := [some ⟨1, 0⟩], out_data_anchors := 1 },
      { op_desc := some
          { name := "out", type := "NetOutput", input_names := ["x", "y"], output_names := [],
            framework_original_type := none, parent_node_index := none,
            input_desc_parent_index := true, subgraph_instance_names := [] },
        owner_graph := some 1, listed := true, in_data_anchors := [some ⟨2, 0⟩, some ⟨3, 0⟩],
        out_data_anchors := 0 }],
    graphs := [⟨"root", none⟩, ⟨"then", some 0⟩] }

/-- The pass state on `exitExampleGraph` with an empty registry. -/
def exitExampleState : PassState :=
  { graph := exitExampleGraph, node_rwtype_map_ := [], identity_num := 0 }

/-- The pass state with the registry replaced by `reg`. -/
def PassState.withRegistry (reg : List (String × NodeInputOutputRWType)) (s : PassState) :
    PassState :=
  { s with node_rwtype_map_ := reg }

/-- The source output anchor of input anchor `a` already feeds a lower-indexed
input anchor of the same node. -/
def ComputeGraph.isDuplicateInput (g : ComputeGraph) (a : InDataAnchor) : Prop :=
  ∃ i, i < a.idx ∧
    (g.GetPeerOutAnchor ⟨a.node, i⟩ = g.GetPeerOutAnchor a ∧ (g.GetPeerOutAnchor a).isSome = true)

instance (g : ComputeGraph) (a : InDataAnchor) : Decidable (g.isDuplicateInput a) := by
  unfold ComputeGraph.isDuplicateInput
  infer_instance

/-- The input anchors on which `HandleAllreduceDuplicateInput` is to insert an
Identity: the duplicate inputs of the HcomAllReduce nodes directly in the
root graph. -/
def ComputeGraph.allreduceDuplicate (g : ComputeGraph) (a : InDataAnchor) : Prop :=
  a.node ∈ g.GetDirectNode 0 ∧ g.GetType a.node = HCOMALLREDUCE ∧ g.isDuplicateInput a

instance (g : ComputeGraph) (a : InDataAnchor) : Decidable (g.allreduceDuplicate a) := by
  unfold ComputeGraph.allreduceDuplicate
  infer_instance

/-- The Identity nodes that the run from `g` to `g'` has put in front of an
input anchor of node `n`: the new nodes whose output 0 feeds `n`. -/
def ComputeGraph.insertedIdentities (g g' : ComputeGraph) (n : Nat) : List Nat :=
  (List.range g'.nodes.length).filter (fun k =>
    decide (g.nodes.length ≤ k) &&
      (g'.GetAllInDataAnchors n).any (fun a => decide (g'.GetPeerOutAnchor a = some ⟨k, 0⟩)))

/-- What every rewriting step keeps of a graph, whatever it does to the data
edges: the arena only grows, old nodes keep descriptor, owner, anchor numbers
and listing, the graph objects are untouched, and every new node has the shape
of an Identity made by `CreateIdentityAfterSrcNode`. -/
structure Grown (g g' : ComputeGraph) : Prop where
  len : g.nodes.length ≤ g'.nodes.length
  shape : ∀ m, m < g.nodes.length → g'.shape m = g.shape m
  listed : ∀ m, m < g.nodes.length → g'.isListed m = g.isListed m
  graphs : g'.graphs = g.graphs
  fresh : ∀ m, g.nodes.length ≤ m → m < g'.nodes.length →
    ∃ name owner, g'.shape m = some ((newIdentityNode name owner).op_desc, owner, 1, 1)

/-- The consumer at input anchor `c` is classified as writing its input: its
input type is ScopeWriteable or Writeable. -/
def writesInput (g : ComputeGraph) (reg : List (String × NodeInputOutputRWType))
    (c : InDataAnchor) : Prop :=
  GetInputRWTypeByIndex g reg c.node c.idx = .kScopeWriteable ∨
    GetInputRWTypeByIndex g reg c.node c.idx = .kWriteable

instance (g : ComputeGraph) (reg : List (String × NodeInputOutputRWType)) (c : InDataAnchor) :
    Decidable (writesInput g reg c) := by
  unfold writesInput
  infer_instance

/-- The state of the loop of `SplitIdentity` after the consumers in `d` have
been handled, against the graph `g` and registry `reg` the loop started from;
`p` is the output anchor feeding the Identity. A consumer not yet handled
keeps its peer; a handled consumer that does not write its input is fed by
`p`; a handled consumer that writes its input is fed by a new node; every new
node is fed by `p` and feeds exactly one handled consumer that writes its
input. -/
structure SplitInv (g : ComputeGraph) (reg : List (String × NodeInputOutputRWType))
    (p : OutDataAnchor) (d : List InDataAnchor) (t : PassState) : Prop where
  registry : t.node_rwtype_map_ = reg
  grown : Grown g t.graph
  links : t.graph.linksValid = true
  count : t.graph.nodes.length =
    g.nodes.length + (d.filter (fun c => decide (writesInput g reg c))).length
  kept : ∀ b : InDataAnchor, b ∉ d → b.node < g.nodes.length →
    t.graph.GetPeerOutAnchor b = g.GetPeerOutAnchor b
  direct : ∀ b ∈ d, ¬ writesInput g reg b → t.graph.GetPeerOutAnchor b = some p
  copied : ∀ b ∈ d, writesInput g reg b →
    ∃ k, g.nodes.length ≤ k ∧ k < t.graph.nodes.length ∧
      t.graph.GetPeerOutAnchor b = some ⟨k, 0⟩
  fresh : ∀ k, g.nodes.length ≤ k → k < t.graph.nodes.length →
    t.graph.GetPeerOutAnchor ⟨k, 0⟩ = some p ∧
      ∃ b ∈ d, writesInput g reg b ∧
        ∀ x : InDataAnchor, t.graph.GetPeerOutAnchor x = some ⟨k, 0⟩ ↔ x = b

/-- The loop of `CheckRWConflict` over the peers of one output anchor whose
type is `output_rw_type`: `none` when the loop runs to its end, otherwise the
status and the value of `has_conflict` with which the function returns. -/
def CheckRWConflictPeers (g : ComputeGraph) (reg : List (String × NodeInputOutputRWType))
    (output_rw_type : OutputRWType) : List InDataAnchor → Option (Status × Bool)
  | [] => none
  | peer_in_data_anchor :: rest =>
    let peer_in_node := peer_in_data_anchor.node
    if g.GetType peer_in_node = WHILE then some (.SUCCESS, false)
    else
      let input_rw_type := GetInputRWTypeByIndex g reg peer_in_node peer_in_data_anchor.idx
      match GetConflictResultBetweenNode output_rw_type input_rw_type with
      | .DO_NOTHING => CheckRWConflictPeers g reg output_rw_type rest
      | .WRONG_GRAPH => some (.SUCCESS, true)
      | .INSERT_IDENTITY => CheckRWConflictPeers g reg output_rw_type rest

/-- The loop of `CheckRWConflict` over the output anchors of one node. -/
def CheckRWConflictAnchors (g : ComputeGraph) (reg : List (String × NodeInputOutputRWType))
    (node : Nat) : List OutDataAnchor → Option (Status × Bool)
  | [] => none
  | out_data_anchor :: rest =>
    let output_rw_type := GetOutputRWTypeByIndex g reg node out_data_anchor.idx
    match CheckRWConflictPeers g reg output_rw_type (g.GetPeerInDataAnchors out_data_anchor) with
    | some r => some r
    | none => CheckRWConflictAnchors g reg node rest

/-- The loop of `CheckRWConflict` over all nodes; `has_conflict` has been set
to false before it. -/
def CheckRWConflictNodes (g : ComputeGraph) (reg : List (String × NodeInputOutputRWType)) :
    List Nat → Status × Bool
  | [] => (.SUCCESS, false)
  | node :: rest =>
    match g.GetOpDesc node with
    | none => (.PARAM_INVALID, false)
    | some _ =>
      if g.GetOutDataNodesSize node = 0 then (.SUCCESS, false)
      else if g.GetType node = WHILE then (.SUCCESS, false)
      else
        match CheckRWConflictAnchors g reg node (g.GetAllOutDataAnchors node) with
        | some r => r
        | none => CheckRWConflictNodes g reg rest

/-- Embedding of `GraphOptimize::CheckRWConflict`; the last component of the
result is the reference parameter `has_conflict`. -/
def CheckRWConflict (s : PassState) (has_conflict : Bool) : Status × PassState × Bool :=
  let s0 : PassState := { s with node_rwtype_map_ := [] }
  let sub_graph_vec := s0.graph.GetAllSubgraphs
  if sub_graph_vec.isEmpty then (.SUCCESS, s0, has_conflict)
  else
    let r := MarkRWTypeForAllSubgraph sub_graph_vec s0
    if r.1 ≠ .SUCCESS then (r.1, r.2, has_conflict)
    else
      let res := CheckRWConflictNodes r.2.graph r.2.node_rwtype_map_ r.2.graph.GetAllNodes
      (res.1, r.2, res.2)

/-- The data edge from output anchor `o` to input anchor `a` is in graph `g`,
neither end is a While node, and its conflict result is WrongGraph. -/
def wrongEdge (g : ComputeGraph) (reg : List (String × NodeInputOutputRWType))
    (o : OutDataAnchor) (a : InDataAnchor) : Prop :=
  g.GetPeerOutAnchor a = some o ∧ g.GetType o.node ≠ WHILE ∧ g.GetType a.node ≠ WHILE ∧
    edgeConflict g reg o a = .WRONG_GRAPH

instance (g : ComputeGraph) (reg : List (String × NodeInputOutputRWType)) (o : OutDataAnchor)
    (a : InDataAnchor) : Decidable (wrongEdge g reg o a) := by
  unfold wrongEdge
  infer_instance

/-- The graph `wrongExampleGraph` with a node without data outputs in front:
a NoOp, then a Const feeding the ref input of an Assign, next to a While node
with one body subgraph. Nodes: 0 noop, 1 c, 2 assign, 3 v, 4 loop. -/
def leafFirstExampleGraph : ComputeGraph :=
  { nodes := [
      { op_desc := some (plainOpDesc "noop" "NoOp" [] []), owner_graph := some 0,
        listed := true, in_data_anchors := [], out_data_anchors := 0 },
      { op_desc := some (plainOpDesc "c" "Const" [] ["y"]), owner_graph := some 0,
        listed := true, in_data_anchors := [], out_data_anchors := 1 },
      { op_desc := some (plainOpDesc "assign" "Assign" ["ref", "value"] ["ref"]),
        owner_graph := some 0, listed := true,
        in_data_anchors := [some ⟨1, 0⟩, some ⟨3, 0⟩], out_data_anchors := 1 },
      { op_desc := some (plainOpDesc "v" "Const" [] ["y"]), owner_graph := some 0,
        listed := true, in_data_anchors := [], out_data_anchors := 1 },
      { op_desc := some
          { name := "loop", type := "While", input_names := [], output_names := [],
            framework_original_type := none, parent_node_index := none,
            input_desc_parent_index := false, subgraph_instance_names := ["body"] },
        owner_graph := some 0, listed := true, in_data_anchors := [], out_data_anchors := 0 }],
    graphs := [⟨"root", none⟩, ⟨"body", some 4⟩] }

/-- The pass state on `leafFirstExampleGraph` with an empty registry. -/
def leafFirstExampleState : PassState :=
  { graph := leafFirstExampleGraph, node_rwtype_map_ := [], identity_num := 0 }

/-! ## Dump references -/

/-- Modelled from the spec: the member function `rfind` of `std::string` for a
single character: the position of its last occurrence, `none` for `npos`. -/
def rfind : List Char → Char → Option Nat
  | [], _ => none
  | x :: xs, c =>
    match rfind xs c with
    | some i => some (i + 1)
    | none => if x = c then some 0 else none

/-- Modelled from the spec: the member function `substr` of `std::string` from
position `pos` to the end. -/
def substrFrom (s : List Char) (pos : Nat) : List Char := s.drop pos

/-- Modelled from the spec: the member function `substr` of `std::string` with
a position and a length. -/
def substr (s : List Char) (pos len : Nat) : List Char := (s.drop pos).take len

/-- Modelled from the spec: the white space that `strtol` skips: space, tab,
line feed, vertical tab, form feed and carriage return. -/
def isspace (c : Char) : Bool :=
  c.toNat = 32 || (9 ≤ c.toNat && c.toNat ≤ 13)

/-- Modelled from the spec: the value of a decimal digit, `none` for any other
character. -/
def digitValue (c : Char) : Option Nat :=
  if 48 ≤ c.toNat ∧ c.toNat ≤ 57 then some (c.toNat - 48) else none

/-- Modelled from the spec: the digits that `strtol` reads in base 10: the
value of the longest prefix of digits, read after the value `acc`. -/
def strtolDigits : List Char → Nat → Nat
  | [], acc => acc
  | c :: cs, acc =>
    match digitValue c with
    | some d => strtolDigits cs (acc * 10 + d)
    | none => acc

/-- Modelled from the spec: the C library function `strtol` in base 10 with a
null end pointer, for a 64-bit `long`: white space is skipped, a sign is
read, then the digits; a value out of range is replaced by the nearest bound;
without digits the value is 0. -/
def strtol (s : List Char) : Int :=
  let s1 := s.dropWhile isspace
  let neg : Bool :=
    match s1 with
    | c :: _ => c.toNat = 45
    | [] => false
  let s2 : List Char :=
    match s1 with
    | c :: rest => if c.toNat = 45 ∨ c.toNat = 43 then rest else s1
    | [] => s1
  let v : Int := (strtolDigits s2 0 : Nat)
  if neg then max (-v) (-(2 ^ 63)) else min v (2 ^ 63 - 1)

/-- The conversion `static_cast<size_t>` of a `long` on a target with 64-bit
`size_t`. -/
def castToSizeT (v : Int) : Nat := (v % 2 ^ 64).toNat

def kDumpOutput : String := "output"
def kDumpInput : String := "input"
def kDumpAll : String := "all"

/-- Embedding of `ParseNameIndex`: the result is the returned flag with the
values of the reference parameters `node_name`, `input_or_output` and `index`
on return. -/
def ParseNameIndex (node_name_index : String) (node_name input_or_output : String)
    (index : Nat) : Bool × String × String × Nat :=
  match rfind node_name_index.data ':' with
  | none => (false, node_name, input_or_output, index)
  | some sep =>
    let index_str := substrFrom node_name_index.data (sep + 1)
    let index1 := castToSizeT (strtol index_str)
    let node_name_without_index := substr node_name_index.data 0 sep
    match rfind node_name_without_index ':' with
    | none => (false, node_name, input_or_output, index1)
    | some sep1 =>
      let node_name1 := String.mk (substr node_name_without_index 0 sep1)
      let input_or_output1 := String.mk (substrFrom node_name_without_index (sep1 + 1))
      (!(input_or_output1 ≠ kDumpInput && input_or_output1 ≠ kDumpOutput),
        node_name1, input_or_output1, index1)

/-- The decimal numeral of a natural number, most significant digit first. -/
def decimal (n : Nat) : String := toString n

/-- A dump reference as the specification words it: at least two `:`
separators, and the text between the last two of them is `input` or
`output`. -/
def wellFormedDumpRef (s : String) : Prop :=
  ∃ name mid tail : List Char, s.data = name ++ ':' :: (mid ++ ':' :: tail) ∧
    ':' ∉ mid ∧ ':' ∉ tail ∧ (mid = "input".data ∨ mid = "output".data)

/-- The decimal digits of a natural number, most significant first: the list
of characters of `decimal`. -/
def decimalDigits (n : Nat) : List Char :=
  if n < 10 then [Nat.digitChar n] else decimalDigits (n / 10) ++ [Nat.digitChar (n % 10)]
termination_by n
decreasing_by omega

/-! ## The task encoder of the data dumper -/

/-- Modelled from the spec: the enumeration `ge::DataType` is declared outside
the sources; these are the enumerators that the table of `GetIrDataType`
names, and `DT_MAX` stands for every other enumerator. -/
inductive DataType where
  | DT_UNDEFINED | DT_FLOAT | DT_FLOAT16 | DT_INT8 | DT_UINT8 | DT_INT16 | DT_UINT16
  | DT_INT32 | DT_INT64 | DT_UINT32 | DT_UINT64 | DT_BOOL | DT_DOUBLE | DT_DUAL
  | DT_DUAL_SUB_INT8 | DT_DUAL_SUB_UINT8 | DT_COMPLEX64 | DT_COMPLEX128 | DT_QINT8
  | DT_QINT16 | DT_QINT32 | DT_QUINT8 | DT_QUINT16 | DT_RESOURCE | DT_STRING_REF
  | DT_STRING | DT_MAX
deriving DecidableEq, Repr, Inhabited

namespace proto

/-- Modelled from the spec: the enumeration `ge::proto::DataType` of the
serialized graph format, declared outside the sources. -/
inductive DataType where
  | DT_UNDEFINED | DT_FLOAT | DT_FLOAT16 | DT_INT8 | DT_UINT8 | DT_INT16 | DT_UINT16
  | DT_INT32 | DT_INT64 | DT_UINT32 | DT_UINT64 | DT_BOOL | DT_DOUBLE | DT_DUAL
  | DT_DUAL_SUB_INT8 | DT_DUAL_SUB_UINT8 | DT_COMPLEX64 | DT_COMPLEX128 | DT_QINT8
  | DT_QINT16 | DT_QINT32 | DT_QUINT8 | DT_QUINT16 | DT_RESOURCE | DT_STRING_REF
  | DT_STRING
deriving DecidableEq, Repr, Inhabited

end proto

/-- Embedding of `GetIrDataType`: the table lookup, with `DT_UNDEFINED` for a
type that the table does not hold. -/
def GetIrDataType : DataType → proto.DataType
  | .DT_UNDEFINED => .DT_UNDEFINED
  | .DT_FLOAT => .DT_FLOAT
  | .DT_FLOAT16 => .DT_FLOAT16
  | .DT_INT8 => .DT_INT8
  | .DT_UINT8 => .DT_UINT8
  | .DT_INT16 => .DT_INT16
  | .DT_UINT16 => .DT_UINT16
  | .DT_INT32 => .DT_INT32
  | .DT_INT64 => .DT_INT64
  | .DT_UINT32 => .DT_UINT32
  | .DT_UINT64 => .DT_UINT64
  | .DT_BOOL => .DT_BOOL
  | .DT_DOUBLE => .DT_DOUBLE
  | .DT_DUAL => .DT_DUAL
  | .DT_DUAL_SUB_INT8 => .DT_DUAL_SUB_INT8
  | .DT_DUAL_SUB_UINT8 => .DT_DUAL_SUB_UINT8
  | .DT_COMPLEX64 => .DT_COMPLEX64
  | .DT_COMPLEX128 => .DT_COMPLEX128
  | .DT_QINT8 => .DT_QINT8
  | .DT_QINT16 => .DT_QINT16
  | .DT_QINT32 => .DT_QINT32
  | .DT_QUINT8 => .DT_QUINT8
  | .DT_QUINT16 => .DT_QUINT16
  | .DT_RESOURCE => .DT_RESOURCE
  | .DT_STRING_REF => .DT_STRING_REF
  | .DT_STRING => .DT_STRING
  | .DT_MAX => .DT_UNDEFINED

/-- Modelled from the spec: the part of a tensor descriptor that the dumper
reads. `tensor_size_in_bytes` is what `TensorUtils::GetTensorSizeInBytes`
computes, absent when it fails; the last five fields are the attributes
`ATTR_DATA_DUMP_REF`, `ATTR_NAME_INPUT_ORIGIN_SIZE`,
`ATTR_NAME_DATA_DUMP_ORIGIN_NAME` and
`ATTR_NAME_DATA_DUMP_ORIGIN_OUTPUT_INDEX`, absent when not set. -/
structure GeTensorDesc where
  data_type : DataType
  format : Int
  dims : List Int
  origin_format : Int
  origin_data_type : DataType
  tensor_size_in_bytes : Option Int
  data_dump_ref : Option String
  input_origin_size : Option Int
  data_dump_origin_name : Option String
  data_dump_origin_output_index : Option Int
deriving DecidableEq, Repr, Inhabited

/-- Modelled from the spec: a shared pointer to an op descriptor: the identity
`ptr` of the object, by which the ref-address table is keyed, and what the
dumper reads of the object: name, type, the valid input and output tensor
descriptors and the attributes `ATTR_NAME_INPUT_MEM_TYPE_LIST` and
`ATTR_NAME_OUTPUT_MEM_TYPE_LIST`. -/
structure OpDescPtr where
  ptr : Nat
  name : String
  type : String
  inputs_desc : List GeTensorDesc
  outputs_desc : List GeTensorDesc
  input_mem_type_list : Option (List Int)
  output_mem_type_list : Option (List Int)
deriving DecidableEq, Repr, Inhabited

namespace dump

/-- The conversion of an `int64_t` to `uint64_t`: the value modulo 2^64. -/
def castToUInt64 (value : Int) : Nat := (value % 2 ^ 64).toNat

/-- The conversion of a `uint64_t` to `int64_t`, by which a reader takes a
stored dim as signed: values from 2^63 on stand for negative numbers. -/
def castToInt64 (value : Nat) : Int :=
  if value % 2 ^ 64 < 2 ^ 63 then (value % 2 ^ 64 : Nat) else (value % 2 ^ 64 : Nat) - 2 ^ 64

/-- Modelled from the spec: `add_dim` of the message `aicpu::dump::Shape`,
whose field `dim` is a repeated unsigned 64-bit integer. The argument, an
`int64_t` at every call, is converted as the language converts it to
`uint64_t`, modulo 2^64, and appended to the field. -/
def add_dim (shape : List Nat) (value : Int) : List Nat := shape ++ [castToUInt64 value]

/-- Modelled from the spec: the message `aicpu::dump::Output`; `shape` is the
field `dim` of its shape. -/
structure Output where
  data_type : proto.DataType
  format : Int
  shape : List Nat
  size : Int
  original_name : String
  original_output_index : Int
  original_output_format : Int
  original_output_data_type : DataType
  address : Nat
deriving DecidableEq, Repr

/-- Modelled from the spec: the message `aicpu::dump::Input`; `shape` is the
field `dim` of its shape. -/
structure Input where
  data_type : proto.DataType
  format : Int
  shape : List Nat
  size : Int
  address : Nat
deriving DecidableEq, Repr

/-- Modelled from the spec: the message `aicpu::dump::OpBuffer`; the buffer
type is always L1. -/
structure OpBuffer where
  address : Nat
  size : Int
deriving DecidableEq, Repr

/-- Modelled from the spec: the message `aicpu::dump::Task`. -/
structure Task where
  end_graph : Bool
  task_id : Nat
  stream_id : Nat
  op_name : String
  op_type : String
  output : List Output
  input : List Input
  buffer : List OpBuffer
deriving DecidableEq, Repr

/-- Modelled from the spec: the task list of the message
`aicpu::dump::OpMappingInfo`. -/
structure OpMappingInfo where
  task : List Task
deriving DecidableEq, Repr

/-- A message as its default constructor leaves it: every number is 0, which
for the original data type is the enumerator `DT_FLOAT`. -/
def Output.empty : Output :=
  { data_type := .DT_UNDEFINED, format := 0, shape := [], size := 0, original_name := "",
    original_output_index := 0, original_output_format := 0,
    original_output_data_type := .DT_FLOAT, address := 0 }

/-- A message as its default constructor leaves it. -/
def Input.empty : Input :=
  { data_type := .DT_UNDEFINED, format := 0, shape := [], size := 0, address := 0 }

end dump

/-- Modelled from the spec: what `ModelUtils::GetInputDataAddrs` and
`ModelUtils::GetOutputDataAddrs` resolve under the runtime parameters of the
model, keyed by the identity of the op descriptor. -/
structure RuntimeParam where
  input_data_addrs : List (Nat × List Nat)
  output_data_addrs : List (Nat × List Nat)
deriving DecidableEq, Repr, Inhabited

/-- Modelled from the spec: `ModelUtils::GetInputDataAddrs`. -/
def GetInputDataAddrs (runtime_param : RuntimeParam) (op : OpDescPtr) : List Nat :=
  (mapFind runtime_param.input_data_addrs op.ptr).getD []

/-- Modelled from the spec: `ModelUtils::GetOutputDataAddrs`. -/
def GetOutputDataAddrs (runtime_param : RuntimeParam) (op : OpDescPtr) : List Nat :=
  (mapFind runtime_param.output_data_addrs op.ptr).getD []

/-- Modelled from the spec: the record `InnerDumpInfo` of the dumper's op
list. -/
structure InnerDumpInfo where
  task_id : Nat
  stream_id : Nat
  op : OpDescPtr
  args : Nat
  is_task : Bool
  input_anchor_index : Int
  output_anchor_index : Int
  dims : List Int
  data_size : Int
deriving DecidableEq, Repr, Inhabited

/-- Modelled from the spec: the members of `DataDumper` that the task encoder
reads. The compute graph is its node list, each node with its op descriptor
(null for a node without one); `ref_info_` maps the identity of an op
descriptor to the recorded address, 0 for a null pointer; `dump_mode` is
`dump_properties_.GetDumpMode()`. -/
structure DataDumper where
  compute_graph_ : Option (List (Option OpDescPtr))
  ref_info_ : List (Nat × Nat)
  runtime_param_ : RuntimeParam
  dump_mode : String
  is_op_debug_ : Bool
  op_list_ : List InnerDumpInfo
  l1_fusion_addr_ : Nat
deriving DecidableEq, Repr, Inhabited

/-- The width of a pointer, `sizeof(void *)`, on the 64-bit targets of the
runtime. -/
def kAddrLen : Nat := 8

/-- Modelled from the spec: the memory type `RT_MEMORY_L1` of the runtime
header, which is not among the sources. -/
def RT_MEMORY_L1 : Int := 65536

/-- Modelled from the spec: `ComputeGraph::FindNode`: the first node of the
graph with the given name; a node is named as its op descriptor is. -/
def FindNode (graph : List (Option OpDescPtr)) (name : String) : Option (Option OpDescPtr) :=
  graph.find? (fun node =>
    match node with
    | some d => decide (d.name = name)
    | none => false)

/-- Embedding of `IsTensorDescWithSkipDumpAddrType`. -/
def IsTensorDescWithSkipDumpAddrType (has_mem_type_attr : Bool) (v_memory_type : List Int)
    (i : Nat) : Bool :=
  has_mem_type_attr && decide (v_memory_type.getD i 0 = RT_MEMORY_L1)

/-- A loop whose body may return a status other than success, which ends the
function with that status, or throw, which is `none`. -/
def forEachO {α σ : Type} (f : α → σ → Option (Status × σ)) : List α → σ → Option (Status × σ)
  | [], s => some (.SUCCESS, s)
  | x :: xs, s =>
    match f x s with
    | none => none
    | some r => if r.1 = .SUCCESS then forEachO f xs r.2 else some r

namespace DataDumper

/-- Embedding of `DataDumper::GenerateOutput`; `none` is the exception that
the member function `at` of the descriptor list throws for an index out of
range. The result holds the message as the function leaves it. -/
def GenerateOutput (output : dump.Output) (tensor_descs : List GeTensorDesc) (addr : Nat)
    (index : Nat) : Option (Status × dump.Output) :=
  match tensor_descs[index]? with
  | none => none
  | some desc =>
    let output1 : dump.Output :=
      { output with data_type := GetIrDataType desc.data_type, format := desc.format,
                    shape := desc.dims.foldl dump.add_dim output.shape }
    match desc.tensor_size_in_bytes with
    | none => some (.PARAM_INVALID, output1)
    | some output_size =>
      some (.SUCCESS,
        { output1 with size := output_size,
                       original_name := desc.data_dump_origin_name.getD "",
                       original_output_index := desc.data_dump_origin_output_index.getD (-1),
                       original_output_format := desc.origin_format,
                       original_output_data_type := desc.origin_data_type,
                       address := addr })

/-- Embedding of `DataDumper::GenerateInput`. -/
def GenerateInput (input : dump.Input) (tensor_descs : List GeTensorDesc) (addr : Nat)
    (index : Nat) : Option (Status × dump.Input) :=
  match tensor_descs[index]? with
  | none => none
  | some desc =>
    let input1 : dump.Input :=
      { input with data_type := GetIrDataType desc.data_type, format := desc.format,
                   shape := desc.dims.foldl dump.add_dim input.shape }
    let input_size : Option Int :=
      match desc.input_origin_size with
      | some v => some v
      | none => desc.tensor_size_in_bytes
    match input_size with
    | none => some (.PARAM_INVALID, input1)
    | some v => some (.SUCCESS, { input1 with size := v, address := addr })

/-- Embedding of `DataDumper::DumpRefOutput`. The arithmetic on the address is
that of `uintptr_t` and `size_t`, 64 bits wide. The arguments that the function
uses in log messages only are left out. -/
def DumpRefOutput (d : DataDumper) (output : dump.Output) (node_name_index : String) :
    Option (Status × dump.Output) :=
  let parsed := ParseNameIndex node_name_index "" "" 0
  let dump_op_name := parsed.2.1
  let input_or_output := parsed.2.2.1
  let index := parsed.2.2.2
  if parsed.1 = false then some (.PARAM_INVALID, output)
  else
    match d.compute_graph_ with
    | none => some (.PARAM_INVALID, output)
    | some graph =>
      match FindNode graph dump_op_name with
      | none => some (.PARAM_INVALID, output)
      | some none => some (.PARAM_INVALID, output)
      | some (some replace_opdesc) =>
        match mapFind d.ref_info_ replace_opdesc.ptr with
        | none => some (.PARAM_INVALID, output)
        | some recorded =>
          if recorded = 0 then some (.PARAM_INVALID, output)
          else if input_or_output = kDumpInput then
            let addr := (recorded + kAddrLen * index % 2 ^ 64) % 2 ^ 64
            GenerateOutput output replace_opdesc.inputs_desc addr index
          else if input_or_output = kDumpOutput then
            let replace_input_size := replace_opdesc.inputs_desc.length
            let addr :=
              (recorded + (index + replace_input_size) % 2 ^ 64 * kAddrLen % 2 ^ 64) % 2 ^ 64
            GenerateOutput output replace_opdesc.outputs_desc addr index
          else some (.SUCCESS, output)

/-- Embedding of `DataDumper::DumpRefInput`, with the same arithmetic and
without the arguments used in log messages only. -/
def DumpRefInput (d : DataDumper) (input : dump.Input) (node_name_index : String) :
    Option (Status × dump.Input) :=
  let parsed := ParseNameIndex node_name_index "" "" 0
  let dump_op_name := parsed.2.1
  let input_or_output := parsed.2.2.1
  let index := parsed.2.2.2
  if parsed.1 = false then some (.PARAM_INVALID, input)
  else
    match d.compute_graph_ with
    | none => some (.PARAM_INVALID, input)
    | some graph =>
      match FindNode graph dump_op_name with
      | none => some (.PARAM_INVALID, input)
      | some none => some (.PARAM_INVALID, input)
      | some (some replace_opdesc) =>
        match mapFind d.ref_info_ replace_opdesc.ptr with
        | none => some (.PARAM_INVALID, input)
        | some recorded =>
          if recorded = 0 then some (.PARAM_INVALID, input)
          else if input_or_output = kDumpInput then
            let addr := (recorded + kAddrLen * index % 2 ^ 64) % 2 ^ 64
            GenerateInput input replace_opdesc.inputs_desc addr index
          else if input_or_output = kDumpOutput then
            let replace_input_size := replace_opdesc.inputs_desc.length
            let addr :=
              (recorded + (index + replace_input_size) % 2 ^ 64 * kAddrLen % 2 ^ 64) % 2 ^ 64
            GenerateInput input replace_opdesc.outputs_desc addr index
          else some (.SUCCESS, input)

/-- Embedding of `DataDumper::GenerateOpBuffer`. -/
def GenerateOpBuffer (d : DataDumper) (size : Int) (task : dump.Task) : dump.Task :=
  { task with buffer := task.buffer ++ [{ address := d.l1_fusion_addr_, size := size }] }

/-- Body of the loop of `DumpOutputWithTask` over the output descriptors. -/
def DumpOutputWithTaskStep (d : DataDumper) (inner_dump_info : InnerDumpInfo)
    (has_mem_type_attr : Bool) (v_memory_type : List Int) (i : Nat) (task : dump.Task) :
    Option (Status × dump.Task) :=
  let output_descs := inner_dump_info.op.outputs_desc
  match output_descs[i]? with
  | none => none
  | some output_desc =>
    match output_desc.data_dump_ref with
    | some node_name_index =>
      match d.DumpRefOutput dump.Output.empty node_name_index with
      | none => none
      | some r =>
        if r.1 ≠ .SUCCESS then some (r.1, task)
        else some (.SUCCESS, { task with output := task.output ++ [r.2] })
    | none =>
      if IsTensorDescWithSkipDumpAddrType has_mem_type_attr v_memory_type i then
        match output_desc.tensor_size_in_bytes with
        | none => some (.PARAM_INVALID, task)
        | some output_size => some (.SUCCESS, d.GenerateOpBuffer output_size task)
      else
        let input_size := inner_dump_info.op.inputs_desc.length
        let addr := (inner_dump_info.args + (i + input_size) % 2 ^ 64 * kAddrLen % 2 ^ 64) % 2 ^ 64
        match GenerateOutput dump.Output.empty output_descs addr i with
        | none => none
        | some r =>
          if r.1 ≠ .SUCCESS then some (r.1, task)
          else some (.SUCCESS, { task with output := task.output ++ [r.2] })

/-- Embedding of `DataDumper::DumpOutputWithTask`. -/
def DumpOutputWithTask (d : DataDumper) (inner_dump_info : InnerDumpInfo) (task : dump.Task) :
    Option (Status × dump.Task) :=
  let output_descs := inner_dump_info.op.outputs_desc
  let output_addrs := GetOutputDataAddrs d.runtime_param_ inner_dump_info.op
  if output_descs.length ≠ output_addrs.length then some (.PARAM_INVALID, task)
  else
    let has_mem_type_attr := inner_dump_info.op.output_mem_type_list.isSome
    let v_memory_type := inner_dump_info.op.output_mem_type_list.getD []
    if has_mem_type_attr = true ∧ v_memory_type.length ≠ output_descs.length then
      some (.PARAM_INVALID, task)
    else
      forEachO (DumpOutputWithTaskStep d inner_dump_info has_mem_type_attr v_memory_type)
        (List.range output_descs.length) task

/-- Embedding of `DataDumper::DumpOutput`. For an op without a task the
product of the pointer width and the input anchor index is computed in 32
bits. -/
def DumpOutput (d : DataDumper) (inner_dump_info : InnerDumpInfo) (task : dump.Task) :
    Option (Status × dump.Task) :=
  if inner_dump_info.is_task then d.DumpOutputWithTask inner_dump_info task
  else
    let output_tensor : Option GeTensorDesc :=
      if 0 ≤ inner_dump_info.output_anchor_index then
        inner_dump_info.op.outputs_desc[inner_dump_info.output_anchor_index.toNat]?
      else none
    let output_addrs := GetOutputDataAddrs d.runtime_param_ inner_dump_info.op
    match output_tensor with
    | none => some (.PARAM_INVALID, task)
    | some desc =>
      if inner_dump_info.output_anchor_index ≥ (output_addrs.length : Int) then
        some (.FAILED, task)
      else
        let data_addr := (inner_dump_info.args +
          kAddrLen * (inner_dump_info.input_anchor_index % 2 ^ 32).toNat % 2 ^ 32) % 2 ^ 64
        let output : dump.Output :=
          { data_type := GetIrDataType desc.data_type, format := desc.format,
            shape := inner_dump_info.dims.foldl dump.add_dim [],
            size := inner_dump_info.data_size,
            original_name := desc.data_dump_origin_name.getD "",
            original_output_index := desc.data_dump_origin_output_index.getD (-1),
            original_output_format := desc.origin_format,
            original_output_data_type := desc.origin_data_type, address := data_addr }
        some (.SUCCESS, { task with output := task.output ++ [output] })

/-- Body of the loop of `DumpInput` over the input descriptors. -/
def DumpInputStep (d : DataDumper) (inner_dump_info : InnerDumpInfo)
    (has_mem_type_attr : Bool) (v_memory_type : List Int) (i : Nat) (task : dump.Task) :
    Option (Status × dump.Task) :=
  let input_descs := inner_dump_info.op.inputs_desc
  match input_descs[i]? with
  | none => none
  | some input_desc =>
    match input_desc.data_dump_ref with
    | some node_name_index =>
      match d.DumpRefInput dump.Input.empty node_name_index with
      | none => none
      | some r =>
        if r.1 ≠ .SUCCESS then some (r.1, task)
        else some (.SUCCESS, { task with input := task.input ++ [r.2] })
    | none =>
      if IsTensorDescWithSkipDumpAddrType has_mem_type_attr v_memory_type i then
        let input_size : Option Int :=
          match input_desc.input_origin_size with
          | some v => some v
          | none => input_desc.tensor_size_in_bytes
        match input_size with
        | none => some (.PARAM_INVALID, task)
        | some v => some (.SUCCESS, d.GenerateOpBuffer v task)
      else
        let addr := (inner_dump_info.args + kAddrLen * i % 2 ^ 64) % 2 ^ 64
        match GenerateInput dump.Input.empty input_descs addr i with
        | none => none
        | some r =>
          if r.1 ≠ .SUCCESS then some (r.1, task)
          else some (.SUCCESS, { task with input := task.input ++ [r.2] })

/-- Embedding of `DataDumper::DumpInput`. -/
def DumpInput (d : DataDumper) (inner_dump_info : InnerDumpInfo) (task : dump.Task) :
    Option (Status × dump.Task) :=
  let input_descs := inner_dump_info.op.inputs_desc
  let input_addrs := GetInputDataAddrs d.runtime_param_ inner_dump_info.op
  if input_descs.length ≠ input_addrs.length then some (.PARAM_INVALID, task)
  else
    let has_mem_type_attr := inner_dump_info.op.input_mem_type_list.isSome
    let v_memory_type := inner_dump_info.op.input_mem_type_list.getD []
    if has_mem_type_attr = true ∧ v_memory_type.length ≠ input_descs.length then
      some (.PARAM_INVALID, task)
    else
      forEachO (DumpInputStep d inner_dump_info has_mem_type_attr v_memory_type)
        (List.range input_descs.length) task

/-- Body of the loop of `BuildTaskInfo` over the op list: the task record of
one op is built and, unless a dump function fails, added to the message. -/
def BuildTaskInfoStep (d : DataDumper) (op_iter : InnerDumpInfo)
    (op_mapping_info : dump.OpMappingInfo) : Option (Status × dump.OpMappingInfo) :=
  let task : dump.Task :=
    { end_graph := false, task_id := op_iter.task_id, stream_id := op_iter.stream_id,
      op_name := op_iter.op.name, op_type := op_iter.op.type, output := [], input := [],
      buffer := [] }
  if d.dump_mode = kDumpOutput then
    match d.DumpOutput op_iter task with
    | none => none
    | some r =>
      if r.1 ≠ .SUCCESS then some (r.1, op_mapping_info)
      else some (.SUCCESS, { op_mapping_info with task := op_mapping_info.task ++ [r.2] })
  else if d.dump_mode = kDumpInput then
    if op_iter.is_task then
      match d.DumpInput op_iter task with
      | none => none
      | some r =>
        if r.1 ≠ .SUCCESS then some (r.1, op_mapping_info)
        else some (.SUCCESS, { op_mapping_info with task := op_mapping_info.task ++ [r.2] })
    else some (.SUCCESS, { op_mapping_info with task := op_mapping_info.task ++ [task] })
  else if d.dump_mode = kDumpAll ∨ d.is_op_debug_ = true then
    match d.DumpOutput op_iter task with
    | none => none
    | some r =>
      if r.1 ≠ .SUCCESS then some (r.1, op_mapping_info)
      else if op_iter.is_task then
        match d.DumpInput op_iter r.2 with
        | none => none
        | some r2 =>
          if r2.1 ≠ .SUCCESS then some (r2.1, op_mapping_info)
          else some (.SUCCESS, { op_mapping_info with task := op_mapping_info.task ++ [r2.2] })
      else some (.SUCCESS, { op_mapping_info with task := op_mapping_info.task ++ [r.2] })
  else some (.SUCCESS, op_mapping_info)

/-- Embedding of `DataDumper::BuildTaskInfo`. -/
def BuildTaskInfo (d : DataDumper) (op_mapping_info : dump.OpMappingInfo) :
    Option (Status × dump.OpMappingInfo) :=
  forEachO d.BuildTaskInfoStep d.op_list_ op_mapping_info

end DataDumper

/-- An op descriptor for the examples: one input and one output tensor of
type float with shape 2 x 3 and 24 bytes. -/
def exampleTensorDesc : GeTensorDesc :=
  { data_type := .DT_FLOAT, format := 0, dims := [2, 3], origin_format := 0,
    origin_data_type := .DT_FLOAT, tensor_size_in_bytes := some 24, data_dump_ref := none,
    input_origin_size := none, data_dump_origin_name := none,
    data_dump_origin_output_index := none }

/-- The op `conv` of the examples, with two inputs and one output. -/
def exampleConv : OpDescPtr :=
  { ptr := 1, name := "conv", type := "Conv2D",
    inputs_desc := [exampleTensorDesc, exampleTensorDesc], outputs_desc := [exampleTensorDesc],
    input_mem_type_list := none, output_mem_type_list := none }

/-- The op `relu` of the examples: its input descriptor refers to output 0 of
`conv`, its output descriptor to a node `gone` that is not in the graph. -/
def exampleRelu : OpDescPtr :=
  { ptr := 2, name := "relu", type := "Relu",
    inputs_desc := [{ exampleTensorDesc with data_dump_ref := some "conv:output:0" }],
    outputs_desc := [{ exampleTensorDesc with data_dump_ref := some "gone:output:0" }],
    input_mem_type_list := none, output_mem_type_list := none }

/-- A dumper in mode `all` over the two example ops; the address of `conv` is
recorded as 4096; one address is resolved for each descriptor of `relu`, and
only one input address for the two input descriptors of `conv`. -/
def exampleDumper : DataDumper :=
  { compute_graph_ := some [some exampleConv, some exampleRelu],
    ref_info_ := [(1, 4096)],
    runtime_param_ :=
      { input_data_addrs := [(1, [8192]), (2, [8448])],
        output_data_addrs := [(1, [8320]), (2, [8512])] },
    dump_mode := "all", is_op_debug_ := false,
    op_list_ := [
      { task_id := 7, stream_id := 0, op := exampleRelu, args := 16384, is_task := true,
        input_anchor_index := 0, output_anchor_index := 0, dims := [], data_size := 0 }],
    l1_fusion_addr_ := 0 }

/-- The record of `relu` in the op list. -/
def exampleReluInfo : InnerDumpInfo :=
  { task_id := 7, stream_id := 0, op := exampleRelu, args := 16384, is_task := true,
    input_anchor_index := 0, output_anchor_index := 0, dims := [], data_size := 0 }

/-- The record of `conv`, for which the numbers of descriptors and resolved
addresses differ. -/
def exampleConvInfo : InnerDumpInfo :=
  { task_id := 6, stream_id := 0, op := exampleConv, args := 12288, is_task := true,
    input_anchor_index := 0, output_anchor_index := 0, dims := [], data_size := 0 }

/-- A task record without inputs, outputs and buffers. -/
def exampleTask : dump.Task :=
  { end_graph := false, task_id := 7, stream_id := 0, op_name := "relu", op_type := "Relu",
    output := [], input := [], buffer := [] }

/-- The argument slot that a dump reference names in the argument block of
the referenced op: the inputs come first, then the outputs. -/
def refSlot (kind : String) (index input_count : Nat) : Nat :=
  if kind = kDumpInput then index else index + input_count

/-- The descriptors that a dump reference of the given kind indexes. -/
def refDescs (kind : String) (op : OpDescPtr) : List GeTensorDesc :=
  if kind = kDumpInput then op.inputs_desc else op.outputs_desc

/-- The byte size that `GenerateInput` encodes: the attribute
`ATTR_NAME_INPUT_ORIGIN_SIZE` when set, else the computed tensor size. -/
def inputSizeOf (desc : GeTensorDesc) : Option Int :=
  match desc.input_origin_size with
  | some v => some v
  | none => desc.tensor_size_in_bytes

/-- A dump reference that cannot be followed, as the specification lists it:
the string does not parse, or it names a node that is not in the compute
graph, or it names a node whose address is not in the ref-address table. -/
def DataDumper.badDumpRef (d : DataDumper) (node_name_index : String) : Prop :=
  (ParseNameIndex node_name_index "" "" 0).1 = false ∨
  (∃ graph, d.compute_graph_ = some graph ∧
    FindNode graph (ParseNameIndex node_name_index "" "" 0).2.1 = none) ∨
  (∃ graph replace_opdesc, d.compute_graph_ = some graph ∧
    FindNode graph (ParseNameIndex node_name_index "" "" 0).2.1 = some (some replace_opdesc) ∧
    mapFind d.ref_info_ replace_opdesc.ptr = none)

/-- The dump mode makes `BuildTaskInfo` call `DumpOutput`. -/
def DataDumper.runsDumpOutput (d : DataDumper) : Prop :=
  d.dump_mode = kDumpOutput ∨
    (d.dump_mode ≠ kDumpInput ∧ (d.dump_mode = kDumpAll ∨ d.is_op_debug_ = true))

/-- The dump mode makes `BuildTaskInfo` call `DumpInput` for an op with a
task. -/
def DataDumper.runsDumpInput (d : DataDumper) : Prop :=
  d.dump_mode ≠ kDumpOutput ∧
    (d.dump_mode = kDumpInput ∨ d.dump_mode = kDumpAll ∨ d.is_op_debug_ = true)

/-! ## The execution context and the node executor of the hybrid executor -/

/-- Modelled from the spec: the runtime code `RT_ERROR_NONE` of a call that
succeeded; the runtime headers are not among the sources. -/
def RT_ERROR_NONE : Int := 0

namespace hybrid

/-- The status codes that the functions of the hybrid executor embedded here
return. -/
inductive Status where
  | SUCCESS
  | END_OF_SEQUENCE
  | RT_FAILED
  | INTERNAL_ERROR
  | PARAM_INVALID
deriving DecidableEq, Repr, Inhabited

def kEndOfSequence : Int := 0x0704000a
def kEndOfSequenceNew : Int := 507005
def kModelAbortNormal : Int := 0x0704000e
def kModelAbortNormalNew : Int := 507024

/-- The conversion of a 32-bit signed value to `uint32_t`, which a comparison
with a constant of type `uint32_t` applies to it. -/
def toUInt32 (v : Int) : Int := v % 2 ^ 32

/-- The member of `GraphExecutionContext` that `Synchronize` writes. -/
structure GraphExecutionContext where
  is_eos_ : Bool
deriving DecidableEq, Repr, Inhabited

/-- Embedding of `GraphExecutionContext::Synchronize`; `rt_ret` is the code
that `rtStreamSynchronize` returned for the stream, a 32-bit signed value. The
two end of sequence constants are of type `uint32_t`, the two abort constants
of type `int32_t`. -/
def GraphExecutionContext.Synchronize (ctx : GraphExecutionContext) (rt_ret : Int) :
    Status × GraphExecutionContext :=
  if rt_ret = RT_ERROR_NONE then (.SUCCESS, ctx)
  else if toUInt32 rt_ret = kEndOfSequence ∨ toUInt32 rt_ret = kEndOfSequenceNew then
    (.END_OF_SEQUENCE, { ctx with is_eos_ := true })
  else if rt_ret = kModelAbortNormal ∨ rt_ret = kModelAbortNormalNew then (.SUCCESS, ctx)
  else (.RT_FAILED, ctx)

/-- The translation of a completion code as the specification words it. -/
def translateSpec (c : Int) : Status :=
  if c = 0x0704000a ∨ c = 507005 then .END_OF_SEQUENCE
  else if c = 0 ∨ c = 0x0704000e ∨ c = 507024 then .SUCCESS
  else .RT_FAILED

/-- The two classes of node task that the executor of the runtime ops makes. -/
inductive NodeTask where
  | IdentityNodeTask
  | IdentityNNodeTask
deriving DecidableEq, Repr, Inhabited

/-- Modelled from the spec: the op type constant comes from the framework's
type table, which is not among the sources. -/
def IDENTITYN : String := "IdentityN"

/-- Modelled from the spec: the helper `MakeShared` is not among the sources. It
returns a shared pointer to a new object, or null when the object cannot be
allocated; `allocated` says which of the two happens. -/
def MakeShared (allocated : Bool) (object : NodeTask) : Option NodeTask :=
  if allocated then some object else none

/-- Embedding of `RtsNodeExecutor::LoadTask`. The node is given by its op type
and `task` is the reference parameter, null or a task; the model argument is
not used by the function. -/
def RtsNodeExecutor.LoadTask (op_type : String) (allocated : Bool) (task : Option NodeTask) :
    Status × Option NodeTask :=
  let made : Option (Option NodeTask) :=
    if op_type = IDENTITY then some (MakeShared allocated .IdentityNodeTask)
    else if op_type = IDENTITYN then some (MakeShared allocated .IdentityNNodeTask)
    else none
  match made with
  | none => (.INTERNAL_ERROR, task)
  | some task1 => if task1 = none then (.PARAM_INVALID, task1) else (.SUCCESS, task1)

end hybrid

/-! ## Shape ranges of the single op parser -/

namespace SingleOpParser

def kShapeRangePairSize : Nat := 2
def kShapeRangeLow : Nat := 0
def kShapeRangeHigh : Nat := 1

/-- Modelled from the spec: the dim value `ge::UNKNOWN_DIM_NUM` that marks a
shape of unknown rank; the header that declares it is not among the sources. -/
def UNKNOWN_DIM_NUM : Int := -2

/-- Modelled from the spec: the dims `ge::UNKNOWN_RANK` of a shape of unknown
rank, one dim with the marker. -/
def UNKNOWN_RANK : List Int := [-2]

/-- The members of `SingleOpTensorDesc` that `SetShapeRange` reads. -/
structure SingleOpTensorDesc where
  dims : List Int
  dim_ranges : List (List Int)
deriving DecidableEq, Repr, Inhabited

/-- The loop of `SetShapeRange` over the dims, with the local variables
`range_index` and `shape_range`; an error is the early return. -/
def SetShapeRangeLoop (dim_ranges : List (List Int)) :
    List Int → Nat → List (Int × Int) → Except Status (Nat × List (Int × Int))
  | [], range_index, shape_range => .ok (range_index, shape_range)
  | dim :: rest, range_index, shape_range =>
    if dim ≥ 0 then SetShapeRangeLoop dim_ranges rest range_index (shape_range ++ [(dim, dim)])
    else if range_index ≥ dim_ranges.length then .error .PARAM_INVALID
    else
      let range := dim_ranges.getD range_index []
      if range.length ≠ kShapeRangePairSize then .error .PARAM_INVALID
      else
        SetShapeRangeLoop dim_ranges rest (range_index + 1)
          (shape_range ++ [(range.getD kShapeRangeLow 0, range.getD kShapeRangeHigh 0)])

/-- Embedding of `SingleOpParser::SetShapeRange`. Of the tensor descriptor
`ge_tensor_desc` the model keeps the shape range attribute, absent while it
was never set; `GeTensorDesc::SetShapeRange` stores the list it is given. The
op name goes to the error messages only. -/
def SetShapeRange (tensor_desc : SingleOpTensorDesc) (ge_tensor_desc : Option (List (Int × Int))) :
    Status × Option (List (Int × Int)) :=
  let num_shape_ranges := tensor_desc.dim_ranges.length
  if UNKNOWN_DIM_NUM ∈ tensor_desc.dims then
    if tensor_desc.dims ≠ UNKNOWN_RANK then (.PARAM_INVALID, ge_tensor_desc)
    else if ¬ tensor_desc.dim_ranges.isEmpty then (.PARAM_INVALID, ge_tensor_desc)
    else (.SUCCESS, ge_tensor_desc)
  else
    match SetShapeRangeLoop tensor_desc.dim_ranges tensor_desc.dims 0 [] with
    | .error ret => (ret, ge_tensor_desc)
    | .ok (range_index, shape_range) =>
      if num_shape_ranges ≠ range_index then (.PARAM_INVALID, ge_tensor_desc)
      else if range_index > 0 then (.SUCCESS, some shape_range)
      else (.SUCCESS, ge_tensor_desc)

/-- The number of negative dims. -/
def negativeDims (dims : List Int) : Nat := (dims.filter (fun d => decide (d < 0))).length

/-- The range list as the specification words it, dim by dim: `(d, d)` for a
dim `d` that is not negative, and for the negative dim that has `k` negative
dims before it the low and high item of supplied range `k`. -/
def isRangeListOf (tensor_desc : SingleOpTensorDesc) (shape_range : List (Int × Int)) : Prop :=
  shape_range.length = tensor_desc.dims.length ∧
  ∀ i d, tensor_desc.dims[i]? = some d →
    (0 ≤ d → shape_range[i]? = some (d, d)) ∧
    (d < 0 → ∃ low high,
      tensor_desc.dim_ranges[negativeDims (tensor_desc.dims.take i)]? = some [low, high] ∧
      shape_range[i]? = some (low, high))

/-- The pairs that the loop adds for the dims `rest` when `k` ranges are used
up already. -/
def rangesFrom (dim_ranges : List (List Int)) : List Int → Nat → List (Int × Int)
  | [], _ => []
  | dim :: rest, k =>
    if dim ≥ 0 then (dim, dim) :: rangesFrom dim_ranges rest k
    else
      ((dim_ranges.getD k []).getD 0 0, (dim_ranges.getD k []).getD 1 0) ::
        rangesFrom dim_ranges rest (k + 1)

/-- A tensor with the dims `[3, -1, 5, -1]` and two ranges. -/
def exampleTensor : SingleOpTensorDesc :=
  { dims := [3, -1, 5, -1], dim_ranges := [[1, 10], [2, 20]] }

end SingleOpParser

/-! ## Loading and unloading the dump information -/

def kAicpuLoadFlag : Nat := 1
def kAicpuUnloadFlag : Nat := 0
def kOpDebugSize : Int := 2048
def kOpDebugShape : Int := 2048

/-- Modelled from the spec: names and types of the end graph and op debug
tasks and the format `FORMAT_ND`, declared outside the sources. -/
def NODE_NAME_END_GRAPH : String := "Node_EndGraph"
def ENDGRAPH : String := "EndGraph"
def NODE_NAME_OP_DEBUG : String := "Node_OpDebug"
def OP_TYPE_OP_DEBUG : String := "Opdebug"
def FORMAT_ND : Int := 2

/-- Modelled from the spec: a call of the device runtime, as the device sees
it: free, allocate, copy and load dump info. -/
inductive DeviceCall where
  | rtFree (ptr : Nat)
  | rtMalloc (size : Nat)
  | rtMemcpy (dst : Nat) (size : Nat)
  | rtDatadumpInfoLoad (ptr : Nat) (size : Nat)
deriving DecidableEq, Repr

/-- Modelled from the spec: the device runtime as the dumper meets it.
`allocated` holds the buffers that `rtMalloc` handed to the dumper and that
the device has not freed; `next` numbers the handles, none of them null and
none used twice; `calls` is the record of the calls made, oldest first. -/
structure Device where
  allocated : List Nat
  next : Nat
  calls : List DeviceCall
deriving DecidableEq, Repr

/-- Modelled from the spec: what the protobuf library and the device runtime
answer during one call of a load or unload function: whether
`SerializeToString` succeeds, the value of `ByteSizeLong`, and the codes that
`rtFree`, `rtMalloc`, `rtMemcpy` and `rtDatadumpInfoLoad` return. -/
structure Outcome where
  serialize_ok : Bool
  proto_size : Nat
  rt_free : Int
  rt_malloc : Int
  rt_memcpy : Int
  rt_load : Int
deriving DecidableEq, Repr

/-- Modelled from the spec: `rtFree`. The device is asked to free the buffer;
the code it returns comes from the outcome. With the code of success the
buffer is freed; with any other code the device has not freed it. -/
def rtFree (dev : Device) (ptr : Nat) (ret : Int) : Int × Device :=
  if ret = RT_ERROR_NONE then
    (ret, { dev with allocated := dev.allocated.filter (fun p => decide (p ≠ ptr)),
                     calls := dev.calls ++ [.rtFree ptr] })
  else (ret, { dev with calls := dev.calls ++ [.rtFree ptr] })

/-- Modelled from the spec: `rtMalloc`. With the code of success the pointer
is set to a new buffer; otherwise the pointer is left as it was. -/
def rtMalloc (dev : Device) (ptr : Nat) (size : Nat) (ret : Int) : Int × Nat × Device :=
  if ret = RT_ERROR_NONE then
    (ret, dev.next + 1,
      { allocated := dev.allocated ++ [dev.next + 1], next := dev.next + 1,
        calls := dev.calls ++ [.rtMalloc size] })
  else (ret, ptr, { dev with calls := dev.calls ++ [.rtMalloc size] })

/-- Modelled from the spec: `rtMemcpy` from the host to a device buffer. -/
def rtMemcpy (dev : Device) (dst : Nat) (size : Nat) (ret : Int) : Int × Device :=
  (ret, { dev with calls := dev.calls ++ [.rtMemcpy dst size] })

/-- Modelled from the spec: `rtDatadumpInfoLoad`. -/
def rtDatadumpInfoLoad (dev : Device) (ptr : Nat) (size : Nat) (ret : Int) : Int × Device :=
  (ret, { dev with calls := dev.calls ++ [.rtDatadumpInfoLoad ptr size] })

/-- Modelled from the spec: a status that a load or unload function returns: a
status of the engine, or what the macro `RT_ERROR_TO_GE_STATUS`, which is not
among the sources, makes of the code of a failed runtime call. -/
inductive LoadStatus where
  | status (s : Status)
  | RT_ERROR_TO_GE_STATUS (rt_ret : Int)
deriving DecidableEq, Repr

/-- Modelled from the spec: the members of `DataDumper` that the load and
unload functions read and write besides those of the task encoder; the class
is declared in a header that is not among the sources. A null pointer is 0. -/
structure LoadMembers where
  load_flag_ : Bool
  dev_mem_load_ : Nat
  dev_mem_unload_ : Nat
  is_end_graph_ : Bool
  end_graph_task_id_ : Nat
  end_graph_stream_id_ : Nat
  op_debug_task_id_ : Nat
  op_debug_stream_id_ : Nat
  op_debug_addr_ : Nat
deriving DecidableEq, Repr

/-- The two entry points, each with the answers the libraries give during the
call. -/
inductive DumpCall where
  | LoadDumpInfo (o : Outcome)
  | UnloadDumpInfo (o : Outcome)
deriving DecidableEq, Repr

namespace DataDumper

/-- Embedding of `DataDumper::ReleaseDevMem` on one of the two pointer members,
whose address is never null: the value of the pointer and the device after the
call. A code of failure from `rtFree` is logged only. -/
def ReleaseDevMem (ptr : Nat) (dev : Device) (rt_free : Int) : Nat × Device :=
  if ptr ≠ 0 then
    let r := rtFree dev ptr rt_free
    (0, r.2)
  else (ptr, dev)

/-- Embedding of `DataDumper::ExecuteLoadDumpInfo`. The message is serialized
by the protobuf library, of which the outcome holds the answers. -/
def ExecuteLoadDumpInfo (m : LoadMembers) (dev : Device) (o : Outcome) :
    LoadStatus × LoadMembers × Device :=
  let proto_size := o.proto_size
  let ret := o.serialize_ok
  if ret = false ∨ proto_size = 0 then (.status .PARAM_INVALID, m, dev)
  else
    let released : Nat × Device :=
      if m.dev_mem_load_ ≠ 0 then ReleaseDevMem m.dev_mem_load_ dev o.rt_free
      else (m.dev_mem_load_, dev)
    let r1 := rtMalloc released.2 released.1 proto_size o.rt_malloc
    let m1 := { m with dev_mem_load_ := r1.2.1 }
    if r1.1 ≠ RT_ERROR_NONE then (.RT_ERROR_TO_GE_STATUS r1.1, m1, r1.2.2)
    else
      let r2 := rtMemcpy r1.2.2 m1.dev_mem_load_ proto_size o.rt_memcpy
      if r2.1 ≠ RT_ERROR_NONE then (.RT_ERROR_TO_GE_STATUS r2.1, m1, r2.2)
      else
        let r3 := rtDatadumpInfoLoad r2.2 m1.dev_mem_load_ proto_size o.rt_load
        if r3.1 ≠ RT_ERROR_NONE then (.RT_ERROR_TO_GE_STATUS r3.1, m1, r3.2)
        else (.status .SUCCESS, { m1 with load_flag_ := true }, r3.2)

/-- Embedding of `DataDumper::ExecuteUnLoadDumpInfo`. -/
def ExecuteUnLoadDumpInfo (m : LoadMembers) (dev : Device) (o : Outcome) :
    LoadStatus × LoadMembers × Device :=
  let proto_size := o.proto_size
  let ret := o.serialize_ok
  if ret = false ∨ proto_size = 0 then (.status .PARAM_INVALID, m, dev)
  else
    let released : Nat × Device :=
      if m.dev_mem_unload_ ≠ 0 then ReleaseDevMem m.dev_mem_unload_ dev o.rt_free
      else (m.dev_mem_unload_, dev)
    let r1 := rtMalloc released.2 released.1 proto_size o.rt_malloc
    let m1 := { m with dev_mem_unload_ := r1.2.1 }
    if r1.1 ≠ RT_ERROR_NONE then (.RT_ERROR_TO_GE_STATUS r1.1, m1, r1.2.2)
    else
      let r2 := rtMemcpy r1.2.2 m1.dev_mem_unload_ proto_size o.rt_memcpy
      if r2.1 ≠ RT_ERROR_NONE then (.RT_ERROR_TO_GE_STATUS r2.1, m1, r2.2)
      else
        let r3 := rtDatadumpInfoLoad r2.2 m1.dev_mem_unload_ proto_size o.rt_load
        if r3.1 ≠ RT_ERROR_NONE then (.RT_ERROR_TO_GE_STATUS r3.1, m1, r3.2)
        else (.status .SUCCESS, { m1 with load_flag_ := false }, r3.2)

/-- Embedding of `DataDumper::SetEndGraphIdToAicpu`. -/
def SetEndGraphIdToAicpu (d : DataDumper) (m : LoadMembers)
    (op_mapping_info : dump.OpMappingInfo) : LoadMembers × dump.OpMappingInfo :=
  if d.dump_mode = kDumpOutput ∨ d.dump_mode = kDumpInput ∨ d.dump_mode = kDumpAll then
    let task : dump.Task :=
      { end_graph := true, task_id := m.end_graph_task_id_, stream_id := m.end_graph_stream_id_,
        op_name := NODE_NAME_END_GRAPH, op_type := ENDGRAPH, output := [], input := [],
        buffer := [] }
    ({ m with is_end_graph_ := true },
      { op_mapping_info with task := op_mapping_info.task ++ [task] })
  else (m, op_mapping_info)

/-- Embedding of `DataDumper::SetOpDebugIdToAicpu`. -/
def SetOpDebugIdToAicpu (d : DataDumper) (task_id stream_id op_debug_addr : Nat)
    (op_mapping_info : dump.OpMappingInfo) : dump.OpMappingInfo :=
  if d.is_op_debug_ then
    let output : dump.Output :=
      { data_type := .DT_UINT8, format := FORMAT_ND,
        shape := dump.add_dim [] kOpDebugShape,
        size := kOpDebugSize, original_name := NODE_NAME_OP_DEBUG, original_output_index := 0,
        original_output_format := FORMAT_ND, original_output_data_type := .DT_UINT8,
        address := op_debug_addr % 2 ^ 64 }
    let task : dump.Task :=
      { end_graph := false, task_id := task_id, stream_id := stream_id,
        op_name := NODE_NAME_OP_DEBUG, op_type := OP_TYPE_OP_DEBUG, output := [output],
        input := [], buffer := [] }
    { op_mapping_info with task := op_mapping_info.task ++ [task] }
  else op_mapping_info

/-- Embedding of `DataDumper::LoadDumpInfo`; `none` is an exception that
leaves `BuildTaskInfo`. Of the message the model keeps the task list; the
scalar fields that the function sets first go to the serialized bytes only. -/
def LoadDumpInfo (d : DataDumper) (m : LoadMembers) (dev : Device) (o : Outcome) :
    Option (LoadStatus × LoadMembers × Device) :=
  let op_mapping_info : dump.OpMappingInfo := { task := [] }
  match d.BuildTaskInfo op_mapping_info with
  | none => none
  | some built =>
    if built.1 ≠ .SUCCESS then some (.status built.1, m, dev)
    else
      let r1 := d.SetEndGraphIdToAicpu m built.2
      let m1 := r1.1
      let _op_mapping_info2 :=
        d.SetOpDebugIdToAicpu m1.op_debug_task_id_ m1.op_debug_stream_id_ m1.op_debug_addr_ r1.2
      if ¬ d.op_list_.isEmpty ∨ d.is_op_debug_ = true ∨ m1.is_end_graph_ = true then
        let r := ExecuteLoadDumpInfo m1 dev o
        if r.1 ≠ .status .SUCCESS then some r
        else some (.status .SUCCESS, r.2)
      else some (.status .SUCCESS, m1, dev)

/-- Embedding of `DataDumper::UnloadDumpInfo`. The message holds one task per
op of the op list with its task id; it goes to the serialized bytes only. -/
def UnloadDumpInfo (d : DataDumper) (m : LoadMembers) (dev : Device) (o : Outcome) :
    LoadStatus × LoadMembers × Device :=
  if m.load_flag_ = false then (.status .SUCCESS, { m with load_flag_ := false }, dev)
  else
    let _op_mapping_info : dump.OpMappingInfo :=
      { task := d.op_list_.map (fun op_iter =>
          { end_graph := false, task_id := op_iter.task_id, stream_id := 0, op_name := "",
            op_type := "", output := [], input := [], buffer := [] }) }
    let r := ExecuteUnLoadDumpInfo m dev o
    if r.1 ≠ .status .SUCCESS then r
    else (.status .SUCCESS, r.2)

/-- One call of an entry point on the members and the device. An exception
that leaves `LoadDumpInfo` is thrown before any member is written and before
any device call, so it leaves both as they were. -/
def call (d : DataDumper) (c : DumpCall) (s : LoadMembers × Device) : LoadMembers × Device :=
  match c with
  | .LoadDumpInfo o =>
    match d.LoadDumpInfo s.1 s.2 o with
    | none => s
    | some r => r.2
  | .UnloadDumpInfo o => (d.UnloadDumpInfo s.1 s.2 o).2

/-- A sequence of calls of the entry points. -/
def calls (d : DataDumper) (cs : List DumpCall) (s : LoadMembers × Device) :
    LoadMembers × Device :=
  cs.foldl (fun s1 c => d.call c s1) s

end DataDumper

/-- The members as the constructor leaves them: nothing loaded, no buffer. -/
def LoadMembers.init : LoadMembers :=
  { load_flag_ := false, dev_mem_load_ := 0, dev_mem_unload_ := 0, is_end_graph_ := false,
    end_graph_task_id_ := 0, end_graph_stream_id_ := 0, op_debug_task_id_ := 0,
    op_debug_stream_id_ := 0, op_debug_addr_ := 0 }

/-- A device on which the dumper has made no call. -/
def Device.init : Device := { allocated := [], next := 0, calls := [] }

/-- Every buffer that the dumper has allocated and not freed is the one held
as load buffer or the one held as unload buffer. -/
def heldOnly (s : LoadMembers × Device) : Prop :=
  ∀ p ∈ s.2.allocated, p = s.1.dev_mem_load_ ∨ p = s.1.dev_mem_unload_

/-- An outcome in which serialization and every runtime call succeed. -/
def Outcome.good (o : Outcome) : Prop :=
  o.serialize_ok = true ∧ o.proto_size ≠ 0 ∧ o.rt_malloc = RT_ERROR_NONE ∧
    o.rt_memcpy = RT_ERROR_NONE ∧ o.rt_load = RT_ERROR_NONE

/-- An outcome for the examples: 64 bytes and every call succeeds. -/
def exampleOutcome : Outcome :=
  { serialize_ok := true, proto_size := 64, rt_free := 0, rt_malloc := 0, rt_memcpy := 0,
    rt_load := 0 }

/-- A dumper in mode `all` without ops: the end graph task alone is loaded. -/
def emptyDumper : DataDumper := { exampleDumper with op_list_ := [] }

/-- Every output type that the registry holds is SoftRead. -/
def softOutputs (reg : List (String × NodeInputOutputRWType)) : Prop :=
  ∀ k v, mapFind reg k = some v →
    ∀ i t, mapFind v.output_rw_type_map i = some t → t = OutputRWType.kSoftRead

/-! ## The format transfer from C1HWNCoC0 to HWCN -/

namespace formats

/-- The status codes that the format transfer returns. -/
inductive Status where
  | SUCCESS
  | PARAM_INVALID
  | ACL_ERROR_GE_FORMAT_INVALID
  | ACL_ERROR_GE_DATATYPE_INVALID
  | ACL_ERROR_GE_SHAPE_INVALID
  | ACL_ERROR_GE_MEMORY_ALLOCATION
  | ACL_ERROR_GE_MEMORY_OPERATE_FAILED
deriving DecidableEq, Repr, Inhabited

/-- Modelled from the spec: the enumeration `Format` is declared outside the
sources; the two formats that the transfer names, and every other one. -/
inductive Format where
  | FORMAT_C1HWNCoC0
  | FORMAT_HWCN
  | FORMAT_RESERVED
deriving DecidableEq, Repr, Inhabited

/-- Modelled from the spec: the dim numbers and dim positions of the two
formats, from a header that is not among the sources. -/
def kC1hwncoc0DimsNum : Nat := 6
def kHwcnDimsNum : Nat := 4
def kC1hwncoc0C1 : Nat := 0
def kC1hwncoc0H : Nat := 1
def kC1hwncoc0W : Nat := 2
def kC1hwncoc0N : Nat := 3
def kC1hwncoc0Co : Nat := 4
def kC1hwncoc0C0 : Nat := 5
def kHwcnH : Nat := 0
def kHwcnW : Nat := 1
def kHwcnC : Nat := 2
def kHwcnN : Nat := 3

/-- Modelled from the spec: the largest item number of a shape that
`IsShapeValid` admits, 2^40. -/
def kShapeItemNumMAX : Int := 1024 * 1024 * 1024 * 1024

/-- Modelled from the spec: the largest `destMax` of the secure C library and
its code of success. -/
def SECUREC_MEM_MAX_LEN : Int := 0x7fffffff
def EOK : Int := 0

/-- Modelled from the spec: the members of `TransArgs` that the transfer
reads. `data` holds the bytes of the source buffer; `src_format_c0` is
`GetC0Value(static_cast<int32_t>(args.src_format))`, the C0 value that the
source format carries, whose decoding is not among the sources. -/
structure TransArgs where
  data : List Nat
  src_format_c0 : Int
  src_primary_format : Format
  dst_primary_format : Format
  src_shape : List Int
  dst_shape : List Int
  src_data_type : DataType
deriving DecidableEq, Repr

/-- Modelled from the spec: `TransResult`: the bytes of the destination
buffer, absent for a null pointer, and the length. -/
structure TransResult where
  data : Option (List Nat)
  length : Nat
deriving DecidableEq, Repr

/-- Modelled from the spec: `GetC0Value` on the source format. -/
def GetC0Value (args : TransArgs) : Int := args.src_format_c0

/-- The member function `at` of a shape. The transfer calls it after the
number of dims has been checked; out of range it would throw, the model gives
0 there. -/
def shapeAt (shape : List Int) (i : Nat) : Int := shape.getD i 0

/-- Modelled from the spec: the loop of `IsShapeValid`, which is not among the
sources: no dim is negative and the item number stays within
`kShapeItemNumMAX`. -/
def IsShapeValidLoop : List Int → Int → Bool
  | [], _ => true
  | dim :: rest, num =>
    if dim < 0 then false
    else if dim ≠ 0 ∧ (kShapeItemNumMAX.tdiv dim) < num then false
    else IsShapeValidLoop rest (num * dim)

/-- Modelled from the spec: `IsShapeValid`. -/
def IsShapeValid (shape : List Int) : Bool :=
  if shape.isEmpty then false else IsShapeValidLoop shape 1

/-- Modelled from the spec: `CheckShapeValid`: the shape has the expected
number of dims and is valid. -/
def CheckShapeValid (shape : List Int) (expect_dims : Nat) : Bool :=
  if expect_dims = 0 ∨ shape.length ≠ expect_dims then false else IsShapeValid shape

/-- Modelled from the spec: `GetSizeByDataType` for the three data types that
the argument check admits; the transfer calls it after that check. -/
def GetSizeByDataType (data_type : DataType) : Int :=
  match data_type with
  | .DT_FLOAT => 4
  | .DT_FLOAT16 => 2
  | .DT_INT8 => 1
  | _ => -1

/-- Modelled from the spec: `GetItemNumByShape`, the product of the dims. -/
def GetItemNumByShape (shape : List Int) : Int := shape.foldl (fun num dim => num * dim) 1

/-- Embedding of `CheckDataTypeSupportedForC1hwncoc0ToHwcn`. -/
def CheckDataTypeSupportedForC1hwncoc0ToHwcn (data_type : DataType) : Bool :=
  decide (data_type = .DT_FLOAT) || decide (data_type = .DT_FLOAT16) ||
    decide (data_type = .DT_INT8)

/-- Embedding of `CheckArgsForC1hwncoc0ToHwcn`; `none` is the division by a
cube size of zero, whose behaviour is undefined. The division is that of
`int64_t`, which truncates. -/
def CheckArgsForC1hwncoc0ToHwcn (args : TransArgs) : Option Status :=
  let src_shape := args.src_shape
  let dst_shape := args.dst_shape
  if args.src_primary_format ≠ .FORMAT_C1HWNCoC0 ∨ args.dst_primary_format ≠ .FORMAT_HWCN then
    some .ACL_ERROR_GE_FORMAT_INVALID
  else if ¬ CheckDataTypeSupportedForC1hwncoc0ToHwcn args.src_data_type then
    some .ACL_ERROR_GE_DATATYPE_INVALID
  else if ¬ CheckShapeValid src_shape kC1hwncoc0DimsNum then some .ACL_ERROR_GE_SHAPE_INVALID
  else if ¬ CheckShapeValid dst_shape kHwcnDimsNum then some .ACL_ERROR_GE_SHAPE_INVALID
  else
    let cube_size := GetC0Value args
    if cube_size = 0 then none
    else if shapeAt src_shape kC1hwncoc0C1 ≠
          ((shapeAt dst_shape kHwcnC - 1).tdiv cube_size) + 1 ∨
        shapeAt src_shape kC1hwncoc0H ≠ shapeAt dst_shape kHwcnH ∨
        shapeAt src_shape kC1hwncoc0W ≠ shapeAt dst_shape kHwcnW ∨
        shapeAt src_shape kC1hwncoc0N ≠ shapeAt dst_shape kHwcnN ∨
        shapeAt src_shape kC1hwncoc0Co ≠ cube_size ∨
        shapeAt src_shape kC1hwncoc0C0 ≠ cube_size then
      some .ACL_ERROR_GE_SHAPE_INVALID
    else some .SUCCESS

/-- The index `dst_idx` of the destination element that the loops of
`GetDstDataAfterTransForC1hwncoc0ToHwcn` compute for the loop variables: the
head addresses of the outer loops are `h_idx * wcn`, then plus `w_idx * cn`,
then plus `c_idx * n`. -/
def dstIndex (args : TransArgs) (h_idx w_idx c_idx n_idx : Int) : Int :=
  let w := shapeAt args.src_shape kC1hwncoc0W
  let n := shapeAt args.src_shape kC1hwncoc0N
  let c := shapeAt args.dst_shape kHwcnC
  let cn := c * n
  let wcn := w * cn
  let h_head_addr := h_idx * wcn
  let w_head_addr := h_head_addr + (w_idx * cn)
  let c_head_addr := w_head_addr + (c_idx * n)
  c_head_addr + n_idx

/-- The index `src_idx` of the source element that the innermost loop
computes for the loop variables. -/
def srcIndex (args : TransArgs) (h_idx w_idx c_idx n_idx : Int) : Int :=
  let h := shapeAt args.src_shape kC1hwncoc0H
  let w := shapeAt args.src_shape kC1hwncoc0W
  let n := shapeAt args.src_shape kC1hwncoc0N
  let c0 := shapeAt args.src_shape kC1hwncoc0C0
  let co := shapeAt args.src_shape kC1hwncoc0Co
  let cube_size := GetC0Value args
  let coc0 := co * c0
  let ncoc0 := n * coc0
  let wncoc0 := w * ncoc0
  let c1_idx := c_idx.tdiv cube_size
  let c0_idx := c_idx.tmod cube_size
  let co_idx := c0_idx
  let hwncoc0 := h * wncoc0
  (c1_idx * hwncoc0) + (h_idx * wncoc0) + (w_idx * ncoc0) + (n_idx * coc0) + (co_idx * c0) +
    c0_idx

/-- Modelled from the spec: `memcpy_s` of the secure C library on the
destination buffer `dst` at byte `dst_offset` and the source buffer `src` at
byte `src_offset`. It returns a code of failure when `destMax` is 0 or above
`SECUREC_MEM_MAX_LEN` or `count` exceeds `destMax`; otherwise it copies
`count` bytes. `none` is a copy that leaves either buffer, whose behaviour is
undefined. -/
def memcpy_s (dst : List Nat) (dst_offset : Int) (destMax : Int) (src : List Nat)
    (src_offset : Int) (count : Int) : Option (Except Int (List Nat)) :=
  if destMax = 0 ∨ destMax > SECUREC_MEM_MAX_LEN then some (.error 34)
  else if count > destMax then some (.error 162)
  else if dst_offset < 0 ∨ src_offset < 0 ∨ count < 0 ∨ dst_offset + count > dst.length ∨
      src_offset + count > src.length then none
  else
    some (.ok (dst.take dst_offset.toNat ++
      (src.drop src_offset.toNat).take count.toNat ++
      dst.drop (dst_offset.toNat + count.toNat)))

/-- A loop over `0 .. n - 1` whose body may end the function with a status or
have undefined behaviour, which is `none`. -/
def forRange {σ : Type} (f : Nat → σ → Option (Except Status σ)) :
    List Nat → σ → Option (Except Status σ)
  | [], s => some (.ok s)
  | i :: rest, s =>
    match f i s with
    | none => none
    | some (.error e) => some (.error e)
    | some (.ok s1) => forRange f rest s1

/-- The body of the innermost loop of `GetDstDataAfterTransForC1hwncoc0ToHwcn`
on the bytes of the destination buffer. -/
def copyElement (args : TransArgs) (size : Int) (total_size : Int)
    (h_idx w_idx c_idx n_idx : Nat) (dst : List Nat) : Option (Except Status (List Nat)) :=
  let dst_idx := dstIndex args h_idx w_idx c_idx n_idx
  let src_idx := srcIndex args h_idx w_idx c_idx n_idx
  let src_offset := src_idx * size
  let dst_offset := dst_idx * size
  let protected_size :=
    if total_size - dst_offset < SECUREC_MEM_MAX_LEN then total_size - dst_offset
    else SECUREC_MEM_MAX_LEN
  if protected_size < 0 then some (.error .PARAM_INVALID)
  else
    match memcpy_s dst dst_offset protected_size args.data src_offset size with
    | none => none
    | some (.error _) => some (.error .ACL_ERROR_GE_MEMORY_OPERATE_FAILED)
    | some (.ok dst1) => some (.ok dst1)

/-- Embedding of `GetDstDataAfterTransForC1hwncoc0ToHwcn`. `allocated` says
whether the destination buffer could be allocated; the bytes of a new buffer
are indeterminate and 0 in the model. `none` is undefined behaviour. -/
def GetDstDataAfterTransForC1hwncoc0ToHwcn (args : TransArgs) (result : TransResult)
    (size : Int) (total_size : Int) (allocated : Bool) : Option (Status × TransResult) :=
  if allocated = false then some (.ACL_ERROR_GE_MEMORY_ALLOCATION, result)
  else
    let dst : List Nat := List.replicate total_size.toNat 0
    let h := shapeAt args.src_shape kC1hwncoc0H
    let w := shapeAt args.src_shape kC1hwncoc0W
    let n := shapeAt args.src_shape kC1hwncoc0N
    let c := shapeAt args.dst_shape kHwcnC
    match forRange (fun h_idx d1 =>
        forRange (fun w_idx d2 =>
          forRange (fun c_idx d3 =>
            forRange (fun n_idx d4 => copyElement args size total_size h_idx w_idx c_idx n_idx d4)
              (List.range n.toNat) d3)
            (List.range c.toNat) d2)
          (List.range w.toNat) d1)
        (List.range h.toNat) dst with
    | none => none
    | some (.error e) => some (e, result)
    | some (.ok dst1) => some (.SUCCESS, { data := some dst1, length := total_size.toNat })

/-- Embedding of `FormatTransferC1hwncoc0Hwcn::TransFormat`. -/
def TransFormat (args : TransArgs) (result : TransResult) (allocated : Bool) :
    Option (Status × TransResult) :=
  match CheckArgsForC1hwncoc0ToHwcn args with
  | none => none
  | some ret =>
    if ret ≠ .SUCCESS then some (ret, result)
    else
      let size := GetSizeByDataType args.src_data_type
      let total_size := GetItemNumByShape args.dst_shape * size
      if total_size ≤ 0 then
        let src_size := GetItemNumByShape args.src_shape
        if total_size = 0 ∧ src_size = 0 then some (.SUCCESS, { result with length := 0 })
        else some (.ACL_ERROR_GE_SHAPE_INVALID, result)
      else GetDstDataAfterTransForC1hwncoc0ToHwcn args result size total_size allocated

/-- Element `i` of a buffer of elements of `size` bytes. -/
def element (buf : List Nat) (size : Nat) (i : Nat) : List Nat := (buf.drop (i * size)).take size

/-- The position of element `(h, w, c, n)` in a tensor of format HWCN with the
dims `H`, `W`, `C`, `N`, as the format defines it. -/
def positionHWCN (W C N : Nat) (h w c n : Nat) : Nat := ((h * W + w) * C + c) * N + n

/-- The position of element `(c1, h, w, n, co, c0)` in a tensor of format
C1HWNCoC0 with the dims `C1`, `H`, `W`, `N`, `Co`, `C0`, as the format defines
it. -/
def positionC1HWNCoC0 (H W N Co C0 : Nat) (c1 h w n co c0 : Nat) : Nat :=
  ((((c1 * H + h) * W + w) * N + n) * Co + co) * C0 + c0

/-- A transfer for the examples: C = 3 channels in cubes of 2, H = 1, W = 1,
N = 2, data type INT8; source byte `i` holds the number `i`. -/
def exampleTransArgs : TransArgs :=
  { data := List.range 16, src_format_c0 := 2, src_primary_format := .FORMAT_C1HWNCoC0,
    dst_primary_format := .FORMAT_HWCN, src_shape := [2, 1, 1, 2, 2, 2],
    dst_shape := [1, 1, 3, 2], src_data_type := .DT_INT8 }

end formats

namespace formats

/-- The bytes of `dst` with `bytes` written at byte `off`. -/
def writeAt (dst : List Nat) (off : Nat) (bytes : List Nat) : List Nat :=
  dst.take off ++ bytes ++ dst.drop (off + bytes.length)

/-- The copy of one element: source element `sIdx` is written as destination
element `dIdx`. -/
def writeElement (data : List Nat) (size : Nat) (dIdx sIdx : Nat) (dst : List Nat) : List Nat :=
  writeAt dst (dIdx * size) (element data size sIdx)

/-- The copy that the loop body makes for the loop variables, by positions. -/
def copied (data : List Nat) (size H W C N cube : Nat) (h w c n : Nat) (dst : List Nat) :
    List Nat :=
  writeElement data size (positionHWCN W C N h w c n)
    (positionC1HWNCoC0 H W N cube cube (c / cube) h w n (c % cube) (c % cube)) dst

/-- The four loops as folds over the copies. -/
def copiedN (data : List Nat) (size H W C N cube : Nat) (h w c : Nat) (dst : List Nat) :
    List Nat :=
  (List.range N).foldl (fun t n => copied data size H W C N cube h w c n t) dst

def copiedC (data : List Nat) (size H W C N cube : Nat) (h w : Nat) (dst : List Nat) :
    List Nat :=
  (List.range C).foldl (fun t c => copiedN data size H W C N cube h w c t) dst

def copiedW (data : List Nat) (size H W C N cube : Nat) (h : Nat) (dst : List Nat) : List Nat :=
  (List.range W).foldl (fun t w => copiedC data size H W C N cube h w t) dst

def copiedH (data : List Nat) (size H W C N cube : Nat) (dst : List Nat) : List Nat :=
  (List.range H).foldl (fun t h => copiedW data size H W C N cube h t) dst

end formats

/-- A tensor descriptor of unknown rank for the examples: the descriptor of the
examples with the dims of the unknown rank marker. -/
def unknownRankTensorDesc : GeTensorDesc :=
  { exampleTensorDesc with dims := SingleOpParser.UNKNOWN_RANK }

/-- The answers of the libraries during a call of an entry point. -/
def DumpCall.outcome : DumpCall → Outcome
  | .LoadDumpInfo o => o
  | .UnloadDumpInfo o => o

/-- Every `rtFree` that the dumper issues during the calls succeeds. -/
def freesSucceed (cs : List DumpCall) : Prop :=
  ∀ c ∈ cs, c.outcome.rt_free = RT_ERROR_NONE

instance (cs : List DumpCall) : Decidable (freesSucceed cs) := by
  unfold freesSucceed
  infer_instance

/-- Every buffer that the dumper has allocated and the device has not freed is
the one held as load buffer, the one held as unload buffer, or one that the
dumper has handed to `rtFree`. -/
def heldOrHandedToFree (s : LoadMembers × Device) : Prop :=
  ∀ p ∈ s.2.allocated,
    p = s.1.dev_mem_load_ ∨ p = s.1.dev_mem_unload_ ∨ DeviceCall.rtFree p ∈ s.2.calls

/-- An outcome for the examples: 64 bytes, `rtFree` fails with code 1 and
every other call succeeds. -/
def failingFreeOutcome : Outcome := { exampleOutcome with rt_free := 1 }

/-- A root graph with two conditional nodes, each with one branch subgraph
whose NetOutput node is named `out`: the one of the first subgraph is fed by
two Const nodes, the one of the second subgraph by one. Nodes: 0 first,
1 second, 2 a, 3 b, 4 out (first subgraph), 5 c, 6 out (second subgraph). -/
def clashExampleGraph : ComputeGraph :=
  { nodes := [
      { op_desc := some
          { name := "first", type := "If", input_names := [], output_names := ["y", "z"],
            framework_original_type := none, parent_node_index := none,
            input_desc_parent_index := false, subgraph_instance_names := ["first_then"] },
        owner_graph := some 0, listed := true, in_data_anchors := [], out_data_anchors := 2 },
      { op_desc := some
          { name := "second", type := "If", input_names := [], output_names := ["y"],
            framework_original_type := none, parent_node_index := none,
            input_desc_parent_index := false, subgraph_instance_names := ["second_then"] },
        owner_graph := some 0, listed := true, in_data_anchors := [], out_data_anchors := 1 },
      { op_desc := some (plainOpDesc "a" "Const" [] ["y"]), owner_graph := some 1,
        listed := true, in_data_anchors := [], out_data_anchors := 1 },
      { op_desc := some (plainOpDesc "b" "Const" [] ["y"]), owner_graph := some 1,
        listed := true, in_data_anchors := [], out_data_anchors := 1 },
      { op_desc := some
          { name := "out", type := "NetOutput", input_names := ["x", "y"], output_names := [],
            framework_original_type := none, parent_node_index := none,
            input_desc_parent_index := true, subgraph_instance_names := [] },
        owner_graph := some 1, listed := true, in_data_anchors := [some ⟨2, 0⟩, some ⟨3, 0⟩],
        out_data_anchors := 0 },
      { op_desc := some (plainOpDesc "c" "Const" [] ["y"]), owner_graph := some 2,
        listed := true, in_data_anchors := [], out_data_anchors := 1 },
      { op_desc := some
          { name := "out", type := "NetOutput", input_names := ["x"], output_names := [],
            framework_original_type := none, parent_node_index := none,
            input_desc_parent_index := true, subgraph_instance_names := [] },
        owner_graph := some 2, listed := true, in_data_anchors := [some ⟨5, 0⟩],
        out_data_anchors := 0 }],
    graphs := [⟨"root", none⟩, ⟨"first_then", some 0⟩, ⟨"second_then", some 1⟩] }

/-- The pass state on `clashExampleGraph` with a cleared registry. -/
def clashExampleState : PassState :=
  { graph := clashExampleGraph, node_rwtype_map_ := [], identity_num := 0 }

/-- A root graph without subgraphs in which an HcomAllReduce node with an
unlinked input comes before an HcomAllReduce node whose two inputs are fed by
the same output anchor. Nodes: 0 x, 1 first, 2 second. -/
def abortExampleGraph : ComputeGraph :=
  { nodes := [
      { op_desc := some (plainOpDesc "x" "Data" [] ["y"]), owner_graph := some 0,
        listed := true, in_data_anchors := [], out_data_anchors := 1 },
      { op_desc := some (plainOpDesc "first" "HcomAllReduce" ["x0"] ["y0"]),
        owner_graph := some 0, listed := true, in_data_anchors := [none],
        out_data_anchors := 1 },
      { op_desc := some (plainOpDesc "second" "HcomAllReduce" ["x0", "x1"] ["y0", "y1"]),
        owner_graph := some 0, listed := true,
        in_data_anchors := [some ⟨0, 0⟩, some ⟨0, 0⟩], out_data_anchors := 2 }],
    graphs := [⟨"root", none⟩] }

/-- The pass state before the run on `abortExampleGraph`. -/
def abortExampleState : PassState :=
  { graph := abortExampleGraph, node_rwtype_map_ := [], identity_num := 0 }

/-- Whether `MarkRWTypeForAllSubgraph` marks subgraph `gi`: the subgraph has a
parent node and that node is not a While node. -/
def ComputeGraph.isMarked (g : ComputeGraph) (gi : Nat) : Bool :=
  match g.GetParentNode gi with
  | some parent_node => decide (g.GetType parent_node ≠ WHILE)
  | none => false

/-- Whether the loop of `HandleMemoryRWConflict` over all nodes handles node
`n`: the node is not in the subgraph of a While node and is not a Data or
NetOutput node that carries a parent node index. -/
def ComputeGraph.isWalked (g : ComputeGraph) (n : Nat) : Bool :=
  let parent_node : Option Nat :=
    match g.GetOwnerComputeGraph n with
    | some gi => g.GetParentNode gi
    | none => none
  let in_while : Bool :=
    match parent_node with
    | some p => decide (g.GetType p ∈ kWhileOpTypes)
    | none => false
  let has_parent_index : Bool :=
    match g.GetOpDesc n with
    | some d => d.parent_node_index.isSome
    | none => false
  !in_while && !(decide (g.GetType n = DATA) && has_parent_index) &&
    !(decide (g.GetType n = NETOUTPUT) && has_parent_index)

/-- The registry that `MarkRWTypeForAllSubgraph` leaves when it is run on the
graph from the cleared registry, as the driver runs it. -/
def markedRegistry (s : PassState) : List (String × NodeInputOutputRWType) :=
  (MarkRWTypeForAllSubgraph s.graph.GetAllSubgraphs
    { s with node_rwtype_map_ := [] }).2.node_rwtype_map_

/-- Nothing to do for `HandleAllreduceDuplicateInput`: every HcomAllReduce node
directly in the root graph has its inputs linked to pairwise distinct output
anchors. -/
def allreduceSettled (g : ComputeGraph) : Prop :=
  ∀ n ∈ g.GetDirectNode 0, g.GetType n = HCOMALLREDUCE →
    (∀ a ∈ g.GetAllInDataAnchors n, (g.GetPeerOutAnchor a).isSome = true) ∧
      (g.inputPeers n).Nodup

instance (g : ComputeGraph) : Decidable (allreduceSettled g) := by
  unfold allreduceSettled
  infer_instance

/-- Nothing to insert for `MarkRWTypeForAllSubgraph`, the types being those
under registry `reg`: in every subgraph that is marked every node has a
descriptor and every input of a NetOutput node is linked to an output that is
not Writeable. -/
def exitsSettled (g : ComputeGraph) (reg : List (String × NodeInputOutputRWType)) : Prop :=
  ∀ gi ∈ g.GetAllSubgraphs, g.isMarked gi = true → ∀ n ∈ g.GetDirectNode gi,
    (g.GetOpDesc n).isSome = true ∧
    (g.GetType n = NETOUTPUT → ∀ a ∈ g.GetAllInDataAnchors n,
      (g.GetPeerOutAnchor a).isSome = true ∧
      ∀ p ∈ g.GetPeerOutAnchor a, GetOutputRWTypeByIndex g reg p.node p.idx ≠ .kWriteable)

instance (g : ComputeGraph) (reg : List (String × NodeInputOutputRWType)) :
    Decidable (exitsSettled g reg) := by
  unfold exitsSettled
  infer_instance

/-- Nothing to do at node `n` for the loop of `HandleMemoryRWConflict`, the
types being those under registry `reg`: the node has a descriptor; if it is
an Identity or a ReadVariableOp it has one input and one output anchor, as
these ops have, at most one consumer, so that `SplitIdentity` leaves it, and
not the condition under which `RemoveNoUseIdentity` removes it; and none of
its outgoing data edges has the conflict result InsertIdentity. -/
def nodeSettled (g : ComputeGraph) (reg : List (String × NodeInputOutputRWType))
    (n : Nat) : Prop :=
  (g.GetOpDesc n).isSome = true ∧
  (g.isPassThrough n = true →
    g.inAnchorNum n = 1 ∧ g.outAnchorNum n = 1 ∧
    g.GetPeerInDataNodesSize ⟨n, 0⟩ ≤ 1 ∧ ¬ removalConditionSpec g reg n) ∧
  ∀ o ∈ g.GetAllOutDataAnchors n, ∀ a ∈ g.GetPeerInDataAnchors o,
    edgeConflict g reg o a ≠ .INSERT_IDENTITY

instance (g : ComputeGraph) (reg : List (String × NodeInputOutputRWType)) (n : Nat) :
    Decidable (nodeSettled g reg n) := by
  unfold nodeSettled
  infer_instance

/-- A resolved graph, one on which the driver finds nothing to do, the types
being those that marking its subgraphs records: without subgraphs the
HcomAllReduce nodes are settled; with subgraphs the exits of the subgraphs
are settled and so is every node that the driver walks. -/
def resolved (s : PassState) : Prop :=
  (s.graph.GetAllSubgraphs = [] → allreduceSettled s.graph) ∧
  (s.graph.GetAllSubgraphs ≠ [] →
    exitsSettled s.graph (markedRegistry s) ∧
    ∀ n ∈ s.graph.GetAllNodes, s.graph.isWalked n = true →
      nodeSettled s.graph (markedRegistry s) n)

instance (s : PassState) : Decidable (resolved s) := by
  unfold resolved
  infer_instance

/-- A root graph on which one run of the driver marks, inserts, removes and
splits. A Data node `x` feeds an HcomAllReduce and a Relu; the Relu feeds an
Identity that feeds a second Relu; a Data node `y` feeds an Identity that
feeds an HcomAllReduce and a Relu; a conditional node has a branch subgraph in
which a Variable feeds the NetOutput. Nodes: 0 x, 1 ar, 2 relu, 3 id, 4 relu2,
5 y, 6 id2, 7 ar2, 8 relu3, 9 cond, 10 var, 11 out. -/
def mixedExampleGraph : ComputeGraph :=
  { nodes := [
      { op_desc := some (plainOpDesc "x" "Data" [] ["y"]), owner_graph := some 0,
        listed := true, in_data_anchors := [], out_data_anchors := 1 },
      { op_desc := some (plainOpDesc "ar" "HcomAllReduce" ["x"] ["y"]), owner_graph := some 0,
        listed := true, in_data_anchors := [some ⟨0, 0⟩], out_data_anchors := 1 },
      { op_desc := some (plainOpDesc "relu" "Relu" ["x"] ["y"]), owner_graph := some 0,
        listed := true, in_data_anchors := [some ⟨0, 0⟩], out_data_anchors := 1 },
      { op_desc := some (plainOpDesc "id" "Identity" ["x"] ["y"]), owner_graph := some 0,
        listed := true, in_data_anchors := [some ⟨2, 0⟩], out_data_anchors := 1 },
      { op_desc := some (plainOpDesc "relu2" "Relu" ["x"] ["y"]), owner_graph := some 0,
        listed := true, in_data_anchors := [some ⟨3, 0⟩], out_data_anchors := 1 },
      { op_desc := some (plainOpDesc "y" "Data" [] ["y"]), owner_graph := some 0,
        listed := true, in_data_anchors := [], out_data_anchors := 1 },
      { op_desc := some (plainOpDesc "id2" "Identity" ["x"] ["y"]), owner_graph := some 0,
        listed := true, in_data_anchors := [some ⟨5, 0⟩], out_data_anchors := 1 },
      { op_desc := some (plainOpDesc "ar2" "HcomAllReduce" ["x"] ["y"]), owner_graph := some 0,
        listed := true, in_data_anchors := [some ⟨6, 0⟩], out_data_anchors := 1 },
      { op_desc := some (plainOpDesc "relu3" "Relu" ["x"] ["y"]), owner_graph := some 0,
        listed := true, in_data_anchors := [some ⟨6, 0⟩], out_data_anchors := 1 },
      { op_desc := some
          { name := "cond", type := "If", input_names := [], output_names := ["y"],
            framework_original_type := none, parent_node_index := none,
            input_desc_parent_index := false, subgraph_instance_names := ["then"] },
        owner_graph := some 0, listed := true, in_data_anchors := [], out_data_anchors := 1 },
      { op_desc := some (plainOpDesc "var" "Variable" [] ["y"]), owner_graph := some 1,
        listed := true, in_data_anchors := [], out_data_anchors := 1 },
      { op_desc := some
          { name := "out", type := "NetOutput", input_names := ["x"], output_names := [],
            framework_original_type := none, parent_node_index := none,
            input_desc_parent_index := true, subgraph_instance_names := [] },
        owner_graph := some 1, listed := true, in_data_anchors := [some ⟨10, 0⟩],
        out_data_anchors := 0 }],
    graphs := [⟨"root", none⟩, ⟨"then", some 9⟩] }

/-- The pass state before the first run on `mixedExampleGraph`. -/
def mixedExampleState : PassState :=
  { graph := mixedExampleGraph, node_rwtype_map_ := [], identity_num := 0 }

/-- Every Identity or ReadVariableOp node has one input anchor, as the
definitions of these ops prescribe, and is not fed by an output of its own. -/
def ComputeGraph.passThroughShaped (g : ComputeGraph) : Bool :=
  (List.range g.nodes.length).all (fun n =>
    !g.isPassThrough n ||
      (decide (g.inAnchorNum n = 1) &&
        match g.GetPeerOutAnchor ⟨n, 0⟩ with
        | some p => decide (p.node ≠ n)
        | none => true))

/-- The graph `g'` has at least the nodes of `g` in its arena and lists no
node of `g` that `g` does not list. -/
def ComputeGraph.noLarger (g g' : ComputeGraph) : Prop :=
  g.nodes.length ≤ g'.nodes.length ∧
    ∀ n, n < g.nodes.length → g'.isListed n = true → g.isListed n = true

/-- The graph `g'` has as many nodes in its arena as `g` and lists the same
ones. -/
def ComputeGraph.sameNodes (g g' : ComputeGraph) : Prop :=
  g'.nodes.length = g.nodes.length ∧
    ∀ n, n < g.nodes.length → g'.isListed n = g.isListed n

/-! ## The conflict table -/

/-- Behind the guard of `GetConflictResultBetweenNode` both indices are inside
the table, so the lookup never leaves it. -/
theorem table_index_in_range (o : OutputRWType) (i : InputRWType)
    (ho : o ≠ .kInvalidRWType) (hi : i ≠ .kInvalidRWType) :
    ∃ row, output_2_input_rwtype[o.toInt.toNat]? = some row ∧
      ∃ r, row[i.toInt.toNat]? = some r ∧ GetConflictResultBetweenNode o i = r := by
  cases o <;> cases i <;> first | contradiction | exact ⟨_, rfl, _, rfl, rfl⟩

/-- C3, as stated, fails: a ReadOnly output feeding a Writeable input, both
valid types, is answered with WrongGraph. -/
theorem C3_counterexample :
    OutputRWType.kReadOnly ≠ .kInvalidRWType ∧ InputRWType.kWriteable ≠ .kInvalidRWType ∧
      GetConflictResultBetweenNode .kReadOnly .kWriteable = .WRONG_GRAPH := by
  decide

/-- C3, amended: for valid types on both sides the table answers WrongGraph
exactly when a Writeable input is fed by a ReadOnly or SoftRead output; every
other valid pair gets DoNothing or InsertIdentity. -/
theorem C3_conflict_table_valid_pairs (o : OutputRWType) (i : InputRWType)
    (ho : o ≠ .kInvalidRWType) (hi : i ≠ .kInvalidRWType) :
    (GetConflictResultBetweenNode o i = .WRONG_GRAPH ↔
      (i = .kWriteable ∧ (o = .kReadOnly ∨ o = .kSoftRead))) ∧
    (¬ (i = .kWriteable ∧ (o = .kReadOnly ∨ o = .kSoftRead)) →
      (GetConflictResultBetweenNode o i = .DO_NOTHING ∨
        GetConflictResultBetweenNode o i = .INSERT_IDENTITY)) := by
  cases o <;> cases i <;> first | contradiction | decide

/-- Witness of the amended C3 at a SoftRead output and a ScopeWriteable input. -/
theorem C3_conflict_table_valid_pairs_witness :
    (GetConflictResultBetweenNode .kSoftRead .kScopeWriteable = .WRONG_GRAPH ↔
      (InputRWType.kScopeWriteable = .kWriteable ∧
        (OutputRWType.kSoftRead = .kReadOnly ∨ OutputRWType.kSoftRead = .kSoftRead))) ∧
    (¬ (InputRWType.kScopeWriteable = .kWriteable ∧
        (OutputRWType.kSoftRead = .kReadOnly ∨ OutputRWType.kSoftRead = .kSoftRead)) →
      (GetConflictResultBetweenNode .kSoftRead .kScopeWriteable = .DO_NOTHING ∨
        GetConflictResultBetweenNode .kSoftRead .kScopeWriteable = .INSERT_IDENTITY)) :=
  C3_conflict_table_valid_pairs .kSoftRead .kScopeWriteable (by decide) (by decide)

/-- C4: an Invalid type on either side makes `GetConflictResultBetweenNode`
answer WrongGraph, whatever the other argument is. -/
theorem C4_invalid_is_wrong_graph (o : OutputRWType) (i : InputRWType)
    (h : o = .kInvalidRWType ∨ i = .kInvalidRWType) :
    GetConflictResultBetweenNode o i = .WRONG_GRAPH := by
  unfold GetConflictResultBetweenNode
  rw [if_pos h]

/-- Witness of C4 at an Invalid output and a ReadOnly input. -/
theorem C4_invalid_is_wrong_graph_witness :
    GetConflictResultBetweenNode .kInvalidRWType .kReadOnly = .WRONG_GRAPH :=
  C4_invalid_is_wrong_graph .kInvalidRWType .kReadOnly (Or.inl rfl)

/-- C5, as stated, fails: a Writeable output feeding a ReadOnly input does not
get InsertIdentity. -/
theorem C5_counterexample :
    GetConflictResultBetweenNode .kWriteable .kReadOnly ≠ .INSERT_IDENTITY := by
  decide

/-- C5, amended: a Writeable output feeding a ReadOnly input is left alone
(DoNothing); the isolating copy is asked for when a Writeable output feeds a
ScopeWriteable input. -/
theorem C5_writeable_output_read_only_input :
    GetConflictResultBetweenNode .kWriteable .kReadOnly = .DO_NOTHING ∧
      GetConflictResultBetweenNode .kWriteable .kScopeWriteable = .INSERT_IDENTITY := by
  decide

/-- C6, as stated, fails: a ReadOnly output feeding a ScopeWriteable input
requires an insertion. -/
theorem C6_counterexample :
    GetConflictResultBetweenNode .kReadOnly .kScopeWriteable = .INSERT_IDENTITY := by
  decide

/-- C6, amended: a SoftRead output never requires insertion, and a ReadOnly
output requires insertion exactly when the input is ScopeWriteable. -/
theorem C6_soft_read_never_inserts :
    (∀ i : InputRWType, GetConflictResultBetweenNode .kSoftRead i ≠ .INSERT_IDENTITY) ∧
    (∀ i : InputRWType,
      GetConflictResultBetweenNode .kReadOnly i = .INSERT_IDENTITY ↔ i = .kScopeWriteable) := by
  constructor <;> intro i <;> cases i <;> decide

/-- C7, as stated, fails: a Writeable output feeding a Writeable input is not
answered with WrongGraph. -/
theorem C7_counterexample :
    GetConflictResultBetweenNode .kWriteable .kWriteable ≠ .WRONG_GRAPH := by
  decide

/-- C7, amended: a Writeable output feeding a Writeable input is left alone
(DoNothing); a Writeable input is an invalid graph when it is fed by a ReadOnly
or a SoftRead output. -/
theorem C7_writeable_output_writeable_input :
    GetConflictResultBetweenNode .kWriteable .kWriteable = .DO_NOTHING ∧
      GetConflictResultBetweenNode .kReadOnly .kWriteable = .WRONG_GRAPH ∧
      GetConflictResultBetweenNode .kSoftRead .kWriteable = .WRONG_GRAPH := by
  decide

/-! ## Aggregation of input types -/

/-- C8: with every type converted by `static_cast<int>` and collected in a
set, the aggregate of {ReadOnly} is ReadOnly and the aggregate of
{ReadOnly, ScopeWriteable} is ScopeWriteable. -/
theorem C8_aggregate_read_only_scope_writeable :
    GetInputRwTypeInConflict {InputRWType.kReadOnly.toInt} = .kReadOnly ∧
      GetInputRwTypeInConflict
        {InputRWType.kReadOnly.toInt, InputRWType.kScopeWriteable.toInt} = .kScopeWriteable := by
  decide

/-- C9, on the code: the enumerator Writeable converts to 1, not 3, so the
aggregate of {Writeable} and the aggregate of {ReadOnly, Writeable} both have
sum 1 and come out Invalid instead of Writeable. -/
theorem C9_aggregate_writeable_is_invalid :
    InputRWType.kWriteable.toInt = 1 ∧
      GetInputRwTypeInConflict {InputRWType.kWriteable.toInt} = .kInvalidRWType ∧
      GetInputRwTypeInConflict
        {InputRWType.kReadOnly.toInt, InputRWType.kWriteable.toInt} = .kInvalidRWType := by
  decide

/-- C10, on the code: the aggregate of {Writeable, ScopeWriteable} has sum
1 + 2 = 3 and comes out Writeable instead of Invalid. -/
theorem C10_aggregate_writeable_scope_writeable_is_writeable :
    GetInputRwTypeInConflict
      {InputRWType.kWriteable.toInt, InputRWType.kScopeWriteable.toInt} = .kWriteable := by
  decide

/-! ## The rewriting driver -/

open ComputeGraph

namespace ComputeGraph

theorem peer_setPeer (g : ComputeGraph) (a b : InDataAnchor) (v : Option OutDataAnchor) :
    (g.setPeer a v).GetPeerOutAnchor b =
      if b = a ∧ g.hasInAnchor a = true then v else g.GetPeerOutAnchor b := by
  obtain ⟨an, ai⟩ := a
  obtain ⟨bn, bi⟩ := b
  simp only [GetPeerOutAnchor, setPeer, hasInAnchor, inAnchorNum, List.getElem?_modify,
    InDataAnchor.mk.injEq, decide_eq_true_eq]
  cases hnd : g.nodes[bn]? with
  | none =>
    simp only [Option.map_eq_map, Option.map_none']
    split
    · rename_i h
      obtain ⟨⟨h1, _⟩, h3⟩ := h
      subst h1
      simp [hnd] at h3
    · rfl
  | some nd =>
    simp only [Option.map_eq_map, Option.map_some']
    by_cases hn : an = bn
    · subst hn
      simp only [if_true, hnd, true_and, List.getElem?_set]
      by_cases hi : ai = bi
      · subst hi
        by_cases hlt : ai < nd.in_data_anchors.length
        · simp [hlt]
        · simp [hlt]
          have : nd.in_data_anchors[ai]? = none := List.getElem?_eq_none (by omega)
          simp [this]
      · have hi' : ¬ bi = ai := fun h => hi h.symm
        simp [hi, hi']
    · have hn' : ¬ bn = an := fun h => hn h.symm
      simp [hn, hn']

end ComputeGraph

namespace ComputeGraph

theorem length_setPeer (g : ComputeGraph) (a : InDataAnchor) (v : Option OutDataAnchor) :
    (g.setPeer a v).nodes.length = g.nodes.length := by
  simp [setPeer]

theorem graphs_setPeer (g : ComputeGraph) (a : InDataAnchor) (v : Option OutDataAnchor) :
    (g.setPeer a v).graphs = g.graphs := rfl

theorem shape_setPeer (g : ComputeGraph) (a : InDataAnchor) (v : Option OutDataAnchor) (n : Nat) :
    (g.setPeer a v).shape n = g.shape n := by
  simp only [shape, setPeer, List.getElem?_modify]
  cases g.nodes[n]? with
  | none => rfl
  | some nd =>
    by_cases h : a.node = n <;> simp [h]

theorem isListed_setPeer (g : ComputeGraph) (a : InDataAnchor) (v : Option OutDataAnchor) (n : Nat) :
    (g.setPeer a v).isListed n = g.isListed n := by
  simp only [isListed, setPeer, List.getElem?_modify]
  cases g.nodes[n]? with
  | none => rfl
  | some nd =>
    by_cases h : a.node = n <;> simp [h]

theorem length_unlist (g : ComputeGraph) (m : Nat) : (g.unlist m).nodes.length = g.nodes.length := by
  simp [unlist]

theorem graphs_unlist (g : ComputeGraph) (m : Nat) : (g.unlist m).graphs = g.graphs := rfl

theorem shape_unlist (g : ComputeGraph) (m n : Nat) : (g.unlist m).shape n = g.shape n := by
  simp only [shape, unlist, List.getElem?_modify]
  cases g.nodes[n]? with
  | none => rfl
  | some nd =>
    by_cases h : m = n <;> simp [h]

theorem peer_unlist (g : ComputeGraph) (m : Nat) (b : InDataAnchor) :
    (g.unlist m).GetPeerOutAnchor b = g.GetPeerOutAnchor b := by
  simp only [GetPeerOutAnchor, unlist, List.getElem?_modify]
  cases g.nodes[b.node]? with
  | none => rfl
  | some nd =>
    by_cases h : m = b.node <;> simp [h]

theorem isListed_unlist (g : ComputeGraph) (m n : Nat) :
    (g.unlist m).isListed n = (if n = m then false else g.isListed n) := by
  simp only [isListed, unlist, List.getElem?_modify]
  cases g.nodes[n]? with
  | none => simp
  | some nd =>
    by_cases h : m = n
    · subst h; simp
    · have h' : ¬ n = m := fun e => h e.symm
      simp [h, h']

theorem length_AddNode (g : ComputeGraph) (nd : Node) :
    (g.AddNode nd).nodes.length = g.nodes.length + 1 := by
  simp [AddNode]

theorem graphs_AddNode (g : ComputeGraph) (nd : Node) : (g.AddNode nd).graphs = g.graphs := rfl

theorem nodes_AddNode_old (g : ComputeGraph) (nd : Node) (n : Nat) (h : n < g.nodes.length) :
    (g.AddNode nd).nodes[n]? = g.nodes[n]? := by
  simp [AddNode, List.getElem?_append_left h]

theorem nodes_AddNode_new (g : ComputeGraph) (nd : Node) :
    (g.AddNode nd).nodes[g.nodes.length]? = some nd := by
  simp [AddNode]

theorem shape_AddNode_old (g : ComputeGraph) (nd : Node) (n : Nat) (h : n < g.nodes.length) :
    (g.AddNode nd).shape n = g.shape n := by
  simp only [shape, nodes_AddNode_old g nd n h]

theorem isListed_AddNode_old (g : ComputeGraph) (nd : Node) (n : Nat) (h : n < g.nodes.length) :
    (g.AddNode nd).isListed n = g.isListed n := by
  simp only [isListed, nodes_AddNode_old g nd n h]

theorem peer_AddNode_old (g : ComputeGraph) (nd : Node) (b : InDataAnchor)
    (h : b.node < g.nodes.length) :
    (g.AddNode nd).GetPeerOutAnchor b = g.GetPeerOutAnchor b := by
  simp only [GetPeerOutAnchor, nodes_AddNode_old g nd b.node h]

theorem peer_eq_none_of_length_le (g : ComputeGraph) (b : InDataAnchor)
    (h : g.nodes.length ≤ b.node) : g.GetPeerOutAnchor b = none := by
  simp only [GetPeerOutAnchor, List.getElem?_eq_none h]

theorem shape_eq_none_of_length_le (g : ComputeGraph) (n : Nat)
    (h : g.nodes.length ≤ n) : g.shape n = none := by
  simp only [shape, List.getElem?_eq_none h]

/-! accessors are functions of the shape -/

theorem GetOpDesc_of_shape {g g' : ComputeGraph} {n : Nat} (h : g'.shape n = g.shape n) :
    g'.GetOpDesc n = g.GetOpDesc n := by
  simp only [shape] at h
  simp only [GetOpDesc]
  cases h1 : g.nodes[n]? <;> cases h2 : g'.nodes[n]? <;> simp_all

theorem outAnchorNum_of_shape {g g' : ComputeGraph} {n : Nat} (h : g'.shape n = g.shape n) :
    g'.outAnchorNum n = g.outAnchorNum n := by
  simp only [shape] at h
  simp only [outAnchorNum]
  cases h1 : g.nodes[n]? <;> cases h2 : g'.nodes[n]? <;> simp_all

theorem inAnchorNum_of_shape {g g' : ComputeGraph} {n : Nat} (h : g'.shape n = g.shape n) :
    g'.inAnchorNum n = g.inAnchorNum n := by
  simp only [shape] at h
  simp only [inAnchorNum]
  cases h1 : g.nodes[n]? <;> cases h2 : g'.nodes[n]? <;> simp_all

theorem GetOwnerComputeGraph_of_shape {g g' : ComputeGraph} {n : Nat}
    (h : g'.shape n = g.shape n) :
    g'.GetOwnerComputeGraph n = g.GetOwnerComputeGraph n := by
  simp only [shape] at h
  simp only [GetOwnerComputeGraph]
  cases h1 : g.nodes[n]? <;> cases h2 : g'.nodes[n]? <;> simp_all

theorem GetType_of_shape {g g' : ComputeGraph} {n : Nat} (h : g'.shape n = g.shape n) :
    g'.GetType n = g.GetType n := by
  simp only [GetType, GetOpDesc_of_shape h]

theorem isPassThrough_of_shape {g g' : ComputeGraph} {n : Nat} (h : g'.shape n = g.shape n) :
    g'.isPassThrough n = g.isPassThrough n := by
  simp only [isPassThrough, GetType_of_shape h]

theorem hasOutAnchor_of_shape {g g' : ComputeGraph} {o : OutDataAnchor}
    (h : g'.shape o.node = g.shape o.node) : g'.hasOutAnchor o = g.hasOutAnchor o := by
  simp only [hasOutAnchor, outAnchorNum_of_shape h]

theorem hasInAnchor_of_shape {g g' : ComputeGraph} {a : InDataAnchor}
    (h : g'.shape a.node = g.shape a.node) : g'.hasInAnchor a = g.hasInAnchor a := by
  simp only [hasInAnchor, inAnchorNum_of_shape h]

theorem lt_length_of_shape_isSome {g : ComputeGraph} {n : Nat} (h : (g.shape n).isSome) :
    n < g.nodes.length := by
  by_contra hlt
  rw [shape_eq_none_of_length_le g n (by omega)] at h
  simp at h

theorem lt_length_of_hasOutAnchor {g : ComputeGraph} {o : OutDataAnchor}
    (h : g.hasOutAnchor o = true) : o.node < g.nodes.length := by
  by_contra hlt
  simp only [hasOutAnchor, outAnchorNum, List.getElem?_eq_none (Nat.le_of_not_lt hlt)] at h
  simp at h

theorem hasInAnchor_of_peer {g : ComputeGraph} {a : InDataAnchor} {o : OutDataAnchor}
    (h : g.GetPeerOutAnchor a = some o) : g.hasInAnchor a = true := by
  simp only [GetPeerOutAnchor] at h
  simp only [hasInAnchor, inAnchorNum, decide_eq_true_eq]
  rcases hnd : g.nodes[a.node]? with _ | nd
  · rw [hnd] at h
    simp at h
  · rw [hnd] at h
    simp only at h ⊢
    by_contra hlt
    rw [List.getElem?_eq_none (Nat.le_of_not_lt hlt)] at h
    simp at h

theorem lt_length_of_hasInAnchor {g : ComputeGraph} {a : InDataAnchor}
    (h : g.hasInAnchor a = true) : a.node < g.nodes.length := by
  by_contra hlt
  simp only [hasInAnchor, inAnchorNum, List.getElem?_eq_none (Nat.le_of_not_lt hlt)] at h
  simp at h

theorem mem_allInDataAnchors (g : ComputeGraph) (a : InDataAnchor) :
    a ∈ g.allInDataAnchors ↔ g.hasInAnchor a = true := by
  obtain ⟨n, j⟩ := a
  simp only [allInDataAnchors, GetAllInDataAnchors, List.mem_flatMap, List.mem_range, List.mem_map,
    InDataAnchor.mk.injEq, hasInAnchor, decide_eq_true_eq]
  constructor
  · rintro ⟨m, _, k, hk, rfl, rfl⟩
    exact hk
  · intro h
    refine ⟨n, ?_, j, h, rfl, rfl⟩
    exact lt_length_of_hasInAnchor (a := ⟨n, j⟩) (by simpa [hasInAnchor] using h)

theorem mem_GetPeerInDataAnchors (g : ComputeGraph) (o : OutDataAnchor) (a : InDataAnchor) :
    a ∈ g.GetPeerInDataAnchors o ↔ g.GetPeerOutAnchor a = some o := by
  simp only [GetPeerInDataAnchors, List.mem_filter, mem_allInDataAnchors, decide_eq_true_eq]
  constructor
  · exact fun h => h.2
  · exact fun h => ⟨hasInAnchor_of_peer h, h⟩

theorem linksValid_iff (g : ComputeGraph) :
    g.linksValid = true ↔ ∀ a o, g.GetPeerOutAnchor a = some o → g.hasOutAnchor o = true := by
  simp only [linksValid, List.all_eq_true, mem_allInDataAnchors]
  constructor
  · intro h a o hp
    have := h a (hasInAnchor_of_peer hp)
    simpa [hp] using this
  · intro h a _
    cases hp : g.GetPeerOutAnchor a with
    | none => rfl
    | some o => exact h a o hp

theorem passThroughSingleOutput_iff (g : ComputeGraph) :
    g.passThroughSingleOutput = true ↔
      ∀ n, g.isPassThrough n = true → g.outAnchorNum n ≤ 1 := by
  simp only [passThroughSingleOutput, List.all_eq_true, List.mem_range, Bool.or_eq_true,
    Bool.not_eq_true', decide_eq_true_eq]
  constructor
  · intro h n hpt
    by_cases hn : n < g.nodes.length
    · rcases h n hn with h1 | h1
      · rw [h1] at hpt; cases hpt
      · exact h1
    · simp only [outAnchorNum, List.getElem?_eq_none (Nat.le_of_not_lt hn)]
      omega
  · intro h n _
    cases hpt : g.isPassThrough n with
    | false => exact Or.inl rfl
    | true => exact Or.inr (h n hpt)

end ComputeGraph

theorem forEachM_rel {α σ : Type} (f : α → σ → Status × σ) (Rel : σ → σ → Prop)
    (hrefl : ∀ s, Rel s s) (htrans : ∀ a b c, Rel a b → Rel b c → Rel a c) :
    ∀ (xs : List α) (s s' : σ),
      (∀ x ∈ xs, ∀ t t', f x t = (.SUCCESS, t') → Rel t t') →
      forEachM f xs s = (.SUCCESS, s') → Rel s s' := by
  intro xs
  induction xs with
  | nil =>
    intro s s' _ h
    simp only [forEachM, Prod.mk.injEq, true_and] at h
    subst h
    exact hrefl s
  | cons x xs ih =>
    intro s s' hstep h
    simp only [forEachM] at h
    by_cases hx : (f x s).1 = .SUCCESS
    · rw [if_pos hx] at h
      have h1 : f x s = (.SUCCESS, (f x s).2) := by
        rw [← hx]
      exact htrans _ _ _ (hstep x (List.mem_cons_self _ _) s _ h1)
        (ih _ _ (fun y hy => hstep y (List.mem_cons_of_mem _ hy)) h)
    · rw [if_neg hx] at h
      rw [h] at hx
      exact absurd rfl hx

/-! abstract lemmas on Src -/

section SrcLemmas
variable (pt pt' : Nat → Bool) (peer peer' : InDataAnchor → Option OutDataAnchor)

theorem Src_through_iff (o q : OutDataAnchor) (h : pt o.node = true) :
    Src pt peer o q ↔ ∃ o2, peer ⟨o.node, 0⟩ = some o2 ∧ Src pt peer o2 q := by
  constructor
  · intro hs
    cases hs with
    | here _ h0 => rw [h] at h0; cases h0
    | through _ o2 _ _ hp hs2 => exact ⟨o2, hp, hs2⟩
  · rintro ⟨o2, hp, hs2⟩
    exact Src.through o o2 q h hp hs2

/-- Contracting one edge: anchor `c`, fed by pass-through node `i`, is linked to
the producer of input 0 of `i` instead. -/
theorem Src_contract_iff (i k : Nat) (c : InDataAnchor)
    (hc : peer c = some ⟨i, k⟩) (hpt : pt i = true)
    (hother : ∀ a, a ≠ c → peer' a = peer a) (hc' : peer' c = peer ⟨i, 0⟩) :
    ∀ o q, Src pt peer o q ↔ Src pt peer' o q := by
  intro o q
  constructor
  · intro h
    induction h with
    | here o h0 => exact Src.here o h0
    | through o o2 q hpo hp _ ih =>
      by_cases hoc : (⟨o.node, 0⟩ : InDataAnchor) = c
      · -- o2 = ⟨i, k⟩
        rw [hoc, hc] at hp
        cases hp
        -- ih : Src pt peer' ⟨i,k⟩ q
        have ih' := (Src_through_iff pt peer' ⟨i, k⟩ q hpt).1 ih
        obtain ⟨o3, hp3, hs3⟩ := ih'
        by_cases hic : (⟨i, 0⟩ : InDataAnchor) = c
        · -- self loop: peer' c = peer c
          have : peer' c = peer c := by rw [hc', hic]
          refine Src.through o _ q hpo (by rw [hoc, this, hc]) ih
        · have h3 : peer ⟨i, 0⟩ = some o3 := by
            rw [← hother _ hic]; exact hp3
          exact Src.through o o3 q hpo (by rw [hoc, hc', h3]) hs3
      · exact Src.through o o2 q hpo (by rw [hother _ hoc]; exact hp) ih
  · intro h
    induction h with
    | here o h0 => exact Src.here o h0
    | through o o2 q hpo hp _ ih =>
      by_cases hoc : (⟨o.node, 0⟩ : InDataAnchor) = c
      · rw [hoc, hc'] at hp
        have h1 : Src pt peer ⟨i, k⟩ q := Src.through ⟨i, k⟩ o2 q hpt hp ih
        exact Src.through o ⟨i, k⟩ q hpo (by rw [hoc]; exact hc) h1
      · exact Src.through o o2 q hpo (by rw [← hother _ hoc]; exact hp) ih

theorem ProducerOf_contract_iff (i k : Nat) (c : InDataAnchor)
    (hc : peer c = some ⟨i, k⟩) (hpt : pt i = true)
    (hother : ∀ a, a ≠ c → peer' a = peer a) (hc' : peer' c = peer ⟨i, 0⟩) :
    ∀ a q, ProducerOf pt peer a q ↔ ProducerOf pt peer' a q := by
  intro a q
  have hsrc := Src_contract_iff pt peer peer' i k c hc hpt hother hc'
  by_cases hac : a = c
  · subst hac
    simp only [ProducerOf, hc, hc', Option.some.injEq, exists_eq_left']
    rw [Src_through_iff pt peer ⟨i, k⟩ q hpt]
    constructor
    · rintro ⟨o2, hp, hs⟩
      exact ⟨o2, hp, (hsrc o2 q).1 hs⟩
    · rintro ⟨o2, hp, hs⟩
      exact ⟨o2, hp, (hsrc o2 q).2 hs⟩
  · simp only [ProducerOf, hother a hac]
    constructor
    · rintro ⟨o2, hp, hs⟩
      exact ⟨o2, hp, (hsrc o2 q).1 hs⟩
    · rintro ⟨o2, hp, hs⟩
      exact ⟨o2, hp, (hsrc o2 q).2 hs⟩

/-- Expanding one edge: a fresh pass-through node `N` is spliced onto the edge
into anchor `c`. -/
theorem Src_insert_forward (N : Nat) (c : InDataAnchor) (o0 : OutDataAnchor)
    (hfresh : ∀ a o, peer a = some o → o.node ≠ N)
    (hptN : pt' N = true) (hpt : ∀ n, n ≠ N → pt' n = pt n)
    (hN : peer' ⟨N, 0⟩ = some o0) (hc' : peer' c = some ⟨N, 0⟩) (hc : peer c = some o0)
    (hother : ∀ a, a ≠ c → a.node ≠ N → peer' a = peer a) :
    ∀ o q, Src pt peer o q → o.node ≠ N → Src pt' peer' o q := by
  intro o q h
  induction h with
  | here o h0 =>
    intro hoN
    exact Src.here o (by rw [hpt _ hoN]; exact h0)
  | through o o2 q hpo hp _ ih =>
    intro hoN
    have hpo' : pt' o.node = true := by rw [hpt _ hoN]; exact hpo
    have ho2 : o2.node ≠ N := hfresh _ _ hp
    by_cases hoc : (⟨o.node, 0⟩ : InDataAnchor) = c
    · rw [hoc, hc] at hp
      cases hp
      have h1 : Src pt' peer' ⟨N, 0⟩ q := Src.through ⟨N, 0⟩ o0 q hptN hN (ih ho2)
      exact Src.through o ⟨N, 0⟩ q hpo' (by rw [hoc]; exact hc') h1
    · exact Src.through o o2 q hpo' (by rw [hother _ hoc hoN]; exact hp) (ih ho2)

theorem Src_insert_backward (N : Nat) (c : InDataAnchor) (o0 : OutDataAnchor)
    (hfresh : ∀ a o, peer a = some o → o.node ≠ N)
    (hptN : pt' N = true) (hpt : ∀ n, n ≠ N → pt' n = pt n)
    (hN : peer' ⟨N, 0⟩ = some o0) (hc' : peer' c = some ⟨N, 0⟩) (hc : peer c = some o0)
    (hother : ∀ a, a ≠ c → a.node ≠ N → peer' a = peer a) :
    ∀ o q, Src pt' peer' o q →
      (o.node ≠ N → Src pt peer o q) ∧ (o.node = N → Src pt peer o0 q) := by
  intro o q h
  induction h with
  | here o h0 =>
    constructor
    · intro hoN
      exact Src.here o (by rw [← hpt _ hoN]; exact h0)
    · intro hoN
      rw [hoN, hptN] at h0
      cases h0
  | through o o2 q hpo hp _ ih =>
    have ho0 : o0.node ≠ N := hfresh _ _ hc
    constructor
    · intro hoN
      have hpo' : pt o.node = true := by rw [← hpt _ hoN]; exact hpo
      by_cases hoc : (⟨o.node, 0⟩ : InDataAnchor) = c
      · rw [hoc, hc'] at hp
        cases hp
        exact Src.through o o0 q hpo' (by rw [hoc]; exact hc) (ih.2 rfl)
      · have hp' : peer ⟨o.node, 0⟩ = some o2 := by
          rw [← hother _ hoc hoN]; exact hp
        exact Src.through o o2 q hpo' hp' (ih.1 (hfresh _ _ hp'))
    · intro hoN
      have h2 : o2 = o0 := by
        have : peer' ⟨o.node, 0⟩ = some o0 := by rw [hoN]; exact hN
        rw [this] at hp
        cases hp
        rfl
      subst h2
      exact ih.1 ho0

theorem ProducerOf_insert_iff (N : Nat) (c : InDataAnchor) (o0 : OutDataAnchor)
    (hfresh : ∀ a o, peer a = some o → o.node ≠ N)
    (hptN : pt' N = true) (hpt : ∀ n, n ≠ N → pt' n = pt n)
    (hN : peer' ⟨N, 0⟩ = some o0) (hc' : peer' c = some ⟨N, 0⟩) (hc : peer c = some o0)
    (hother : ∀ a, a ≠ c → a.node ≠ N → peer' a = peer a) :
    ∀ a q, a.node ≠ N → (ProducerOf pt peer a q ↔ ProducerOf pt' peer' a q) := by
  intro a q haN
  have hf := Src_insert_forward pt pt' peer peer' N c o0 hfresh hptN hpt hN hc' hc hother
  have hb := Src_insert_backward pt pt' peer peer' N c o0 hfresh hptN hpt hN hc' hc hother
  by_cases hac : a = c
  · subst hac
    simp only [ProducerOf, hc, hc', Option.some.injEq, exists_eq_left']
    constructor
    · intro hs
      exact Src.through ⟨N, 0⟩ o0 q hptN hN (hf o0 q hs (hfresh _ _ hc))
    · intro hs
      exact (hb _ q hs).2 rfl
  · simp only [ProducerOf, hother a hac haN]
    constructor
    · rintro ⟨o2, hp, hs⟩
      exact ⟨o2, hp, hf o2 q hs (hfresh _ _ hp)⟩
    · rintro ⟨o2, hp, hs⟩
      exact ⟨o2, hp, (hb o2 q hs).1 (hfresh _ _ hp)⟩

/-- Removing pass-through node `i`: every consumer of `i` is linked to the
producer of input 0 of `i`, and afterwards nothing outside `i` refers to it. -/
theorem Src_remove_forward (i : Nat) (hpt : pt i = true) (hpt' : ∀ n, n ≠ i → pt' n = pt n)
    (hcons : ∀ a o, a.node ≠ i → peer a = some o → o.node = i → peer' a = peer ⟨i, 0⟩)
    (hkeep : ∀ a o, a.node ≠ i → peer a = some o → o.node ≠ i → peer' a = some o)
    (hnone : ∀ a o k, a.node ≠ i → peer' a = some o → o ≠ ⟨i, k⟩) :
    ∀ o q, Src pt peer o q →
      (o.node ≠ i → Src pt' peer' o q) ∧
      (o.node = i → ∀ p, peer ⟨i, 0⟩ = some p → p.node ≠ i → Src pt' peer' p q) := by
  intro o q h
  induction h with
  | here o h0 =>
    constructor
    · intro hoi
      exact Src.here o (by rw [hpt' _ hoi]; exact h0)
    · intro hoi
      rw [hoi, hpt] at h0
      cases h0
  | through o o2 q hpo hp _ ih =>
    constructor
    · intro hoi
      have hpo' : pt' o.node = true := by rw [hpt' _ hoi]; exact hpo
      have hoi' : (⟨o.node, 0⟩ : InDataAnchor).node ≠ i := hoi
      by_cases ho2 : o2.node = i
      · have h1 := hcons _ _ hoi' hp ho2
        cases hpi : peer ⟨i, 0⟩ with
        | none =>
          -- then Src pt peer o2 q is impossible
          exfalso
          rename_i hs
          have := (Src_through_iff pt peer o2 q (by rw [ho2]; exact hpt)).1 hs
          obtain ⟨o3, hp3, _⟩ := this
          rw [ho2, hpi] at hp3
          cases hp3
        | some p =>
          rw [hpi] at h1
          have hpn : p.node ≠ i := by
            intro hpi'
            exact hnone _ p p.idx hoi' h1 (by cases p; simp_all)
          exact Src.through o p q hpo' h1 (ih.2 ho2 p hpi hpn)
      · exact Src.through o o2 q hpo' (hkeep _ _ hoi' hp ho2) (ih.1 ho2)
    · intro hoi p hpi hpn
      have : o2 = p := by
        rw [hoi, hpi] at hp
        cases hp
        rfl
      subst this
      exact ih.1 hpn

theorem Src_remove_backward (i : Nat) (hpt : pt i = true) (hpt' : ∀ n, n ≠ i → pt' n = pt n)
    (hcons : ∀ a o, a.node ≠ i → peer a = some o → o.node = i → peer' a = peer ⟨i, 0⟩)
    (hkeep : ∀ a o, a.node ≠ i → peer a = some o → o.node ≠ i → peer' a = some o)
    (hnil : ∀ a, a.node ≠ i → peer a = none → peer' a = none)
    (hnone : ∀ a o k, a.node ≠ i → peer' a = some o → o ≠ ⟨i, k⟩) :
    ∀ o q, Src pt' peer' o q → o.node ≠ i → Src pt peer o q := by
  intro o q h
  induction h with
  | here o h0 =>
    intro hoi
    exact Src.here o (by rw [← hpt' _ hoi]; exact h0)
  | through o o2 q hpo hp _ ih =>
    intro hoi
    have hpo' : pt o.node = true := by rw [← hpt' _ hoi]; exact hpo
    have hoi' : (⟨o.node, 0⟩ : InDataAnchor).node ≠ i := hoi
    have ho2 : o2.node ≠ i := by
      intro e
      exact hnone _ o2 o2.idx hoi' hp (by cases o2; simp_all)
    have hs2 := ih ho2
    cases hold : peer ⟨o.node, 0⟩ with
    | none =>
      rw [hnil _ hoi' hold] at hp
      cases hp
    | some o1 =>
      by_cases ho1 : o1.node = i
      · have h1 := hcons _ _ hoi' hold ho1
        rw [hp] at h1
        have : Src pt peer o1 q :=
          Src.through o1 o2 q (by rw [ho1]; exact hpt) (by rw [ho1]; exact h1.symm) hs2
        exact Src.through o o1 q hpo' hold this
      · have h1 := hkeep _ _ hoi' hold ho1
        rw [hp] at h1
        cases h1
        exact Src.through o o2 q hpo' hold hs2

theorem ProducerOf_remove_iff (i : Nat) (hpt : pt i = true) (hpt' : ∀ n, n ≠ i → pt' n = pt n)
    (hcons : ∀ a o, a.node ≠ i → peer a = some o → o.node = i → peer' a = peer ⟨i, 0⟩)
    (hkeep : ∀ a o, a.node ≠ i → peer a = some o → o.node ≠ i → peer' a = some o)
    (hnil : ∀ a, a.node ≠ i → peer a = none → peer' a = none)
    (hnone : ∀ a o k, a.node ≠ i → peer' a = some o → o ≠ ⟨i, k⟩) :
    ∀ a q, a.node ≠ i → (ProducerOf pt peer a q ↔ ProducerOf pt' peer' a q) := by
  intro a q hai
  have hf := Src_remove_forward pt pt' peer peer' i hpt hpt' hcons hkeep hnone
  have hb := Src_remove_backward pt pt' peer peer' i hpt hpt' hcons hkeep hnil hnone
  constructor
  · rintro ⟨o, hp, hs⟩
    by_cases hoi : o.node = i
    · have h1 := hcons _ _ hai hp hoi
      cases hpi : peer ⟨i, 0⟩ with
      | none =>
        exfalso
        have := (Src_through_iff pt peer o q (by rw [hoi]; exact hpt)).1 hs
        obtain ⟨o3, hp3, _⟩ := this
        rw [hoi, hpi] at hp3
        cases hp3
      | some p =>
        rw [hpi] at h1
        have hpn : p.node ≠ i := by
          intro hpi'
          exact hnone _ p p.idx hai h1 (by cases p; simp_all)
        exact ⟨p, h1, (hf o q hs).2 hoi p hpi hpn⟩
    · exact ⟨o, hkeep _ _ hai hp hoi, (hf o q hs).1 hoi⟩
  · rintro ⟨o, hp, hs⟩
    have hoi : o.node ≠ i := by
      intro e
      exact hnone _ o o.idx hai hp (by cases o; simp_all)
    have hs' := hb o q hs hoi
    cases hold : peer a with
    | none =>
      rw [hnil _ hai hold] at hp
      cases hp
    | some o1 =>
      by_cases ho1 : o1.node = i
      · have h1 := hcons _ _ hai hold ho1
        rw [hp] at h1
        exact ⟨o1, hold, Src.through o1 o q (by rw [ho1]; exact hpt) (by rw [ho1]; exact h1.symm) hs'⟩
      · have h1 := hkeep _ _ hai hold ho1
        rw [hp] at h1
        cases h1
        exact ⟨o, hold, hs'⟩

end SrcLemmas

namespace ComputeGraph

theorem wellFormed_iff (g : ComputeGraph) :
    g.wellFormed = true ↔
      (∀ a o, g.GetPeerOutAnchor a = some o → g.hasOutAnchor o = true) ∧
      (∀ n, g.isPassThrough n = true → g.outAnchorNum n ≤ 1) := by
  simp only [wellFormed, Bool.and_eq_true, linksValid_iff, passThroughSingleOutput_iff]

theorem shape_eq_of_length_eq {g g' : ComputeGraph} (hlen : g'.nodes.length = g.nodes.length)
    (h : ∀ n, n < g.nodes.length → g'.shape n = g.shape n) (n : Nat) :
    g'.shape n = g.shape n := by
  by_cases hn : n < g.nodes.length
  · exact h n hn
  · rw [shape_eq_none_of_length_le g n (by omega), shape_eq_none_of_length_le g' n (by omega)]

theorem Producer_congr {g g' : ComputeGraph}
    (hpt : ∀ n, g'.isPassThrough n = g.isPassThrough n)
    (hpeer : ∀ a, g'.GetPeerOutAnchor a = g.GetPeerOutAnchor a) (a : InDataAnchor)
    (q : OutDataAnchor) : g.Producer a q ↔ g'.Producer a q := by
  have h1 : g'.isPassThrough = g.isPassThrough := funext hpt
  have h2 : g'.GetPeerOutAnchor = g.GetPeerOutAnchor := funext hpeer
  simp only [Producer, h1, h2]

end ComputeGraph


theorem Pres_refl (g : ComputeGraph) : Pres g g := fun hwf =>
  { wf := hwf, len := Nat.le_refl _, shape := fun _ _ => rfl, listed := fun _ _ h => h,
    prod := fun _ _ _ _ => Iff.rfl }

theorem Pres_trans {g1 g2 g3 : ComputeGraph} (h12 : Pres g1 g2) (h23 : Pres g2 g3) :
    Pres g1 g3 := by
  intro hwf
  have a := h12 hwf
  have b := h23 a.wf
  refine ⟨b.wf, Nat.le_trans a.len b.len, ?_, ?_, ?_⟩
  · intro n hn
    rw [b.shape n (Nat.lt_of_lt_of_le hn a.len), a.shape n hn]
  · intro n hn hl
    exact a.listed n hn (b.listed n (Nat.lt_of_lt_of_le hn a.len) hl)
  · intro x q hx hl
    have hx2 : x.node < g2.nodes.length := Nat.lt_of_lt_of_le hx a.len
    exact (a.prod x q hx (b.listed _ hx2 hl)).trans (b.prod x q hx2 hl)

/-- Same links and same shapes: nothing to show. -/
theorem PresFacts_of_same {g g' : ComputeGraph} (hwf : g.wellFormed = true)
    (hlen : g'.nodes.length = g.nodes.length)
    (hshape : ∀ n, n < g.nodes.length → g'.shape n = g.shape n)
    (hlisted : ∀ n, n < g.nodes.length → g'.isListed n = true → g.isListed n = true)
    (hpeer : ∀ a, g'.GetPeerOutAnchor a = g.GetPeerOutAnchor a) : PresFacts g g' := by
  have hsh := shape_eq_of_length_eq hlen hshape
  rw [wellFormed_iff] at hwf
  refine ⟨?_, Nat.le_of_eq hlen.symm, hshape, hlisted, ?_⟩
  · rw [wellFormed_iff]
    constructor
    · intro a o h
      rw [hpeer] at h
      rw [hasOutAnchor_of_shape (hsh o.node)]
      exact hwf.1 a o h
    · intro n h
      rw [isPassThrough_of_shape (hsh n)] at h
      rw [outAnchorNum_of_shape (hsh n)]
      exact hwf.2 n h
  · intro a q _ _
    exact Producer_congr (fun n => isPassThrough_of_shape (hsh n)) hpeer a q

/-- One consumer of a pass-through node is linked to the producer of that node. -/
theorem PresFacts_of_contract {g g' : ComputeGraph} (hwf : g.wellFormed = true)
    (hlen : g'.nodes.length = g.nodes.length)
    (hshape : ∀ n, n < g.nodes.length → g'.shape n = g.shape n)
    (hlisted : ∀ n, n < g.nodes.length → g'.isListed n = true → g.isListed n = true)
    (c : InDataAnchor) (i k : Nat) (hc : g.GetPeerOutAnchor c = some ⟨i, k⟩)
    (hpt : g.isPassThrough i = true)
    (hother : ∀ a, a ≠ c → g'.GetPeerOutAnchor a = g.GetPeerOutAnchor a)
    (hc' : g'.GetPeerOutAnchor c = g.GetPeerOutAnchor ⟨i, 0⟩) : PresFacts g g' := by
  have hsh := shape_eq_of_length_eq hlen hshape
  rw [wellFormed_iff] at hwf
  refine ⟨?_, Nat.le_of_eq hlen.symm, hshape, hlisted, ?_⟩
  · rw [wellFormed_iff]
    constructor
    · intro a o h
      rw [hasOutAnchor_of_shape (hsh o.node)]
      by_cases hac : a = c
      · subst hac
        rw [hc'] at h
        exact hwf.1 _ o h
      · rw [hother a hac] at h
        exact hwf.1 a o h
    · intro n h
      rw [isPassThrough_of_shape (hsh n)] at h
      rw [outAnchorNum_of_shape (hsh n)]
      exact hwf.2 n h
  · intro a q _ _
    have hptf : g'.isPassThrough = g.isPassThrough :=
      funext (fun n => isPassThrough_of_shape (hsh n))
    simp only [Producer, hptf]
    exact ProducerOf_contract_iff g.isPassThrough g.GetPeerOutAnchor g'.GetPeerOutAnchor i k c hc hpt
      hother hc' a q

theorem ComputeGraph.isPassThrough_eq_of_both_none {g g' : ComputeGraph} {n : Nat}
    (h1 : g.nodes.length ≤ n) (h2 : g'.nodes.length ≤ n) :
    g'.isPassThrough n = g.isPassThrough n :=
  isPassThrough_of_shape (by
    rw [shape_eq_none_of_length_le g n h1, shape_eq_none_of_length_le g' n h2])

theorem ComputeGraph.outAnchorNum_eq_zero_of_length_le (g : ComputeGraph) (n : Nat)
    (h : g.nodes.length ≤ n) : g.outAnchorNum n = 0 := by
  simp only [outAnchorNum, List.getElem?_eq_none h]

/-- A fresh pass-through node is spliced onto the edge into anchor `c`. -/
theorem PresFacts_of_insert {g g' : ComputeGraph} (hwf : g.wellFormed = true)
    (hlen : g'.nodes.length = g.nodes.length + 1)
    (hshape : ∀ n, n < g.nodes.length → g'.shape n = g.shape n)
    (hlisted : ∀ n, n < g.nodes.length → g'.isListed n = true → g.isListed n = true)
    (hptN : g'.isPassThrough g.nodes.length = true)
    (houtN : g'.outAnchorNum g.nodes.length = 1)
    (c : InDataAnchor) (o0 : OutDataAnchor) (ho0 : g.hasOutAnchor o0 = true)
    (hN : g'.GetPeerOutAnchor ⟨g.nodes.length, 0⟩ = some o0)
    (hNother : ∀ j, j ≠ 0 → g'.GetPeerOutAnchor ⟨g.nodes.length, j⟩ = none)
    (hc' : g'.GetPeerOutAnchor c = some ⟨g.nodes.length, 0⟩)
    (hother : ∀ a, a ≠ c → a.node < g.nodes.length →
      g'.GetPeerOutAnchor a = g.GetPeerOutAnchor a)
    (hmid : ∀ a q, ProducerOf g.isPassThrough g.GetPeerOutAnchor a q ↔
      ProducerOf g.isPassThrough (Function.update g.GetPeerOutAnchor c (some o0)) a q) :
    PresFacts g g' := by
  have hwf' := (wellFormed_iff g).1 hwf
  have ho0L : o0.node < g.nodes.length := lt_length_of_hasOutAnchor ho0
  have hval : ∀ o, g.hasOutAnchor o = true → g'.hasOutAnchor o = true := by
    intro o ho
    rw [hasOutAnchor_of_shape (hshape o.node (lt_length_of_hasOutAnchor ho))]
    exact ho
  have hpt : ∀ n, n ≠ g.nodes.length → g'.isPassThrough n = g.isPassThrough n := by
    intro n hn
    by_cases hlt : n < g.nodes.length
    · exact isPassThrough_of_shape (hshape n hlt)
    · exact isPassThrough_eq_of_both_none (by omega) (by omega)
  have hpeerhi : ∀ a : InDataAnchor, g.nodes.length < a.node →
      g'.GetPeerOutAnchor a = g.GetPeerOutAnchor a := by
    intro a ha
    rw [peer_eq_none_of_length_le g a (by omega), peer_eq_none_of_length_le g' a (by omega)]
  refine ⟨?_, by omega, hshape, hlisted, ?_⟩
  · rw [wellFormed_iff]
    constructor
    · intro a o h
      rcases Nat.lt_trichotomy a.node g.nodes.length with hl | hl | hl
      · by_cases hac : a = c
        · subst hac
          rw [hc'] at h
          cases h
          simp only [hasOutAnchor, houtN]
          decide
        · rw [hother a hac hl] at h
          exact hval o (hwf'.1 a o h)
      · obtain ⟨an, aj⟩ := a
        simp only at hl
        subst hl
        by_cases hj : aj = 0
        · subst hj
          rw [hN] at h
          cases h
          exact hval _ ho0
        · rw [hNother aj hj] at h
          cases h
      · rw [hpeerhi a hl, peer_eq_none_of_length_le g a (by omega)] at h
        cases h
    · intro n h
      rcases Nat.lt_trichotomy n g.nodes.length with hl | hl | hl
      · rw [isPassThrough_of_shape (hshape n hl)] at h
        rw [outAnchorNum_of_shape (hshape n hl)]
        exact hwf'.2 n h
      · subst hl
        omega
      · rw [outAnchorNum_eq_zero_of_length_le g' n (by omega)]
        omega
  · intro a q ha _
    refine (hmid a q).trans ?_
    refine ProducerOf_insert_iff g.isPassThrough g'.isPassThrough
      (Function.update g.GetPeerOutAnchor c (some o0)) g'.GetPeerOutAnchor
      g.nodes.length c o0 ?_ hptN hpt hN hc' ?_ ?_ a q (by omega)
    · intro x o hx
      by_cases hxc : x = c
      · subst hxc
        rw [Function.update_same] at hx
        cases hx
        omega
      · rw [Function.update_noteq hxc] at hx
        have := lt_length_of_hasOutAnchor (hwf'.1 x o hx)
        omega
    · rw [Function.update_same]
    · intro x hxc hxN
      rw [Function.update_noteq hxc]
      rcases Nat.lt_trichotomy x.node g.nodes.length with hl | hl | hl
      · exact hother x hxc hl
      · exact absurd hl hxN
      · exact hpeerhi x hl

/-- A pass-through node is bypassed and taken off its graph. -/
theorem PresFacts_of_remove {g g' : ComputeGraph} (hwf : g.wellFormed = true)
    (hlen : g'.nodes.length = g.nodes.length)
    (hshape : ∀ n, n < g.nodes.length → g'.shape n = g.shape n)
    (i : Nat) (hpt : g.isPassThrough i = true)
    (hlisted : ∀ n, n ≠ i → g'.isListed n = true → g.isListed n = true)
    (hli : g'.isListed i = false)
    (hcons : ∀ a o, a.node ≠ i → g.GetPeerOutAnchor a = some o → o.node = i →
      g'.GetPeerOutAnchor a = g.GetPeerOutAnchor ⟨i, 0⟩)
    (hkeep : ∀ a o, a.node ≠ i → g.GetPeerOutAnchor a = some o → o.node ≠ i →
      g'.GetPeerOutAnchor a = some o)
    (hnil : ∀ a, a.node ≠ i → g.GetPeerOutAnchor a = none → g'.GetPeerOutAnchor a = none)
    (hnone : ∀ a o k, a.node ≠ i → g'.GetPeerOutAnchor a = some o → o ≠ ⟨i, k⟩)
    (hself : ∀ j, g'.GetPeerOutAnchor ⟨i, j⟩ = none) : PresFacts g g' := by
  have hsh := shape_eq_of_length_eq hlen hshape
  have hwf' := (wellFormed_iff g).1 hwf
  refine ⟨?_, Nat.le_of_eq hlen.symm, hshape, ?_, ?_⟩
  · rw [wellFormed_iff]
    constructor
    · intro a o h
      rw [hasOutAnchor_of_shape (hsh o.node)]
      by_cases hai : a.node = i
      · obtain ⟨an, aj⟩ := a
        simp only at hai
        subst hai
        rw [hself aj] at h
        cases h
      · cases hold : g.GetPeerOutAnchor a with
        | none =>
          rw [hnil a hai hold] at h
          cases h
        | some o1 =>
          by_cases ho1 : o1.node = i
          · rw [hcons a o1 hai hold ho1] at h
            exact hwf'.1 _ o h
          · rw [hkeep a o1 hai hold ho1] at h
            cases h
            exact hwf'.1 a _ hold
    · intro n h
      rw [isPassThrough_of_shape (hsh n)] at h
      rw [outAnchorNum_of_shape (hsh n)]
      exact hwf'.2 n h
  · intro n _ hl
    by_cases hni : n = i
    · subst hni
      rw [hli] at hl
      cases hl
    · exact hlisted n hni hl
  · intro a q _ hl
    have hai : a.node ≠ i := by
      intro e
      rw [e, hli] at hl
      cases hl
    exact ProducerOf_remove_iff g.isPassThrough g'.isPassThrough g.GetPeerOutAnchor
      g'.GetPeerOutAnchor i hpt
      (fun n _ => isPassThrough_of_shape (hsh n)) hcons hkeep hnil hnone a q hai

theorem CreateIdentityAfterSrcNode_some {s s1 : PassState} {src_node id : Nat}
    (h : CreateIdentityAfterSrcNode s src_node = (some id, s1)) :
    id = s.graph.nodes.length ∧ s1.node_rwtype_map_ = s.node_rwtype_map_ ∧
      ∃ name owner, s1.graph = s.graph.AddNode (newIdentityNode name owner) := by
  unfold CreateIdentityAfterSrcNode at h
  cases hd : s.graph.GetOpDesc src_node with
  | none => rw [hd] at h; simp at h
  | some d =>
    rw [hd] at h
    simp only at h
    cases ho : s.graph.GetOwnerComputeGraph src_node with
    | none => rw [ho] at h; simp at h
    | some gi =>
      rw [ho] at h
      simp only [Prod.mk.injEq, Option.some.injEq] at h
      obtain ⟨h1, h2⟩ := h
      subst h2
      exact ⟨h1.symm, rfl, _, _, rfl⟩

theorem CreateIdentityAfterSrcNode_none {s s1 : PassState} {src_node : Nat}
    (h : CreateIdentityAfterSrcNode s src_node = (none, s1)) :
    s1.graph = s.graph ∧ s1.node_rwtype_map_ = s.node_rwtype_map_ := by
  unfold CreateIdentityAfterSrcNode at h
  cases hd : s.graph.GetOpDesc src_node with
  | none =>
    rw [hd] at h
    simp only [Prod.mk.injEq, true_and] at h
    subst h
    exact ⟨rfl, rfl⟩
  | some d =>
    rw [hd] at h
    simp only at h
    cases ho : s.graph.GetOwnerComputeGraph src_node with
    | none =>
      rw [ho] at h
      simp only [Prod.mk.injEq, true_and] at h
      subst h
      exact ⟨rfl, rfl⟩
    | some gi => rw [ho] at h; simp at h

namespace ComputeGraph

theorem peer_AddNode_new (g : ComputeGraph) (name : String) (owner : Option Nat) (j : Nat) :
    (g.AddNode (newIdentityNode name owner)).GetPeerOutAnchor ⟨g.nodes.length, j⟩ = none := by
  simp only [GetPeerOutAnchor, nodes_AddNode_new, newIdentityNode]
  cases j with
  | zero => rfl
  | succ j => rfl

theorem shape_AddNode_new (g : ComputeGraph) (nd : Node) :
    (g.AddNode nd).shape g.nodes.length =
      some (nd.op_desc, nd.owner_graph, nd.in_data_anchors.length, nd.out_data_anchors) := by
  simp only [shape, nodes_AddNode_new]

theorem identity_facts {g : ComputeGraph} {n : Nat} {name : String} {owner : Option Nat}
    (h : g.shape n = some ((newIdentityNode name owner).op_desc, owner, 1, 1)) :
    g.isPassThrough n = true ∧ g.outAnchorNum n = 1 ∧ g.inAnchorNum n = 1 := by
  simp only [shape] at h
  cases hnd : g.nodes[n]? with
  | none => rw [hnd] at h; cases h
  | some nd =>
    rw [hnd] at h
    simp only [newIdentityNode, Option.some.injEq, Prod.mk.injEq] at h
    obtain ⟨h1, _, h3, h4⟩ := h
    refine ⟨?_, ?_, ?_⟩
    · simp only [isPassThrough, GetType, GetOpDesc, hnd, h1, Bool.or_eq_true, decide_eq_true_eq]
      exact Or.inl trivial
    · simp only [outAnchorNum, hnd, h4]
    · simp only [inAnchorNum, hnd, h3]

theorem shape_AddNode_identity (g : ComputeGraph) (name : String) (owner : Option Nat) :
    (g.AddNode (newIdentityNode name owner)).shape g.nodes.length =
      some ((newIdentityNode name owner).op_desc, owner, 1, 1) := by
  rw [shape_AddNode_new]
  rfl

end ComputeGraph

theorem InsertNodeBetweenDataAnchors_ok {g g2 : ComputeGraph} {src : OutDataAnchor}
    {dst : InDataAnchor} {id : Nat}
    (h : g.InsertNodeBetweenDataAnchors src dst id = .ok g2) :
    g.hasInAnchor ⟨id, 0⟩ = true ∧ g.hasOutAnchor ⟨id, 0⟩ = true ∧
      g.GetPeerOutAnchor dst = some src ∧
      g2 = (g.setPeer dst (some ⟨id, 0⟩)).setPeer ⟨id, 0⟩ (some src) := by
  unfold InsertNodeBetweenDataAnchors at h
  split at h
  · rename_i hc
    obtain ⟨h1, h2, h3⟩ := hc
    simp only [Except.ok.injEq] at h
    exact ⟨h1, h2, h3, h.symm⟩
  · cases h

/-- Creating an Identity and splicing it onto an edge keeps the producers. -/
theorem Pres_create_insert {s s1 : PassState} {src_node id : Nat} {src : OutDataAnchor}
    {dst : InDataAnchor} {g2 : ComputeGraph}
    (hc : CreateIdentityAfterSrcNode s src_node = (some id, s1))
    (hi : s1.graph.InsertNodeBetweenDataAnchors src dst id = .ok g2) : Pres s.graph g2 := by
  intro hwf
  obtain ⟨hid, _, name, owner, hg1⟩ := CreateIdentityAfterSrcNode_some hc
  obtain ⟨_, _, hpeer, hg2⟩ := InsertNodeBetweenDataAnchors_ok hi
  subst hid
  rw [hg1] at hpeer hg2
  have hwf' := (wellFormed_iff s.graph).1 hwf
  -- the destination anchor is an old one
  have hdst : dst.node < s.graph.nodes.length := by
    have h1 := lt_length_of_hasInAnchor (hasInAnchor_of_peer hpeer)
    rw [length_AddNode] at h1
    rcases Nat.lt_or_ge dst.node s.graph.nodes.length with hl | hl
    · exact hl
    · have : dst.node = s.graph.nodes.length := by omega
      obtain ⟨dn, dj⟩ := dst
      simp only at this
      subst this
      rw [peer_AddNode_new] at hpeer
      cases hpeer
  have hpeer0 : s.graph.GetPeerOutAnchor dst = some src := by
    rw [← peer_AddNode_old s.graph (newIdentityNode name owner) dst hdst]
    exact hpeer
  have hdstin : (s.graph.AddNode (newIdentityNode name owner)).hasInAnchor dst = true :=
    hasInAnchor_of_peer hpeer
  have hshapeN : g2.shape s.graph.nodes.length =
      some ((newIdentityNode name owner).op_desc, owner, 1, 1) := by
    rw [hg2, shape_setPeer, shape_setPeer, shape_AddNode_identity]
  obtain ⟨hptN, houtN, hinN⟩ := identity_facts hshapeN
  have hNin : ((s.graph.AddNode (newIdentityNode name owner)).setPeer dst
      (some ⟨s.graph.nodes.length, 0⟩)).hasInAnchor ⟨s.graph.nodes.length, 0⟩ = true := by
    have : ((s.graph.AddNode (newIdentityNode name owner)).setPeer dst
        (some ⟨s.graph.nodes.length, 0⟩)).shape s.graph.nodes.length =
        some ((newIdentityNode name owner).op_desc, owner, 1, 1) := by
      rw [shape_setPeer, shape_AddNode_identity]
    simp only [hasInAnchor, (identity_facts this).2.2]
    decide
  have hdstN : dst ≠ ⟨s.graph.nodes.length, 0⟩ := by
    intro e
    rw [e] at hdst
    simp at hdst
  refine PresFacts_of_insert hwf ?_ ?_ ?_ hptN houtN dst src (hwf'.1 dst src hpeer0) ?_ ?_ ?_ ?_ ?_
  · rw [hg2, length_setPeer, length_setPeer, length_AddNode]
  · intro n hn
    rw [hg2, shape_setPeer, shape_setPeer, shape_AddNode_old _ _ _ hn]
  · intro n hn
    rw [hg2, isListed_setPeer, isListed_setPeer, isListed_AddNode_old _ _ _ hn]
    exact id
  · rw [hg2, peer_setPeer, if_pos ⟨rfl, hNin⟩]
  · intro j hj
    have hne : (⟨s.graph.nodes.length, j⟩ : InDataAnchor) ≠ ⟨s.graph.nodes.length, 0⟩ := by
      intro e
      cases e
      exact hj rfl
    have hne2 : (⟨s.graph.nodes.length, j⟩ : InDataAnchor) ≠ dst := by
      intro e
      rw [← e] at hdst
      simp at hdst
    rw [hg2, peer_setPeer, if_neg (fun h => hne h.1), peer_setPeer, if_neg (fun h => hne2 h.1),
      peer_AddNode_new]
  · rw [hg2, peer_setPeer, if_neg (fun h => hdstN h.1), peer_setPeer, if_pos ⟨rfl, hdstin⟩]
  · intro a hac hal
    have hne : a ≠ ⟨s.graph.nodes.length, 0⟩ := by
      intro e
      rw [e] at hal
      simp at hal
    rw [hg2, peer_setPeer, if_neg (fun h => hne h.1), peer_setPeer, if_neg (fun h => hac h.1),
      peer_AddNode_old _ _ _ hal]
  · intro a q
    rw [← hpeer0, Function.update_eq_self]

theorem forEachM_pres {α : Type} (f : α → PassState → Status × PassState)
    (xs : List α) (s s' : PassState)
    (hstep : ∀ x ∈ xs, ∀ t t', f x t = (.SUCCESS, t') → Pres t.graph t'.graph)
    (h : forEachM f xs s = (.SUCCESS, s')) : Pres s.graph s'.graph :=
  forEachM_rel f (fun t t' => Pres t.graph t'.graph) (fun t => Pres_refl t.graph)
    (fun _ _ _ h1 h2 => Pres_trans h1 h2) xs s s' hstep h

theorem forEachM_pres_pair {α β : Type} (f : α → PassState × β → Status × (PassState × β))
    (xs : List α) (s s' : PassState × β)
    (hstep : ∀ x ∈ xs, ∀ t t', f x t = (.SUCCESS, t') → Pres t.1.graph t'.1.graph)
    (h : forEachM f xs s = (.SUCCESS, s')) : Pres s.1.graph s'.1.graph :=
  forEachM_rel f (fun t t' => Pres t.1.graph t'.1.graph) (fun t => Pres_refl t.1.graph)
    (fun _ _ _ h1 h2 => Pres_trans h1 h2) xs s s' hstep h

theorem InsertNodeBetweenDataAnchors_error {g : ComputeGraph} {src : OutDataAnchor}
    {dst : InDataAnchor} {id : Nat} {e : Status}
    (h : g.InsertNodeBetweenDataAnchors src dst id = .error e) : e ≠ .SUCCESS := by
  unfold InsertNodeBetweenDataAnchors at h
  split at h
  · cases h
  · cases h
    decide

theorem InsertIdentityOnPeer_pres (node : Nat) (out_data_anchor : OutDataAnchor)
    (output_rw_type : OutputRWType) (peer_in_data_anchor : InDataAnchor) (s s' : PassState)
    (h : InsertIdentityOnPeer node out_data_anchor output_rw_type peer_in_data_anchor s =
      (.SUCCESS, s')) : Pres s.graph s'.graph := by
  unfold InsertIdentityOnPeer at h
  simp only at h
  split at h
  · cases h; exact Pres_refl _
  · cases h; exact Pres_refl _
  · cases hc : CreateIdentityAfterSrcNode s node with
    | mk r s1 =>
      rw [hc] at h
      cases r with
      | none => simp at h
      | some id =>
        simp only at h
        cases hi : s1.graph.InsertNodeBetweenDataAnchors out_data_anchor peer_in_data_anchor id with
        | error e => rw [hi] at h; simp at h
        | ok g2 =>
          rw [hi] at h
          simp only [Prod.mk.injEq, true_and] at h
          subst h
          exact Pres_create_insert hc hi

theorem InsertIdentityOnAnchor_pres (node : Nat) (out_data_anchor : OutDataAnchor)
    (s s' : PassState)
    (h : InsertIdentityOnAnchor node out_data_anchor s = (.SUCCESS, s')) :
    Pres s.graph s'.graph := by
  unfold InsertIdentityOnAnchor at h
  exact forEachM_pres (InsertIdentityOnPeer node out_data_anchor
      (GetOutputRWTypeByIndex s.graph s.node_rwtype_map_ node out_data_anchor.idx))
    (s.graph.GetPeerInDataAnchors out_data_anchor) s s'
    (fun x _ t t' ht => InsertIdentityOnPeer_pres _ _ _ x t t' ht) h

theorem InsertIdentityAsNeeded_pres (node : Nat) (s s' : PassState)
    (h : InsertIdentityAsNeeded node s = (.SUCCESS, s')) : Pres s.graph s'.graph := by
  unfold InsertIdentityAsNeeded at h
  split at h
  · cases h
  · split at h
    · cases h; exact Pres_refl _
    · exact forEachM_pres (InsertIdentityOnAnchor node) (s.graph.GetAllOutDataAnchors node) s s'
        (fun x _ t t' ht => InsertIdentityOnAnchor_pres _ x t t' ht) h

theorem MarkNetOutputAnchor_pres (a : InDataAnchor) (st st' : PassState × List (Nat × OutputRWType))
    (h : MarkNetOutputAnchor a st = (.SUCCESS, st')) : Pres st.1.graph st'.1.graph := by
  unfold MarkNetOutputAnchor at h
  simp only at h
  split at h
  · cases h
  · rename_i pre hpre
    split at h
    · cases hc : CreateIdentityAfterSrcNode st.1 pre.node with
      | mk r s1 =>
        rw [hc] at h
        cases r with
        | none => simp at h
        | some id =>
          simp only at h
          cases hi : s1.graph.InsertNodeBetweenDataAnchors pre a id with
          | error e =>
            rw [hi] at h
            simp only [Prod.mk.injEq] at h
            exact absurd h.1 (InsertNodeBetweenDataAnchors_error hi)
          | ok g2 =>
            rw [hi] at h
            simp only [Prod.mk.injEq, true_and] at h
            subst h
            exact Pres_create_insert hc hi
    · simp only [Prod.mk.injEq, true_and] at h
      subst h
      exact Pres_refl _

theorem MarkRWTypeForSubgraphNode_pres (node : Nat) (s s' : PassState)
    (h : MarkRWTypeForSubgraphNode node s = (.SUCCESS, s')) : Pres s.graph s'.graph := by
  unfold MarkRWTypeForSubgraphNode at h
  split at h
  · cases h
  · simp only at h
    have hs1 : (if s.graph.GetType node = DATA then MarkDataNode node s else s).graph = s.graph := by
      split <;> rfl
    generalize (if s.graph.GetType node = DATA then MarkDataNode node s else s) = s1 at h hs1
    rw [← hs1]
    split at h
    · unfold MarkNetOutputNode at h
      simp only at h
      split at h
      · rename_i hr
        simp only [Prod.mk.injEq, true_and] at h
        subst h
        exact forEachM_pres_pair MarkNetOutputAnchor (s1.graph.GetAllInDataAnchors node)
          (s1, []) _ (fun x _ t t' ht => MarkNetOutputAnchor_pres x t t' ht)
          (Prod.ext hr rfl)
      · rename_i hr
        simp only [Prod.mk.injEq] at h
        exact absurd h.1 hr
    · simp only [Prod.mk.injEq, true_and] at h
      subst h
      exact Pres_refl _

theorem MarkRWTypeForSubgraph_pres (sub_graph : Nat) (s s' : PassState)
    (h : MarkRWTypeForSubgraph sub_graph s = (.SUCCESS, s')) : Pres s.graph s'.graph := by
  unfold MarkRWTypeForSubgraph at h
  exact forEachM_pres MarkRWTypeForSubgraphNode (s.graph.GetDirectNode sub_graph) s s'
    (fun x _ t t' ht => MarkRWTypeForSubgraphNode_pres x t t' ht) h

theorem MarkRWTypeForAllSubgraph_pres (sub_graph_vec : List Nat) (s s' : PassState)
    (h : MarkRWTypeForAllSubgraph sub_graph_vec s = (.SUCCESS, s')) :
    Pres s.graph s'.graph := by
  unfold MarkRWTypeForAllSubgraph at h
  refine forEachM_pres MarkRWTypeForAllSubgraphStep sub_graph_vec.reverse s s' ?_ h
  intro x _ t t' ht
  unfold MarkRWTypeForAllSubgraphStep at ht
  split at ht
  · cases ht; exact Pres_refl _
  · split at ht
    · cases ht; exact Pres_refl _
    · exact MarkRWTypeForSubgraph_pres x t t' ht

theorem HandleAllreduceInput_pres (a : InDataAnchor) (st st' : PassState × List OutDataAnchor)
    (h : HandleAllreduceInput a st = (.SUCCESS, st')) : Pres st.1.graph st'.1.graph := by
  unfold HandleAllreduceInput at h
  simp only at h
  split at h
  · cases h
  · rename_i pre hpre
    split at h
    · simp only [Prod.mk.injEq, true_and] at h
      subst h
      exact Pres_refl _
    · cases hc : CreateIdentityAfterSrcNode st.1 pre.node with
      | mk r s1 =>
        rw [hc] at h
        cases r with
        | none => simp at h
        | some id =>
          simp only at h
          cases hi : s1.graph.InsertNodeBetweenDataAnchors pre a id with
          | error e =>
            rw [hi] at h
            simp only [Prod.mk.injEq] at h
            exact absurd h.1 (InsertNodeBetweenDataAnchors_error hi)
          | ok g2 =>
            rw [hi] at h
            simp only [Prod.mk.injEq, true_and] at h
            subst h
            exact Pres_create_insert hc hi

theorem HandleAllreduceDuplicateInput_pres (s s' : PassState)
    (h : HandleAllreduceDuplicateInput s = (.SUCCESS, s')) : Pres s.graph s'.graph := by
  unfold HandleAllreduceDuplicateInput at h
  refine forEachM_pres HandleAllreduceNode (s.graph.GetDirectNode 0) s s' ?_ h
  intro x _ t t' ht
  unfold HandleAllreduceNode at ht
  split at ht
  · simp only [Prod.mk.injEq] at ht
    obtain ⟨h1, h2⟩ := ht
    subst h2
    exact forEachM_pres_pair HandleAllreduceInput (t.graph.GetAllInDataAnchors x) (t, []) _
      (fun y _ u u' hu => HandleAllreduceInput_pres y u u' hu) (Prod.ext h1 rfl)
  · cases ht; exact Pres_refl _

namespace ComputeGraph

theorem hasInAnchor_setPeer (g : ComputeGraph) (a b : InDataAnchor) (v : Option OutDataAnchor) :
    (g.setPeer a v).hasInAnchor b = g.hasInAnchor b :=
  hasInAnchor_of_shape (shape_setPeer g a v b.node)

theorem foldl_setPeer_facts (v : Option OutDataAnchor) (as : List InDataAnchor) :
    ∀ g : ComputeGraph,
      (as.foldl (fun g1 a => g1.setPeer a v) g).nodes.length = g.nodes.length ∧
      (∀ n, (as.foldl (fun g1 a => g1.setPeer a v) g).shape n = g.shape n) ∧
      (∀ n, (as.foldl (fun g1 a => g1.setPeer a v) g).isListed n = g.isListed n) ∧
      (as.foldl (fun g1 a => g1.setPeer a v) g).graphs = g.graphs := by
  induction as with
  | nil => intro g; exact ⟨rfl, fun _ => rfl, fun _ => rfl, rfl⟩
  | cons a as ih =>
    intro g
    simp only [List.foldl_cons]
    obtain ⟨h1, h2, h3, h4⟩ := ih (g.setPeer a v)
    refine ⟨?_, ?_, ?_, ?_⟩
    · rw [h1, length_setPeer]
    · intro n; rw [h2, shape_setPeer]
    · intro n; rw [h3, isListed_setPeer]
    · rw [h4, graphs_setPeer]

theorem peer_foldl_setPeer (v : Option OutDataAnchor) (as : List InDataAnchor) :
    ∀ (g : ComputeGraph) (b : InDataAnchor), (∀ a ∈ as, g.hasInAnchor a = true) →
      (as.foldl (fun g1 a => g1.setPeer a v) g).GetPeerOutAnchor b =
        if b ∈ as then v else g.GetPeerOutAnchor b := by
  induction as with
  | nil => intro g b _; simp
  | cons a as ih =>
    intro g b hall
    simp only [List.foldl_cons]
    rw [ih (g.setPeer a v) b (fun x hx => by
      rw [hasInAnchor_setPeer]; exact hall x (List.mem_cons_of_mem _ hx))]
    rw [peer_setPeer]
    have ha : g.hasInAnchor a = true := hall a (List.mem_cons_self _ _)
    by_cases hb : b ∈ as
    · simp [hb]
    · by_cases hba : b = a
      · simp [hba, ha]
      · simp [hb, hba]

theorem peer_UnlinkAllOut (g : ComputeGraph) (o : OutDataAnchor) (b : InDataAnchor) :
    (g.UnlinkAllOut o).GetPeerOutAnchor b =
      if g.GetPeerOutAnchor b = some o then none else g.GetPeerOutAnchor b := by
  unfold UnlinkAllOut
  rw [peer_foldl_setPeer none _ g b (fun a ha =>
    hasInAnchor_of_peer ((mem_GetPeerInDataAnchors g o a).1 ha))]
  simp only [mem_GetPeerInDataAnchors]

theorem peer_ReplaceOutDataAnchor (g : ComputeGraph) (p o : OutDataAnchor) (b : InDataAnchor) :
    (g.ReplaceOutDataAnchor p o).GetPeerOutAnchor b =
      if g.GetPeerOutAnchor b = some o then some p else g.GetPeerOutAnchor b := by
  unfold ReplaceOutDataAnchor
  rw [peer_foldl_setPeer (some p) _ g b (fun a ha =>
    hasInAnchor_of_peer ((mem_GetPeerInDataAnchors g o a).1 ha))]
  simp only [mem_GetPeerInDataAnchors]

theorem mem_GetAllInDataAnchors (g : ComputeGraph) (n : Nat) (b : InDataAnchor) :
    b ∈ g.GetAllInDataAnchors n ↔ b.node = n ∧ g.hasInAnchor b = true := by
  obtain ⟨bn, bj⟩ := b
  simp only [GetAllInDataAnchors, List.mem_map, List.mem_range, InDataAnchor.mk.injEq,
    hasInAnchor, decide_eq_true_eq]
  constructor
  · rintro ⟨j, hj, rfl, rfl⟩
    exact ⟨rfl, hj⟩
  · rintro ⟨rfl, hj⟩
    exact ⟨bj, hj, rfl, rfl⟩

theorem peer_eq_none_of_not_hasInAnchor {g : ComputeGraph} {b : InDataAnchor}
    (h : g.hasInAnchor b = false) : g.GetPeerOutAnchor b = none := by
  cases hp : g.GetPeerOutAnchor b with
  | none => rfl
  | some o =>
    rw [hasInAnchor_of_peer hp] at h
    cases h

theorem peer_UnlinkAllIn (g : ComputeGraph) (n : Nat) (b : InDataAnchor) :
    (g.UnlinkAllIn n).GetPeerOutAnchor b =
      if b.node = n then none else g.GetPeerOutAnchor b := by
  unfold UnlinkAllIn
  rw [peer_foldl_setPeer none _ g b (fun a ha => ((mem_GetAllInDataAnchors g n a).1 ha).2)]
  simp only [mem_GetAllInDataAnchors]
  by_cases hn : b.node = n
  · cases hb : g.hasInAnchor b with
    | true => simp [hn]
    | false => simp [hn, peer_eq_none_of_not_hasInAnchor hb]
  · simp [hn]

theorem UnlinkAllOut_facts (g : ComputeGraph) (o : OutDataAnchor) :
    (g.UnlinkAllOut o).nodes.length = g.nodes.length ∧
      (∀ n, (g.UnlinkAllOut o).shape n = g.shape n) ∧
      (∀ n, (g.UnlinkAllOut o).isListed n = g.isListed n) ∧
      (g.UnlinkAllOut o).graphs = g.graphs :=
  foldl_setPeer_facts none _ g

theorem UnlinkAllIn_facts (g : ComputeGraph) (n : Nat) :
    (g.UnlinkAllIn n).nodes.length = g.nodes.length ∧
      (∀ m, (g.UnlinkAllIn n).shape m = g.shape m) ∧
      (∀ m, (g.UnlinkAllIn n).isListed m = g.isListed m) ∧
      (g.UnlinkAllIn n).graphs = g.graphs :=
  foldl_setPeer_facts none _ g

theorem ReplaceOutDataAnchor_facts (g : ComputeGraph) (p o : OutDataAnchor) :
    (g.ReplaceOutDataAnchor p o).nodes.length = g.nodes.length ∧
      (∀ n, (g.ReplaceOutDataAnchor p o).shape n = g.shape n) ∧
      (∀ n, (g.ReplaceOutDataAnchor p o).isListed n = g.isListed n) ∧
      (g.ReplaceOutDataAnchor p o).graphs = g.graphs :=
  foldl_setPeer_facts (some p) _ g

theorem UnlinkAllOut_of_no_peers {g : ComputeGraph} {o : OutDataAnchor}
    (h : g.GetPeerInDataAnchors o = []) : g.UnlinkAllOut o = g := by
  simp only [UnlinkAllOut, h, List.foldl_nil]

/-- A node without consumers: every output anchor has an empty peer list. -/
theorem no_peers_of_size_zero {g : ComputeGraph} {n : Nat} (h : g.GetOutDataNodesSize n = 0)
    (k : Nat) (hk : k < g.outAnchorNum n) : g.GetPeerInDataAnchors ⟨n, k⟩ = [] := by
  unfold GetOutDataNodesSize at h
  have h1 : ∀ x ∈ (g.GetAllOutDataAnchors n).map (fun o => g.GetPeerInDataNodesSize o), x = 0 :=
    List.sum_eq_zero_iff.1 h
  have h2 : g.GetPeerInDataNodesSize ⟨n, k⟩ = 0 := by
    apply h1
    simp only [GetAllOutDataAnchors, List.map_map, List.mem_map, List.mem_range]
    exact ⟨k, hk, rfl⟩
  exact List.length_eq_zero.1 h2

theorem RelinkDataIOLoop_nil_of_no_peers (n : Nat) (ks : List Nat) (g : ComputeGraph)
    (h : ∀ k ∈ ks, g.GetPeerInDataAnchors ⟨n, k⟩ = []) :
    RelinkDataIOLoop n [] ks g = .ok g := by
  induction ks with
  | nil => rfl
  | cons k ks ih =>
    simp only [RelinkDataIOLoop, List.getD_nil]
    rw [if_pos (by decide), UnlinkAllOut_of_no_peers (h k (List.mem_cons_self _ _))]
    exact ih (fun x hx => h x (List.mem_cons_of_mem _ hx))

theorem foldl_UnlinkAllOut_of_no_peers (os : List OutDataAnchor) (g : ComputeGraph)
    (h : ∀ o ∈ os, g.GetPeerInDataAnchors o = []) :
    os.foldl (fun g3 o => g3.UnlinkAllOut o) g = g := by
  induction os with
  | nil => rfl
  | cons o os ih =>
    simp only [List.foldl_cons]
    rw [UnlinkAllOut_of_no_peers (h o (List.mem_cons_self _ _))]
    exact ih (fun x hx => h x (List.mem_cons_of_mem _ hx))

theorem IsolateNode_nil_of_no_consumers {g : ComputeGraph} {n : Nat}
    (h : g.GetOutDataNodesSize n = 0) : g.IsolateNode n [] = .ok (g.UnlinkAllIn n) := by
  unfold IsolateNode
  rw [if_neg (by simp)]
  rw [RelinkDataIOLoop_nil_of_no_peers n _ g (fun k hk =>
    no_peers_of_size_zero h k (List.mem_range.1 hk))]
  simp only
  rw [foldl_UnlinkAllOut_of_no_peers]
  intro o ho
  simp only [GetAllOutDataAnchors, List.mem_map, List.mem_range] at ho
  obtain ⟨k, hk, rfl⟩ := ho
  rw [outAnchorNum_of_shape ((UnlinkAllIn_facts g n).2.1 n)] at hk
  apply List.eq_nil_iff_forall_not_mem.2
  intro b hb
  rw [mem_GetPeerInDataAnchors, peer_UnlinkAllIn] at hb
  split at hb
  · cases hb
  · have : b ∈ g.GetPeerInDataAnchors ⟨n, k⟩ := (mem_GetPeerInDataAnchors g _ b).2 hb
    rw [no_peers_of_size_zero h k hk] at this
    cases this

end ComputeGraph

theorem RemoveNodeWithoutRelink_ok {g g' : ComputeGraph} {graph : Option Nat} {n : Nat}
    (h : g.RemoveNodeWithoutRelink graph n = .ok g') : g' = g.unlist n := by
  unfold RemoveNodeWithoutRelink at h
  split at h
  · cases h
  · split at h
    · cases h; rfl
    · cases h

/-- No anchor refers to a node without consumers. -/
theorem ComputeGraph.no_reference_of_size_zero {g : ComputeGraph} (hwf : g.wellFormed = true)
    {n : Nat} (h : g.GetOutDataNodesSize n = 0) (a : InDataAnchor) (o : OutDataAnchor)
    (ha : g.GetPeerOutAnchor a = some o) : o.node ≠ n := by
  intro e
  have hv := ((wellFormed_iff g).1 hwf).1 a o ha
  simp only [hasOutAnchor, decide_eq_true_eq] at hv
  obtain ⟨onode, oidx⟩ := o
  simp only at e hv
  subst e
  have : a ∈ g.GetPeerInDataAnchors ⟨onode, oidx⟩ := (mem_GetPeerInDataAnchors g _ a).2 ha
  rw [no_peers_of_size_zero h oidx hv] at this
  cases this

/-- A pass-through node without consumers is cut loose and taken off its graph. -/
theorem PresFacts_of_isolate_nil {g g2 g3 : ComputeGraph} {n : Nat} {graph : Option Nat}
    (hwf : g.wellFormed = true) (hpt : g.isPassThrough n = true)
    (hsize : g.GetOutDataNodesSize n = 0)
    (hiso : g.IsolateNode n [] = .ok g2)
    (hrem : g2.RemoveNodeWithoutRelink graph n = .ok g3) : PresFacts g g3 := by
  rw [IsolateNode_nil_of_no_consumers hsize] at hiso
  cases hiso
  have hg3 := RemoveNodeWithoutRelink_ok hrem
  subst hg3
  have hf := UnlinkAllIn_facts g n
  have hpeer : ∀ b : InDataAnchor, ((g.UnlinkAllIn n).unlist n).GetPeerOutAnchor b =
      if b.node = n then none else g.GetPeerOutAnchor b := by
    intro b
    rw [peer_unlist, peer_UnlinkAllIn]
  have hno := no_reference_of_size_zero hwf hsize
  refine PresFacts_of_remove hwf ?_ ?_ n hpt ?_ ?_ ?_ ?_ ?_ ?_ ?_
  · rw [length_unlist, hf.1]
  · intro m _
    rw [shape_unlist, hf.2.1]
  · intro m hm
    rw [isListed_unlist, if_neg hm, hf.2.2.1]
    exact id
  · rw [isListed_unlist, if_pos rfl]
  · intro a o _ hp ho
    exact absurd ho (hno a o hp)
  · intro a o ha hp _
    rw [hpeer, if_neg ha, hp]
  · intro a ha hp
    rw [hpeer, if_neg ha, hp]
  · intro a o k ha hp e
    rw [hpeer, if_neg ha] at hp
    exact hno a o hp (by rw [e])
  · intro j
    rw [hpeer, if_pos rfl]

theorem ComputeGraph.IsolateNode_zero {g : ComputeGraph} {n : Nat} {p : OutDataAnchor}
    (hout : g.outAnchorNum n = 1) (hp : g.GetPeerOutAnchor ⟨n, 0⟩ = some p) :
    g.IsolateNode n [0] =
      .ok ((((g.setPeer ⟨n, 0⟩ none).ReplaceOutDataAnchor p ⟨n, 0⟩).UnlinkAllIn n).UnlinkAllOut
        ⟨n, 0⟩) := by
  have hin : 0 < g.inAnchorNum n := by
    have := hasInAnchor_of_peer hp
    simpa [hasInAnchor] using this
  unfold IsolateNode
  rw [hout, if_neg (by simp)]
  have hr : List.range 1 = [0] := by decide
  rw [hr]
  simp only [RelinkDataIOLoop, List.getD_cons_zero]
  rw [if_neg (by decide), if_neg (by omega)]
  simp only [Int.toNat_zero, hp]
  have hout2 : (((g.setPeer ⟨n, 0⟩ none).ReplaceOutDataAnchor p ⟨n, 0⟩).UnlinkAllIn n).outAnchorNum n
      = 1 := by
    rw [outAnchorNum_of_shape ((UnlinkAllIn_facts _ n).2.1 n),
      outAnchorNum_of_shape ((ReplaceOutDataAnchor_facts _ p _).2.1 n),
      outAnchorNum_of_shape (shape_setPeer g _ _ n), hout]
  simp only [GetAllOutDataAnchors, hout2, hr, List.map_cons, List.map_nil, List.foldl_cons,
    List.foldl_nil]

theorem ComputeGraph.GetOutDataNodesSize_of_one {g : ComputeGraph} {n : Nat}
    (hout : g.outAnchorNum n = 1) :
    g.GetOutDataNodesSize n = (g.GetPeerInDataAnchors ⟨n, 0⟩).length := by
  have hr : List.range 1 = [0] := by decide
  simp only [GetOutDataNodesSize, GetAllOutDataAnchors, hout, hr, List.map_cons, List.map_nil,
    List.sum_cons, List.sum_nil, Nat.add_zero, GetPeerInDataNodesSize]

theorem eq_of_mem_of_length_le_one {α : Type} {l : List α} (h : l.length ≤ 1) {x y : α}
    (hx : x ∈ l) (hy : y ∈ l) : x = y := by
  match l, h with
  | [], _ => cases hx
  | [z], _ =>
    simp only [List.mem_singleton] at hx hy
    rw [hx, hy]
  | _ :: _ :: _, h => simp at h

/-- The links after bypassing node `n`, whose only output anchor feeds at
most one consumer. -/
theorem ComputeGraph.isolate_zero_peers (g : ComputeGraph) (n : Nat) (p : OutDataAnchor) :
    ∃ gd : ComputeGraph, gd = (((g.setPeer ⟨n, 0⟩ none).ReplaceOutDataAnchor p ⟨n, 0⟩).UnlinkAllIn
        n).UnlinkAllOut ⟨n, 0⟩ ∧
      gd.nodes.length = g.nodes.length ∧ (∀ m, gd.shape m = g.shape m) ∧
      (∀ m, gd.isListed m = g.isListed m) ∧
      (∀ j, gd.GetPeerOutAnchor ⟨n, j⟩ = none) ∧
      (∀ b : InDataAnchor, b.node ≠ n → g.GetPeerOutAnchor b = some ⟨n, 0⟩ →
        gd.GetPeerOutAnchor b = if p = ⟨n, 0⟩ then none else some p) ∧
      (∀ b : InDataAnchor, b.node ≠ n → g.GetPeerOutAnchor b ≠ some ⟨n, 0⟩ →
        gd.GetPeerOutAnchor b = g.GetPeerOutAnchor b) := by
  refine ⟨_, rfl, ?_, ?_, ?_, ?_, ?_, ?_⟩
  · rw [(UnlinkAllOut_facts _ _).1, (UnlinkAllIn_facts _ _).1,
      (ReplaceOutDataAnchor_facts _ _ _).1, length_setPeer]
  · intro m
    rw [(UnlinkAllOut_facts _ _).2.1, (UnlinkAllIn_facts _ _).2.1,
      (ReplaceOutDataAnchor_facts _ _ _).2.1, shape_setPeer]
  · intro m
    rw [(UnlinkAllOut_facts _ _).2.2.1, (UnlinkAllIn_facts _ _).2.2.1,
      (ReplaceOutDataAnchor_facts _ _ _).2.2.1, isListed_setPeer]
  · intro j
    rw [peer_UnlinkAllOut, peer_UnlinkAllIn, if_pos rfl]
    rfl
  · intro b hb hpb
    have hb0 : b ≠ ⟨n, 0⟩ := by
      intro e
      rw [e] at hb
      exact hb rfl
    have h1 : (g.setPeer ⟨n, 0⟩ none).GetPeerOutAnchor b = g.GetPeerOutAnchor b := by
      rw [peer_setPeer, if_neg (fun h => hb0 h.1)]
    have h2 : ((g.setPeer ⟨n, 0⟩ none).ReplaceOutDataAnchor p ⟨n, 0⟩).GetPeerOutAnchor b =
        some p := by
      rw [peer_ReplaceOutDataAnchor, h1, if_pos hpb]
    have h3 : (((g.setPeer ⟨n, 0⟩ none).ReplaceOutDataAnchor p ⟨n, 0⟩).UnlinkAllIn
        n).GetPeerOutAnchor b = some p := by
      rw [peer_UnlinkAllIn, if_neg hb, h2]
    rw [peer_UnlinkAllOut, h3]
    by_cases hpn : p = ⟨n, 0⟩
    · rw [if_pos (by rw [hpn]), if_pos hpn]
    · rw [if_neg (fun e => hpn (Option.some.inj e)), if_neg hpn]
  · intro b hb hpb
    have hb0 : b ≠ ⟨n, 0⟩ := by
      intro e
      rw [e] at hb
      exact hb rfl
    have h1 : (g.setPeer ⟨n, 0⟩ none).GetPeerOutAnchor b = g.GetPeerOutAnchor b := by
      rw [peer_setPeer, if_neg (fun h => hb0 h.1)]
    have h2 : ((g.setPeer ⟨n, 0⟩ none).ReplaceOutDataAnchor p ⟨n, 0⟩).GetPeerOutAnchor b =
        g.GetPeerOutAnchor b := by
      rw [peer_ReplaceOutDataAnchor, h1, if_neg hpb]
    have h3 : (((g.setPeer ⟨n, 0⟩ none).ReplaceOutDataAnchor p ⟨n, 0⟩).UnlinkAllIn
        n).GetPeerOutAnchor b = g.GetPeerOutAnchor b := by
      rw [peer_UnlinkAllIn, if_neg hb, h2]
    rw [peer_UnlinkAllOut, h3, if_neg hpb]

/-- A pass-through node with at most one consumer is bypassed and taken off
its graph. -/
theorem PresFacts_of_isolate_zero {g g2 g3 : ComputeGraph} {n : Nat} {graph : Option Nat}
    {p : OutDataAnchor}
    (hwf : g.wellFormed = true) (hpt : g.isPassThrough n = true)
    (hsize : g.GetOutDataNodesSize n ≤ 1)
    (hp : g.GetPeerOutAnchor ⟨n, 0⟩ = some p)
    (hiso : g.IsolateNode n [0] = .ok g2)
    (hrem : g2.RemoveNodeWithoutRelink graph n = .ok g3) : PresFacts g g3 := by
  have hwf' := (wellFormed_iff g).1 hwf
  have hout : g.outAnchorNum n = 1 := by
    have h1 := hwf'.2 n hpt
    have h2 : ¬ g.outAnchorNum n < 1 := by
      intro hlt
      unfold IsolateNode at hiso
      rw [if_pos (by simpa using hlt)] at hiso
      cases hiso
    omega
  obtain ⟨gd, hgd, hlen, hshape, hlist, hselfpeer, hcon, hoth⟩ := isolate_zero_peers g n p
  rw [IsolateNode_zero hout hp, ← hgd] at hiso
  have hg2 : gd = g2 := Except.ok.inj hiso
  subst hg2
  have hg3 := RemoveNodeWithoutRelink_ok hrem
  subst hg3
  clear hgd hiso hrem
  rw [GetOutDataNodesSize_of_one hout] at hsize
  -- references to the node go to its only output anchor
  have hidx : ∀ a o, g.GetPeerOutAnchor a = some o → o.node = n → o = ⟨n, 0⟩ := by
    intro a o ha ho
    have hv := hwf'.1 a o ha
    simp only [hasOutAnchor, decide_eq_true_eq] at hv
    obtain ⟨onode, oidx⟩ := o
    simp only at ho hv
    subst ho
    rw [hout] at hv
    have : oidx = 0 := by omega
    rw [this]
  -- a consumer outside the node excludes a self loop
  have hpne : ∀ a : InDataAnchor, a.node ≠ n → g.GetPeerOutAnchor a = some ⟨n, 0⟩ →
      p ≠ ⟨n, 0⟩ := by
    intro a han ha e
    have h1 : a ∈ g.GetPeerInDataAnchors ⟨n, 0⟩ := (mem_GetPeerInDataAnchors g _ a).2 ha
    have h2 : (⟨n, 0⟩ : InDataAnchor) ∈ g.GetPeerInDataAnchors ⟨n, 0⟩ :=
      (mem_GetPeerInDataAnchors g _ _).2 (by rw [hp, e])
    have := eq_of_mem_of_length_le_one hsize h1 h2
    rw [this] at han
    exact han rfl
  have hpn : p.node = n → p = ⟨n, 0⟩ := hidx _ p hp
  refine PresFacts_of_remove hwf ?_ ?_ n hpt ?_ ?_ ?_ ?_ ?_ ?_ ?_
  · rw [length_unlist, hlen]
  · intro m _
    rw [shape_unlist, hshape]
  · intro m hm hl
    rw [isListed_unlist, if_neg hm, hlist] at hl
    exact hl
  · rw [isListed_unlist, if_pos rfl]
  · intro a o ha hpa ho
    have ho' := hidx a o hpa ho
    subst ho'
    rw [peer_unlist, hcon a ha hpa, if_neg (hpne a ha hpa), hp]
  · intro a o ha hpa ho
    have hne : g.GetPeerOutAnchor a ≠ some ⟨n, 0⟩ := by
      intro e
      rw [hpa] at e
      cases e
      exact ho rfl
    rw [peer_unlist, hoth a ha hne, hpa]
  · intro a ha hpa
    have hne : g.GetPeerOutAnchor a ≠ some ⟨n, 0⟩ := by
      rw [hpa]
      intro e
      cases e
    rw [peer_unlist, hoth a ha hne, hpa]
  · intro a o k ha hpa e
    subst e
    rw [peer_unlist] at hpa
    by_cases hc : g.GetPeerOutAnchor a = some ⟨n, 0⟩
    · rw [hcon a ha hc, if_neg (hpne a ha hc)] at hpa
      cases hpa
      exact hpne a ha hc (hpn rfl)
    · rw [hoth a ha hc] at hpa
      exact hc (by rw [hpa, hidx a _ hpa rfl])
  · intro j
    rw [peer_unlist, hselfpeer]

theorem RelinkDataIOLoop_error (n : Nat) (io_map : List Int) (ks : List Nat) :
    ∀ (g : ComputeGraph) (e : Status), RelinkDataIOLoop n io_map ks g = .error e →
      e ≠ .SUCCESS := by
  induction ks with
  | nil => intro g e h; cases h
  | cons k ks ih =>
    intro g e h
    simp only [RelinkDataIOLoop] at h
    split at h
    · exact ih _ e h
    · split at h
      · cases h; decide
      · split at h
        · exact ih _ e h
        · exact ih _ e h

theorem IsolateNode_error {g : ComputeGraph} {n : Nat} {io_map : List Int} {e : Status}
    (h : g.IsolateNode n io_map = .error e) : e ≠ .SUCCESS := by
  unfold IsolateNode at h
  split at h
  · cases h; decide
  · split at h
    · rename_i e1 h1
      cases h
      exact RelinkDataIOLoop_error _ _ _ _ _ h1
    · cases h

theorem RemoveNodeWithoutRelink_error {g : ComputeGraph} {graph : Option Nat} {n : Nat}
    {e : Status} (h : g.RemoveNodeWithoutRelink graph n = .error e) : e ≠ .SUCCESS := by
  unfold RemoveNodeWithoutRelink at h
  split at h
  · cases h; decide
  · split at h
    · cases h
    · cases h; decide

theorem RemoveNoUseIdentity_pres (node : Nat) (s s' : PassState)
    (hpt : s.graph.isPassThrough node = true)
    (h : RemoveNoUseIdentity node s = (.SUCCESS, s')) : Pres s.graph s'.graph := by
  unfold RemoveNoUseIdentity at h
  simp only at h
  split at h
  · cases h; exact Pres_refl _
  · rename_i hc1
    split at h
    · cases h; exact Pres_refl _
    · split at h
      · cases h; exact Pres_refl _
      · split at h
        · cases h
        · split at h
          · cases h
          · rename_i pre hpre
            split at h
            · cases h; exact Pres_refl _
            · split at h
              · rename_i e hiso
                simp only [Prod.mk.injEq] at h
                exact absurd h.1 (IsolateNode_error hiso)
              · rename_i g1 hiso
                split at h
                · rename_i e hrem
                  simp only [Prod.mk.injEq] at h
                  exact absurd h.1 (RemoveNodeWithoutRelink_error hrem)
                · rename_i g2 hrem
                  simp only [Prod.mk.injEq, true_and] at h
                  subst h
                  intro hwf
                  have hsize : s.graph.GetOutDataNodesSize node ≤ 1 := by
                    by_contra hgt
                    exact hc1 (Or.inr (by omega))
                  exact PresFacts_of_isolate_zero hwf hpt hsize hpre hiso hrem

theorem PresFacts_trans {g1 g2 g3 : ComputeGraph} (a : PresFacts g1 g2) (b : PresFacts g2 g3) :
    PresFacts g1 g3 := by
  refine ⟨b.wf, Nat.le_trans a.len b.len, ?_, ?_, ?_⟩
  · intro n hn
    rw [b.shape n (Nat.lt_of_lt_of_le hn a.len), a.shape n hn]
  · intro n hn hl
    exact a.listed n hn (b.listed n (Nat.lt_of_lt_of_le hn a.len) hl)
  · intro x q hx hl
    have hx2 : x.node < g2.nodes.length := Nat.lt_of_lt_of_le hx a.len
    exact (a.prod x q hx (b.listed _ hx2 hl)).trans (b.prod x q hx2 hl)

theorem Unlink_ok {g g' : ComputeGraph} {o : OutDataAnchor} {a : InDataAnchor}
    (h : g.Unlink o a = .ok g') : g.GetPeerOutAnchor a = some o ∧ g' = g.setPeer a none := by
  unfold Unlink at h
  split at h
  · rename_i hc
    cases h
    exact ⟨hc, rfl⟩
  · cases h

theorem Unlink_error {g : ComputeGraph} {o : OutDataAnchor} {a : InDataAnchor} {e : Status}
    (h : g.Unlink o a = .error e) : e ≠ .SUCCESS := by
  unfold Unlink at h
  split at h
  · cases h
  · cases h; decide

theorem AddEdge_ok {g g' : ComputeGraph} {o : OutDataAnchor} {a : InDataAnchor}
    (h : g.AddEdge o a = .ok g') :
    g.hasOutAnchor o = true ∧ g.hasInAnchor a = true ∧ g.GetPeerOutAnchor a = none ∧
      g' = g.setPeer a (some o) := by
  unfold AddEdge at h
  split at h
  · rename_i hc
    cases h
    exact ⟨hc.1, hc.2.1, hc.2.2, rfl⟩
  · cases h

theorem ComputeGraph.lt_length_of_isPassThrough {g : ComputeGraph} {n : Nat}
    (h : g.isPassThrough n = true) : n < g.nodes.length := by
  by_contra hlt
  have : g.GetType n = "" := by
    simp only [GetType, GetOpDesc, List.getElem?_eq_none (Nat.le_of_not_lt hlt)]
  simp only [isPassThrough, this, Bool.or_eq_true, decide_eq_true_eq] at h
  rcases h with h | h <;> exact absurd h (by decide)

/-- One step of the loop of `SplitIdentity`. -/
theorem SplitIdentityAlongAnchor_step (i : Nat) (p : OutDataAnchor) (pre_node : Nat)
    (c : InDataAnchor) (s s' : PassState)
    (hwf : s.graph.wellFormed = true) (hpt : s.graph.isPassThrough i = true)
    (hinv : s.graph.GetPeerOutAnchor ⟨i, 0⟩ = some p ∨ p = ⟨i, 0⟩)
    (hpv : s.graph.hasOutAnchor p = true)
    (h : SplitIdentityAlongAnchor ⟨i, 0⟩ p pre_node c s = (.SUCCESS, s')) :
    PresFacts s.graph s'.graph ∧ (s'.graph.GetPeerOutAnchor ⟨i, 0⟩ = some p ∨ p = ⟨i, 0⟩) := by
  unfold SplitIdentityAlongAnchor at h
  simp only at h
  split at h
  · rename_i e hu
    simp only [Prod.mk.injEq] at h
    exact absurd h.1 (Unlink_error hu)
  · rename_i g1 hu
    obtain ⟨hc, hg1⟩ := Unlink_ok hu
    have hcin : s.graph.hasInAnchor c = true := hasInAnchor_of_peer hc
    have hmid : ∀ a q, ProducerOf s.graph.isPassThrough s.graph.GetPeerOutAnchor a q ↔
        ProducerOf s.graph.isPassThrough
          (Function.update s.graph.GetPeerOutAnchor c (some p)) a q := by
      rcases hinv with hl | hr
      · exact ProducerOf_contract_iff s.graph.isPassThrough s.graph.GetPeerOutAnchor
          (Function.update s.graph.GetPeerOutAnchor c (some p)) i 0 c hc hpt
          (fun a hac => Function.update_noteq hac _ _)
          (by rw [Function.update_same, hl])
      · intro a q
        rw [hr, ← hc, Function.update_eq_self]
    split at h
    · -- a dedicated copy for this consumer
      cases hcr : CreateIdentityAfterSrcNode { s with graph := g1 } pre_node with
      | mk r s2 =>
        rw [hcr] at h
        cases r with
        | none => simp at h
        | some id =>
          simp only at h
          split at h
          · simp at h
          · rename_i g3 h3
            split at h
            · simp at h
            · rename_i g4 h4
              simp only [Prod.mk.injEq, true_and] at h
              subst h
              obtain ⟨hid, _, name, owner, hs2⟩ := CreateIdentityAfterSrcNode_some hcr
              simp only at hid hs2
              have hlen1 : g1.nodes.length = s.graph.nodes.length := by
                rw [hg1, length_setPeer]
              rw [hlen1] at hid
              subst hid
              obtain ⟨_, h3in, _, hg3⟩ := AddEdge_ok h3
              obtain ⟨_, h4in, _, hg4⟩ := AddEdge_ok h4
              rw [kIdentityAnchorIndex] at hg3 h3in hg4
              have hcL : c.node < s.graph.nodes.length := lt_length_of_hasInAnchor hcin
              have hcN : c ≠ ⟨s.graph.nodes.length, 0⟩ := by
                intro e
                rw [e] at hcL
                simp at hcL
              have hpeer : ∀ b : InDataAnchor, g4.GetPeerOutAnchor b =
                  if b = c then some ⟨s.graph.nodes.length, 0⟩
                  else if b = ⟨s.graph.nodes.length, 0⟩ then some p
                  else (g1.AddNode (newIdentityNode name owner)).GetPeerOutAnchor b := by
                intro b
                rw [hg4, peer_setPeer, hg3, peer_setPeer, ← hs2]
                by_cases hbc : b = c
                · rw [if_pos ⟨hbc, by rw [← hg3]; exact h4in⟩, if_pos hbc]
                · rw [if_neg (fun h => hbc h.1), if_neg hbc]
                  by_cases hbN : b = ⟨s.graph.nodes.length, 0⟩
                  · rw [if_pos ⟨hbN, h3in⟩, if_pos hbN]
                  · rw [if_neg (fun h => hbN h.1), if_neg hbN]
              have hold : ∀ b : InDataAnchor, b ≠ c → b.node < s.graph.nodes.length →
                  g4.GetPeerOutAnchor b = s.graph.GetPeerOutAnchor b := by
                intro b hbc hbl
                have hbN : b ≠ ⟨s.graph.nodes.length, 0⟩ := by
                  intro e
                  rw [e] at hbl
                  simp at hbl
                rw [hpeer, if_neg hbc, if_neg hbN, peer_AddNode_old _ _ _ (by rw [hlen1]; exact hbl),
                  hg1, peer_setPeer, if_neg (fun h => hbc h.1)]
              have hshape4 : ∀ n, g4.shape n =
                  (g1.AddNode (newIdentityNode name owner)).shape n := by
                intro n
                rw [hg4, shape_setPeer, hg3, shape_setPeer, hs2]
              have hshapeN : g4.shape s.graph.nodes.length =
                  some ((newIdentityNode name owner).op_desc, owner, 1, 1) := by
                rw [hshape4, ← hlen1, shape_AddNode_identity]
              obtain ⟨hptN, houtN, _⟩ := identity_facts hshapeN
              have hshape : ∀ n, n < s.graph.nodes.length → g4.shape n = s.graph.shape n := by
                intro n hn
                rw [hshape4, shape_AddNode_old _ _ _ (by rw [hlen1]; exact hn), hg1, shape_setPeer]
              have hfacts : PresFacts s.graph g4 := by
                refine PresFacts_of_insert hwf ?_ hshape ?_ hptN houtN c p hpv ?_ ?_ ?_ hold hmid
                · rw [hg4, length_setPeer, hg3, length_setPeer, hs2, length_AddNode, hlen1]
                · intro n hn
                  rw [hg4, isListed_setPeer, hg3, isListed_setPeer, hs2,
                    isListed_AddNode_old _ _ _ (by rw [hlen1]; exact hn), hg1, isListed_setPeer]
                  exact id
                · rw [hpeer, if_neg (Ne.symm hcN), if_pos rfl]
                · intro j hj
                  have hne : (⟨s.graph.nodes.length, j⟩ : InDataAnchor) ≠
                      ⟨s.graph.nodes.length, 0⟩ := by
                    intro e
                    cases e
                    exact hj rfl
                  have hne2 : (⟨s.graph.nodes.length, j⟩ : InDataAnchor) ≠ c := by
                    intro e
                    rw [← e] at hcL
                    simp at hcL
                  rw [hpeer, if_neg hne2, if_neg hne, ← hlen1, peer_AddNode_new]
                · rw [hpeer, if_pos rfl]
              refine ⟨hfacts, ?_⟩
              by_cases hci : c = ⟨i, 0⟩
              · right
                rcases hinv with hl | hr
                · rw [← hci, hc] at hl
                  cases hl
                  rfl
                · exact hr
              · rcases hinv with hl | hr
                · left
                  rw [hold _ (Ne.symm hci) (lt_length_of_isPassThrough hpt)]
                  exact hl
                · exact Or.inr hr
    · -- the consumer is linked to the producer directly
      split at h
      · simp at h
      · rename_i g2 h2
        simp only [Prod.mk.injEq, true_and] at h
        subst h
        obtain ⟨_, h2in, _, hg2⟩ := AddEdge_ok h2
        have hpeer : ∀ b : InDataAnchor, g2.GetPeerOutAnchor b =
            if b = c then some p else s.graph.GetPeerOutAnchor b := by
          intro b
          rw [hg2, peer_setPeer, hg1, peer_setPeer]
          by_cases hbc : b = c
          · rw [if_pos ⟨hbc, by rw [← hg1]; exact h2in⟩, if_pos hbc]
          · rw [if_neg (fun h => hbc h.1), if_neg hbc, if_neg (fun h => hbc h.1)]
        have hlen : g2.nodes.length = s.graph.nodes.length := by
          rw [hg2, length_setPeer, hg1, length_setPeer]
        have hshape : ∀ n, n < s.graph.nodes.length → g2.shape n = s.graph.shape n := by
          intro n _
          rw [hg2, shape_setPeer, hg1, shape_setPeer]
        have hlisted : ∀ n, n < s.graph.nodes.length → g2.isListed n = true →
            s.graph.isListed n = true := by
          intro n _
          rw [hg2, isListed_setPeer, hg1, isListed_setPeer]
          exact id
        constructor
        · rcases hinv with hl | hr
          · exact PresFacts_of_contract hwf hlen hshape hlisted c i 0 hc hpt
              (fun a hac => by rw [hpeer, if_neg hac]) (by rw [hpeer, if_pos rfl, hl])
          · refine PresFacts_of_same hwf hlen hshape hlisted ?_
            intro a
            rw [hpeer]
            by_cases hac : a = c
            · rw [if_pos hac, hac, hc, hr]
            · rw [if_neg hac]
        · by_cases hci : c = ⟨i, 0⟩
          · left
            rw [hpeer, if_pos hci.symm]
          · rcases hinv with hl | hr
            · left
              rw [hpeer, if_neg (Ne.symm hci)]
              exact hl
            · exact Or.inr hr

theorem PresFacts_isPassThrough {g g' : ComputeGraph} (h : PresFacts g g') {n : Nat}
    (hpt : g.isPassThrough n = true) : g'.isPassThrough n = true := by
  rw [isPassThrough_of_shape (h.shape n (lt_length_of_isPassThrough hpt))]
  exact hpt

theorem PresFacts_hasOutAnchor {g g' : ComputeGraph} (h : PresFacts g g') {o : OutDataAnchor}
    (ho : g.hasOutAnchor o = true) : g'.hasOutAnchor o = true := by
  rw [hasOutAnchor_of_shape (h.shape o.node (lt_length_of_hasOutAnchor ho))]
  exact ho

theorem SplitIdentity_pres (node : Nat) (s s' : PassState)
    (hpt : s.graph.isPassThrough node = true)
    (h : SplitIdentity node s = (.SUCCESS, s')) : Pres s.graph s'.graph := by
  intro hwf
  unfold SplitIdentity at h
  simp only [kIdentityAnchorIndex] at h
  split at h
  · cases h
  · split at h
    · cases h; exact Pres_refl _ hwf
    · split at h
      · cases h
      · split at h
        · cases h
        · rename_i p hp
          have hpv : s.graph.hasOutAnchor p = true := ((wellFormed_iff _).1 hwf).1 _ _ hp
          -- the loop over the consumers
          have hloop : ∀ t t' : PassState,
              forEachM (SplitIdentityAlongAnchor ⟨node, 0⟩ p p.node)
                (s.graph.GetPeerInDataAnchors ⟨node, 0⟩) t = (.SUCCESS, t') →
              t.graph.wellFormed = true →
              (t.graph.isPassThrough node = true ∧
                (t.graph.GetPeerOutAnchor ⟨node, 0⟩ = some p ∨ p = ⟨node, 0⟩) ∧
                t.graph.hasOutAnchor p = true) →
              PresFacts t.graph t'.graph ∧
              (t'.graph.isPassThrough node = true ∧
                (t'.graph.GetPeerOutAnchor ⟨node, 0⟩ = some p ∨ p = ⟨node, 0⟩) ∧
                t'.graph.hasOutAnchor p = true) := by
            intro t t' ht
            refine forEachM_rel (SplitIdentityAlongAnchor ⟨node, 0⟩ p p.node)
              (fun u u' => u.graph.wellFormed = true →
                (u.graph.isPassThrough node = true ∧
                  (u.graph.GetPeerOutAnchor ⟨node, 0⟩ = some p ∨ p = ⟨node, 0⟩) ∧
                  u.graph.hasOutAnchor p = true) →
                PresFacts u.graph u'.graph ∧
                (u'.graph.isPassThrough node = true ∧
                  (u'.graph.GetPeerOutAnchor ⟨node, 0⟩ = some p ∨ p = ⟨node, 0⟩) ∧
                  u'.graph.hasOutAnchor p = true)) ?_ ?_ _ t t' ?_ ht
            · intro u hu hi
              exact ⟨Pres_refl _ hu, hi⟩
            · intro u1 u2 u3 h12 h23 hu hi
              obtain ⟨f12, i2⟩ := h12 hu hi
              obtain ⟨f23, i3⟩ := h23 f12.wf i2
              exact ⟨PresFacts_trans f12 f23, i3⟩
            · intro c _ u u' hstep hu hi
              obtain ⟨f, hd⟩ := SplitIdentityAlongAnchor_step node p p.node c u u' hu hi.1
                hi.2.1 hi.2.2 hstep
              exact ⟨f, PresFacts_isPassThrough f hi.1, hd, PresFacts_hasOutAnchor f hi.2.2⟩
          split at h
          · rename_i hr
            rw [h] at hr
            exact absurd rfl hr
          · rename_i hr
            have hr' : (forEachM (SplitIdentityAlongAnchor ⟨node, 0⟩ p p.node)
                (s.graph.GetPeerInDataAnchors ⟨node, 0⟩) s).1 = .SUCCESS := by
              by_contra hne
              exact hr hne
            obtain ⟨f1, hpt1, _, _⟩ := hloop s _ (Prod.ext hr' rfl) hwf ⟨hpt, Or.inl hp, hpv⟩
            split at h
            · rename_i hsize
              split at h
              · simp at h
              · rename_i g2 hiso
                split at h
                · simp at h
                · rename_i g3 hrem
                  simp only [Prod.mk.injEq, true_and] at h
                  subst h
                  exact PresFacts_trans f1 (PresFacts_of_isolate_nil f1.wf hpt1 hsize hiso hrem)
            · simp only [Prod.mk.injEq, true_and] at h
              subst h
              exact f1

theorem HandleMemoryRWConflictNode_pres (node : Nat) (s s' : PassState)
    (h : HandleMemoryRWConflictNode node s = (.SUCCESS, s')) : Pres s.graph s'.graph := by
  unfold HandleMemoryRWConflictNode at h
  simp only at h
  split at h
  · cases h; exact Pres_refl _
  · split at h
    · cases h; exact Pres_refl _
    · split at h
      · cases h; exact Pres_refl _
      · split at h
        · rename_i hty
          have hpt : s.graph.isPassThrough node = true := by
            simp only [isPassThrough, Bool.or_eq_true, decide_eq_true_eq]
            exact hty
          split at h
          · rename_i hr
            rw [h] at hr
            exact absurd rfl hr
          · rename_i hr1
            have hr1' : (SplitIdentity node s).1 = .SUCCESS := by
              by_contra hne
              exact hr1 hne
            have p1 := SplitIdentity_pres node s _ hpt (Prod.ext hr1' rfl)
            split at h
            · rename_i hr
              rw [h] at hr
              exact absurd rfl hr
            · rename_i hr2
              have hr2' : (RemoveNoUseIdentity node (SplitIdentity node s).2).1 = .SUCCESS := by
                by_contra hne
                exact hr2 hne
              intro hwf
              have f1 := p1 hwf
              have f2 := RemoveNoUseIdentity_pres node _ _ (PresFacts_isPassThrough f1 hpt)
                (Prod.ext hr2' rfl) f1.wf
              have f3 := InsertIdentityAsNeeded_pres node _ _ h f2.wf
              exact PresFacts_trans (PresFacts_trans f1 f2) f3
        · exact InsertIdentityAsNeeded_pres node s s' h

theorem HandleMemoryRWConflict_pres (s s' : PassState)
    (h : HandleMemoryRWConflict s = (.SUCCESS, s')) : Pres s.graph s'.graph := by
  unfold HandleMemoryRWConflict at h
  simp only at h
  split at h
  · exact HandleAllreduceDuplicateInput_pres { s with node_rwtype_map_ := [] } _ h
  · split at h
    · rename_i hr
      rw [h] at hr
      exact absurd rfl hr
    · rename_i hr
      have hr' : (MarkRWTypeForAllSubgraph s.graph.GetAllSubgraphs
          { s with node_rwtype_map_ := [] }).1 = .SUCCESS := by
        by_contra hne
        exact hr hne
      have p1 := MarkRWTypeForAllSubgraph_pres _ _ _ (Prod.ext hr' rfl)
      simp only at p1
      exact Pres_trans p1 (forEachM_pres HandleMemoryRWConflictNode _ _ _
        (fun x _ t t' ht => HandleMemoryRWConflictNode_pres x t t' ht) h)

theorem ComputeGraph.lt_length_of_isListed {g : ComputeGraph} {n : Nat}
    (h : g.isListed n = true) : n < g.nodes.length := by
  by_contra hlt
  simp only [isListed, List.getElem?_eq_none (Nat.le_of_not_lt hlt)] at h
  cases h

theorem Src_unique {pt : Nat → Bool} {peer : InDataAnchor → Option OutDataAnchor}
    {o q1 q2 : OutDataAnchor} (h1 : Src pt peer o q1) (h2 : Src pt peer o q2) : q1 = q2 := by
  induction h1 with
  | here o h0 =>
    cases h2 with
    | here _ _ => rfl
    | through _ _ _ hpt _ _ => rw [h0] at hpt; cases hpt
  | through o o2 q hpt hp _ ih =>
    cases h2 with
    | here _ h0 => rw [hpt] at h0; cases h0
    | through _ o3 _ _ hp3 hs3 =>
      rw [hp] at hp3
      cases hp3
      exact ih hs3

theorem Grows_refl {touched : List Nat} {g : ComputeGraph} (h : g.linksValid = true) :
    Grows touched g g :=
  { links := h, len := Nat.le_refl _, shape := fun _ _ => rfl, listed := fun _ _ => rfl,
    fresh := fun m hm => by
      have : g.GetType m = "" := by
        simp only [GetType, GetOpDesc, List.getElem?_eq_none hm]
      rw [this]
      decide,
    graphs := rfl, frame := fun _ _ _ => rfl }

theorem Grows_trans {t1 t2 t3 : List Nat} {g1 g2 g3 : ComputeGraph}
    (h1 : ∀ x, x ∈ t1 → x ∈ t3) (h2 : ∀ x, x ∈ t2 → x ∈ t3)
    (a : Grows t1 g1 g2) (b : Grows t2 g2 g3) : Grows t3 g1 g3 := by
  refine ⟨b.links, Nat.le_trans a.len b.len, ?_, ?_, ?_, ?_, ?_⟩
  · intro m hm
    rw [b.shape m (Nat.lt_of_lt_of_le hm a.len), a.shape m hm]
  · intro m hm
    rw [b.listed m (Nat.lt_of_lt_of_le hm a.len), a.listed m hm]
  · intro m hm
    by_cases hlt : m < g2.nodes.length
    · rw [GetType_of_shape (b.shape m hlt)]
      exact a.fresh m hm
    · exact b.fresh m (Nat.le_of_not_lt hlt)
  · rw [b.graphs, a.graphs]
  · intro x hx hxt
    rw [b.frame x (Nat.lt_of_lt_of_le hx a.len) (fun h => hxt (h2 _ h)),
      a.frame x hx (fun h => hxt (h1 _ h))]

/-- What creating an Identity and splicing it onto the edge into `dst` does. -/
theorem create_insert_facts {s s1 : PassState} {src_node id : Nat} {src : OutDataAnchor}
    {dst : InDataAnchor} {g2 : ComputeGraph}
    (hc : CreateIdentityAfterSrcNode s src_node = (some id, s1))
    (hi : s1.graph.InsertNodeBetweenDataAnchors src dst id = .ok g2) :
    id = s.graph.nodes.length ∧ s1.node_rwtype_map_ = s.node_rwtype_map_ ∧
      s.graph.GetPeerOutAnchor dst = some src ∧ dst.node < s.graph.nodes.length ∧
      g2.nodes.length = s.graph.nodes.length + 1 ∧
      (∀ n, n < s.graph.nodes.length → g2.shape n = s.graph.shape n) ∧
      (∀ n, n < s.graph.nodes.length → g2.isListed n = s.graph.isListed n) ∧
      g2.graphs = s.graph.graphs ∧
      g2.isPassThrough s.graph.nodes.length = true ∧
      g2.GetType s.graph.nodes.length = IDENTITY ∧
      g2.outAnchorNum s.graph.nodes.length = 1 ∧
      g2.GetPeerOutAnchor ⟨s.graph.nodes.length, 0⟩ = some src ∧
      (∀ j, j ≠ 0 → g2.GetPeerOutAnchor ⟨s.graph.nodes.length, j⟩ = none) ∧
      g2.GetPeerOutAnchor dst = some ⟨s.graph.nodes.length, 0⟩ ∧
      (∀ a, a ≠ dst → a.node < s.graph.nodes.length →
        g2.GetPeerOutAnchor a = s.graph.GetPeerOutAnchor a) := by
  obtain ⟨hid, hreg, name, owner, hg1⟩ := CreateIdentityAfterSrcNode_some hc
  obtain ⟨_, _, hpeer, hg2⟩ := InsertNodeBetweenDataAnchors_ok hi
  subst hid
  rw [hg1] at hpeer hg2
  have hdst : dst.node < s.graph.nodes.length := by
    have h1 := lt_length_of_hasInAnchor (hasInAnchor_of_peer hpeer)
    rw [length_AddNode] at h1
    rcases Nat.lt_or_ge dst.node s.graph.nodes.length with hl | hl
    · exact hl
    · have : dst.node = s.graph.nodes.length := by omega
      obtain ⟨dn, dj⟩ := dst
      simp only at this
      subst this
      rw [peer_AddNode_new] at hpeer
      cases hpeer
  have hpeer0 : s.graph.GetPeerOutAnchor dst = some src := by
    rw [← peer_AddNode_old s.graph (newIdentityNode name owner) dst hdst]
    exact hpeer
  have hdstin : (s.graph.AddNode (newIdentityNode name owner)).hasInAnchor dst = true :=
    hasInAnchor_of_peer hpeer
  have hshapeN : g2.shape s.graph.nodes.length =
      some ((newIdentityNode name owner).op_desc, owner, 1, 1) := by
    rw [hg2, shape_setPeer, shape_setPeer, shape_AddNode_identity]
  obtain ⟨hptN, houtN, hinN⟩ := identity_facts hshapeN
  have htyN : g2.GetType s.graph.nodes.length = IDENTITY := by
    simp only [shape] at hshapeN
    cases hnd : g2.nodes[s.graph.nodes.length]? with
    | none => rw [hnd] at hshapeN; cases hshapeN
    | some nd =>
      rw [hnd] at hshapeN
      simp only [newIdentityNode, Option.some.injEq, Prod.mk.injEq] at hshapeN
      simp only [GetType, GetOpDesc, hnd, hshapeN.1]
  have hNin : ((s.graph.AddNode (newIdentityNode name owner)).setPeer dst
      (some ⟨s.graph.nodes.length, 0⟩)).hasInAnchor ⟨s.graph.nodes.length, 0⟩ = true := by
    have : ((s.graph.AddNode (newIdentityNode name owner)).setPeer dst
        (some ⟨s.graph.nodes.length, 0⟩)).shape s.graph.nodes.length =
        some ((newIdentityNode name owner).op_desc, owner, 1, 1) := by
      rw [shape_setPeer, shape_AddNode_identity]
    simp only [hasInAnchor, (identity_facts this).2.2]
    decide
  have hdstN : dst ≠ ⟨s.graph.nodes.length, 0⟩ := by
    intro e
    rw [e] at hdst
    simp at hdst
  refine ⟨rfl, hreg, hpeer0, hdst, ?_, ?_, ?_, ?_, hptN, htyN, houtN, ?_, ?_, ?_, ?_⟩
  · rw [hg2, length_setPeer, length_setPeer, length_AddNode]
  · intro n hn
    rw [hg2, shape_setPeer, shape_setPeer, shape_AddNode_old _ _ _ hn]
  · intro n hn
    rw [hg2, isListed_setPeer, isListed_setPeer, isListed_AddNode_old _ _ _ hn]
  · rw [hg2, graphs_setPeer, graphs_setPeer, graphs_AddNode]
  · rw [hg2, peer_setPeer, if_pos ⟨rfl, hNin⟩]
  · intro j hj
    have hne : (⟨s.graph.nodes.length, j⟩ : InDataAnchor) ≠ ⟨s.graph.nodes.length, 0⟩ := by
      intro e
      cases e
      exact hj rfl
    have hne2 : (⟨s.graph.nodes.length, j⟩ : InDataAnchor) ≠ dst := by
      intro e
      rw [← e] at hdst
      simp at hdst
    rw [hg2, peer_setPeer, if_neg (fun h => hne h.1), peer_setPeer, if_neg (fun h => hne2 h.1),
      peer_AddNode_new]
  · rw [hg2, peer_setPeer, if_neg (fun h => hdstN h.1), peer_setPeer, if_pos ⟨rfl, hdstin⟩]
  · intro a hac hal
    have hne : a ≠ ⟨s.graph.nodes.length, 0⟩ := by
      intro e
      rw [e] at hal
      simp at hal
    rw [hg2, peer_setPeer, if_neg (fun h => hne h.1), peer_setPeer, if_neg (fun h => hac h.1),
      peer_AddNode_old _ _ _ hal]

/-- Creating an Identity on the edge into an anchor of node `n` touches `n` only. -/
theorem Grows_of_create_insert {s s1 : PassState} {src_node id : Nat} {src : OutDataAnchor}
    {dst : InDataAnchor} {g2 : ComputeGraph} (hl : s.graph.linksValid = true)
    (hc : CreateIdentityAfterSrcNode s src_node = (some id, s1))
    (hi : s1.graph.InsertNodeBetweenDataAnchors src dst id = .ok g2) :
    Grows [dst.node] s.graph g2 := by
  obtain ⟨_, _, hp0, hdst, hlen, hshape, hlisted, hgraphs, _, hty, hout, hN, hNo, hd, hoth⟩ :=
    create_insert_facts hc hi
  have hl' := (linksValid_iff s.graph).1 hl
  have hval : ∀ o, s.graph.hasOutAnchor o = true → g2.hasOutAnchor o = true := by
    intro o ho
    rw [hasOutAnchor_of_shape (hshape o.node (lt_length_of_hasOutAnchor ho))]
    exact ho
  refine ⟨?_, by omega, hshape, hlisted, ?_, hgraphs, ?_⟩
  · rw [linksValid_iff]
    intro a o h
    rcases Nat.lt_trichotomy a.node s.graph.nodes.length with hlt | heq | hgt
    · by_cases hac : a = dst
      · subst hac
        rw [hd] at h
        cases h
        simp only [hasOutAnchor, hout]
        decide
      · rw [hoth a hac hlt] at h
        exact hval o (hl' a o h)
    · obtain ⟨an, aj⟩ := a
      simp only at heq
      subst heq
      by_cases hj : aj = 0
      · subst hj
        rw [hN] at h
        cases h
        exact hval _ (hl' dst _ hp0)
      · rw [hNo aj hj] at h
        cases h
    · rw [peer_eq_none_of_length_le g2 a (by omega)] at h
      cases h
  · intro m hm
    rcases Nat.eq_or_lt_of_le hm with heq | hgt
    · rw [← heq, hty]
      decide
    · have : g2.GetType m = "" := by
        simp only [GetType, GetOpDesc, List.getElem?_eq_none (show g2.nodes.length ≤ m by omega)]
      rw [this]
      decide
  · intro a ha hat
    have hne : a ≠ dst := by
      intro e
      rw [e] at hat
      exact hat (List.mem_singleton.2 rfl)
    exact hoth a hne ha

/-- Second run, inner loop: distinct producers are only collected. -/
theorem HandleAllreduceInput_noop (s : PassState) :
    ∀ (anchors : List InDataAnchor) (seen l : List OutDataAnchor),
      anchors.map s.graph.GetPeerOutAnchor = l.map some → (seen ++ l).Nodup →
      forEachM HandleAllreduceInput anchors (s, seen) = (.SUCCESS, (s, seen ++ l)) := by
  intro anchors
  induction anchors with
  | nil =>
    intro seen l hl _
    cases l with
    | nil => simp [forEachM]
    | cons o l => simp at hl
  | cons a anchors ih =>
    intro seen l hl hnd
    cases l with
    | nil => simp at hl
    | cons o l =>
      simp only [List.map_cons, List.cons.injEq] at hl
      obtain ⟨ha, hrest⟩ := hl
      have hnotin : o ∉ seen := by
        intro hin
        have := List.nodup_append.1 hnd
        exact this.2.2 hin (List.mem_cons_self _ _) 
      have hstep : HandleAllreduceInput a (s, seen) = (.SUCCESS, (s, seen ++ [o])) := by
        unfold HandleAllreduceInput
        simp only [ha]
        rw [if_pos hnotin]
      simp only [forEachM, hstep, if_true]
      have := ih (seen ++ [o]) l hrest (by simpa [List.append_assoc] using hnd)
      simpa [List.append_assoc] using this

/-- Second run, outer loop: nothing changes when every HcomAllReduce node has
distinct producers. -/
theorem HandleAllreduceNode_noop (s : PassState) :
    ∀ nodes : List Nat,
      (∀ n ∈ nodes, s.graph.GetType n = HCOMALLREDUCE → s.graph.inputsDistinct n) →
      forEachM HandleAllreduceNode nodes s = (.SUCCESS, s) := by
  intro nodes
  induction nodes with
  | nil => intro _; rfl
  | cons n nodes ih =>
    intro h
    have hstep : HandleAllreduceNode n s = (.SUCCESS, s) := by
      unfold HandleAllreduceNode
      split
      · rename_i hty
        obtain ⟨l, hl, hnd⟩ := h n (List.mem_cons_self _ _) hty
        have := HandleAllreduceInput_noop s (s.graph.GetAllInDataAnchors n) [] l hl
          (by simpa using hnd)
        simp only [this]
      · rfl
    simp only [forEachM, hstep, if_true]
    exact ih (fun m hm => h m (List.mem_cons_of_mem _ hm))

/-- One step of the inner loop touches only the node of the anchor and leaves
the registry alone. -/
theorem HandleAllreduceInput_grows (a : InDataAnchor) (st st' : PassState × List OutDataAnchor)
    (hl : st.1.graph.linksValid = true)
    (h : HandleAllreduceInput a st = (.SUCCESS, st')) :
    Grows [a.node] st.1.graph st'.1.graph ∧ st'.1.node_rwtype_map_ = st.1.node_rwtype_map_ := by
  unfold HandleAllreduceInput at h
  simp only at h
  split at h
  · cases h
  · rename_i pre hpre
    split at h
    · simp only [Prod.mk.injEq, true_and] at h
      subst h
      exact ⟨Grows_refl hl, rfl⟩
    · cases hc : CreateIdentityAfterSrcNode st.1 pre.node with
      | mk r s1 =>
        rw [hc] at h
        cases r with
        | none => simp at h
        | some id =>
          simp only at h
          cases hi : s1.graph.InsertNodeBetweenDataAnchors pre a id with
          | error e =>
            rw [hi] at h
            simp only [Prod.mk.injEq] at h
            exact absurd h.1 (InsertNodeBetweenDataAnchors_error hi)
          | ok g2 =>
            rw [hi] at h
            simp only [Prod.mk.injEq, true_and] at h
            subst h
            exact ⟨Grows_of_create_insert hl hc hi, (create_insert_facts hc hi).2.1⟩

/-- The inner loop over anchors of node `n` touches only `n`. -/
theorem HandleAllreduceInputs_grows (n : Nat) (anchors : List InDataAnchor)
    (hn : ∀ a ∈ anchors, a.node = n) (st st' : PassState × List OutDataAnchor)
    (hl : st.1.graph.linksValid = true)
    (h : forEachM HandleAllreduceInput anchors st = (.SUCCESS, st')) :
    Grows [n] st.1.graph st'.1.graph ∧ st'.1.node_rwtype_map_ = st.1.node_rwtype_map_ := by
  refine forEachM_rel HandleAllreduceInput
    (fun u u' => u.1.graph.linksValid = true →
      Grows [n] u.1.graph u'.1.graph ∧ u'.1.node_rwtype_map_ = u.1.node_rwtype_map_)
    ?_ ?_ anchors st st' ?_ h hl
  · intro u hu
    exact ⟨Grows_refl hu, rfl⟩
  · intro u1 u2 u3 h12 h23 hu
    obtain ⟨g12, r12⟩ := h12 hu
    obtain ⟨g23, r23⟩ := h23 g12.links
    exact ⟨Grows_trans (fun _ hx => hx) (fun _ hx => hx) g12 g23, by rw [r23, r12]⟩
  · intro a ha u u' hstep hu
    have := HandleAllreduceInput_grows a u u' hu hstep
    rw [hn a ha] at this
    exact this

/-- First run, inner loop: afterwards the processed anchors have pairwise
distinct producers. `bound` is the arena size when the loop started. -/
theorem HandleAllreduceInputs_distinct (bound : Nat) :
    ∀ (rest done : List InDataAnchor) (prods seen : List OutDataAnchor)
      (s s' : PassState) (seen' : List OutDataAnchor),
      s.graph.linksValid = true → bound ≤ s.graph.nodes.length →
      (done ++ rest).Nodup → (∀ a ∈ done ++ rest, a.node < bound) →
      done.map s.graph.GetPeerOutAnchor = prods.map some → prods.Nodup →
      (∀ o ∈ prods, o ∈ seen ∨ bound ≤ o.node) →
      (∀ a ∈ rest, ∀ o, s.graph.GetPeerOutAnchor a = some o → o.node < bound) →
      forEachM HandleAllreduceInput rest (s, seen) = (.SUCCESS, (s', seen')) →
      ∃ more, (done ++ rest).map s'.graph.GetPeerOutAnchor = (prods ++ more).map some ∧
        (prods ++ more).Nodup := by
  intro rest
  induction rest with
  | nil =>
    intro done prods seen s s' seen' _ _ _ _ hdone hnd _ _ h
    simp only [forEachM, Prod.mk.injEq, true_and] at h
    obtain ⟨h1, _⟩ := h
    subst h1
    exact ⟨[], by simpa using hdone, by simpa using hnd⟩
  | cons a rest ih =>
    intro done prods seen s s' seen' hl hb hnd hlt hdone hpnd hprods hrest h
    simp only [forEachM] at h
    by_cases hs : (HandleAllreduceInput a (s, seen)).1 = .SUCCESS
    · rw [if_pos hs] at h
      have hl' := (linksValid_iff s.graph).1 hl
      obtain ⟨st1, hstep⟩ : ∃ st1, HandleAllreduceInput a (s, seen) = (.SUCCESS, st1) :=
        ⟨_, Prod.ext hs rfl⟩
      rw [hstep] at h
      simp only at h
      have hnd' : ((done ++ [a]) ++ rest).Nodup := by simpa [List.append_assoc] using hnd
      have hlt' : ∀ x ∈ (done ++ [a]) ++ rest, x.node < bound := by
        intro x hx
        exact hlt x (by simpa [List.append_assoc] using hx)
      have ha_notin_done : a ∉ done := by
        intro hin
        have := (List.nodup_append.1 hnd).2.2 hin (List.mem_cons_self _ _)
        exact this
      have ha_notin_rest : a ∉ rest := by
        have := (List.nodup_append.1 hnd).2.1
        exact (List.nodup_cons.1 this).1
      have ha_lt : a.node < bound := hlt a (by simp)
      -- what the step did
      unfold HandleAllreduceInput at hstep
      simp only at hstep
      cases hpa : s.graph.GetPeerOutAnchor a with
      | none =>
        rw [hpa] at hstep
        simp at hstep
      | some pre =>
        rw [hpa] at hstep
        simp only at hstep
        have hpre_lt : pre.node < bound := hrest a (List.mem_cons_self _ _) pre hpa
        by_cases hseen : pre ∉ seen
        · rw [if_pos hseen] at hstep
          simp only [Prod.mk.injEq, true_and] at hstep
          subst hstep
          have hpre_notin : pre ∉ prods := by
            intro hin
            rcases hprods pre hin with h1 | h1
            · exact hseen h1
            · omega
          obtain ⟨more, hm1, hm2⟩ := ih (done ++ [a]) (prods ++ [pre]) (seen ++ [pre]) s s' seen'
            hl hb hnd' hlt'
            (by simp [hdone, hpa])
            (by
              rw [List.nodup_append]
              refine ⟨hpnd, List.nodup_singleton _, ?_⟩
              intro x hx hx'
              rw [List.mem_singleton] at hx'
              subst hx'
              exact hpre_notin hx)
            (by
              intro o ho
              rcases List.mem_append.1 ho with h1 | h1
              · rcases hprods o h1 with h2 | h2
                · exact Or.inl (List.mem_append_left _ h2)
                · exact Or.inr h2
              · exact Or.inl (List.mem_append_right _ h1))
            (fun x hx => hrest x (List.mem_cons_of_mem _ hx))
            h
          exact ⟨pre :: more, by simpa [List.append_assoc] using hm1,
            by simpa [List.append_assoc] using hm2⟩
        · rw [if_neg hseen] at hstep
          cases hc : CreateIdentityAfterSrcNode s pre.node with
          | mk r s1 =>
            rw [hc] at hstep
            cases r with
            | none => simp at hstep
            | some id =>
              simp only at hstep
              cases hi : s1.graph.InsertNodeBetweenDataAnchors pre a id with
              | error e =>
                rw [hi] at hstep
                simp only [Prod.mk.injEq] at hstep
                exact absurd hstep.1 (InsertNodeBetweenDataAnchors_error hi)
              | ok g2 =>
                rw [hi] at hstep
                simp only [Prod.mk.injEq, true_and] at hstep
                subst hstep
                have hgrow := Grows_of_create_insert hl hc hi
                obtain ⟨_, _, _, _, hlen, _, _, _, _, _, _, _, _, hd, hoth⟩ :=
                  create_insert_facts hc hi
                have hprods_lt : ∀ o ∈ prods, o.node < s.graph.nodes.length := by
                  intro o ho
                  have : some o ∈ done.map s.graph.GetPeerOutAnchor := by
                    rw [hdone]
                    exact List.mem_map_of_mem _ ho
                  obtain ⟨x, _, hx⟩ := List.mem_map.1 this
                  exact lt_length_of_hasOutAnchor (hl' x o hx)
                have hdone_keep : ∀ x ∈ done, g2.GetPeerOutAnchor x =
                    s.graph.GetPeerOutAnchor x := by
                  intro x hx
                  refine hoth x ?_ ?_
                  · intro e
                    rw [e] at hx
                    exact ha_notin_done hx
                  · have := hlt x (List.mem_append_left _ hx)
                    omega
                obtain ⟨more, hm1, hm2⟩ := ih (done ++ [a])
                  (prods ++ [⟨s.graph.nodes.length, 0⟩]) seen
                  { s1 with graph := g2 } s' seen'
                  hgrow.links (by simp only; omega) hnd' hlt'
                  (by
                    simp only [List.map_append, List.map_cons, List.map_nil, hd]
                    rw [← hdone]
                    congr 1
                    exact List.map_congr_left hdone_keep)
                  (by
                    rw [List.nodup_append]
                    refine ⟨hpnd, List.nodup_singleton _, ?_⟩
                    intro x hx hx'
                    rw [List.mem_singleton] at hx'
                    subst hx'
                    have := hprods_lt _ hx
                    simp at this)
                  (by
                    intro o ho
                    rcases List.mem_append.1 ho with h1 | h1
                    · exact hprods o h1
                    · rw [List.mem_singleton] at h1
                      subst h1
                      exact Or.inr hb)
                  (by
                    intro x hx o hxo
                    have hxa : x ≠ a := by
                      intro e
                      rw [e] at hx
                      exact ha_notin_rest hx
                    have hxl : x.node < s.graph.nodes.length := by
                      have := hlt x (List.mem_append_right _ (List.mem_cons_of_mem _ hx))
                      omega
                    simp only at hxo
                    rw [hoth x hxa hxl] at hxo
                    exact hrest x (List.mem_cons_of_mem _ hx) o hxo)
                  h
                exact ⟨⟨s.graph.nodes.length, 0⟩ :: more,
                  by simpa [List.append_assoc] using hm1,
                  by simpa [List.append_assoc] using hm2⟩
    · rw [if_neg hs] at h
      rw [h] at hs
      exact absurd rfl hs

theorem ComputeGraph.GetAllInDataAnchors_of_shape {g g' : ComputeGraph} {n : Nat}
    (h : g'.shape n = g.shape n) : g'.GetAllInDataAnchors n = g.GetAllInDataAnchors n := by
  simp only [GetAllInDataAnchors, inAnchorNum_of_shape h]

theorem ComputeGraph.GetAllInDataAnchors_nodup (g : ComputeGraph) (n : Nat) :
    (g.GetAllInDataAnchors n).Nodup := by
  unfold GetAllInDataAnchors
  refine List.Nodup.map ?_ (List.nodup_range _)
  intro i j hij
  cases hij
  rfl

theorem ComputeGraph.inputsDistinct_of_grows {t : List Nat} {g g' : ComputeGraph} {n : Nat}
    (hg : Grows t g g') (hn : n < g.nodes.length) (hnt : n ∉ t)
    (h : g.inputsDistinct n) : g'.inputsDistinct n := by
  obtain ⟨l, hl, hnd⟩ := h
  refine ⟨l, ?_, hnd⟩
  rw [← hl]
  unfold inputPeers
  rw [GetAllInDataAnchors_of_shape (hg.shape n hn)]
  apply List.map_congr_left
  intro a ha
  have han : a.node = n := ((mem_GetAllInDataAnchors g n a).1 ha).1
  exact hg.frame a (by rw [han]; exact hn) (by rw [han]; exact hnt)

/-- First run on one node: only that node is touched, and an HcomAllReduce
node ends with distinct producers. -/
theorem HandleAllreduceNode_step (n : Nat) (s s' : PassState)
    (hl : s.graph.linksValid = true) (hn : n < s.graph.nodes.length)
    (h : HandleAllreduceNode n s = (.SUCCESS, s')) :
    Grows [n] s.graph s'.graph ∧ s'.node_rwtype_map_ = s.node_rwtype_map_ ∧
      (s.graph.GetType n = HCOMALLREDUCE → s'.graph.inputsDistinct n) := by
  unfold HandleAllreduceNode at h
  split at h
  · simp only [Prod.mk.injEq] at h
    obtain ⟨h1, h2⟩ := h
    have hrun : forEachM HandleAllreduceInput (s.graph.GetAllInDataAnchors n) (s, []) =
        (.SUCCESS, (s', (forEachM HandleAllreduceInput (s.graph.GetAllInDataAnchors n)
          (s, [])).2.2)) := by
      exact Prod.ext h1 (Prod.ext h2 rfl)
    have hmem : ∀ a ∈ s.graph.GetAllInDataAnchors n, a.node = n :=
      fun a ha => ((mem_GetAllInDataAnchors _ n a).1 ha).1
    obtain ⟨hg, hreg⟩ := HandleAllreduceInputs_grows n _ hmem _ _ hl hrun
    refine ⟨hg, hreg, fun _ => ?_⟩
    have hl' := (linksValid_iff s.graph).1 hl
    obtain ⟨more, hm1, hm2⟩ := HandleAllreduceInputs_distinct s.graph.nodes.length
      (s.graph.GetAllInDataAnchors n) [] [] [] s s' _ hl (Nat.le_refl _)
      (by simpa using GetAllInDataAnchors_nodup s.graph n)
      (by
        intro a ha
        simp only [List.nil_append] at ha
        rw [hmem a ha]
        exact hn)
      rfl List.nodup_nil (by intro o ho; cases ho)
      (fun a _ o hao => lt_length_of_hasOutAnchor (hl' a o hao))
      hrun
    refine ⟨more, ?_, by simpa using hm2⟩
    unfold inputPeers
    rw [GetAllInDataAnchors_of_shape (hg.shape n hn)]
    simpa using hm1
  · simp only [Prod.mk.injEq, true_and] at h
    subst h
    exact ⟨Grows_refl hl, rfl, fun hty => absurd hty (by assumption)⟩

/-- First run, outer loop. -/
theorem HandleAllreduceNodes_distinct :
    ∀ (nodes : List Nat) (s s' : PassState),
      s.graph.linksValid = true → nodes.Nodup → (∀ n ∈ nodes, n < s.graph.nodes.length) →
      forEachM HandleAllreduceNode nodes s = (.SUCCESS, s') →
      Grows nodes s.graph s'.graph ∧ s'.node_rwtype_map_ = s.node_rwtype_map_ ∧
        (∀ n ∈ nodes, s.graph.GetType n = HCOMALLREDUCE → s'.graph.inputsDistinct n) := by
  intro nodes
  induction nodes with
  | nil =>
    intro s s' hl _ _ h
    simp only [forEachM, Prod.mk.injEq, true_and] at h
    subst h
    exact ⟨Grows_refl hl, rfl, fun n hn => by cases hn⟩
  | cons n nodes ih =>
    intro s s' hl hnd hlt h
    simp only [forEachM] at h
    by_cases hs : (HandleAllreduceNode n s).1 = .SUCCESS
    · rw [if_pos hs] at h
      obtain ⟨s1, hstep⟩ : ∃ s1, HandleAllreduceNode n s = (.SUCCESS, s1) := ⟨_, Prod.ext hs rfl⟩
      rw [hstep] at h
      simp only at h
      have hn : n < s.graph.nodes.length := hlt n (List.mem_cons_self _ _)
      obtain ⟨g1, r1, d1⟩ := HandleAllreduceNode_step n s s1 hl hn hstep
      obtain ⟨hnn, hnd'⟩ := List.nodup_cons.1 hnd
      obtain ⟨g2, r2, d2⟩ := ih s1 s' g1.links hnd'
        (fun m hm => Nat.lt_of_lt_of_le (hlt m (List.mem_cons_of_mem _ hm)) g1.len) h
      refine ⟨?_, by rw [r2, r1], ?_⟩
      · exact Grows_trans (fun x hx => by
          rw [List.mem_singleton] at hx
          rw [hx]
          exact List.mem_cons_self _ _) (fun x hx => List.mem_cons_of_mem _ hx) g1 g2
      · intro m hm hty
        rcases List.mem_cons.1 hm with hmn | hmr
        · subst hmn
          exact inputsDistinct_of_grows g2 (Nat.lt_of_lt_of_le hn g1.len) hnn (d1 hty)
        · apply d2 m hmr
          rw [GetType_of_shape (g1.shape m (hlt m hm))]
          exact hty
    · rw [if_neg hs] at h
      rw [h] at hs
      exact absurd rfl hs

theorem ComputeGraph.mem_GetDirectNode (g : ComputeGraph) (gi n : Nat) :
    n ∈ g.GetDirectNode gi ↔
      g.isListed n = true ∧ g.GetOwnerComputeGraph n = some gi := by
  simp only [GetDirectNode, List.mem_filter, List.mem_range, isListed, GetOwnerComputeGraph]
  constructor
  · rintro ⟨hlt, h⟩
    cases hnd : g.nodes[n]? with
    | none => rw [hnd] at h; cases h
    | some nd =>
      rw [hnd] at h
      simp only [Bool.and_eq_true, beq_iff_eq] at h
      exact h
  · rintro ⟨h1, h2⟩
    cases hnd : g.nodes[n]? with
    | none => rw [hnd] at h1; cases h1
    | some nd =>
      rw [hnd] at h1 h2
      simp only at h1 h2
      refine ⟨?_, by simp [h1, h2]⟩
      by_contra hlt
      rw [List.getElem?_eq_none (Nat.le_of_not_lt hlt)] at hnd
      cases hnd

/-- The allreduce pass run twice: the second run changes nothing. -/
theorem HandleAllreduceDuplicateInput_idempotent (s s' : PassState)
    (hl : s.graph.linksValid = true)
    (h : HandleAllreduceDuplicateInput s = (.SUCCESS, s')) :
    HandleAllreduceDuplicateInput s' = (.SUCCESS, s') ∧
      s'.node_rwtype_map_ = s.node_rwtype_map_ ∧ s'.graph.graphs = s.graph.graphs := by
  unfold HandleAllreduceDuplicateInput at h
  have hmemlt : ∀ n ∈ s.graph.GetDirectNode 0, n < s.graph.nodes.length := by
    intro n hn
    exact lt_length_of_isListed ((mem_GetDirectNode _ _ _).1 hn).1
  have hnd : (s.graph.GetDirectNode 0).Nodup := by
    unfold GetDirectNode
    exact List.Nodup.filter _ (List.nodup_range _)
  obtain ⟨hg, hreg, hd⟩ := HandleAllreduceNodes_distinct _ s s' hl hnd hmemlt h
  refine ⟨?_, hreg, hg.graphs⟩
  unfold HandleAllreduceDuplicateInput
  apply HandleAllreduceNode_noop
  intro n hn hty
  have hlt : n < s.graph.nodes.length := by
    by_contra hge
    exact hg.fresh n (Nat.le_of_not_lt hge) hty
  obtain ⟨hlisted, howner⟩ := (mem_GetDirectNode _ _ _).1 hn
  apply hd n
  · rw [mem_GetDirectNode]
    rw [hg.listed n hlt] at hlisted
    rw [GetOwnerComputeGraph_of_shape (hg.shape n hlt)] at howner
    exact ⟨hlisted, howner⟩
  · rw [← GetType_of_shape (hg.shape n hlt)]
    exact hty

/-- The bounded walk `findSrc` only finds producers in the sense of `Src`. -/
theorem findSrc_sound (g : ComputeGraph) :
    ∀ (fuel : Nat) (o q : OutDataAnchor), g.findSrc fuel o = some q →
      Src g.isPassThrough g.GetPeerOutAnchor o q := by
  intro fuel
  induction fuel with
  | zero =>
    intro o q h
    simp [ComputeGraph.findSrc] at h
  | succ fuel ih =>
    intro o q h
    simp only [ComputeGraph.findSrc] at h
    cases hpt : g.isPassThrough o.node with
    | false =>
      rw [hpt] at h
      simp only [Bool.false_eq_true, if_false, Option.some.injEq] at h
      subst h
      exact Src.here o hpt
    | true =>
      rw [hpt] at h
      simp only [if_true] at h
      cases hp : g.GetPeerOutAnchor ⟨o.node, 0⟩ with
      | none => rw [hp] at h; cases h
      | some o2 =>
        rw [hp] at h
        exact Src.through o o2 q hpt hp (ih o2 q h)

/-- The producer found by the bounded walk from the peer of `a` reaches `a`. -/
theorem Producer_of_findSrc (g : ComputeGraph) (fuel : Nat) (a : InDataAnchor)
    (o q : OutDataAnchor) (hp : g.GetPeerOutAnchor a = some o) (h : g.findSrc fuel o = some q) :
    g.Producer a q :=
  ⟨o, hp, findSrc_sound g fuel o q h⟩

/-! ## Idempotence and data dependencies of the driver -/

/-- C2: when the driver succeeds on a well-formed graph, every input anchor of
a node listed in the graph before and after the pass has the same producer
output anchor, found by walking the data edge backwards through Identity and
ReadVariableOp nodes, before and after the pass. -/
theorem C2_data_dependencies_preserved (s : PassState) (hwf : s.graph.wellFormed = true)
    (h : (HandleMemoryRWConflict s).1 = .SUCCESS) (a : InDataAnchor)
    (hbefore : s.graph.isListed a.node = true)
    (hafter : (HandleMemoryRWConflict s).2.graph.isListed a.node = true) (q : OutDataAnchor) :
    s.graph.Producer a q ↔ (HandleMemoryRWConflict s).2.graph.Producer a q :=
  (HandleMemoryRWConflict_pres s _ (Prod.ext h rfl) hwf).prod a q
    (lt_length_of_isListed hbefore) hafter

/-- In `splitExampleGraph` the producer of the ref input of the Assign is the
Variable, reached through the Identity. -/
theorem splitExample_producer_of_assign : splitExampleGraph.Producer ⟨2, 0⟩ ⟨0, 0⟩ :=
  Producer_of_findSrc splitExampleGraph 2 ⟨2, 0⟩ ⟨1, 0⟩ ⟨0, 0⟩ (by decide) (by decide)

/-- Witness of C2 on `splitExampleGraph`: the ref input of the Assign (node 2,
input 0) keeps the Variable (node 0, output 0) as its producer. -/
theorem C2_data_dependencies_preserved_witness :
    splitExampleState.graph.wellFormed = true ∧
    (HandleMemoryRWConflict splitExampleState).1 = .SUCCESS ∧
    (splitExampleState.graph.Producer ⟨2, 0⟩ ⟨0, 0⟩ ↔
      (HandleMemoryRWConflict splitExampleState).2.graph.Producer ⟨2, 0⟩ ⟨0, 0⟩) :=
  ⟨by decide, by decide,
    C2_data_dependencies_preserved splitExampleState (by decide) (by decide) ⟨2, 0⟩
      (by decide) (by decide) ⟨0, 0⟩⟩

/-! ## Classification of plain and While nodes -/

/-- Inside the range of `int` the additions do not wrap. -/
theorem wrapInt_of_range (v : Int) (h1 : -2 ^ 31 ≤ v) (h2 : v < 2 ^ 31) : wrapInt v = v := by
  unfold wrapInt
  norm_num at h1 h2 ⊢
  omega

/-- C11, as stated, fails: the `int` values 2147483647, 2147483646 and 3 add
up to 4294967296, a sum other than 0, 2 and 3, but the `int` that holds the
total has wrapped to 0, and the set is classified ReadOnly, not Invalid. -/
theorem C11_counterexample :
    ({2147483647, 2147483646, 3} : Finset Int).sum id = 4294967296 ∧
    GetInputRwTypeInConflict {2147483647, 2147483646, 3} = .kReadOnly := by
  decide

/-- C11, amended: for a set whose sum lies in the range of `int`,
`GetInputRwTypeInConflict` depends on the sum of the set only: sum 0 gives
ReadOnly, sum 2 ScopeWriteable, sum 3 Writeable and every other sum Invalid;
the empty set gives ReadOnly. For every set the result depends on the sum
modulo 2^32 only. -/
theorem C11_aggregate_depends_on_int_sum (S : Finset Int)
    (hS : -2 ^ 31 ≤ S.sum id ∧ S.sum id < 2 ^ 31) :
    (S.sum id = 0 → GetInputRwTypeInConflict S = .kReadOnly) ∧
    (S.sum id = 2 → GetInputRwTypeInConflict S = .kScopeWriteable) ∧
    (S.sum id = 3 → GetInputRwTypeInConflict S = .kWriteable) ∧
    (S.sum id ≠ 0 → S.sum id ≠ 2 → S.sum id ≠ 3 →
      GetInputRwTypeInConflict S = .kInvalidRWType) ∧
    (∀ T : Finset Int, T.sum id = S.sum id →
      GetInputRwTypeInConflict T = GetInputRwTypeInConflict S) ∧
    (∀ T : Finset Int, T.sum id % 2 ^ 32 = S.sum id % 2 ^ 32 →
      GetInputRwTypeInConflict T = GetInputRwTypeInConflict S) ∧
    GetInputRwTypeInConflict ∅ = .kReadOnly := by
  have hw : wrapInt (S.sum id) = S.sum id := wrapInt_of_range _ hS.1 hS.2
  refine ⟨?_, ?_, ?_, ?_, ?_, ?_, ?_⟩
  · intro h
    simp only [GetInputRwTypeInConflict]
    rw [hw, h]
    rfl
  · intro h
    simp only [GetInputRwTypeInConflict]
    rw [hw, h]
    decide
  · intro h
    simp only [GetInputRwTypeInConflict]
    rw [hw, h]
    decide
  · intro h0 h2 h3
    simp only [GetInputRwTypeInConflict]
    rw [hw]
    simp only [if_neg h0, if_neg h2, if_neg h3, ite_self]
  · intro T h
    simp only [GetInputRwTypeInConflict, h]
  · intro T h
    have hT : wrapInt (T.sum id) = wrapInt (S.sum id) := by
      unfold wrapInt
      omega
    simp only [GetInputRwTypeInConflict, hT]
  · decide

/-- Witness of the amended C11: the set of ReadOnly and ScopeWriteable has the
sum 2 and is classified ScopeWriteable. -/
theorem C11_aggregate_depends_on_int_sum_witness :
    (-2 ^ 31 ≤ ({0, 2} : Finset Int).sum id ∧ ({0, 2} : Finset Int).sum id < 2 ^ 31) ∧
    GetInputRwTypeInConflict {0, 2} = .kScopeWriteable :=
  ⟨by decide, (C11_aggregate_depends_on_int_sum {0, 2} (by decide)).2.1 (by decide)⟩


/-- C13: for a node with a descriptor that is not a While and owns no
subgraph, `GetOutputRWTypeByIndex` is Writeable for a Variable, for an output
named like one of the inputs and for a framework op of original type
RefSwitch; otherwise ReadOnly for a Const or Constant; otherwise, on an
existing output anchor, ReadOnly with more than one consumer and SoftRead with
at most one; a missing anchor gives Invalid. -/
theorem C13_plain_node_output_type (g : ComputeGraph)
    (reg : List (String × NodeInputOutputRWType)) (node i : Nat) (d : OpDesc)
    (hd : g.GetOpDesc node = some d) (hw : d.type ≠ WHILE)
    (hs : d.subgraph_instance_names = []) :
    GetOutputRWTypeByIndex g reg node i =
      if d.type = VARIABLE ∨ d.GetOutputNameByIndex i ∈ d.input_names ∨
          (d.type = FRAMEWORK_OP_TYPE ∧ d.framework_original_type = some REFSWITCH) then
        OutputRWType.kWriteable
      else if d.type = CONSTANT ∨ d.type = CONSTANTOP then OutputRWType.kReadOnly
      else if i < g.outAnchorNum node then
        (if 1 < g.GetPeerInDataNodesSize ⟨node, i⟩ then OutputRWType.kReadOnly
         else OutputRWType.kSoftRead)
      else OutputRWType.kInvalidRWType := by
  have hany : (d.input_names.any (fun nm => decide (d.GetOutputNameByIndex i = nm))) = true ↔
      d.GetOutputNameByIndex i ∈ d.input_names := by
    simp only [List.any_eq_true, decide_eq_true_eq]
    constructor
    · rintro ⟨x, hx, rfl⟩
      exact hx
    · intro h
      exact ⟨_, h, rfl⟩
  simp only [GetOutputRWTypeByIndex, hd, if_neg hw, hs, List.isEmpty_nil, if_true,
    GetSingleNodeOutputRWTypeByIndex, GetType, hasOutAnchor, hany, decide_eq_false_iff_not,
    gt_iff_lt]
  by_cases h1 : d.type = VARIABLE
  · simp [h1]
  · by_cases h2 : d.GetOutputNameByIndex i ∈ d.input_names
    · simp [h1, h2]
    · by_cases h3 : d.type = FRAMEWORK_OP_TYPE ∧ d.framework_original_type = some REFSWITCH
      · simp [h1, h2, h3]
      · by_cases h4 : d.type = CONSTANT ∨ d.type = CONSTANTOP
        · simp only [h1, h2, h3, h4, false_or, if_false, if_true, or_self]
        · by_cases h5 : i < g.outAnchorNum node
          · simp only [h1, h2, h3, h4, h5, false_or, if_false, if_true, or_self, not_true]
          · simp only [h1, h2, h3, h4, h5, false_or, if_false, if_true, or_self, not_false_eq_true]

/-- Witness of C13 at the Identity of `splitExampleGraph`, whose output feeds
two consumers. -/
theorem C13_plain_node_output_type_witness :
    GetOutputRWTypeByIndex splitExampleGraph [] 1 0 = OutputRWType.kReadOnly :=
  (C13_plain_node_output_type splitExampleGraph [] 1 0 (plainOpDesc "id" "Identity" ["x"] ["y"])
    (by decide) (by decide) (by decide)).trans (by decide)

/-- C14: for a node with a descriptor that is not a While and owns no
subgraph, `GetInputRWTypeByIndex` is ScopeWriteable for HcomAllReduce,
HcomAllGather and HcomReduceScatter; otherwise Writeable for an input named
like one of the outputs and for input 0 of a framework op of original type
RefSwitch; otherwise ReadOnly. -/
theorem C14_plain_node_input_type (g : ComputeGraph)
    (reg : List (String × NodeInputOutputRWType)) (node i : Nat) (d : OpDesc)
    (hd : g.GetOpDesc node = some d) (hw : d.type ≠ WHILE)
    (hs : d.subgraph_instance_names = []) :
    GetInputRWTypeByIndex g reg node i =
      if d.type = HCOMALLREDUCE ∨ d.type = HCOMALLGATHER ∨ d.type = HCOMREDUCESCATTER then
        InputRWType.kScopeWriteable
      else if d.GetInputNameByIndex i ∈ d.output_names ∨
          (d.type = FRAMEWORK_OP_TYPE ∧ d.framework_original_type = some REFSWITCH ∧ i = 0) then
        InputRWType.kWriteable
      else InputRWType.kReadOnly := by
  have hany : (d.output_names.any (fun nm => decide (d.GetInputNameByIndex i = nm))) = true ↔
      d.GetInputNameByIndex i ∈ d.output_names := by
    simp only [List.any_eq_true, decide_eq_true_eq]
    constructor
    · rintro ⟨x, hx, rfl⟩
      exact hx
    · intro h
      exact ⟨_, h, rfl⟩
  simp only [GetInputRWTypeByIndex, hd, if_neg hw, hs, List.isEmpty_nil, if_true,
    GetSingleNodeInputRWTypeByIndex, GetType, hany]
  split_ifs <;> first | rfl | (exfalso; tauto)

/-- Witness of C14 at the ref input of the Assign of `splitExampleGraph`. -/
theorem C14_plain_node_input_type_witness :
    GetInputRWTypeByIndex splitExampleGraph [] 2 0 = InputRWType.kWriteable :=
  (C14_plain_node_input_type splitExampleGraph [] 2 0
    (plainOpDesc "assign" "Assign" ["ref", "value"] ["ref"])
    (by decide) (by decide) (by decide)).trans (by decide)

/-- C15: a While node with a descriptor has ScopeWriteable inputs and SoftRead
outputs at every index, for every graph around it and every registry. -/
theorem C15_while_classification (g : ComputeGraph)
    (reg : List (String × NodeInputOutputRWType)) (node i : Nat) (d : OpDesc)
    (hd : g.GetOpDesc node = some d) (hw : d.type = WHILE) :
    GetInputRWTypeByIndex g reg node i = .kScopeWriteable ∧
      GetOutputRWTypeByIndex g reg node i = .kSoftRead := by
  simp only [GetInputRWTypeByIndex, GetOutputRWTypeByIndex, hd, hw, if_true, and_self]

/-- Witness of C15 at the While node of `splitExampleGraph`, which owns a
subgraph and has no anchor 7. -/
theorem C15_while_classification_witness :
    GetInputRWTypeByIndex splitExampleGraph [] 5 7 = .kScopeWriteable ∧
      GetOutputRWTypeByIndex splitExampleGraph [] 5 7 = .kSoftRead :=
  C15_while_classification splitExampleGraph [] 5 7
    { name := "loop", type := "While", input_names := [], output_names := [],
      framework_original_type := none, parent_node_index := none,
      input_desc_parent_index := false, subgraph_instance_names := ["body"] }
    (by decide) (by decide)

/-- C12, on the code: Invalid converts to 3, so the aggregate of {Invalid} and
of {ReadOnly, Invalid} is Writeable; in `nestedExampleGraph` the only consumer
of the Data node `arg` has input type Invalid, marking the branch subgraph
succeeds, and the type recorded for the Data node is Writeable. -/
theorem C12_invalid_consumer_recorded_writeable :
    GetInputRwTypeInConflict {InputRWType.kInvalidRWType.toInt} = .kWriteable ∧
      GetInputRwTypeInConflict
        {InputRWType.kReadOnly.toInt, InputRWType.kInvalidRWType.toInt} = .kWriteable ∧
      nestedExampleGraph.GetOutDataNodesWithAnchorByIndex 1 0 = [⟨2, 0⟩] ∧
      GetInputRWTypeByIndex nestedExampleGraph [] 2 0 = .kInvalidRWType ∧
      (MarkRWTypeForSubgraph 1 nestedExampleState).1 = .SUCCESS ∧
      mapFind (MarkRWTypeForSubgraph 1 nestedExampleState).2.node_rwtype_map_ "arg" =
        some ⟨[(0, .kWriteable)], []⟩ := by
  decide

/-- C19, as stated, fails: in `wrongExampleGraph` the edge from the Const to
the ref input of the Assign has conflict result WrongGraph, the Const is
visited by the driver, and the driver returns SUCCESS with the graph as it
was. -/
theorem C19_counterexample :
    wrongExampleGraph.GetAllSubgraphs ≠ [] ∧
      0 ∈ wrongExampleGraph.GetAllNodes ∧
      wrongExampleGraph.GetPeerInDataAnchors ⟨0, 0⟩ = [⟨1, 0⟩] ∧
      GetConflictResultBetweenNode (GetOutputRWTypeByIndex wrongExampleGraph [] 0 0)
        (GetInputRWTypeByIndex wrongExampleGraph [] 1 0) = .WRONG_GRAPH ∧
      HandleMemoryRWConflict wrongExampleState = (.SUCCESS, wrongExampleState) := by
  decide

/-! ## Loops -/

/-- A loop whose every step succeeds without changing the state succeeds
without changing the state. -/
theorem forEachM_same {α σ : Type} (f : α → σ → Status × σ) (s : σ) :
    ∀ xs : List α, (∀ x ∈ xs, f x s = (.SUCCESS, s)) → forEachM f xs s = (.SUCCESS, s) := by
  intro xs
  induction xs with
  | nil => intro _; rfl
  | cons x xs ih =>
    intro h
    have hx := h x (List.mem_cons_self _ _)
    simp only [forEachM, hx, if_true]
    exact ih (fun y hy => h y (List.mem_cons_of_mem _ hy))

/-- A loop over a concatenation runs the first part and, when that succeeds,
the second part from the state reached. -/
theorem forEachM_append {α σ : Type} (f : α → σ → Status × σ) :
    ∀ (xs ys : List α) (s : σ),
      forEachM f (xs ++ ys) s =
        if (forEachM f xs s).1 = .SUCCESS then forEachM f ys (forEachM f xs s).2
        else forEachM f xs s := by
  intro xs
  induction xs with
  | nil => intro ys s; simp [forEachM]
  | cons x xs ih =>
    intro ys s
    simp only [List.cons_append, forEachM]
    by_cases hx : (f x s).1 = .SUCCESS
    · simp only [hx, if_true]
      exact ih ys _
    · simp only [hx, if_false]

/-- An invariant indexed by the elements handled so far holds at the end of a
successful loop when every successful step extends it. -/
theorem forEachM_inv {α σ : Type} (f : α → σ → Status × σ) (Inv : List α → σ → Prop) :
    ∀ (xs done : List α) (s s' : σ),
      (∀ (d : List α) (x : α) (r : List α) (t t' : σ), done ++ xs = d ++ x :: r →
        done.length ≤ d.length → Inv d t → f x t = (.SUCCESS, t') → Inv (d ++ [x]) t') →
      Inv done s → forEachM f xs s = (.SUCCESS, s') → Inv (done ++ xs) s' := by
  intro xs
  induction xs with
  | nil =>
    intro done s s' _ hinv h
    simp only [forEachM, Prod.mk.injEq, true_and] at h
    subst h
    simpa using hinv
  | cons x xs ih =>
    intro done s s' hstep hinv h
    simp only [forEachM] at h
    by_cases hx : (f x s).1 = .SUCCESS
    · rw [if_pos hx] at h
      have h1 : f x s = (.SUCCESS, (f x s).2) := by
        rw [← hx]
      have hinv1 := hstep done x xs s _ rfl (Nat.le_refl _) hinv h1
      have := ih (done ++ [x]) (f x s).2 s'
        (fun d y r t t' hd hl => hstep d y r t t' (by simpa using hd)
          (by simp at hl; omega)) hinv1 h
      simpa using this
    · rw [if_neg hx] at h
      rw [h] at hx
      exact absurd rfl hx

/-! ## WrongGraph verdicts -/

theorem ComputeGraph.node_of_mem_GetAllOutDataAnchors {g : ComputeGraph} {n : Nat}
    {o : OutDataAnchor} (h : o ∈ g.GetAllOutDataAnchors n) :
    o.node = n ∧ o.idx < g.outAnchorNum n := by
  simp only [GetAllOutDataAnchors, List.mem_map, List.mem_range] at h
  obtain ⟨k, hk, rfl⟩ := h
  exact ⟨rfl, hk⟩

/-- C19, amended: `InsertIdentityAsNeeded` skips an edge whose conflict result
is WrongGraph as it skips a DoNothing edge: on a node with a descriptor all of
whose data edges have conflict result WrongGraph or DoNothing it returns
SUCCESS and leaves graph, registry and counter as they were. -/
theorem C19_wrong_graph_is_skipped (node : Nat) (s : PassState) (d : OpDesc)
    (hd : s.graph.GetOpDesc node = some d)
    (h : ∀ o ∈ s.graph.GetAllOutDataAnchors node, ∀ a ∈ s.graph.GetPeerInDataAnchors o,
      edgeConflict s.graph s.node_rwtype_map_ o a = .WRONG_GRAPH ∨
        edgeConflict s.graph s.node_rwtype_map_ o a = .DO_NOTHING) :
    InsertIdentityAsNeeded node s = (.SUCCESS, s) := by
  unfold InsertIdentityAsNeeded
  rw [hd]
  simp only
  split
  · rfl
  · apply forEachM_same
    intro o ho
    unfold InsertIdentityOnAnchor
    apply forEachM_same
    intro a ha
    have hon := (node_of_mem_GetAllOutDataAnchors ho).1
    have hc := h o ho a ha
    unfold edgeConflict at hc
    rw [hon] at hc
    unfold InsertIdentityOnPeer
    rcases hc with hc | hc <;> simp only [hc]

/-- Witness of the amended C19 at the Const of `wrongExampleGraph`, whose only
data edge has conflict result WrongGraph. -/
theorem C19_wrong_graph_is_skipped_witness :
    edgeConflict wrongExampleGraph [] ⟨0, 0⟩ ⟨1, 0⟩ = .WRONG_GRAPH ∧
      InsertIdentityAsNeeded 0 wrongExampleState = (.SUCCESS, wrongExampleState) :=
  ⟨by decide, C19_wrong_graph_is_skipped 0 wrongExampleState (plainOpDesc "c" "Const" [] ["y"])
    (by decide) (by decide)⟩

/-! ## Removal of an Identity -/

theorem ComputeGraph.length_GetOutDataNodes (g : ComputeGraph) (n : Nat) :
    (g.GetOutDataNodes n).length = g.GetOutDataNodesSize n := by
  simp only [GetOutDataNodes, GetOutDataNodesSize, GetPeerInDataNodesSize, List.length_flatMap]
  congr 1
  apply List.map_congr_left
  intro o _
  simp only [Function.comp, List.length_map]

theorem ComputeGraph.GetOutDataNodes_of_one {g : ComputeGraph} {n : Nat}
    (hout : g.outAnchorNum n = 1) :
    g.GetOutDataNodes n = (g.GetPeerInDataAnchors ⟨n, 0⟩).map (fun a => a.node) := by
  have hr : List.range 1 = [0] := by decide
  simp only [GetOutDataNodes, GetAllOutDataAnchors, hout, hr, List.map_cons, List.map_nil,
    List.flatMap_cons, List.flatMap_nil, List.append_nil]

theorem ComputeGraph.GetInDataNodes_of_one {g : ComputeGraph} {n : Nat}
    (hin : g.inAnchorNum n = 1) :
    g.GetInDataNodes n =
      match g.GetPeerOutAnchor ⟨n, 0⟩ with
      | some p => [p.node]
      | none => [] := by
  have hr : List.range 1 = [0] := by decide
  simp only [GetInDataNodes, GetAllInDataAnchors, hin, hr, List.map_cons, List.map_nil]
  cases hp : g.GetPeerOutAnchor ⟨n, 0⟩ <;> simp [hp]

/-- The check `CheckIdentityIsNearSubgraph` in the words of the specification. -/
theorem CheckIdentityIsNearSubgraph_eq_false (g : ComputeGraph) (node : Nat) :
    CheckIdentityIsNearSubgraph g node = false ↔
      (∀ m ∈ g.GetInDataNodes node,
        ¬ (g.GetType m = DATA ∧ g.IsSubgraphInput m = true) ∧ g.ownsSubgraphs m = false) ∧
      (∀ m ∈ g.GetOutDataNodes node,
        ¬ (g.GetType m = NETOUTPUT ∧ g.IsSubgraphOutput m = true) ∧ g.ownsSubgraphs m = false) := by
  have key : ∀ (T : String) (P : Nat → Bool) (m : Nat),
      (∀ k, g.GetOpDesc k = none → P k = false) →
      (((g.GetOpDesc m).isSome &&
        ((decide (g.GetType m = T) && P m) ||
          (match g.GetOpDesc m with
           | some d => !d.subgraph_instance_names.isEmpty
           | none => false))) = false ↔
      (¬ (g.GetType m = T ∧ P m = true) ∧ g.ownsSubgraphs m = false)) := by
    intro T P m hP
    unfold ownsSubgraphs
    cases hd : g.GetOpDesc m with
    | none =>
      simp [hP m hd]
    | some d =>
      simp only [Option.isSome_some, Bool.true_and, Bool.or_eq_false_iff, Bool.and_eq_false_iff,
        decide_eq_false_iff_not]
      constructor
      · rintro ⟨h1, h2⟩
        refine ⟨?_, h2⟩
        rintro ⟨ht, hp⟩
        rcases h1 with h1 | h1
        · exact h1 ht
        · rw [hp] at h1
          cases h1
      · rintro ⟨h1, h2⟩
        refine ⟨?_, h2⟩
        by_cases ht : g.GetType m = T
        · right
          cases hp : P m with
          | false => rfl
          | true => exact absurd ⟨ht, hp⟩ h1
        · exact Or.inl ht
  have hPin : ∀ k, g.GetOpDesc k = none → g.IsSubgraphInput k = false := by
    intro k hk
    simp only [IsSubgraphInput, hk]
  have hPout : ∀ k, g.GetOpDesc k = none → g.IsSubgraphOutput k = false := by
    intro k hk
    simp only [IsSubgraphOutput, hk]
  unfold CheckIdentityIsNearSubgraph
  rw [Bool.or_eq_false_iff, List.any_eq_false, List.any_eq_false]
  constructor
  · rintro ⟨h1, h2⟩
    refine ⟨fun m hm => ?_, fun m hm => ?_⟩
    · exact (key DATA g.IsSubgraphInput m hPin).1 (by simpa using h1 m hm)
    · exact (key NETOUTPUT g.IsSubgraphOutput m hPout).1 (by simpa using h2 m hm)
  · rintro ⟨h1, h2⟩
    refine ⟨fun m hm => ?_, fun m hm => ?_⟩
    · simpa using (key DATA g.IsSubgraphInput m hPin).2 (h1 m hm)
    · simpa using (key NETOUTPUT g.IsSubgraphOutput m hPout).2 (h2 m hm)

/-- The checks of `RemoveNoUseIdentity` on a node with one input anchor, which
is linked, and one output anchor, against the condition of the specification. -/
theorem removalConditionSpec_iff {g : ComputeGraph} (reg : List (String × NodeInputOutputRWType))
    {node : Nat} {p : OutDataAnchor} (hin : g.inAnchorNum node = 1)
    (hout : g.outAnchorNum node = 1) (hp : g.GetPeerOutAnchor ⟨node, 0⟩ = some p) :
    removalConditionSpec g reg node ↔
      (g.GetOutDataNodesSize node ≤ 1 ∧
        ¬ (g.GetOutDataNodesSize node = 1 ∧
          (match g.GetOutDataNodes node with
           | out_node :: _ => decide (g.GetType out_node = STREAMMERGE)
           | [] => false) = true) ∧
        CheckIdentityIsNearSubgraph g node = false ∧
        (match g.GetOutDataNodesWithAnchorByIndex node kIdentityAnchorIndex with
         | a :: _ => GetConflictResultBetweenNode (GetOutputRWTypeByIndex g reg p.node p.idx)
            (GetInputRWTypeByIndex g reg a.node a.idx)
         | [] => ConflictResult.DO_NOTHING) = .DO_NOTHING) := by
  have hvec : g.GetOutDataNodesWithAnchorByIndex node kIdentityAnchorIndex =
      g.GetPeerInDataAnchors ⟨node, 0⟩ := by
    simp [GetOutDataNodesWithAnchorByIndex, hout, kIdentityAnchorIndex]
  have hin1 : g.GetInDataNodes node ≠ [] := by
    rw [GetInDataNodes_of_one hin, hp]
    simp
  unfold removalConditionSpec
  rw [CheckIdentityIsNearSubgraph_eq_false, hvec, GetOutDataNodes_of_one hout,
    GetOutDataNodesSize_of_one hout]
  simp only [hp, Option.mem_def, Option.some.injEq, forall_eq', edgeConflict]
  rcases hL : g.GetPeerInDataAnchors ⟨node, 0⟩ with _ | ⟨a, _ | ⟨b, L⟩⟩
  · simp [hin1]
  · simp [hin1]
    tauto
  · simp
/-- C20: on a node with one input and one output anchor that is listed in a
graph, `RemoveNoUseIdentity` succeeds; when the condition of the specification
holds the node is taken off its graph, its anchors are unlinked and every
input anchor its output fed is fed by the output anchor that fed the node,
with nothing else changed; in every other case the state is unchanged. -/
theorem C20_remove_no_use_identity (node : Nat) (s : PassState)
    (hin : s.graph.inAnchorNum node = 1) (hout : s.graph.outAnchorNum node = 1)
    (hmem : ∃ gi, node ∈ s.graph.GetDirectNode gi) :
    (removalConditionSpec s.graph s.node_rwtype_map_ node →
      ∃ s' p, RemoveNoUseIdentity node s = (.SUCCESS, s') ∧
        s.graph.GetPeerOutAnchor ⟨node, 0⟩ = some p ∧
        s'.graph.isListed node = false ∧
        (∀ j, s'.graph.GetPeerOutAnchor ⟨node, j⟩ = none) ∧
        (∀ a : InDataAnchor, a.node ≠ node → s.graph.GetPeerOutAnchor a = some ⟨node, 0⟩ →
          s'.graph.GetPeerOutAnchor a = some p) ∧
        (∀ a : InDataAnchor, a.node ≠ node → s.graph.GetPeerOutAnchor a ≠ some ⟨node, 0⟩ →
          s'.graph.GetPeerOutAnchor a = s.graph.GetPeerOutAnchor a) ∧
        (∀ m, m ≠ node → s'.graph.isListed m = s.graph.isListed m) ∧
        (∀ m, s'.graph.shape m = s.graph.shape m) ∧
        s'.graph.nodes.length = s.graph.nodes.length ∧
        s'.graph.graphs = s.graph.graphs ∧
        s'.node_rwtype_map_ = s.node_rwtype_map_ ∧ s'.identity_num = s.identity_num) ∧
    (¬ removalConditionSpec s.graph s.node_rwtype_map_ node →
      RemoveNoUseIdentity node s = (.SUCCESS, s)) := by
  have hanchor : s.graph.hasInAnchor ⟨node, kIdentityAnchorIndex⟩ = true := by
    simp [hasInAnchor, hin, kIdentityAnchorIndex]
  cases hp : s.graph.GetPeerOutAnchor ⟨node, 0⟩ with
  | none =>
    have hempty : s.graph.GetInDataNodes node = [] := by
      rw [GetInDataNodes_of_one hin, hp]
    have hstep : RemoveNoUseIdentity node s = (.SUCCESS, s) := by
      unfold RemoveNoUseIdentity
      simp only [hempty, List.isEmpty_nil, true_or, if_true]
    refine ⟨fun hc => absurd hempty hc.1, fun _ => hstep⟩
  | some p =>
    have hin1 : ¬ (s.graph.GetInDataNodes node).isEmpty = true := by
      rw [GetInDataNodes_of_one hin, hp]
      simp
    have hiff := removalConditionSpec_iff s.node_rwtype_map_ hin hout hp
    constructor
    · intro hc
      have hchk := hiff.1 hc
      obtain ⟨gd, hgd, hlen, hshape, hlist, hselfpeer, hcon, hoth⟩ :=
        isolate_zero_peers s.graph node p
      obtain ⟨gi, hgi⟩ := hmem
      have hgi' := (mem_GetDirectNode s.graph gi node).1 hgi
      have hown : gd.GetOwnerComputeGraph node = some gi := by
        rw [GetOwnerComputeGraph_of_shape (hshape node)]
        exact hgi'.2
      have hdirect : node ∈ gd.GetDirectNode gi := by
        rw [mem_GetDirectNode, hlist, hown]
        exact ⟨hgi'.1, rfl⟩
      have hrem : gd.RemoveNodeWithoutRelink (gd.GetOwnerComputeGraph node) node =
          .ok (gd.unlist node) := by
        rw [hown]
        unfold RemoveNodeWithoutRelink
        simp only [hdirect, if_true]
      have hstep : RemoveNoUseIdentity node s = (.SUCCESS, { s with graph := gd.unlist node }) := by
        unfold RemoveNoUseIdentity
        simp only
        split
        · rename_i h
          exfalso
          rcases h with h | h
          · exact hin1 h
          · exact absurd hchk.1 (by omega)
        · split
          · rename_i h
            exact absurd h hchk.2.1
          · split
            · rename_i h
              rw [hchk.2.2.1] at h
              cases h
            · rw [hanchor]
              simp only [Bool.true_eq_false, if_false]
              have hp' : s.graph.GetPeerOutAnchor ⟨node, kIdentityAnchorIndex⟩ = some p := hp
              rw [hp']
              simp only
              split
              · rename_i h
                exact absurd hchk.2.2.2 h
              · rw [IsolateNode_zero hout hp, ← hgd]
                simp only [hrem]
      refine ⟨_, p, hstep, rfl, ?_, ?_, ?_, ?_, ?_, ?_, ?_, ?_, rfl, rfl⟩
      · simp only [isListed_unlist, if_true]
      · intro j
        rw [peer_unlist, hselfpeer]
      · intro a ha hpa
        rw [peer_unlist, hcon a ha hpa]
        by_cases hpn : p = ⟨node, 0⟩
        · exfalso
          have h1 : (⟨node, 0⟩ : InDataAnchor) ∈ s.graph.GetPeerInDataAnchors ⟨node, 0⟩ := by
            rw [mem_GetPeerInDataAnchors, hp, hpn]
          have h2 : a ∈ s.graph.GetPeerInDataAnchors ⟨node, 0⟩ :=
            (mem_GetPeerInDataAnchors _ _ _).2 hpa
          have hle : (s.graph.GetPeerInDataAnchors ⟨node, 0⟩).length ≤ 1 := by
            rw [← GetOutDataNodesSize_of_one hout]
            exact (hiff.1 hc).1
          have := eq_of_mem_of_length_le_one hle h1 h2
          rw [← this] at ha
          exact ha rfl
        · rw [if_neg hpn]
      · intro a ha hpa
        rw [peer_unlist, hoth a ha hpa]
      · intro m hm
        rw [isListed_unlist, if_neg hm, hlist]
      · intro m
        rw [shape_unlist, hshape]
      · rw [length_unlist, hlen]
      · rw [graphs_unlist, hgd, (UnlinkAllOut_facts _ _).2.2.2, (UnlinkAllIn_facts _ _).2.2.2,
          (ReplaceOutDataAnchor_facts _ _ _).2.2.2, graphs_setPeer]
    · intro hc
      have hnot := fun h => hc (hiff.2 h)
      unfold RemoveNoUseIdentity
      simp only
      split
      · rfl
      · rename_i h1
        split
        · rfl
        · rename_i h2
          split
          · rfl
          · rename_i h3
            rw [hanchor]
            simp only [Bool.true_eq_false, if_false]
            have hp' : s.graph.GetPeerOutAnchor ⟨node, kIdentityAnchorIndex⟩ = some p := hp
            rw [hp']
            simp only
            split
            · rfl
            · rename_i h4
              exfalso
              apply hnot
              refine ⟨?_, h2, ?_, ?_⟩
              · by_contra hgt
                exact h1 (Or.inr (by omega))
              · simpa using h3
              · simpa using h4

/-- Witness of C20 at the Identity of `removeExampleGraph`, between a SoftRead
output and a ReadOnly input and away from any subgraph: the Identity is taken
off the graph and its successor is fed by its predecessor. -/
theorem C20_remove_no_use_identity_witness :
    GetOutputRWTypeByIndex removeExampleGraph [] 1 0 = .kSoftRead ∧
      GetInputRWTypeByIndex removeExampleGraph [] 3 0 = .kReadOnly ∧
      ∃ s', RemoveNoUseIdentity 2 removeExampleState = (.SUCCESS, s') ∧
        s'.graph.isListed 2 = false ∧ s'.graph.GetPeerOutAnchor ⟨3, 0⟩ = some ⟨1, 0⟩ := by
  obtain ⟨s', p, h1, h2, h3, _, h5, _⟩ :=
    (C20_remove_no_use_identity 2 removeExampleState (by decide) (by decide)
      ⟨0, by decide⟩).1 (by decide)
  have hp : removeExampleState.graph.GetPeerOutAnchor ⟨2, 0⟩ = some ⟨1, 0⟩ := by decide
  rw [hp] at h2
  have hp2 := Option.some.inj h2
  subst hp2
  exact ⟨by decide, by decide, s', h1, h3, h5 ⟨3, 0⟩ (by decide) (by decide)⟩

/-! ## Registry lookups -/

theorem mapFind_append_single {κ β : Type} [DecidableEq κ] (m : List (κ × β)) (k k' : κ) (v : β) :
    mapFind (m ++ [(k, v)]) k' =
      match mapFind m k' with
      | some x => some x
      | none => if k = k' then some v else none := by
  unfold mapFind
  rw [List.find?_append]
  cases h : List.find? (fun p => decide (p.1 = k')) m with
  | some p => simp
  | none =>
    simp only [Option.none_or, List.find?_cons, List.find?_nil]
    by_cases hk : k = k'
    · simp [hk]
    · simp [hk]

theorem mapFind_mapEmplace_of_some {κ β : Type} [DecidableEq κ] {m : List (κ × β)} {k' : κ}
    {x : β} (k : κ) (v : β) (h : mapFind m k' = some x) :
    mapFind (mapEmplace m k v) k' = some x := by
  unfold mapEmplace
  cases hk : mapFind m k with
  | some y => exact h
  | none =>
    simp only
    rw [mapFind_append_single, h]

theorem mapFind_mapEmplace_self {κ β : Type} [DecidableEq κ] {m : List (κ × β)} {k : κ}
    (v : β) (h : mapFind m k = none) : mapFind (mapEmplace m k v) k = some v := by
  unfold mapEmplace
  rw [h]
  simp only
  rw [mapFind_append_single, h]
  simp

theorem mapFind_mapEmplace_of_ne {κ β : Type} [DecidableEq κ] (m : List (κ × β)) {k k' : κ}
    (v : β) (h : k ≠ k') : mapFind (mapEmplace m k v) k' = mapFind m k' := by
  unfold mapEmplace
  cases hk : mapFind m k with
  | some y => rfl
  | none =>
    simp only
    rw [mapFind_append_single]
    cases mapFind m k' with
    | some x => rfl
    | none => simp [h]

/-- What `emplace` leaves under a key: the old value, or the new value under
the new key. -/
theorem mapFind_mapEmplace_cases {κ β : Type} [DecidableEq κ] (m : List (κ × β)) (k k' : κ)
    (v x : β) (h : mapFind (mapEmplace m k v) k' = some x) :
    mapFind m k' = some x ∨ (mapFind m k' = none ∧ k' = k ∧ x = v) := by
  by_cases hk : k = k'
  · subst hk
    cases hm : mapFind m k with
    | some y =>
      rw [mapFind_mapEmplace_of_some k v hm] at h
      exact Or.inl h
    | none =>
      rw [mapFind_mapEmplace_self v hm] at h
      exact Or.inr ⟨rfl, rfl, (Option.some.inj h).symm⟩
  · rw [mapFind_mapEmplace_of_ne m v hk] at h
    exact Or.inl h

theorem RegGrows_refl (reg : List (String × NodeInputOutputRWType)) : RegGrows reg reg :=
  ⟨fun _ _ h => h, fun k v h1 h2 => by rw [h1] at h2; cases h2⟩

theorem RegGrows_trans {r1 r2 r3 : List (String × NodeInputOutputRWType)}
    (a : RegGrows r1 r2) (b : RegGrows r2 r3) : RegGrows r1 r3 := by
  refine ⟨fun k v h => b.keep k v (a.keep k v h), ?_⟩
  intro k v h1 h3
  cases h2 : mapFind r2 k with
  | none => exact b.soft k v h2 h3
  | some w =>
    have := b.keep k w h2
    rw [this] at h3
    have hw : w = v := Option.some.inj h3
    rw [← hw]
    exact a.soft k w h1 h2

theorem RegGrows_mapEmplace (reg : List (String × NodeInputOutputRWType)) (k : String)
    (v : NodeInputOutputRWType)
    (hv : ∀ i t, mapFind v.output_rw_type_map i = some t → t = OutputRWType.kSoftRead) :
    RegGrows reg (mapEmplace reg k v) := by
  refine ⟨fun k' x h => mapFind_mapEmplace_of_some k v h, ?_⟩
  intro k' x h1 h2
  rcases mapFind_mapEmplace_cases reg k k' v x h2 with h | ⟨_, _, hx⟩
  · rw [h1] at h
    cases h
  · rw [hx]
    exact hv

/-! ## Graphs that grow by spliced Identity nodes -/

theorem filter_range_extend (P P' : Nat → Bool) (n : Nat) :
    ∀ k : Nat, (∀ m, m < n → P' m = P m) → (∀ m, n ≤ m → m < n + k → P' m = false) →
      (List.range (n + k)).filter P' = (List.range n).filter P := by
  intro k
  induction k with
  | zero =>
    intro hold _
    apply List.filter_congr
    intro m hm
    exact hold m (List.mem_range.1 hm)
  | succ k ih =>
    intro hold hnew
    rw [← Nat.add_assoc, List.range_succ, List.filter_append,
      ih hold (fun m h1 h2 => hnew m h1 (by omega))]
    have : P' (n + k) = false := hnew (n + k) (by omega) (by omega)
    simp [this]

namespace ComputeGraph

theorem GetDirectNode_eq (g : ComputeGraph) (gi : Nat) :
    g.GetDirectNode gi = (List.range g.nodes.length).filter
      (fun n => g.isListed n && decide (g.GetOwnerComputeGraph n = some gi)) := by
  unfold GetDirectNode
  apply List.filter_congr
  intro n _
  have key : ∀ x : Option Node,
      (match x with
       | some nd => nd.listed && (nd.owner_graph == some gi)
       | none => false) =
      ((match x with
        | some nd => nd.listed
        | none => false) &&
        decide ((match x with
          | some nd => nd.owner_graph
          | none => none) = some gi)) := by
    intro x
    cases x with
    | none => rfl
    | some nd =>
      simp only
      congr 1
      cases h : decide (nd.owner_graph = some gi)
      · simpa using h
      · simpa using h
  exact key _

theorem lt_length_of_mem_GetDirectNode {g : ComputeGraph} {gi n : Nat}
    (h : n ∈ g.GetDirectNode gi) : n < g.nodes.length := by
  unfold GetDirectNode at h
  exact List.mem_range.1 (List.mem_filter.1 h).1

theorem GetDirectNode_nodup (g : ComputeGraph) (gi : Nat) : (g.GetDirectNode gi).Nodup := by
  unfold GetDirectNode
  exact (List.nodup_range _).filter _

theorem GetParentNode_of_graphs {g g' : ComputeGraph} (h : g'.graphs = g.graphs) (gi : Nat) :
    g'.GetParentNode gi = g.GetParentNode gi := by
  simp only [GetParentNode, h]

theorem GetSubgraph_of_graphs {g g' : ComputeGraph} (h : g'.graphs = g.graphs) (nm : String) :
    g'.GetSubgraph nm = g.GetSubgraph nm := by
  simp only [GetSubgraph, GetAllSubgraphs, h]

theorem GetName_of_shape {g g' : ComputeGraph} {n : Nat} (h : g'.shape n = g.shape n) :
    g'.GetName n = g.GetName n := by
  unfold GetName
  rw [GetOpDesc_of_shape h]

end ComputeGraph


theorem Extends_opDesc_new {g g' : ComputeGraph} (e : Extends g g') {m : Nat} (h1 : g.nodes.length ≤ m) (h2 : m < g'.nodes.length) :
    ∃ name owner, g'.GetOpDesc m = (newIdentityNode name owner).op_desc := by
  obtain ⟨name, owner, hs⟩ := e.fresh m h1 h2
  refine ⟨name, owner, ?_⟩
  simp only [shape] at hs
  simp only [GetOpDesc]
  cases hnd : g'.nodes[m]? with
  | none => rw [hnd] at hs; cases hs
  | some nd =>
    rw [hnd] at hs
    simp only [Option.some.injEq, Prod.mk.injEq] at hs
    exact hs.1

theorem GetOpDesc_eq_none_of_length_le {g' : ComputeGraph} {m : Nat} (h : g'.nodes.length ≤ m) :
    g'.GetOpDesc m = none := by
  simp only [GetOpDesc, List.getElem?_eq_none h]

theorem Extends_IsSubgraphOutput_eq {g g' : ComputeGraph} (e : Extends g g') (m : Nat) (hm : m < g.nodes.length) :
    g'.IsSubgraphOutput m = g.IsSubgraphOutput m := by
  simp only [IsSubgraphOutput, GetOpDesc_of_shape (e.shape m hm),
    GetOwnerComputeGraph_of_shape (e.shape m hm), GetParentNode_of_graphs e.graphs]

theorem Extends_IsSubgraphInput_eq {g g' : ComputeGraph} (e : Extends g g') (m : Nat) (hm : m < g.nodes.length) :
    g'.IsSubgraphInput m = g.IsSubgraphInput m := by
  simp only [IsSubgraphInput, GetOpDesc_of_shape (e.shape m hm),
    GetOwnerComputeGraph_of_shape (e.shape m hm), GetParentNode_of_graphs e.graphs]

theorem Extends_IsSubgraphOutput_new {g g' : ComputeGraph} (e : Extends g g') (m : Nat) (hm : g.nodes.length ≤ m) :
    g'.IsSubgraphOutput m = false := by
  rcases Nat.lt_or_ge m g'.nodes.length with h | h
  · obtain ⟨name, owner, hd⟩ := Extends_opDesc_new e hm h
    simp only [IsSubgraphOutput, hd, newIdentityNode]
    cases g'.GetOwnerComputeGraph m <;> simp
  · simp only [IsSubgraphOutput, GetOpDesc_eq_none_of_length_le h]

theorem Extends_IsSubgraphInput_new {g g' : ComputeGraph} (e : Extends g g') (m : Nat) (hm : g.nodes.length ≤ m) :
    g'.IsSubgraphInput m = false := by
  rcases Nat.lt_or_ge m g'.nodes.length with h | h
  · obtain ⟨name, owner, hd⟩ := Extends_opDesc_new e hm h
    simp only [IsSubgraphInput, hd, newIdentityNode]
    cases g'.GetOwnerComputeGraph m <;> simp
  · simp only [IsSubgraphInput, GetOpDesc_eq_none_of_length_le h]

/-- Filtering the direct nodes of a graph by a test that fails on new nodes
gives the same list before and after. -/
theorem Extends_filter_GetDirectNode {g g' : ComputeGraph} (e : Extends g g') (gi : Nat) (Q Q' : Nat → Bool)
    (hold : ∀ m, m < g.nodes.length → Q' m = Q m)
    (hnew : ∀ m, g.nodes.length ≤ m → Q' m = false) :
    (g'.GetDirectNode gi).filter Q' = (g.GetDirectNode gi).filter Q := by
  rw [GetDirectNode_eq, GetDirectNode_eq, List.filter_filter, List.filter_filter]
  obtain ⟨k, hk⟩ := Nat.exists_eq_add_of_le e.len
  rw [hk]
  apply filter_range_extend
  · intro m hm
    rw [hold m hm, e.listed m hm, GetOwnerComputeGraph_of_shape (e.shape m hm)]
  · intro m hm _
    rw [hnew m hm]
    rfl

theorem Extends_subgraphsOf_eq {g g' : ComputeGraph} (e : Extends g g') (n : Nat) (hn : n < g.nodes.length) :
    g'.subgraphsOf n = g.subgraphsOf n := by
  simp only [subgraphsOf, GetOpDesc_of_shape (e.shape n hn)]
  cases g.GetOpDesc n with
  | none => rfl
  | some d =>
    simp only
    apply List.filterMap_congr
    intro nm _
    exact GetSubgraph_of_graphs e.graphs nm

theorem Extends_GetSubgraphOutputNodes_eq {g g' : ComputeGraph} (e : Extends g g') (n : Nat) (hn : n < g.nodes.length) :
    g'.GetSubgraphOutputNodes n = g.GetSubgraphOutputNodes n := by
  simp only [GetSubgraphOutputNodes, Extends_subgraphsOf_eq e n hn]
  congr 1
  funext gi
  exact Extends_filter_GetDirectNode e gi _ _ (fun m hm => Extends_IsSubgraphOutput_eq e m hm)
    (fun m hm => Extends_IsSubgraphOutput_new e m hm)

theorem Extends_GetSubgraphDataNodesByIndex_eq {g g' : ComputeGraph} (e : Extends g g') (n index : Nat) (hn : n < g.nodes.length) :
    g'.GetSubgraphDataNodesByIndex n index = g.GetSubgraphDataNodesByIndex n index := by
  simp only [GetSubgraphDataNodesByIndex, Extends_subgraphsOf_eq e n hn]
  congr 1
  funext gi
  apply Extends_filter_GetDirectNode e gi
  · intro m hm
    rw [Extends_IsSubgraphInput_eq e m hm, GetOpDesc_of_shape (e.shape m hm)]
  · intro m hm
    rw [Extends_IsSubgraphInput_new e m hm]
    rfl

/-! ## Classification in a grown graph -/

theorem lt_length_of_mem_GetSubgraphDataNodesByIndex {g : ComputeGraph} {n index m : Nat}
    (h : m ∈ g.GetSubgraphDataNodesByIndex n index) : m < g.nodes.length := by
  simp only [GetSubgraphDataNodesByIndex, List.mem_flatMap, List.mem_filter] at h
  obtain ⟨gi, _, hm, _⟩ := h
  exact lt_length_of_mem_GetDirectNode hm

theorem collectDataRWTypes_of_extends {g g' : ComputeGraph} (e : Extends g g')
    (reg : List (String × NodeInputOutputRWType)) :
    ∀ (l : List Nat) (acc : Finset Int), (∀ m ∈ l, m < g.nodes.length) →
      collectDataRWTypes g' reg l acc = collectDataRWTypes g reg l acc := by
  intro l
  induction l with
  | nil => intro acc _; rfl
  | cons m l ih =>
    intro acc hl
    have hm := hl m (List.mem_cons_self _ _)
    have hrest : ∀ x ∈ l, x < g.nodes.length := fun x hx => hl x (List.mem_cons_of_mem _ hx)
    simp only [collectDataRWTypes, hasOutAnchor_of_shape (o := ⟨m, 0⟩) (e.shape m hm),
      GetOpDesc_of_shape (e.shape m hm)]
    split
    · exact ih acc hrest
    · cases g.GetOpDesc m with
      | none => exact ih acc hrest
      | some d =>
        simp only
        cases mapFind reg d.name with
        | none => rfl
        | some entry =>
          simp only
          cases mapFind entry.input_rw_type_map 0 with
          | none => rfl
          | some t => exact ih _ hrest

theorem GetSingleNodeInputRWTypeByIndex_of_shape {g g' : ComputeGraph} {n : Nat}
    (h : g'.shape n = g.shape n) (index : Nat) :
    GetSingleNodeInputRWTypeByIndex g' n index = GetSingleNodeInputRWTypeByIndex g n index := by
  simp only [GetSingleNodeInputRWTypeByIndex, GetOpDesc_of_shape h, GetType_of_shape h]

/-- The input type of an old node does not change when the graph grows by
spliced Identity nodes. -/
theorem GetInputRWTypeByIndex_of_extends {g g' : ComputeGraph} (e : Extends g g')
    (reg : List (String × NodeInputOutputRWType)) (n index : Nat) (hn : n < g.nodes.length) :
    GetInputRWTypeByIndex g' reg n index = GetInputRWTypeByIndex g reg n index := by
  simp only [GetInputRWTypeByIndex, GetOpDesc_of_shape (e.shape n hn),
    GetSingleNodeInputRWTypeByIndex_of_shape (e.shape n hn),
    Extends_GetSubgraphDataNodesByIndex_eq e n index hn]
  rw [collectDataRWTypes_of_extends e reg _ ∅
    (fun m hm => lt_length_of_mem_GetSubgraphDataNodesByIndex hm)]

theorem GetSingleNodeOutputRWTypeByIndex_of_extends {g g' : ComputeGraph} (e : Extends g g')
    (n index : Nat) (hn : n < g.nodes.length) :
    GetSingleNodeOutputRWTypeByIndex g' n index = GetSingleNodeOutputRWTypeByIndex g n index := by
  simp only [GetSingleNodeOutputRWTypeByIndex, GetOpDesc_of_shape (e.shape n hn),
    GetType_of_shape (e.shape n hn), hasOutAnchor_of_shape (o := ⟨n, index⟩) (e.shape n hn),
    e.fanout ⟨n, index⟩ hn]

theorem lt_length_of_mem_GetSubgraphOutputNodes {g : ComputeGraph} {n m : Nat}
    (h : m ∈ g.GetSubgraphOutputNodes n) : m < g.nodes.length := by
  simp only [GetSubgraphOutputNodes, List.mem_flatMap, List.mem_filter] at h
  obtain ⟨gi, _, hm, _⟩ := h
  exact lt_length_of_mem_GetDirectNode hm

/-- The output type of an old node does not change when the graph grows by
spliced Identity nodes. -/
theorem GetOutputRWTypeByIndex_of_extends {g g' : ComputeGraph} (e : Extends g g')
    (reg : List (String × NodeInputOutputRWType)) (n index : Nat) (hn : n < g.nodes.length) :
    GetOutputRWTypeByIndex g' reg n index = GetOutputRWTypeByIndex g reg n index := by
  have hname : ∀ m ∈ g.GetSubgraphOutputNodes n, g'.GetName m = g.GetName m := fun m hm =>
    GetName_of_shape (e.shape m (lt_length_of_mem_GetSubgraphOutputNodes hm))
  simp only [GetOutputRWTypeByIndex, GetOpDesc_of_shape (e.shape n hn),
    GetSingleNodeOutputRWTypeByIndex_of_extends e n index hn,
    Extends_GetSubgraphOutputNodes_eq e n hn,
    hasOutAnchor_of_shape (o := ⟨n, index⟩) (e.shape n hn), e.fanout ⟨n, index⟩ hn]
  cases g.GetOpDesc n with
  | none => rfl
  | some d =>
    simp only
    split
    · rfl
    · split
      · rfl
      · rcases hv : g.GetSubgraphOutputNodes n with _ | ⟨m, _ | ⟨m2, l⟩⟩
        · rfl
        · have := hname m (by rw [hv]; exact List.mem_cons_self _ _)
          simp only [this]
        · rfl

theorem edgeConflict_of_extends {g g' : ComputeGraph} (e : Extends g g')
    (reg : List (String × NodeInputOutputRWType)) (o : OutDataAnchor) (a : InDataAnchor)
    (ho : o.node < g.nodes.length) (ha : a.node < g.nodes.length) :
    edgeConflict g' reg o a = edgeConflict g reg o a := by
  simp only [edgeConflict, GetOutputRWTypeByIndex_of_extends e reg o.node o.idx ho,
    GetInputRWTypeByIndex_of_extends e reg a.node a.idx ha]

/-- Whether the output type is Writeable does not change when the registry
grows: a Writeable answer for a node with subgraphs is read from an entry, and
an entry stays. -/
theorem GetOutputRWTypeByIndex_writeable_of_regGrows (g : ComputeGraph)
    {reg reg' : List (String × NodeInputOutputRWType)} (r : RegGrows reg reg') (n index : Nat) :
    GetOutputRWTypeByIndex g reg' n index = .kWriteable ↔
      GetOutputRWTypeByIndex g reg n index = .kWriteable := by
  simp only [GetOutputRWTypeByIndex]
  cases g.GetOpDesc n with
  | none => simp
  | some d =>
    simp only
    split
    · simp
    · split
      · rfl
      · rcases hv : g.GetSubgraphOutputNodes n with _ | ⟨m, _ | ⟨m2, l⟩⟩
        · rfl
        · simp only
          cases h1 : mapFind reg (g.GetName m) with
          | some entry =>
            rw [r.keep _ _ h1]
          | none =>
            simp only
            cases h2 : mapFind reg' (g.GetName m) with
            | none => rfl
            | some entry =>
              simp only
              cases h3 : mapFind entry.output_rw_type_map index with
              | none => rfl
              | some t =>
                have ht := r.soft _ _ h1 h2 index t h3
                subst ht
                simp only
                split
                · simp
                · split <;> simp
        · rfl

/-! ## Splicing one Identity -/

namespace ComputeGraph

theorem allInDataAnchors_nodup (g : ComputeGraph) : g.allInDataAnchors.Nodup := by
  unfold allInDataAnchors
  rw [List.nodup_flatMap]
  refine ⟨fun n _ => GetAllInDataAnchors_nodup g n, ?_⟩
  refine List.Pairwise.imp_of_mem ?_ (List.nodup_range g.nodes.length)
  intro a b _ _ hab
  simp only [Function.onFun]
  intro x hx1 hx2
  rw [mem_GetAllInDataAnchors] at hx1 hx2
  exact hab (hx1.1.symm.trans hx2.1)

theorem GetPeerInDataAnchors_nodup (g : ComputeGraph) (o : OutDataAnchor) :
    (g.GetPeerInDataAnchors o).Nodup :=
  (allInDataAnchors_nodup g).filter _

/-- The number of consumers of an output anchor as the size of a set. -/
theorem GetPeerInDataNodesSize_eq_card (g : ComputeGraph) (o : OutDataAnchor) :
    g.GetPeerInDataNodesSize o = (g.GetPeerInDataAnchors o).toFinset.card := by
  unfold GetPeerInDataNodesSize
  rw [List.toFinset_card_of_nodup (GetPeerInDataAnchors_nodup g o)]

end ComputeGraph

/-- The peers after creating an Identity and splicing it onto the edge into
`dst`. -/
theorem peer_create_insert {s s1 : PassState} {src_node id : Nat} {src : OutDataAnchor}
    {dst : InDataAnchor} {g2 : ComputeGraph}
    (hc : CreateIdentityAfterSrcNode s src_node = (some id, s1))
    (hi : s1.graph.InsertNodeBetweenDataAnchors src dst id = .ok g2) (b : InDataAnchor) :
    g2.GetPeerOutAnchor b =
      if b = dst then some ⟨s.graph.nodes.length, 0⟩
      else if b = ⟨s.graph.nodes.length, 0⟩ then some src
      else s.graph.GetPeerOutAnchor b := by
  obtain ⟨_, _, _, hdst, hlen, _, _, _, _, _, _, hN0, hNj, hd, hoth⟩ := create_insert_facts hc hi
  by_cases h1 : b = dst
  · rw [if_pos h1, h1, hd]
  · rw [if_neg h1]
    by_cases h2 : b = ⟨s.graph.nodes.length, 0⟩
    · rw [if_pos h2, h2, hN0]
    · rw [if_neg h2]
      rcases Nat.lt_trichotomy b.node s.graph.nodes.length with hlt | heq | hgt
      · exact hoth b h1 hlt
      · obtain ⟨bn, bj⟩ := b
        simp only at heq
        subst heq
        have hj : bj ≠ 0 := by
          intro e
          apply h2
          rw [e]
        rw [hNj bj hj, peer_eq_none_of_length_le _ _ (Nat.le_refl _)]
      · rw [peer_eq_none_of_length_le _ _ (by omega), peer_eq_none_of_length_le _ _ (by omega)]

theorem Extends_refl (g : ComputeGraph) : Extends g g :=
  ⟨Nat.le_refl _, fun _ _ => rfl, fun _ _ => rfl, rfl, fun m h1 h2 => absurd h2 (by omega),
    fun _ _ => rfl⟩

theorem Extends_trans {g1 g2 g3 : ComputeGraph} (a : Extends g1 g2) (b : Extends g2 g3) :
    Extends g1 g3 := by
  refine ⟨Nat.le_trans a.len b.len, ?_, ?_, ?_, ?_, ?_⟩
  · intro m hm
    rw [b.shape m (Nat.lt_of_lt_of_le hm a.len), a.shape m hm]
  · intro m hm
    rw [b.listed m (Nat.lt_of_lt_of_le hm a.len), a.listed m hm]
  · rw [b.graphs, a.graphs]
  · intro m h1 h3
    rcases Nat.lt_or_ge m g2.nodes.length with h2 | h2
    · obtain ⟨name, owner, hs⟩ := a.fresh m h1 h2
      exact ⟨name, owner, by rw [b.shape m h2, hs]⟩
    · exact b.fresh m h2 h3
  · intro o ho
    rw [b.fanout o (Nat.lt_of_lt_of_le ho a.len), a.fanout o ho]

/-- Creating an Identity and splicing it onto an edge grows the graph as
`Extends` says. -/
theorem Extends_of_create_insert {s s1 : PassState} {src_node id : Nat} {src : OutDataAnchor}
    {dst : InDataAnchor} {g2 : ComputeGraph}
    (hc : CreateIdentityAfterSrcNode s src_node = (some id, s1))
    (hi : s1.graph.InsertNodeBetweenDataAnchors src dst id = .ok g2) : Extends s.graph g2 := by
  have hpeer := peer_create_insert hc hi
  obtain ⟨hid, _, hsrc, hdst, hlen, hshape, hlisted, hgraphs, _, _, _, _, _, _, _⟩ :=
    create_insert_facts hc hi
  obtain ⟨_, _, name, owner, hg1⟩ := CreateIdentityAfterSrcNode_some hc
  obtain ⟨_, _, _, hg2⟩ := InsertNodeBetweenDataAnchors_ok hi
  refine ⟨by omega, hshape, hlisted, hgraphs, ?_, ?_⟩
  · intro m h1 h2
    have hm : m = s.graph.nodes.length := by omega
    subst hm
    refine ⟨name, owner, ?_⟩
    rw [hg2, shape_setPeer, shape_setPeer, hg1, shape_AddNode_identity]
  · intro o ho
    rw [GetPeerInDataNodesSize_eq_card, GetPeerInDataNodesSize_eq_card]
    have hnew : (⟨s.graph.nodes.length, 0⟩ : InDataAnchor) ∉
        (s.graph.GetPeerInDataAnchors o).toFinset := by
      rw [List.mem_toFinset, mem_GetPeerInDataAnchors,
        peer_eq_none_of_length_le _ _ (Nat.le_refl _)]
      simp
    have hoN : (some (⟨s.graph.nodes.length, 0⟩ : OutDataAnchor)) ≠ some o := by
      intro h
      have := Option.some.inj h
      rw [← this] at ho
      simp at ho
    have hdN : dst ≠ ⟨s.graph.nodes.length, 0⟩ := by
      intro h
      rw [h] at hdst
      simp at hdst
    by_cases hso : src = o
    · subst hso
      have hset : (g2.GetPeerInDataAnchors src).toFinset =
          insert (⟨s.graph.nodes.length, 0⟩ : InDataAnchor)
            ((s.graph.GetPeerInDataAnchors src).toFinset.erase dst) := by
        ext b
        simp only [List.mem_toFinset, mem_GetPeerInDataAnchors, Finset.mem_insert,
          Finset.mem_erase, hpeer b]
        by_cases h1 : b = dst
        · simp [h1, hoN, hdN]
        · by_cases h2 : b = ⟨s.graph.nodes.length, 0⟩
          · simp [h2, Ne.symm hdN]
          · simp [h1, h2]
      rw [hset, Finset.card_insert_of_not_mem (fun h => hnew (Finset.mem_of_mem_erase h)),
        Finset.card_erase_of_mem (by
          rw [List.mem_toFinset, mem_GetPeerInDataAnchors]
          exact hsrc)]
      have hpos : 0 < (s.graph.GetPeerInDataAnchors src).toFinset.card :=
        Finset.card_pos.2 ⟨dst, by
          rw [List.mem_toFinset, mem_GetPeerInDataAnchors]
          exact hsrc⟩
      omega
    · have hset : (g2.GetPeerInDataAnchors o).toFinset =
          (s.graph.GetPeerInDataAnchors o).toFinset := by
        ext b
        simp only [List.mem_toFinset, mem_GetPeerInDataAnchors, hpeer b]
        by_cases h1 : b = dst
        · rw [if_pos h1, h1, hsrc]
          constructor
          · intro h
            exact absurd h hoN
          · intro h
            exact absurd (Option.some.inj h) hso
        · rw [if_neg h1]
          by_cases h2 : b = ⟨s.graph.nodes.length, 0⟩
          · rw [if_pos h2, h2, peer_eq_none_of_length_le _ _ (Nat.le_refl _)]
            constructor
            · intro h
              exact absurd (Option.some.inj h) hso
            · intro h
              cases h
          · rw [if_neg h2]
      rw [hset]

/-! ## Splicing along a set of edges -/

theorem Spliced_refl {g : ComputeGraph} (hl : g.linksValid = true) :
    Spliced (fun _ => False) g g :=
  ⟨Extends_refl g, hl, fun _ _ _ => rfl, fun _ _ h => h.elim,
    fun k h1 h2 => absurd h2 (by omega)⟩

theorem Spliced_congr {T T' : InDataAnchor → Prop} {g g' : ComputeGraph}
    (h : ∀ a : InDataAnchor, a.node < g.nodes.length → (T a ↔ T' a)) (sp : Spliced T g g') :
    Spliced T' g g' := by
  refine ⟨sp.ext, sp.links, ?_, ?_, ?_⟩
  · intro a ha hT
    exact sp.kept a ha (fun ht => hT ((h a ha).1 ht))
  · intro a ha hT
    exact sp.spliced a ha ((h a ha).2 hT)
  · intro k h1 h2
    obtain ⟨a, ha, hT, hb⟩ := sp.fresh k h1 h2
    exact ⟨a, ha, (h a ha).1 hT, hb⟩

/-- One more Identity, spliced onto the edge into an old anchor outside the
set. -/
theorem Spliced_step {T : InDataAnchor → Prop} {g : ComputeGraph} {s s1 : PassState}
    {src_node id : Nat} {src : OutDataAnchor} {dst : InDataAnchor} {g2 : ComputeGraph}
    (hlg : g.linksValid = true) (sp : Spliced T g s.graph)
    (hdold : dst.node < g.nodes.length) (hT : ¬ T dst)
    (hc : CreateIdentityAfterSrcNode s src_node = (some id, s1))
    (hi : s1.graph.InsertNodeBetweenDataAnchors src dst id = .ok g2) :
    Spliced (fun a => T a ∨ a = dst) g g2 := by
  have hpeer := peer_create_insert hc hi
  obtain ⟨_, _, hsrc, _, hlen, _, _, _, _, _, _, _, _, _, _⟩ := create_insert_facts hc hi
  have hle := sp.ext.len
  have hsrc0 : g.GetPeerOutAnchor dst = some src := by
    rw [← sp.kept dst hdold hT]
    exact hsrc
  have hsrcold : src.node < g.nodes.length :=
    lt_length_of_hasOutAnchor ((linksValid_iff g).1 hlg dst src hsrc0)
  have hdN : dst ≠ ⟨s.graph.nodes.length, 0⟩ := by
    intro h
    rw [h] at hdold
    simp only at hdold
    omega
  have hold : ∀ b : InDataAnchor, b.node < s.graph.nodes.length → b ≠ dst →
      g2.GetPeerOutAnchor b = s.graph.GetPeerOutAnchor b := by
    intro b hb hbd
    have hbN : b ≠ ⟨s.graph.nodes.length, 0⟩ := by
      intro h
      rw [h] at hb
      simp at hb
    rw [hpeer b, if_neg hbd, if_neg hbN]
  have hnoN : ∀ b : InDataAnchor,
      s.graph.GetPeerOutAnchor b ≠ some ⟨s.graph.nodes.length, 0⟩ := by
    intro b h
    have := lt_length_of_hasOutAnchor ((linksValid_iff _).1 sp.links b _ h)
    simp at this
  refine ⟨Extends_trans sp.ext (Extends_of_create_insert hc hi),
    (Grows_of_create_insert sp.links hc hi).links, ?_, ?_, ?_⟩
  · intro a ha hTa
    have had : a ≠ dst := fun h => hTa (Or.inr h)
    rw [hold a (by omega) had]
    exact sp.kept a ha (fun h => hTa (Or.inl h))
  · intro a ha hTa
    by_cases had : a = dst
    · subst had
      refine ⟨s.graph.nodes.length, hle, by omega, ?_, ?_⟩
      · rw [hpeer a, if_pos rfl]
      · rw [hpeer _, if_neg (Ne.symm hdN), if_pos rfl, hsrc0]
    · have hTa' : T a := hTa.resolve_right had
      obtain ⟨k, hk1, hk2, hk3, hk4⟩ := sp.spliced a ha hTa'
      refine ⟨k, hk1, by omega, ?_, ?_⟩
      · rw [hold a (by omega) had, hk3]
      · rw [hold ⟨k, 0⟩ hk2 (by
          intro h
          rw [← h] at hdold
          simp only at hdold
          omega), hk4]
  · intro k hk1 hk2
    by_cases hkN : k = s.graph.nodes.length
    · subst hkN
      refine ⟨dst, hdold, Or.inr rfl, ?_⟩
      intro b
      by_cases hbd : b = dst
      · subst hbd
        rw [hpeer b, if_pos rfl]
        simp
      · rw [hpeer b, if_neg hbd]
        by_cases hbN : b = ⟨s.graph.nodes.length, 0⟩
        · rw [if_pos hbN]
          constructor
          · intro h
            have := Option.some.inj h
            rw [this] at hsrcold
            simp only at hsrcold
            omega
          · intro h
            exact absurd h hbd
        · rw [if_neg hbN]
          constructor
          · intro h
            exact absurd h (hnoN b)
          · intro h
            exact absurd h hbd
    · have hk3 : k < s.graph.nodes.length := by omega
      obtain ⟨a, ha, hTa, hiff⟩ := sp.fresh k hk1 hk3
      refine ⟨a, ha, Or.inl hTa, ?_⟩
      intro b
      by_cases hbd : b = dst
      · subst hbd
        rw [hpeer b, if_pos rfl]
        constructor
        · intro h
          have := Option.some.inj h
          simp only [OutDataAnchor.mk.injEq, and_true] at this
          exact absurd this.symm hkN
        · intro h
          rw [h] at hT
          exact absurd hTa hT
      · rw [hpeer b, if_neg hbd]
        by_cases hbN : b = ⟨s.graph.nodes.length, 0⟩
        · rw [if_pos hbN]
          constructor
          · intro h
            have := Option.some.inj h
            rw [this] at hsrcold
            simp only at hsrcold
            omega
          · intro h
            rw [hbN] at h
            rw [← h] at ha
            simp only at ha
            omega
        · rw [if_neg hbN]
          exact hiff b

/-! ## Insertion of Identity nodes behind one node -/

namespace ComputeGraph

theorem mem_GetAllOutDataAnchors (g : ComputeGraph) (n : Nat) (o : OutDataAnchor) :
    o ∈ g.GetAllOutDataAnchors n ↔ o.node = n ∧ g.hasOutAnchor o = true := by
  obtain ⟨m, j⟩ := o
  simp only [GetAllOutDataAnchors, List.mem_map, List.mem_range, OutDataAnchor.mk.injEq,
    hasOutAnchor, decide_eq_true_eq]
  constructor
  · rintro ⟨k, hk, rfl, rfl⟩
    exact ⟨rfl, hk⟩
  · rintro ⟨rfl, hj⟩
    exact ⟨j, hj, rfl, rfl⟩

theorem GetAllOutDataAnchors_nodup (g : ComputeGraph) (n : Nat) :
    (g.GetAllOutDataAnchors n).Nodup := by
  unfold GetAllOutDataAnchors
  refine List.Nodup.map ?_ (List.nodup_range _)
  intro a b h
  exact (OutDataAnchor.mk.injEq _ _ _ _ ▸ h : n = n ∧ a = b).2

end ComputeGraph

theorem eq_singleton_of_nodup {α : Type} {l : List α} {a : α} (hn : l.Nodup)
    (h : ∀ b, b ∈ l ↔ b = a) : l = [a] := by
  match l, hn, h with
  | [], _, h => exact absurd ((h a).2 rfl) (List.not_mem_nil a)
  | [x], _, h =>
    have := (h x).1 (List.mem_cons_self _ _)
    rw [this]
  | x :: y :: l, hn, h =>
    have hx := (h x).1 (List.mem_cons_self _ _)
    have hy := (h y).1 (List.mem_cons_of_mem _ (List.mem_cons_self _ _))
    rw [List.nodup_cons] at hn
    exact absurd (by rw [hx, hy]; exact List.mem_cons_self _ _) hn.1

/-- A new node of a grown graph is an Identity with one input and one output
anchor. -/
theorem Extends_new_identity {g g' : ComputeGraph} (e : Extends g g') {k : Nat}
    (h1 : g.nodes.length ≤ k) (h2 : k < g'.nodes.length) :
    g'.GetType k = IDENTITY ∧ g'.inAnchorNum k = 1 ∧ g'.outAnchorNum k = 1 := by
  obtain ⟨name, owner, hs⟩ := e.fresh k h1 h2
  obtain ⟨_, hout, hin⟩ := identity_facts hs
  obtain ⟨name', owner', hd⟩ := Extends_opDesc_new e h1 h2
  refine ⟨?_, hin, hout⟩
  simp only [GetType, hd, newIdentityNode]

/-- The input anchors of a spliced node: input 0 is fed by the old peer of
the anchor the node feeds, and there is no other input. -/
theorem Spliced_new_input {T : InDataAnchor → Prop} {g g' : ComputeGraph} (sp : Spliced T g g')
    {k : Nat} (h1 : g.nodes.length ≤ k) (h2 : k < g'.nodes.length) :
    ∃ a : InDataAnchor, a.node < g.nodes.length ∧ T a ∧
      g'.GetPeerOutAnchor a = some ⟨k, 0⟩ ∧ g'.GetPeerOutAnchor ⟨k, 0⟩ = g.GetPeerOutAnchor a ∧
      (∀ b : InDataAnchor, g'.GetPeerOutAnchor b = some ⟨k, 0⟩ ↔ b = a) ∧
      ∀ j, j ≠ 0 → g'.GetPeerOutAnchor ⟨k, j⟩ = none := by
  obtain ⟨a, ha, hT, hiff⟩ := sp.fresh k h1 h2
  obtain ⟨k', _, _, hk3, hk4⟩ := sp.spliced a ha hT
  have hpa : g'.GetPeerOutAnchor a = some ⟨k, 0⟩ := (hiff a).2 rfl
  have hkk : k' = k := by
    rw [hk3] at hpa
    have := Option.some.inj hpa
    simpa using this
  subst hkk
  refine ⟨a, ha, hT, hpa, hk4, hiff, ?_⟩
  intro j hj
  apply peer_eq_none_of_not_hasInAnchor
  simp only [hasInAnchor, (Extends_new_identity sp.ext h1 h2).2.1, decide_eq_false_iff_not]
  omega

/-- The consumers of an old output anchor after splicing are old input
anchors that were its consumers before. -/
theorem Spliced_consumer_old {T : InDataAnchor → Prop} {g g' : ComputeGraph}
    (sp : Spliced T g g') {o : OutDataAnchor} {x : InDataAnchor}
    (ho : o.node < g.nodes.length) (hT : ∀ a, T a → g.GetPeerOutAnchor a ≠ some o)
    (hx : g'.GetPeerOutAnchor x = some o) :
    x.node < g.nodes.length ∧ ¬ T x ∧ g.GetPeerOutAnchor x = some o := by
  have hxl : x.node < g'.nodes.length := lt_length_of_hasInAnchor (hasInAnchor_of_peer hx)
  rcases Nat.lt_or_ge x.node g.nodes.length with hlt | hge
  · have hnT : ¬ T x := by
      intro h
      obtain ⟨k, hk1, _, hk3, _⟩ := sp.spliced x hlt h
      rw [hk3] at hx
      have := Option.some.inj hx
      rw [← this] at ho
      simp only at ho
      omega
    refine ⟨hlt, hnT, ?_⟩
    rw [← sp.kept x hlt hnT]
    exact hx
  · exfalso
    obtain ⟨a, _, hTa, _, hk4, _, hj⟩ := Spliced_new_input sp hge hxl
    obtain ⟨xn, xj⟩ := x
    by_cases h0 : xj = 0
    · subst h0
      rw [hk4] at hx
      exact hT a hTa hx
    · rw [hj xj h0] at hx
      cases hx

/-- One step of the inner loop of `InsertIdentityAsNeeded`: the peer `x` of
output anchor `o` gets an Identity exactly when its edge needs one. -/
theorem InsertIdentityOnPeer_spliced {g : ComputeGraph}
    {reg : List (String × NodeInputOutputRWType)} {node : Nat} (hlg : g.linksValid = true)
    {D : InDataAnchor → Prop} {o : OutDataAnchor} (ho : o.node = node)
    {x : InDataAnchor} (hxold : x.node < g.nodes.length) (hxo : g.GetPeerOutAnchor x = some o)
    (hxD : ¬ D x) {t t' : PassState} (hreg : t.node_rwtype_map_ = reg)
    (sp : Spliced (fun a => needsIdentity g reg node a ∧ D a) g t.graph)
    (h : InsertIdentityOnPeer node o (GetOutputRWTypeByIndex g reg o.node o.idx) x t =
      (.SUCCESS, t')) :
    Spliced (fun a => needsIdentity g reg node a ∧ (D a ∨ a = x)) g t'.graph ∧
      t'.node_rwtype_map_ = reg := by
  have hin : GetInputRWTypeByIndex t.graph t.node_rwtype_map_ x.node x.idx =
      GetInputRWTypeByIndex g reg x.node x.idx := by
    rw [hreg, GetInputRWTypeByIndex_of_extends sp.ext reg x.node x.idx hxold]
  have hneeds : needsIdentity g reg node x ↔ edgeConflict g reg o x = .INSERT_IDENTITY := by
    constructor
    · rintro ⟨o', h1, _, h3⟩
      rw [hxo] at h1
      rw [Option.some.inj h1]
      exact h3
    · intro h3
      exact ⟨o, hxo, ho, h3⟩
  unfold InsertIdentityOnPeer at h
  simp only [hin] at h
  have hcases : ∀ c, edgeConflict g reg o x = c → c ≠ .INSERT_IDENTITY → t' = t →
      Spliced (fun a => needsIdentity g reg node a ∧ (D a ∨ a = x)) g t'.graph ∧
        t'.node_rwtype_map_ = reg := by
    intro c hc hne ht
    subst ht
    refine ⟨Spliced_congr ?_ sp, hreg⟩
    intro a _
    constructor
    · exact fun ha => ⟨ha.1, Or.inl ha.2⟩
    · rintro ⟨ha1, ha2 | ha2⟩
      · exact ⟨ha1, ha2⟩
      · subst ha2
        exfalso
        rw [hneeds.1 ha1] at hc
        exact hne hc.symm
  cases hcr : GetConflictResultBetweenNode (GetOutputRWTypeByIndex g reg o.node o.idx)
      (GetInputRWTypeByIndex g reg x.node x.idx) with
  | DO_NOTHING =>
    rw [hcr] at h
    simp only [Prod.mk.injEq, true_and] at h
    exact hcases _ hcr (by decide) h.symm
  | WRONG_GRAPH =>
    rw [hcr] at h
    simp only [Prod.mk.injEq, true_and] at h
    exact hcases _ hcr (by decide) h.symm
  | INSERT_IDENTITY =>
    rw [hcr] at h
    simp only at h
    cases hc : CreateIdentityAfterSrcNode t node with
    | mk r s1 =>
      rw [hc] at h
      cases r with
      | none => simp at h
      | some id =>
        simp only at h
        cases hi : s1.graph.InsertNodeBetweenDataAnchors o x id with
        | error e => rw [hi] at h; simp at h
        | ok g2 =>
          rw [hi] at h
          simp only [Prod.mk.injEq, true_and] at h
          subst h
          have hstep := Spliced_step hlg sp hxold (fun hT => hxD hT.2) hc hi
          refine ⟨Spliced_congr ?_ hstep, ?_⟩
          · intro a _
            constructor
            · rintro (ha | ha)
              · exact ⟨ha.1, Or.inl ha.2⟩
              · subst ha
                exact ⟨hneeds.2 hcr, Or.inr rfl⟩
            · rintro ⟨ha1, ha2 | ha2⟩
              · exact Or.inl ⟨ha1, ha2⟩
              · exact Or.inr ha2
          · simp only
            rw [(CreateIdentityAfterSrcNode_some hc).2.1, hreg]

/-- The inner loop of `InsertIdentityAsNeeded` over the peers of one output
anchor. -/
theorem InsertIdentityOnAnchor_spliced {g : ComputeGraph}
    {reg : List (String × NodeInputOutputRWType)} {node : Nat} (hlg : g.linksValid = true)
    (hnode : node < g.nodes.length) {D : InDataAnchor → Prop} {o : OutDataAnchor}
    (ho : o.node = node) (hD : ∀ a, D a → g.GetPeerOutAnchor a ≠ some o)
    {s s' : PassState} (hreg : s.node_rwtype_map_ = reg)
    (sp : Spliced (fun a => needsIdentity g reg node a ∧ D a) g s.graph)
    (h : InsertIdentityOnAnchor node o s = (.SUCCESS, s')) :
    Spliced (fun a => needsIdentity g reg node a ∧ (D a ∨ g.GetPeerOutAnchor a = some o)) g
        s'.graph ∧ s'.node_rwtype_map_ = reg := by
  have hoold : o.node < g.nodes.length := by rw [ho]; exact hnode
  have hmem : ∀ x, x ∈ s.graph.GetPeerInDataAnchors o →
      x.node < g.nodes.length ∧ ¬ D x ∧ g.GetPeerOutAnchor x = some o := by
    intro x hx
    rw [mem_GetPeerInDataAnchors] at hx
    obtain ⟨h1, _, h3⟩ := Spliced_consumer_old sp hoold (fun a ha => hD a ha.2) hx
    exact ⟨h1, fun hd => hD x hd h3, h3⟩
  have hout : GetOutputRWTypeByIndex s.graph s.node_rwtype_map_ node o.idx =
      GetOutputRWTypeByIndex g reg o.node o.idx := by
    rw [hreg, ho, GetOutputRWTypeByIndex_of_extends sp.ext reg node o.idx hnode]
  unfold InsertIdentityOnAnchor at h
  simp only [hout] at h
  have hnd := GetPeerInDataAnchors_nodup s.graph o
  have key := forEachM_inv
    (InsertIdentityOnPeer node o (GetOutputRWTypeByIndex g reg o.node o.idx))
    (fun done t => Spliced (fun a => needsIdentity g reg node a ∧ (D a ∨ a ∈ done)) g t.graph ∧
      t.node_rwtype_map_ = reg)
    (s.graph.GetPeerInDataAnchors o) [] s s'
    (by
      intro d x r t t' hsplit _ hinv hstep
      simp only [List.nil_append] at hsplit
      have hxmem : x ∈ s.graph.GetPeerInDataAnchors o := by
        rw [hsplit]
        simp
      have hxd : x ∉ d := by
        rw [hsplit] at hnd
        have := (List.nodup_append.1 hnd).2.2
        intro hx
        exact this hx (List.mem_cons_self _ _) 
      obtain ⟨h1, h2, h3⟩ := hmem x hxmem
      have hres := InsertIdentityOnPeer_spliced hlg ho h1 h3
        (fun hx => hx.elim h2 hxd) hinv.2 hinv.1 hstep
      refine ⟨Spliced_congr ?_ hres.1, hres.2⟩
      intro a _
      simp only [List.mem_append, List.mem_singleton, or_assoc])
    ⟨Spliced_congr (by
      intro a _
      simp only [List.not_mem_nil, or_false]) sp, hreg⟩ h
  simp only [List.nil_append] at key
  refine ⟨Spliced_congr ?_ key.1, key.2⟩
  intro a ha
  constructor
  · rintro ⟨h1, h2 | h2⟩
    · exact ⟨h1, Or.inl h2⟩
    · exact ⟨h1, Or.inr (hmem a h2).2.2⟩
  · rintro ⟨h1, h2 | h2⟩
    · exact ⟨h1, Or.inl h2⟩
    · by_cases hd : D a
      · exact ⟨h1, Or.inl hd⟩
      · refine ⟨h1, Or.inr ?_⟩
        rw [mem_GetPeerInDataAnchors, sp.kept a ha (fun hT => hd hT.2)]
        exact h2

/-- What `InsertIdentityAsNeeded` does to the graph: an Identity is spliced
onto exactly the edges that leave the node with conflict result
InsertIdentity. -/
theorem InsertIdentityAsNeeded_spliced (node : Nat) (s s' : PassState)
    (hl : s.graph.linksValid = true)
    (h : InsertIdentityAsNeeded node s = (.SUCCESS, s')) :
    Spliced (needsIdentity s.graph s.node_rwtype_map_ node) s.graph s'.graph ∧
      s'.node_rwtype_map_ = s.node_rwtype_map_ := by
  unfold InsertIdentityAsNeeded at h
  cases hd : s.graph.GetOpDesc node with
  | none => rw [hd] at h; cases h
  | some d =>
    rw [hd] at h
    simp only at h
    have hnode : node < s.graph.nodes.length := by
      by_contra hge
      rw [GetOpDesc_eq_none_of_length_le (by omega)] at hd
      cases hd
    have hall : ∀ a, needsIdentity s.graph s.node_rwtype_map_ node a →
        ∃ o ∈ s.graph.GetAllOutDataAnchors node, s.graph.GetPeerOutAnchor a = some o := by
      rintro a ⟨o, h1, h2, _⟩
      exact ⟨o, (mem_GetAllOutDataAnchors _ _ _).2 ⟨h2, (linksValid_iff _).1 hl a o h1⟩, h1⟩
    split at h
    · rename_i hz
      simp only [Prod.mk.injEq, true_and] at h
      subst h
      refine ⟨Spliced_congr ?_ (Spliced_refl hl), rfl⟩
      intro a _
      constructor
      · exact fun hf => hf.elim
      · intro hn
        obtain ⟨o, ho, hp⟩ := hall a hn
        obtain ⟨ho1, ho2⟩ := (mem_GetAllOutDataAnchors _ _ _).1 ho
        obtain ⟨onode, oidx⟩ := o
        simp only at ho1
        subst ho1
        have := no_peers_of_size_zero hz oidx (by simpa [hasOutAnchor] using ho2)
        have hmem := (mem_GetPeerInDataAnchors _ ⟨onode, oidx⟩ a).2 hp
        rw [this] at hmem
        cases hmem
    · have hnd := GetAllOutDataAnchors_nodup s.graph node
      have key := forEachM_inv (InsertIdentityOnAnchor node)
        (fun done t => Spliced (fun a => needsIdentity s.graph s.node_rwtype_map_ node a ∧
            ∃ o ∈ done, s.graph.GetPeerOutAnchor a = some o) s.graph t.graph ∧
          t.node_rwtype_map_ = s.node_rwtype_map_)
        (s.graph.GetAllOutDataAnchors node) [] s s'
        (by
          intro dn o r t t' hsplit _ hinv hstep
          simp only [List.nil_append] at hsplit
          have homem : o ∈ s.graph.GetAllOutDataAnchors node := by
            rw [hsplit]
            simp
          have hod : o ∉ dn := by
            rw [hsplit] at hnd
            have := (List.nodup_append.1 hnd).2.2
            intro hx
            exact this hx (List.mem_cons_self _ _) 
          have hon := ((mem_GetAllOutDataAnchors _ _ _).1 homem).1
          have hres := InsertIdentityOnAnchor_spliced hl hnode hon
            (D := fun a => ∃ o' ∈ dn, s.graph.GetPeerOutAnchor a = some o')
            (by
              rintro a ⟨o', ho', hp⟩ hp2
              rw [hp] at hp2
              rw [Option.some.inj hp2] at ho'
              exact hod ho')
            hinv.2 hinv.1 hstep
          refine ⟨Spliced_congr ?_ hres.1, hres.2⟩
          intro a _
          constructor
          · rintro ⟨h1, ⟨o', ho', hp⟩ | hp⟩
            · exact ⟨h1, o', List.mem_append_left _ ho', hp⟩
            · exact ⟨h1, o, by simp, hp⟩
          · rintro ⟨h1, o', ho', hp⟩
            rw [List.mem_append, List.mem_singleton] at ho'
            rcases ho' with ho' | ho'
            · exact ⟨h1, Or.inl ⟨o', ho', hp⟩⟩
            · rw [ho'] at hp
              exact ⟨h1, Or.inr hp⟩)
        ⟨Spliced_congr (by
          intro a _
          simp) (Spliced_refl hl), rfl⟩ h
      simp only [List.nil_append] at key
      refine ⟨Spliced_congr ?_ key.1, key.2⟩
      intro a _
      constructor
      · exact fun hx => hx.1
      · exact fun hx => ⟨hx, hall a hx⟩

/-- C18: when `InsertIdentityAsNeeded` succeeds on a graph with valid links,
every data edge that leaves the node with conflict result InsertIdentity has
got a new Identity of its own, with one input fed by the output anchor of the
edge and one output feeding the input anchor of the edge only; every other
data edge is as it was; every new node is the Identity of one such edge; old
nodes, unlinked input anchors and the registry are unchanged. -/
theorem C18_insert_identity_per_edge (node : Nat) (s s' : PassState)
    (hl : s.graph.linksValid = true)
    (h : InsertIdentityAsNeeded node s = (.SUCCESS, s')) :
    (∀ (a : InDataAnchor) (o : OutDataAnchor), s.graph.GetPeerOutAnchor a = some o →
      if o.node = node ∧ edgeConflict s.graph s.node_rwtype_map_ o a = .INSERT_IDENTITY then
        ∃ k, s.graph.nodes.length ≤ k ∧ k < s'.graph.nodes.length ∧
          s'.graph.GetType k = IDENTITY ∧
          s'.graph.inAnchorNum k = 1 ∧ s'.graph.outAnchorNum k = 1 ∧
          s'.graph.GetPeerOutAnchor ⟨k, 0⟩ = some o ∧
          s'.graph.GetPeerInDataAnchors ⟨k, 0⟩ = [a]
      else s'.graph.GetPeerOutAnchor a = some o) ∧
    (∀ k, s.graph.nodes.length ≤ k → k < s'.graph.nodes.length →
      ∃ (a : InDataAnchor) (o : OutDataAnchor), s.graph.GetPeerOutAnchor a = some o ∧
        o.node = node ∧ edgeConflict s.graph s.node_rwtype_map_ o a = .INSERT_IDENTITY ∧
        s'.graph.GetPeerInDataAnchors ⟨k, 0⟩ = [a]) ∧
    (∀ a : InDataAnchor, a.node < s.graph.nodes.length → s.graph.GetPeerOutAnchor a = none →
      s'.graph.GetPeerOutAnchor a = none) ∧
    (∀ m, m < s.graph.nodes.length →
      s'.graph.shape m = s.graph.shape m ∧ s'.graph.isListed m = s.graph.isListed m) ∧
    s'.node_rwtype_map_ = s.node_rwtype_map_ := by
  obtain ⟨sp, hreg⟩ := InsertIdentityAsNeeded_spliced node s s' hl h
  have hsingle : ∀ (k : Nat) (a : InDataAnchor),
      (∀ b : InDataAnchor, s'.graph.GetPeerOutAnchor b = some ⟨k, 0⟩ ↔ b = a) →
      s'.graph.GetPeerInDataAnchors ⟨k, 0⟩ = [a] := by
    intro k a hiff
    apply eq_singleton_of_nodup (GetPeerInDataAnchors_nodup _ _)
    intro b
    rw [mem_GetPeerInDataAnchors]
    exact hiff b
  refine ⟨?_, ?_, ?_, ?_, hreg⟩
  · intro a o hp
    have haold : a.node < s.graph.nodes.length :=
      lt_length_of_hasInAnchor (hasInAnchor_of_peer hp)
    split
    · rename_i hc
      have hneeds : needsIdentity s.graph s.node_rwtype_map_ node a := ⟨o, hp, hc.1, hc.2⟩
      obtain ⟨k, hk1, hk2, hk3, hk4⟩ := sp.spliced a haold hneeds
      obtain ⟨b, _, _, hb3, _, hiff, _⟩ := Spliced_new_input sp hk1 hk2
      have hba : a = b := (hiff a).1 hk3
      subst hba
      obtain ⟨hty, hin, hout⟩ := Extends_new_identity sp.ext hk1 hk2
      exact ⟨k, hk1, hk2, hty, hin, hout, by rw [hk4, hp], hsingle k a hiff⟩
    · rename_i hc
      have hneeds : ¬ needsIdentity s.graph s.node_rwtype_map_ node a := by
        rintro ⟨o', h1, h2, h3⟩
        rw [hp] at h1
        have := Option.some.inj h1
        subst this
        exact hc ⟨h2, h3⟩
      rw [sp.kept a haold hneeds, hp]
  · intro k hk1 hk2
    obtain ⟨a, _, ⟨o, h1, h2, h3⟩, _, _, hiff, _⟩ := Spliced_new_input sp hk1 hk2
    exact ⟨a, o, h1, h2, h3, hsingle k a hiff⟩
  · intro a haold hp
    have hneeds : ¬ needsIdentity s.graph s.node_rwtype_map_ node a := by
      rintro ⟨o', h1, _, _⟩
      rw [hp] at h1
      cases h1
    rw [sp.kept a haold hneeds, hp]
  · intro m hm
    exact ⟨sp.ext.shape m hm, sp.ext.listed m hm⟩

/-- Witness of C18 at the Data node of `allreduceExampleGraph`, whose output
feeds inputs 0 and 2 of the HcomAllReduce: the edge into input 2 gets an
Identity that feeds input 2 only. -/
theorem C18_insert_identity_per_edge_witness :
    edgeConflict allreduceExampleGraph [] ⟨0, 0⟩ ⟨2, 2⟩ = .INSERT_IDENTITY ∧
      ∃ k, 3 ≤ k ∧
        (InsertIdentityAsNeeded 0 allreduceExampleState).2.graph.GetPeerOutAnchor ⟨k, 0⟩ =
          some ⟨0, 0⟩ ∧
        (InsertIdentityAsNeeded 0 allreduceExampleState).2.graph.GetPeerInDataAnchors ⟨k, 0⟩ =
          [⟨2, 2⟩] := by
  have h := (C18_insert_identity_per_edge 0 allreduceExampleState
    (InsertIdentityAsNeeded 0 allreduceExampleState).2 (by decide) (by decide)).1
    ⟨2, 2⟩ ⟨0, 0⟩ (by decide)
  rw [if_pos (by decide)] at h
  obtain ⟨k, h1, _, _, _, _, h6, h7⟩ := h
  exact ⟨by decide, k, h1, h6, h7⟩

/-! ## Marking the boundary nodes of a subgraph -/

theorem foldl_insert_eq_toFinset {α : Type} (f : α → Int) (l : List α) (acc : Finset Int) :
    l.foldl (fun acc a => insert (f a) acc) acc = acc ∪ (l.map f).toFinset := by
  induction l generalizing acc with
  | nil => simp
  | cons x l ih =>
    simp only [List.foldl_cons, List.map_cons, List.toFinset_cons]
    rw [ih]
    ext y
    simp only [Finset.mem_union, Finset.mem_insert]
    tauto

/-- The Data branch changes the registry only, by one `emplace` under the name
of the node. -/
theorem MarkDataNode_eq (node : Nat) (s : PassState) :
    MarkDataNode node s =
      { s with node_rwtype_map_ := (mapEmplace s.node_rwtype_map_ (s.graph.GetName node)
          ⟨[(0, GetInputRwTypeInConflict (consumerRWTypes s.graph s.node_rwtype_map_ node))],
            []⟩) } := by
  unfold MarkDataNode consumerRWTypes
  simp only [foldl_insert_eq_toFinset, Finset.empty_union]

theorem MarkNetOutputAnchor_extends (a : InDataAnchor)
    (st st' : PassState × List (Nat × OutputRWType))
    (h : MarkNetOutputAnchor a st = (.SUCCESS, st')) :
    Extends st.1.graph st'.1.graph ∧ st'.1.node_rwtype_map_ = st.1.node_rwtype_map_ ∧
      st'.2 = mapEmplace st.2 a.idx OutputRWType.kSoftRead := by
  unfold MarkNetOutputAnchor at h
  simp only at h
  cases hp : st.1.graph.GetPeerOutAnchor a with
  | none => rw [hp] at h; simp at h
  | some p =>
    rw [hp] at h
    simp only at h
    by_cases hw : GetOutputRWTypeByIndex st.1.graph st.1.node_rwtype_map_ p.node p.idx =
        .kWriteable
    · rw [if_pos hw] at h
      cases hc : CreateIdentityAfterSrcNode st.1 p.node with
      | mk r s1 =>
        rw [hc] at h
        cases r with
        | none => simp at h
        | some id =>
          simp only at h
          cases hi : s1.graph.InsertNodeBetweenDataAnchors p a id with
          | error e =>
            rw [hi] at h
            simp only [Prod.mk.injEq] at h
            exact absurd h.1 (InsertNodeBetweenDataAnchors_error hi)
          | ok g2 =>
            rw [hi] at h
            simp only [Prod.mk.injEq, true_and] at h
            subst h
            exact ⟨Extends_of_create_insert hc hi, (CreateIdentityAfterSrcNode_some hc).2.1, rfl⟩
    · rw [if_neg hw] at h
      simp only [Prod.mk.injEq, true_and] at h
      subst h
      exact ⟨Extends_refl _, rfl, rfl⟩

/-- The output map built by the loop over the input anchors of a NetOutput
node holds SoftRead, and nothing else, at every anchor handled. -/
theorem MarkNetOutputAnchors_extends (anchors : List InDataAnchor)
    (s : PassState) (st' : PassState × List (Nat × OutputRWType))
    (h : forEachM MarkNetOutputAnchor anchors (s, []) = (.SUCCESS, st')) :
    Extends s.graph st'.1.graph ∧ st'.1.node_rwtype_map_ = s.node_rwtype_map_ ∧
      (∀ i t, mapFind st'.2 i = some t → t = OutputRWType.kSoftRead) ∧
      (∀ a ∈ anchors, mapFind st'.2 a.idx = some OutputRWType.kSoftRead) := by
  have key := forEachM_inv MarkNetOutputAnchor
    (fun done st => Extends s.graph st.1.graph ∧ st.1.node_rwtype_map_ = s.node_rwtype_map_ ∧
      (∀ i t, mapFind st.2 i = some t → t = OutputRWType.kSoftRead) ∧
      (∀ a ∈ done, mapFind st.2 a.idx = some OutputRWType.kSoftRead))
    anchors [] (s, []) st'
    (by
      intro d x r t t' _ _ hinv hstep
      obtain ⟨i1, i2, i3, i4⟩ := hinv
      obtain ⟨e, hr, hm⟩ := MarkNetOutputAnchor_extends x t t' hstep
      have hsoft : ∀ i v, mapFind t'.2 i = some v → v = OutputRWType.kSoftRead := by
        intro i v hv
        rw [hm] at hv
        rcases mapFind_mapEmplace_cases _ _ _ _ _ hv with h1 | ⟨_, _, h3⟩
        · exact i3 i v h1
        · exact h3
      refine ⟨Extends_trans i1 e, hr.trans i2, hsoft, ?_⟩
      intro a ha
      rw [List.mem_append, List.mem_singleton] at ha
      rcases ha with ha | ha
      · rw [hm]
        exact mapFind_mapEmplace_of_some _ _ (i4 a ha)
      · subst ha
        cases hx : mapFind t'.2 a.idx with
        | some v => rw [hsoft _ v hx]
        | none =>
          exfalso
          rw [hm] at hx
          cases hx0 : mapFind t.2 a.idx with
          | some v =>
            rw [mapFind_mapEmplace_of_some _ _ hx0] at hx
            cases hx
          | none =>
            rw [mapFind_mapEmplace_self _ hx0] at hx
            cases hx)
    ⟨Extends_refl _, rfl, fun i t ht => by simp [mapFind] at ht,
      fun a ha => absurd ha (List.not_mem_nil a)⟩ h
  simpa using key

/-- A successful loop over `pre ++ x :: post` is a successful loop over `pre`,
a successful step at `x` and a successful loop over `post`. -/
theorem forEachM_split {α σ : Type} (f : α → σ → Status × σ) (pre post : List α) (x : α)
    (s s' : σ) (h : forEachM f (pre ++ x :: post) s = (.SUCCESS, s')) :
    ∃ s1, forEachM f pre s = (.SUCCESS, (forEachM f pre s).2) ∧
      f x (forEachM f pre s).2 = (.SUCCESS, s1) ∧ forEachM f post s1 = (.SUCCESS, s') := by
  rw [forEachM_append] at h
  by_cases hp : (forEachM f pre s).1 = .SUCCESS
  · rw [if_pos hp] at h
    simp only [forEachM] at h
    by_cases hx : (f x (forEachM f pre s).2).1 = .SUCCESS
    · rw [if_pos hx] at h
      exact ⟨(f x (forEachM f pre s).2).2, by rw [← hp], by rw [← hx], h⟩
    · rw [if_neg hx] at h
      rw [h] at hx
      exact absurd rfl hx
  · rw [if_neg hp] at h
    rw [h] at hp
    exact absurd rfl hp

theorem DATA_ne_NETOUTPUT : DATA ≠ NETOUTPUT := by decide

/-- The NetOutput branch: the loop over the input anchors succeeded, and the
output map it built is recorded by one `emplace` under the name of the node. -/
theorem MarkNetOutputNode_facts {node : Nat} {s s' : PassState}
    (hnode : node < s.graph.nodes.length)
    (h : MarkNetOutputNode node s = (.SUCCESS, s')) :
    ∃ st' : PassState × List (Nat × OutputRWType),
      forEachM MarkNetOutputAnchor (s.graph.GetAllInDataAnchors node) (s, []) = (.SUCCESS, st') ∧
      s'.graph = st'.1.graph ∧
      s'.node_rwtype_map_ =
        mapEmplace s.node_rwtype_map_ (s.graph.GetName node) ⟨[], st'.2⟩ := by
  unfold MarkNetOutputNode at h
  simp only at h
  by_cases hr : (forEachM MarkNetOutputAnchor (s.graph.GetAllInDataAnchors node) (s, [])).1 =
      .SUCCESS
  · rw [if_pos hr] at h
    simp only [Prod.mk.injEq, true_and] at h
    have hrun : forEachM MarkNetOutputAnchor (s.graph.GetAllInDataAnchors node) (s, []) =
        (.SUCCESS, (forEachM MarkNetOutputAnchor (s.graph.GetAllInDataAnchors node) (s, [])).2) := by
      rw [← hr]
    obtain ⟨e, hreg, _, _⟩ := MarkNetOutputAnchors_extends _ s _ hrun
    refine ⟨_, hrun, ?_, ?_⟩
    · rw [← h]
    · rw [← h]
      simp only
      rw [hreg, GetName_of_shape (e.shape node hnode)]
  · rw [if_neg hr] at h
    simp only [Prod.mk.injEq] at h
    exact absurd h.1 hr

/-- One step of `MarkRWTypeForSubgraph` on a node that is neither Data nor
NetOutput changes nothing; on a Data node it is the Data branch; on a
NetOutput node it is the NetOutput branch. -/
theorem MarkRWTypeForSubgraphNode_cases {node : Nat} {s s' : PassState}
    (h : MarkRWTypeForSubgraphNode node s = (.SUCCESS, s')) :
    node < s.graph.nodes.length ∧
      (s.graph.GetType node = DATA → s' = MarkDataNode node s) ∧
      (s.graph.GetType node = NETOUTPUT → MarkNetOutputNode node s = (.SUCCESS, s')) ∧
      (s.graph.GetType node ≠ DATA → s.graph.GetType node ≠ NETOUTPUT → s' = s) := by
  unfold MarkRWTypeForSubgraphNode at h
  cases hd : s.graph.GetOpDesc node with
  | none => rw [hd] at h; simp at h
  | some d =>
    rw [hd] at h
    simp only at h
    have hnode : node < s.graph.nodes.length := by
      by_contra hge
      rw [GetOpDesc_eq_none_of_length_le (by omega)] at hd
      cases hd
    refine ⟨hnode, ?_, ?_, ?_⟩
    · intro hty
      rw [if_pos hty] at h
      have hty2 : (MarkDataNode node s).graph.GetType node ≠ NETOUTPUT := by
        rw [MarkDataNode_eq]
        simp only
        rw [hty]
        exact DATA_ne_NETOUTPUT
      rw [if_neg hty2] at h
      simp only [Prod.mk.injEq, true_and] at h
      exact h.symm
    · intro hty
      have hty1 : s.graph.GetType node ≠ DATA := by
        rw [hty]
        exact fun e => DATA_ne_NETOUTPUT e.symm
      rw [if_neg hty1] at h
      rw [if_pos hty] at h
      exact h
    · intro h1 h2
      rw [if_neg h1, if_neg h2] at h
      simp only [Prod.mk.injEq, true_and] at h
      exact h.symm

/-- One step of `MarkRWTypeForSubgraph` grows the graph by spliced Identity
nodes and the registry by entries. -/
theorem MarkRWTypeForSubgraphNode_rel {node : Nat} {s s' : PassState}
    (h : MarkRWTypeForSubgraphNode node s = (.SUCCESS, s')) :
    Extends s.graph s'.graph ∧ RegGrows s.node_rwtype_map_ s'.node_rwtype_map_ := by
  obtain ⟨hnode, h1, h2, h3⟩ := MarkRWTypeForSubgraphNode_cases h
  by_cases hd : s.graph.GetType node = DATA
  · rw [h1 hd, MarkDataNode_eq]
    refine ⟨Extends_refl _, RegGrows_mapEmplace _ _ _ ?_⟩
    intro i t ht
    simp [mapFind] at ht
  · by_cases hn : s.graph.GetType node = NETOUTPUT
    · obtain ⟨st', hrun, hg, hreg⟩ := MarkNetOutputNode_facts hnode (h2 hn)
      obtain ⟨e, _, hsoft, _⟩ := MarkNetOutputAnchors_extends _ s _ hrun
      rw [hg, hreg]
      exact ⟨e, RegGrows_mapEmplace _ _ _ hsoft⟩
    · rw [h3 hd hn]
      exact ⟨Extends_refl _, RegGrows_refl _⟩

theorem MarkRWTypeForSubgraphNodes_rel (nodes : List Nat) (s s' : PassState)
    (h : forEachM MarkRWTypeForSubgraphNode nodes s = (.SUCCESS, s')) :
    Extends s.graph s'.graph ∧ RegGrows s.node_rwtype_map_ s'.node_rwtype_map_ :=
  forEachM_rel MarkRWTypeForSubgraphNode
    (fun t t' => Extends t.graph t'.graph ∧ RegGrows t.node_rwtype_map_ t'.node_rwtype_map_)
    (fun _ => ⟨Extends_refl _, RegGrows_refl _⟩)
    (fun _ _ _ a b => ⟨Extends_trans a.1 b.1, RegGrows_trans a.2 b.2⟩) nodes s s'
    (fun _ _ _ _ ht => MarkRWTypeForSubgraphNode_rel ht) h

/-- The entry of a Data node: when `MarkRWTypeForSubgraph` succeeds and the
registry holds no entry under the name of the node at the moment the loop
reaches it, the registry afterwards holds under that name, at index 0, the
aggregate of the input types of the consumers of output 0 of the node, taken
in the state in which the loop reaches the node. -/
theorem MarkRWTypeForSubgraph_data_entry (sub_graph : Nat) (s s' : PassState)
    (pre post : List Nat) (d : Nat)
    (h : MarkRWTypeForSubgraph sub_graph s = (.SUCCESS, s'))
    (hsplit : s.graph.GetDirectNode sub_graph = pre ++ d :: post)
    (hty : s.graph.GetType d = DATA)
    (hfresh : mapFind (forEachM MarkRWTypeForSubgraphNode pre s).2.node_rwtype_map_
      (s.graph.GetName d) = none) :
    ∃ entry, mapFind s'.node_rwtype_map_ (s.graph.GetName d) = some entry ∧
      mapFind entry.input_rw_type_map 0 =
        some (GetInputRwTypeInConflict
          (consumerRWTypes (forEachM MarkRWTypeForSubgraphNode pre s).2.graph
            (forEachM MarkRWTypeForSubgraphNode pre s).2.node_rwtype_map_ d)) ∧
      ((forEachM MarkRWTypeForSubgraphNode pre s).2.graph.GetOutDataNodesWithAnchorByIndex d 0 =
          [] → mapFind entry.input_rw_type_map 0 = some InputRWType.kReadOnly) := by
  unfold MarkRWTypeForSubgraph at h
  rw [hsplit] at h
  obtain ⟨s1, hpre, hstep, hpost⟩ := forEachM_split _ pre post d s s' h
  have hdold : d < s.graph.nodes.length := by
    have hmem : d ∈ s.graph.GetDirectNode sub_graph := by
      rw [hsplit]
      simp
    exact lt_length_of_mem_GetDirectNode hmem
  obtain ⟨e0, _⟩ := MarkRWTypeForSubgraphNodes_rel pre s _ hpre
  obtain ⟨_, r1⟩ := MarkRWTypeForSubgraphNodes_rel post s1 s' hpost
  have hty' : (forEachM MarkRWTypeForSubgraphNode pre s).2.graph.GetType d = DATA := by
    rw [GetType_of_shape (e0.shape d hdold)]
    exact hty
  have hname : (forEachM MarkRWTypeForSubgraphNode pre s).2.graph.GetName d =
      s.graph.GetName d := GetName_of_shape (e0.shape d hdold)
  have hs1 := (MarkRWTypeForSubgraphNode_cases hstep).2.1 hty'
  rw [MarkDataNode_eq] at hs1
  have hentry : mapFind s1.node_rwtype_map_ (s.graph.GetName d) =
      some ⟨[(0, GetInputRwTypeInConflict
        (consumerRWTypes (forEachM MarkRWTypeForSubgraphNode pre s).2.graph
          (forEachM MarkRWTypeForSubgraphNode pre s).2.node_rwtype_map_ d))], []⟩ := by
    rw [hs1]
    simp only
    rw [hname]
    exact mapFind_mapEmplace_self _ hfresh
  refine ⟨_, r1.keep _ _ hentry, ?_, ?_⟩
  · simp [mapFind]
  · intro hnil
    simp only [consumerRWTypes, hnil]
    simp [mapFind]
    decide

/-- One step of the loop over the input anchors of a NetOutput node: the
anchor `x` gets an Identity exactly when the output feeding it is Writeable. -/
theorem MarkNetOutputAnchor_spliced {g : ComputeGraph}
    {reg : List (String × NodeInputOutputRWType)} (hlg : g.linksValid = true)
    {D : InDataAnchor → Prop} {x : InDataAnchor} (hxold : x.node < g.nodes.length)
    (hxty : g.GetType x.node = NETOUTPUT) (hxD : ¬ D x)
    {st st' : PassState × List (Nat × OutputRWType)}
    (rg : RegGrows reg st.1.node_rwtype_map_)
    (sp : Spliced (fun a => exitNeedsIdentity g reg a ∧ D a) g st.1.graph)
    (h : MarkNetOutputAnchor x st = (.SUCCESS, st')) :
    Spliced (fun a => exitNeedsIdentity g reg a ∧ (D a ∨ a = x)) g st'.1.graph ∧
      st'.1.node_rwtype_map_ = st.1.node_rwtype_map_ ∧
      ∃ p, g.GetPeerOutAnchor x = some p := by
  have hkept : st.1.graph.GetPeerOutAnchor x = g.GetPeerOutAnchor x :=
    sp.kept x hxold (fun hT => hxD hT.2)
  unfold MarkNetOutputAnchor at h
  simp only [hkept] at h
  cases hp : g.GetPeerOutAnchor x with
  | none => rw [hp] at h; simp at h
  | some p =>
    rw [hp] at h
    simp only at h
    have hpold : p.node < g.nodes.length :=
      lt_length_of_hasOutAnchor ((linksValid_iff g).1 hlg x p hp)
    have hw : GetOutputRWTypeByIndex st.1.graph st.1.node_rwtype_map_ p.node p.idx =
        .kWriteable ↔ GetOutputRWTypeByIndex g reg p.node p.idx = .kWriteable := by
      rw [GetOutputRWTypeByIndex_of_extends sp.ext _ p.node p.idx hpold]
      exact GetOutputRWTypeByIndex_writeable_of_regGrows g rg p.node p.idx
    have hexit : exitNeedsIdentity g reg x ↔
        GetOutputRWTypeByIndex g reg p.node p.idx = .kWriteable := by
      constructor
      · rintro ⟨_, p', h1, h2⟩
        rw [hp] at h1
        rw [Option.some.inj h1]
        exact h2
      · intro h2
        exact ⟨hxty, p, hp, h2⟩
    by_cases hc : GetOutputRWTypeByIndex st.1.graph st.1.node_rwtype_map_ p.node p.idx =
        .kWriteable
    · rw [if_pos hc] at h
      cases hcr : CreateIdentityAfterSrcNode st.1 p.node with
      | mk r s1 =>
        rw [hcr] at h
        cases r with
        | none => simp at h
        | some id =>
          simp only at h
          cases hi : s1.graph.InsertNodeBetweenDataAnchors p x id with
          | error e =>
            rw [hi] at h
            simp only [Prod.mk.injEq] at h
            exact absurd h.1 (InsertNodeBetweenDataAnchors_error hi)
          | ok g2 =>
            rw [hi] at h
            simp only [Prod.mk.injEq, true_and] at h
            subst h
            have hstep := Spliced_step hlg sp hxold (fun hT => hxD hT.2) hcr hi
            refine ⟨Spliced_congr ?_ hstep, (CreateIdentityAfterSrcNode_some hcr).2.1, p, rfl⟩
            intro a _
            constructor
            · rintro (ha | ha)
              · exact ⟨ha.1, Or.inl ha.2⟩
              · subst ha
                exact ⟨hexit.2 (hw.1 hc), Or.inr rfl⟩
            · rintro ⟨ha1, ha2 | ha2⟩
              · exact Or.inl ⟨ha1, ha2⟩
              · exact Or.inr ha2
    · rw [if_neg hc] at h
      simp only [Prod.mk.injEq, true_and] at h
      subst h
      refine ⟨Spliced_congr ?_ sp, rfl, p, rfl⟩
      intro a _
      constructor
      · exact fun ha => ⟨ha.1, Or.inl ha.2⟩
      · rintro ⟨ha1, ha2 | ha2⟩
        · exact ⟨ha1, ha2⟩
        · subst ha2
          exact absurd (hw.2 (hexit.1 ha1)) hc

/-- The loop over the input anchors of one NetOutput node. -/
theorem MarkNetOutputAnchors_spliced {g : ComputeGraph}
    {reg : List (String × NodeInputOutputRWType)} (hlg : g.linksValid = true)
    {D : InDataAnchor → Prop} {n : Nat} (hnold : n < g.nodes.length)
    (hnty : g.GetType n = NETOUTPUT) (hD : ∀ a : InDataAnchor, D a → a.node ≠ n)
    {t : PassState} {st' : PassState × List (Nat × OutputRWType)}
    (rg : RegGrows reg t.node_rwtype_map_)
    (sp : Spliced (fun a => exitNeedsIdentity g reg a ∧ D a) g t.graph)
    (h : forEachM MarkNetOutputAnchor (t.graph.GetAllInDataAnchors n) (t, []) =
      (.SUCCESS, st')) :
    Spliced (fun a => exitNeedsIdentity g reg a ∧ (D a ∨ a.node = n)) g st'.1.graph ∧
      ∀ a : InDataAnchor, a.node = n → g.hasInAnchor a = true →
        ∃ p, g.GetPeerOutAnchor a = some p := by
  have hanchors : t.graph.GetAllInDataAnchors n = g.GetAllInDataAnchors n :=
    GetAllInDataAnchors_of_shape (sp.ext.shape n hnold)
  rw [hanchors] at h
  have hnd := GetAllInDataAnchors_nodup g n
  have key := forEachM_inv MarkNetOutputAnchor
    (fun done st => Spliced (fun a => exitNeedsIdentity g reg a ∧ (D a ∨ a ∈ done)) g
        st.1.graph ∧ st.1.node_rwtype_map_ = t.node_rwtype_map_ ∧
      ∀ a ∈ done, ∃ p, g.GetPeerOutAnchor a = some p)
    (g.GetAllInDataAnchors n) [] (t, []) st'
    (by
      intro d x r u u' hsplit _ hinv hstep
      simp only [List.nil_append] at hsplit
      obtain ⟨i1, i2, i3⟩ := hinv
      have hxmem : x ∈ g.GetAllInDataAnchors n := by
        rw [hsplit]
        simp
      have hxd : x ∉ d := by
        rw [hsplit] at hnd
        have := (List.nodup_append.1 hnd).2.2
        intro hx
        exact this hx (List.mem_cons_self _ _) 
      obtain ⟨hxn, _⟩ := (mem_GetAllInDataAnchors g n x).1 hxmem
      have hres := MarkNetOutputAnchor_spliced hlg (x := x) (by rw [hxn]; exact hnold)
        (by rw [hxn]; exact hnty) (fun hx => hx.elim (fun h1 => hD x h1 hxn) hxd)
        (by rw [i2]; exact rg) i1 hstep
      refine ⟨Spliced_congr ?_ hres.1, hres.2.1.trans i2, ?_⟩
      · intro a _
        simp only [List.mem_append, List.mem_singleton, or_assoc]
      · intro a ha
        rw [List.mem_append, List.mem_singleton] at ha
        rcases ha with ha | ha
        · exact i3 a ha
        · rw [ha]
          exact hres.2.2)
    ⟨Spliced_congr (by
      intro a _
      simp only [List.not_mem_nil, or_false]) sp, rfl, fun a ha => absurd ha (List.not_mem_nil a)⟩
    h
  simp only [List.nil_append] at key
  obtain ⟨k1, _, k3⟩ := key
  refine ⟨Spliced_congr ?_ k1, ?_⟩
  · intro a _
    constructor
    · rintro ⟨h1, h2 | h2⟩
      · exact ⟨h1, Or.inl h2⟩
      · exact ⟨h1, Or.inr ((mem_GetAllInDataAnchors g n a).1 h2).1⟩
    · rintro ⟨h1, h2 | h2⟩
      · exact ⟨h1, Or.inl h2⟩
      · refine ⟨h1, Or.inr ?_⟩
        obtain ⟨_, p, hp, _⟩ := h1
        exact (mem_GetAllInDataAnchors g n a).2 ⟨h2, hasInAnchor_of_peer hp⟩
  · intro a han hin
    exact k3 a ((mem_GetAllInDataAnchors g n a).2 ⟨han, hin⟩)

/-- What `MarkRWTypeForSubgraph` does to the graph: an Identity is spliced
onto exactly the edges into NetOutput nodes of the subgraph that come from a
Writeable output, and every input anchor of such a node is linked. -/
theorem MarkRWTypeForSubgraph_spliced (sub_graph : Nat) (s s' : PassState)
    (hl : s.graph.linksValid = true)
    (h : MarkRWTypeForSubgraph sub_graph s = (.SUCCESS, s')) :
    Spliced (fun a => exitNeedsIdentity s.graph s.node_rwtype_map_ a ∧
        a.node ∈ s.graph.GetDirectNode sub_graph) s.graph s'.graph ∧
      ∀ a : InDataAnchor, a.node ∈ s.graph.GetDirectNode sub_graph →
        s.graph.GetType a.node = NETOUTPUT → s.graph.hasInAnchor a = true →
        ∃ p, s.graph.GetPeerOutAnchor a = some p := by
  unfold MarkRWTypeForSubgraph at h
  have hnd := GetDirectNode_nodup s.graph sub_graph
  have key := forEachM_inv MarkRWTypeForSubgraphNode
    (fun done t => Spliced (fun a => exitNeedsIdentity s.graph s.node_rwtype_map_ a ∧
        a.node ∈ done) s.graph t.graph ∧
      RegGrows s.node_rwtype_map_ t.node_rwtype_map_ ∧
      ∀ a : InDataAnchor, a.node ∈ done → s.graph.GetType a.node = NETOUTPUT →
        s.graph.hasInAnchor a = true → ∃ p, s.graph.GetPeerOutAnchor a = some p)
    (s.graph.GetDirectNode sub_graph) [] s s'
    (by
      intro dn n r t t' hsplit _ hinv hstep
      simp only [List.nil_append] at hsplit
      obtain ⟨i1, i2, i3⟩ := hinv
      have hnmem : n ∈ s.graph.GetDirectNode sub_graph := by
        rw [hsplit]
        simp
      have hnold := lt_length_of_mem_GetDirectNode hnmem
      have hnd' : n ∉ dn := by
        rw [hsplit] at hnd
        have := (List.nodup_append.1 hnd).2.2
        intro hx
        exact this hx (List.mem_cons_self _ _) 
      have hty : t.graph.GetType n = s.graph.GetType n := GetType_of_shape (i1.ext.shape n hnold)
      obtain ⟨_, c1, c2, c3⟩ := MarkRWTypeForSubgraphNode_cases hstep
      have hrg := RegGrows_trans i2 (MarkRWTypeForSubgraphNode_rel hstep).2
      by_cases hn : s.graph.GetType n = NETOUTPUT
      · obtain ⟨st', hrun, hg, _⟩ := MarkNetOutputNode_facts (by
          have := i1.ext.len
          omega) (c2 (hty.trans hn))
        obtain ⟨r1, r2⟩ := MarkNetOutputAnchors_spliced hl
          (D := fun a => a.node ∈ dn) hnold hn
          (fun a ha e => hnd' (e ▸ ha)) i2 i1 hrun
        rw [hg]
        refine ⟨Spliced_congr ?_ r1, hrg, ?_⟩
        · intro a _
          simp only [List.mem_append, List.mem_singleton]
        · intro a ha hta hina
          rw [List.mem_append, List.mem_singleton] at ha
          rcases ha with ha | ha
          · exact i3 a ha hta hina
          · exact r2 a ha hina
      · have hgraph : t'.graph = t.graph := by
          by_cases hd : t.graph.GetType n = DATA
          · rw [c1 hd, MarkDataNode_eq]
          · rw [c3 hd (fun e => hn (hty ▸ e))]
        rw [hgraph]
        refine ⟨Spliced_congr ?_ i1, hrg, ?_⟩
        · intro a _
          constructor
          · exact fun ha => ⟨ha.1, List.mem_append_left _ ha.2⟩
          · rintro ⟨ha1, ha2⟩
            rw [List.mem_append, List.mem_singleton] at ha2
            rcases ha2 with ha2 | ha2
            · exact ⟨ha1, ha2⟩
            · exact absurd (ha2 ▸ ha1.1) hn
        · intro a ha hta hina
          rw [List.mem_append, List.mem_singleton] at ha
          rcases ha with ha | ha
          · exact i3 a ha hta hina
          · exact absurd (ha ▸ hta) hn)
    ⟨Spliced_congr (by
      intro a _
      simp) (Spliced_refl hl), RegGrows_refl _, fun a ha => absurd ha (List.not_mem_nil _)⟩ h
  simp only [List.nil_append] at key
  exact ⟨key.1, key.2.2⟩

/-- The input anchors of a NetOutput node: when `MarkRWTypeForSubgraph`
succeeds on a graph with valid links, the anchor is linked; an Identity with
this anchor as its only consumer is spliced onto the incoming edge exactly
when the output type of the producer is Writeable; and when the registry holds
no entry under the name of the node at the moment the loop reaches it, the
registry afterwards records SoftRead for the anchor index under that name. -/
theorem MarkRWTypeForSubgraph_exit_anchor (sub_graph : Nat) (s s' : PassState)
    (pre post : List Nat) (n j : Nat)
    (hl : s.graph.linksValid = true)
    (h : MarkRWTypeForSubgraph sub_graph s = (.SUCCESS, s'))
    (hsplit : s.graph.GetDirectNode sub_graph = pre ++ n :: post)
    (hty : s.graph.GetType n = NETOUTPUT) (hj : j < s.graph.inAnchorNum n) :
    ∃ p, s.graph.GetPeerOutAnchor ⟨n, j⟩ = some p ∧
      (if GetOutputRWTypeByIndex s.graph s.node_rwtype_map_ p.node p.idx = .kWriteable then
        ∃ k, s.graph.nodes.length ≤ k ∧ k < s'.graph.nodes.length ∧
          s'.graph.GetType k = IDENTITY ∧
          s'.graph.GetPeerOutAnchor ⟨k, 0⟩ = some p ∧
          s'.graph.GetPeerInDataAnchors ⟨k, 0⟩ = [⟨n, j⟩]
      else s'.graph.GetPeerOutAnchor ⟨n, j⟩ = some p) ∧
      (mapFind (forEachM MarkRWTypeForSubgraphNode pre s).2.node_rwtype_map_
          (s.graph.GetName n) = none →
        ∃ entry, mapFind s'.node_rwtype_map_ (s.graph.GetName n) = some entry ∧
          mapFind entry.output_rw_type_map j = some OutputRWType.kSoftRead) := by
  have hnmem : n ∈ s.graph.GetDirectNode sub_graph := by
    rw [hsplit]
    simp
  have hnold := lt_length_of_mem_GetDirectNode hnmem
  have hin : s.graph.hasInAnchor ⟨n, j⟩ = true := by
    simp only [hasInAnchor, decide_eq_true_eq]
    exact hj
  obtain ⟨sp, hlinked⟩ := MarkRWTypeForSubgraph_spliced sub_graph s s' hl h
  obtain ⟨p, hp⟩ := hlinked ⟨n, j⟩ hnmem hty hin
  refine ⟨p, hp, ?_, ?_⟩
  · split
    · rename_i hw
      have hT : exitNeedsIdentity s.graph s.node_rwtype_map_ ⟨n, j⟩ ∧
          (⟨n, j⟩ : InDataAnchor).node ∈ s.graph.GetDirectNode sub_graph :=
        ⟨⟨hty, p, hp, hw⟩, hnmem⟩
      obtain ⟨k, hk1, hk2, hk3, hk4⟩ := sp.spliced ⟨n, j⟩ hnold hT
      obtain ⟨b, _, _, _, _, hiff, _⟩ := Spliced_new_input sp hk1 hk2
      have hba : (⟨n, j⟩ : InDataAnchor) = b := (hiff _).1 hk3
      subst hba
      refine ⟨k, hk1, hk2, (Extends_new_identity sp.ext hk1 hk2).1, by rw [hk4, hp], ?_⟩
      apply eq_singleton_of_nodup (GetPeerInDataAnchors_nodup _ _)
      intro b
      rw [mem_GetPeerInDataAnchors]
      exact hiff b
    · rename_i hw
      have hT : ¬ (exitNeedsIdentity s.graph s.node_rwtype_map_ ⟨n, j⟩ ∧
          (⟨n, j⟩ : InDataAnchor).node ∈ s.graph.GetDirectNode sub_graph) := by
        rintro ⟨⟨_, p', h1, h2⟩, _⟩
        rw [hp] at h1
        rw [← Option.some.inj h1] at h2
        exact hw h2
      rw [sp.kept ⟨n, j⟩ hnold hT, hp]
  · intro hfresh
    unfold MarkRWTypeForSubgraph at h
    rw [hsplit] at h
    obtain ⟨s1, hpre, hstep, hpost⟩ := forEachM_split _ pre post n s s' h
    obtain ⟨e0, _⟩ := MarkRWTypeForSubgraphNodes_rel pre s _ hpre
    obtain ⟨_, r1⟩ := MarkRWTypeForSubgraphNodes_rel post s1 s' hpost
    have hty' : (forEachM MarkRWTypeForSubgraphNode pre s).2.graph.GetType n = NETOUTPUT := by
      rw [GetType_of_shape (e0.shape n hnold)]
      exact hty
    have hname : (forEachM MarkRWTypeForSubgraphNode pre s).2.graph.GetName n =
        s.graph.GetName n := GetName_of_shape (e0.shape n hnold)
    obtain ⟨st', hrun, _, hreg⟩ := MarkNetOutputNode_facts (by
      have := e0.len
      omega) ((MarkRWTypeForSubgraphNode_cases hstep).2.2.1 hty')
    obtain ⟨_, _, _, hcover⟩ := MarkNetOutputAnchors_extends _ _ _ hrun
    have hentry : mapFind s1.node_rwtype_map_ (s.graph.GetName n) = some ⟨[], st'.2⟩ := by
      rw [hreg, hname]
      exact mapFind_mapEmplace_self _ hfresh
    refine ⟨_, r1.keep _ _ hentry, ?_⟩
    have hmem : (⟨n, j⟩ : InDataAnchor) ∈
        (forEachM MarkRWTypeForSubgraphNode pre s).2.graph.GetAllInDataAnchors n := by
      rw [GetAllInDataAnchors_of_shape (e0.shape n hnold), mem_GetAllInDataAnchors]
      exact ⟨rfl, hin⟩
    exact hcover _ hmem

/-- A name under which the registry holds no entry, and which no Data or
NetOutput node of the list bears, has no entry after the loop over the list. -/
theorem MarkRWTypeForSubgraphNodes_fresh (nodes : List Nat) (s s' : PassState)
    (hold : ∀ m ∈ nodes, m < s.graph.nodes.length)
    (h : forEachM MarkRWTypeForSubgraphNode nodes s = (.SUCCESS, s')) (k : String)
    (h0 : mapFind s.node_rwtype_map_ k = none)
    (hnames : ∀ m ∈ nodes, (s.graph.GetType m = DATA ∨ s.graph.GetType m = NETOUTPUT) →
      s.graph.GetName m ≠ k) :
    mapFind s'.node_rwtype_map_ k = none := by
  have key := forEachM_inv MarkRWTypeForSubgraphNode
    (fun _ t => Extends s.graph t.graph ∧ mapFind t.node_rwtype_map_ k = none)
    nodes [] s s'
    (by
      intro dn n r t t' hsplit _ hinv hstep
      simp only [List.nil_append] at hsplit
      obtain ⟨e, hk⟩ := hinv
      have hnmem : n ∈ nodes := by
        rw [hsplit]
        simp
      have hnold := hold n hnmem
      have hty : t.graph.GetType n = s.graph.GetType n := GetType_of_shape (e.shape n hnold)
      have hname : t.graph.GetName n = s.graph.GetName n := GetName_of_shape (e.shape n hnold)
      obtain ⟨hnt, c1, c2, c3⟩ := MarkRWTypeForSubgraphNode_cases hstep
      refine ⟨Extends_trans e (MarkRWTypeForSubgraphNode_rel hstep).1, ?_⟩
      by_cases hd : t.graph.GetType n = DATA
      · rw [c1 hd, MarkDataNode_eq]
        simp only
        rw [mapFind_mapEmplace_of_ne _ _ (by
          rw [hname]
          exact hnames n hnmem (Or.inl (hty ▸ hd)))]
        exact hk
      · by_cases hn : t.graph.GetType n = NETOUTPUT
        · obtain ⟨st', _, _, hreg⟩ := MarkNetOutputNode_facts hnt (c2 hn)
          rw [hreg, mapFind_mapEmplace_of_ne _ _ (by
            rw [hname]
            exact hnames n hnmem (Or.inr (hty ▸ hn)))]
          exact hk
        · rw [c3 hd hn]
          exact hk)
    ⟨Extends_refl _, h0⟩ h
  exact key.2

/-- C16, amended: when `MarkRWTypeForSubgraph` succeeds on a graph with valid links,
every input anchor of every NetOutput node of the subgraph is linked; an
Identity with this anchor as its only consumer is spliced onto the incoming
edge exactly when the output type of the producer is Writeable, and otherwise
the edge is as it was; and when the registry held no entry under the name of
the NetOutput node and no Data or NetOutput node handled before it bears that
name, the registry afterwards records SoftRead for the anchor index under
that name. -/
theorem C16_subgraph_exit_isolation (sub_graph : Nat) (s s' : PassState)
    (pre post : List Nat) (n j : Nat)
    (hl : s.graph.linksValid = true)
    (h : MarkRWTypeForSubgraph sub_graph s = (.SUCCESS, s'))
    (hsplit : s.graph.GetDirectNode sub_graph = pre ++ n :: post)
    (hty : s.graph.GetType n = NETOUTPUT) (hj : j < s.graph.inAnchorNum n) :
    ∃ p, s.graph.GetPeerOutAnchor ⟨n, j⟩ = some p ∧
      (if GetOutputRWTypeByIndex s.graph s.node_rwtype_map_ p.node p.idx = .kWriteable then
        ∃ k, s.graph.nodes.length ≤ k ∧ k < s'.graph.nodes.length ∧
          s'.graph.GetType k = IDENTITY ∧
          s'.graph.GetPeerOutAnchor ⟨k, 0⟩ = some p ∧
          s'.graph.GetPeerInDataAnchors ⟨k, 0⟩ = [⟨n, j⟩]
      else s'.graph.GetPeerOutAnchor ⟨n, j⟩ = some p) ∧
      (mapFind s.node_rwtype_map_ (s.graph.GetName n) = none →
        (∀ m ∈ pre, (s.graph.GetType m = DATA ∨ s.graph.GetType m = NETOUTPUT) →
          s.graph.GetName m ≠ s.graph.GetName n) →
        ∃ entry, mapFind s'.node_rwtype_map_ (s.graph.GetName n) = some entry ∧
          mapFind entry.output_rw_type_map j = some OutputRWType.kSoftRead) := by
  obtain ⟨p, hp, h1, h2⟩ :=
    MarkRWTypeForSubgraph_exit_anchor sub_graph s s' pre post n j hl h hsplit hty hj
  refine ⟨p, hp, h1, ?_⟩
  intro hfresh hnames
  apply h2
  unfold MarkRWTypeForSubgraph at h
  rw [hsplit] at h
  obtain ⟨_, hpre, _, _⟩ := forEachM_split _ pre post n s s' h
  refine MarkRWTypeForSubgraphNodes_fresh pre s _ ?_ hpre _ hfresh hnames
  intro m hm
  have hmem : m ∈ s.graph.GetDirectNode sub_graph := by
    rw [hsplit]
    exact List.mem_append_left _ hm
  exact lt_length_of_mem_GetDirectNode hmem

/-- Witness of C16 at the NetOutput node of `exitExampleGraph`: the edge from
the Variable into input 0 gets an Identity, and index 0 is recorded as
SoftRead. -/
theorem C16_subgraph_exit_isolation_witness :
    GetOutputRWTypeByIndex exitExampleGraph [] 2 0 = .kWriteable ∧
      (∃ k, 5 ≤ k ∧
        (MarkRWTypeForSubgraph 1 exitExampleState).2.graph.GetPeerOutAnchor ⟨k, 0⟩ =
          some ⟨2, 0⟩ ∧
        (MarkRWTypeForSubgraph 1 exitExampleState).2.graph.GetPeerInDataAnchors ⟨k, 0⟩ =
          [⟨4, 0⟩]) ∧
      ∃ entry, mapFind (MarkRWTypeForSubgraph 1 exitExampleState).2.node_rwtype_map_ "out" =
          some entry ∧
        mapFind entry.output_rw_type_map 0 = some OutputRWType.kSoftRead := by
  obtain ⟨p, hp, h1, h2⟩ := C16_subgraph_exit_isolation 1 exitExampleState
    (MarkRWTypeForSubgraph 1 exitExampleState).2 [1, 2, 3] [] 4 0
    (by decide) (by decide) (by decide) (by decide) (by decide)
  have hp0 : exitExampleState.graph.GetPeerOutAnchor ⟨4, 0⟩ = some ⟨2, 0⟩ := by decide
  rw [hp0] at hp
  have hpe := Option.some.inj hp
  subst hpe
  rw [if_pos (by decide)] at h1
  obtain ⟨k, hk1, _, _, hk4, hk5⟩ := h1
  exact ⟨by decide, ⟨k, hk1, hk4, hk5⟩, h2 (by decide) (by decide)⟩

/-- A loop commutes with a change of the state that every step commutes with. -/
theorem forEachM_comm {α σ : Type} (f : α → σ → Status × σ) (φ : σ → σ)
    (hf : ∀ x s, f x (φ s) = ((f x s).1, φ (f x s).2)) :
    ∀ (xs : List α) (s : σ), forEachM f xs (φ s) = ((forEachM f xs s).1, φ (forEachM f xs s).2) := by
  intro xs
  induction xs with
  | nil => intro s; rfl
  | cons x xs ih =>
    intro s
    simp only [forEachM, hf x s]
    by_cases hx : (f x s).1 = .SUCCESS
    · simp only [hx, if_true]
      exact ih _
    · simp only [hx, if_false]

theorem CreateIdentityAfterSrcNode_withRegistry (reg : List (String × NodeInputOutputRWType))
    (s : PassState) (n : Nat) :
    CreateIdentityAfterSrcNode (s.withRegistry reg) n =
      ((CreateIdentityAfterSrcNode s n).1, (CreateIdentityAfterSrcNode s n).2.withRegistry reg) := by
  unfold CreateIdentityAfterSrcNode PassState.withRegistry
  simp only
  cases s.graph.GetOpDesc n with
  | none => rfl
  | some d =>
    simp only
    cases s.graph.GetOwnerComputeGraph n with
    | none => rfl
    | some gi => rfl

theorem HandleAllreduceInput_withRegistry (reg : List (String × NodeInputOutputRWType))
    (a : InDataAnchor) (st : PassState × List OutDataAnchor) :
    HandleAllreduceInput a (st.1.withRegistry reg, st.2) =
      ((HandleAllreduceInput a st).1,
        ((HandleAllreduceInput a st).2.1.withRegistry reg, (HandleAllreduceInput a st).2.2)) := by
  unfold HandleAllreduceInput
  simp only
  have hg : (st.1.withRegistry reg).graph = st.1.graph := rfl
  rw [hg]
  cases st.1.graph.GetPeerOutAnchor a with
  | none => rfl
  | some pre =>
    simp only
    split
    · rfl
    · rw [CreateIdentityAfterSrcNode_withRegistry]
      cases hc : CreateIdentityAfterSrcNode st.1 pre.node with
      | mk r s1 =>
        cases r with
        | none => rfl
        | some id =>
          simp only
          have hg1 : (s1.withRegistry reg).graph = s1.graph := rfl
          rw [hg1]
          cases s1.graph.InsertNodeBetweenDataAnchors pre a id with
          | error e => rfl
          | ok g2 => rfl

theorem HandleAllreduceNode_withRegistry (reg : List (String × NodeInputOutputRWType))
    (n : Nat) (s : PassState) :
    HandleAllreduceNode n (s.withRegistry reg) =
      ((HandleAllreduceNode n s).1, (HandleAllreduceNode n s).2.withRegistry reg) := by
  unfold HandleAllreduceNode
  have hg : (s.withRegistry reg).graph = s.graph := rfl
  rw [hg]
  split
  · have := forEachM_comm HandleAllreduceInput
      (fun st : PassState × List OutDataAnchor => (st.1.withRegistry reg, st.2))
      (fun x st => HandleAllreduceInput_withRegistry reg x st)
      (s.graph.GetAllInDataAnchors n) (s, [])
    simp only at this
    rw [this]
  · rfl

/-- The allreduce pass neither reads nor writes the registry. -/
theorem HandleAllreduceDuplicateInput_withRegistry (reg : List (String × NodeInputOutputRWType))
    (s : PassState) :
    HandleAllreduceDuplicateInput (s.withRegistry reg) =
      ((HandleAllreduceDuplicateInput s).1,
        (HandleAllreduceDuplicateInput s).2.withRegistry reg) := by
  unfold HandleAllreduceDuplicateInput
  have hg : (s.withRegistry reg).graph = s.graph := rfl
  rw [hg]
  exact forEachM_comm HandleAllreduceNode (PassState.withRegistry reg)
    (fun x t => HandleAllreduceNode_withRegistry reg x t) _ s

/-- Splitting a list of anchors of one node at an element: the part before it
holds exactly the lower-indexed anchors. -/
theorem GetAllInDataAnchors_split {g : ComputeGraph} {n : Nat} {d r : List InDataAnchor}
    {x : InDataAnchor} (h : g.GetAllInDataAnchors n = d ++ x :: r) :
    x.node = n ∧ x.idx < g.inAnchorNum n ∧ x ∉ d ∧
      ∀ b : InDataAnchor, b ∈ d ↔ (b.node = n ∧ b.idx < x.idx) := by
  unfold GetAllInDataAnchors at h
  have hlen : d.length < g.inAnchorNum n := by
    have := congrArg List.length h
    simp only [List.length_map, List.length_range, List.length_append, List.length_cons] at this
    omega
  have hx : x = ⟨n, d.length⟩ := by
    have h1 := congrArg (fun l => l[d.length]?) h
    simp only [List.getElem?_map, List.getElem?_range hlen, Option.map_some',
      List.getElem?_append_right (Nat.le_refl _), Nat.sub_self, List.getElem?_cons_zero] at h1
    exact (Option.some.inj h1).symm
  have hd : d = (List.range d.length).map (fun j => (⟨n, j⟩ : InDataAnchor)) := by
    have h1 := congrArg (List.take d.length) h
    rw [List.take_left, ← List.map_take, List.take_range, Nat.min_eq_left (Nat.le_of_lt hlen)] at h1
    exact h1.symm
  have hmem : ∀ b : InDataAnchor, b ∈ d ↔ (b.node = n ∧ b.idx < d.length) := by
    intro b
    rw [hd]
    simp only [List.mem_map, List.mem_range, List.length_map, List.length_range]
    constructor
    · rintro ⟨j, hj, rfl⟩
      exact ⟨rfl, hj⟩
    · rintro ⟨h1, h2⟩
      exact ⟨b.idx, h2, by cases b; simp only at h1; rw [h1]⟩
  refine ⟨by rw [hx], by rw [hx]; exact hlen, ?_, ?_⟩
  · rw [hmem, hx]
    simp
  · intro b
    rw [hmem b, hx]


/-- The inner loop of `HandleAllreduceDuplicateInput` on node `n`: an Identity
is spliced onto exactly the duplicate inputs of `n`, and every input of `n` is
linked. -/
theorem HandleAllreduceInputs_spliced {g : ComputeGraph} (hlg : g.linksValid = true) {n : Nat}
    (hn : n < g.nodes.length) {T0 : InDataAnchor → Prop} (hT0 : ∀ a, T0 a → a.node ≠ n)
    {s s' : PassState} {seen' : List OutDataAnchor} (sp : Spliced T0 g s.graph)
    (h : forEachM HandleAllreduceInput (g.GetAllInDataAnchors n) (s, []) =
      (.SUCCESS, (s', seen'))) :
    Spliced (fun a => T0 a ∨ (a.node = n ∧ g.isDuplicateInput a)) g s'.graph ∧
      s'.node_rwtype_map_ = s.node_rwtype_map_ ∧
      ∀ a ∈ g.GetAllInDataAnchors n, (g.GetPeerOutAnchor a).isSome = true := by
  have key := forEachM_inv HandleAllreduceInput
    (fun d (st : PassState × List OutDataAnchor) =>
      Spliced (fun a => T0 a ∨ (a ∈ d ∧ g.isDuplicateInput a)) g st.1.graph ∧
        st.1.node_rwtype_map_ = s.node_rwtype_map_ ∧
        (∀ o, o ∈ st.2 ↔ ∃ b ∈ d, g.GetPeerOutAnchor b = some o) ∧
        ∀ b ∈ d, (g.GetPeerOutAnchor b).isSome = true)
    (g.GetAllInDataAnchors n) [] (s, []) (s', seen')
    (by
      intro d x r t t' hsplit _ hinv hstep
      simp only [List.nil_append] at hsplit
      obtain ⟨hxn, hxk, hxd, hdmem⟩ := GetAllInDataAnchors_split hsplit
      obtain ⟨spt, hreg, hseen, hsome⟩ := hinv
      have hxold : x.node < g.nodes.length := by rw [hxn]; exact hn
      have hxT : ¬ (T0 x ∨ (x ∈ d ∧ g.isDuplicateInput x)) := by
        rintro (h1 | h1)
        · exact hT0 x h1 hxn
        · exact hxd h1.1
      have hpx : t.1.graph.GetPeerOutAnchor x = g.GetPeerOutAnchor x := spt.kept x hxold hxT
      have hdup : ∀ pre, g.GetPeerOutAnchor x = some pre → (g.isDuplicateInput x ↔ pre ∈ t.2) := by
        intro pre hpre
        rw [hseen]
        constructor
        · rintro ⟨i, hi, h1, _⟩
          refine ⟨⟨x.node, i⟩, (hdmem _).2 ⟨hxn, hi⟩, ?_⟩
          rw [h1, hpre]
        · rintro ⟨b, hb, h1⟩
          obtain ⟨hbn, hbi⟩ := (hdmem b).1 hb
          refine ⟨b.idx, hbi, ?_, by rw [hpre]; rfl⟩
          have : (⟨x.node, b.idx⟩ : InDataAnchor) = b := by
            cases b
            simp only at hbn
            rw [hxn, hbn]
          rw [this, h1, hpre]
      unfold HandleAllreduceInput at hstep
      simp only [hpx] at hstep
      cases hpre : g.GetPeerOutAnchor x with
      | none => rw [hpre] at hstep; simp at hstep
      | some pre =>
        rw [hpre] at hstep
        simp only at hstep
        have hsome' : ∀ b ∈ d ++ [x], (g.GetPeerOutAnchor b).isSome = true := by
          intro b hb
          rcases List.mem_append.1 hb with h1 | h1
          · exact hsome b h1
          · rw [List.mem_singleton.1 h1, hpre]
            rfl
        by_cases hin : pre ∈ t.2
        · rw [if_neg (not_not.2 hin)] at hstep
          cases hc : CreateIdentityAfterSrcNode t.1 pre.node with
          | mk rr s1 =>
            rw [hc] at hstep
            cases rr with
            | none => simp at hstep
            | some id =>
              simp only at hstep
              cases hi : s1.graph.InsertNodeBetweenDataAnchors pre x id with
              | error e =>
                rw [hi] at hstep
                simp only [Prod.mk.injEq] at hstep
                exact absurd hstep.1 (InsertNodeBetweenDataAnchors_error hi)
              | ok g2 =>
                rw [hi] at hstep
                simp only [Prod.mk.injEq, true_and] at hstep
                subst hstep
                have hst := Spliced_step hlg spt hxold hxT hc hi
                refine ⟨Spliced_congr ?_ hst, ?_, ?_, hsome'⟩
                · intro a _
                  constructor
                  · rintro ((h1 | h1) | h1)
                    · exact Or.inl h1
                    · exact Or.inr ⟨List.mem_append_left _ h1.1, h1.2⟩
                    · subst h1
                      exact Or.inr ⟨by simp, (hdup pre hpre).2 hin⟩
                  · rintro (h1 | ⟨h1, h2⟩)
                    · exact Or.inl (Or.inl h1)
                    · rcases List.mem_append.1 h1 with h3 | h3
                      · exact Or.inl (Or.inr ⟨h3, h2⟩)
                      · exact Or.inr (List.mem_singleton.1 h3)
                · simp only
                  rw [(CreateIdentityAfterSrcNode_some hc).2.1, hreg]
                · intro o
                  simp only
                  rw [hseen]
                  constructor
                  · rintro ⟨b, hb, h1⟩
                    exact ⟨b, List.mem_append_left _ hb, h1⟩
                  · rintro ⟨b, hb, h1⟩
                    rcases List.mem_append.1 hb with h3 | h3
                    · exact ⟨b, h3, h1⟩
                    · rw [List.mem_singleton.1 h3, hpre] at h1
                      rw [← Option.some.inj h1]
                      exact (hseen pre).1 hin
        · rw [if_pos hin] at hstep
          simp only [Prod.mk.injEq, true_and] at hstep
          subst hstep
          refine ⟨Spliced_congr ?_ spt, hreg, ?_, hsome'⟩
          · intro a _
            constructor
            · rintro (h1 | h1)
              · exact Or.inl h1
              · exact Or.inr ⟨List.mem_append_left _ h1.1, h1.2⟩
            · rintro (h1 | ⟨h1, h2⟩)
              · exact Or.inl h1
              · rcases List.mem_append.1 h1 with h3 | h3
                · exact Or.inr ⟨h3, h2⟩
                · rw [List.mem_singleton.1 h3] at h2
                  exact absurd ((hdup pre hpre).1 h2) hin
          · intro o
            simp only [List.mem_append, List.mem_singleton]
            rw [hseen]
            constructor
            · rintro (⟨b, hb, h1⟩ | h1)
              · exact ⟨b, Or.inl hb, h1⟩
              · exact ⟨x, Or.inr rfl, by rw [hpre, h1]⟩
            · rintro ⟨b, hb | hb, h1⟩
              · exact Or.inl ⟨b, hb, h1⟩
              · rw [hb, hpre] at h1
                exact Or.inr (Option.some.inj h1).symm)
    ⟨Spliced_congr (by
      intro a _
      simp only [List.not_mem_nil, false_and, or_false]) sp, rfl, by simp, by simp⟩ h
  simp only [List.nil_append] at key
  obtain ⟨k1, k2, _, k4⟩ := key
  refine ⟨Spliced_congr ?_ k1, k2, k4⟩
  intro a _
  constructor
  · rintro (h1 | ⟨h1, h2⟩)
    · exact Or.inl h1
    · exact Or.inr ⟨((mem_GetAllInDataAnchors g n a).1 h1).1, h2⟩
  · rintro (h1 | ⟨h1, h2⟩)
    · exact Or.inl h1
    · refine Or.inr ⟨?_, h2⟩
      obtain ⟨i, _, _, h5⟩ := h2
      rw [mem_GetAllInDataAnchors]
      refine ⟨h1, ?_⟩
      cases hp : g.GetPeerOutAnchor a with
      | none => rw [hp] at h5; cases h5
      | some o => exact hasInAnchor_of_peer hp

/-- What `HandleAllreduceDuplicateInput` does to the graph: an Identity is
spliced onto exactly the duplicate inputs of the HcomAllReduce nodes directly
in the root graph, and every input of such a node is linked. -/
theorem HandleAllreduceDuplicateInput_spliced (s s' : PassState)
    (hl : s.graph.linksValid = true)
    (h : HandleAllreduceDuplicateInput s = (.SUCCESS, s')) :
    Spliced s.graph.allreduceDuplicate s.graph s'.graph ∧
      s'.node_rwtype_map_ = s.node_rwtype_map_ ∧
      ∀ n ∈ s.graph.GetDirectNode 0, s.graph.GetType n = HCOMALLREDUCE →
        ∀ a ∈ s.graph.GetAllInDataAnchors n, (s.graph.GetPeerOutAnchor a).isSome = true := by
  unfold HandleAllreduceDuplicateInput at h
  have hnd := GetDirectNode_nodup s.graph 0
  have key := forEachM_inv HandleAllreduceNode
    (fun d t =>
      Spliced (fun a => a.node ∈ d ∧ s.graph.GetType a.node = HCOMALLREDUCE ∧
        s.graph.isDuplicateInput a) s.graph t.graph ∧
      t.node_rwtype_map_ = s.node_rwtype_map_ ∧
      ∀ n ∈ d, s.graph.GetType n = HCOMALLREDUCE →
        ∀ a ∈ s.graph.GetAllInDataAnchors n, (s.graph.GetPeerOutAnchor a).isSome = true)
    (s.graph.GetDirectNode 0) [] s s'
    (by
      intro d x r t t' hsplit _ hinv hstep
      simp only [List.nil_append] at hsplit
      obtain ⟨spt, hreg, hsome⟩ := hinv
      have hxmem : x ∈ s.graph.GetDirectNode 0 := by
        rw [hsplit]
        simp
      have hxd : x ∉ d := by
        rw [hsplit] at hnd
        intro hx
        exact (List.nodup_append.1 hnd).2.2 hx (List.mem_cons_self _ _)
      have hxold : x < s.graph.nodes.length := lt_length_of_mem_GetDirectNode hxmem
      unfold HandleAllreduceNode at hstep
      rw [GetType_of_shape (spt.ext.shape x hxold),
        GetAllInDataAnchors_of_shape (spt.ext.shape x hxold)] at hstep
      by_cases hty : s.graph.GetType x = HCOMALLREDUCE
      · rw [if_pos hty] at hstep
        simp only [Prod.mk.injEq] at hstep
        obtain ⟨h1, h2⟩ := hstep
        have hrun : forEachM HandleAllreduceInput (s.graph.GetAllInDataAnchors x) (t, []) =
            (.SUCCESS, (t', (forEachM HandleAllreduceInput (s.graph.GetAllInDataAnchors x)
              (t, [])).2.2)) := Prod.ext h1 (Prod.ext h2 rfl)
        obtain ⟨sp2, hreg2, hsome2⟩ := HandleAllreduceInputs_spliced hl hxold
          (fun a ha e => hxd (e ▸ ha.1)) spt hrun
        refine ⟨Spliced_congr ?_ sp2, by rw [hreg2, hreg], ?_⟩
        · intro a _
          constructor
          · rintro (⟨h3, h4, h5⟩ | ⟨h3, h4⟩)
            · exact ⟨List.mem_append_left _ h3, h4, h5⟩
            · exact ⟨by rw [h3]; simp, by rw [h3]; exact hty, h4⟩
          · rintro ⟨h3, h4, h5⟩
            rcases List.mem_append.1 h3 with h6 | h6
            · exact Or.inl ⟨h6, h4, h5⟩
            · exact Or.inr ⟨List.mem_singleton.1 h6, h5⟩
        · intro m hm hmty
          rcases List.mem_append.1 hm with h6 | h6
          · exact hsome m h6 hmty
          · rw [List.mem_singleton.1 h6]
            exact hsome2
      · rw [if_neg hty] at hstep
        simp only [Prod.mk.injEq, true_and] at hstep
        subst hstep
        refine ⟨Spliced_congr ?_ spt, hreg, ?_⟩
        · intro a _
          constructor
          · rintro ⟨h3, h4, h5⟩
            exact ⟨List.mem_append_left _ h3, h4, h5⟩
          · rintro ⟨h3, h4, h5⟩
            rcases List.mem_append.1 h3 with h6 | h6
            · exact ⟨h6, h4, h5⟩
            · rw [List.mem_singleton.1 h6] at h4
              exact absurd h4 hty
        · intro m hm hmty
          rcases List.mem_append.1 hm with h6 | h6
          · exact hsome m h6 hmty
          · rw [List.mem_singleton.1 h6] at hmty
            exact absurd hmty hty)
    ⟨Spliced_congr (by
      intro a _
      simp only [List.not_mem_nil, false_and]) (Spliced_refl hl), rfl, by simp⟩ h
  simp only [List.nil_append] at key
  exact key

/-- Among the first `k` values of `f`, those that repeat an earlier value are
as many as `k` minus the number of distinct values. -/
theorem card_repeats {β : Type} [DecidableEq β] (f : Nat → β) (k : Nat) :
    ((Finset.range k).filter (fun j => ∃ i, i < j ∧ f i = f j)).card =
      k - ((Finset.range k).image f).card := by
  have hsplit := Finset.filter_card_add_filter_neg_card_eq_card
    (s := Finset.range k) (fun j => ∃ i, i < j ∧ f i = f j)
  have himg : ((Finset.range k).filter (fun j => ¬ ∃ i, i < j ∧ f i = f j)).card =
      ((Finset.range k).image f).card := by
    rw [← Finset.card_image_of_injOn (f := f)]
    · congr 1
      ext v
      simp only [Finset.mem_image, Finset.mem_filter, Finset.mem_range]
      constructor
      · rintro ⟨j, ⟨hj, _⟩, rfl⟩
        exact ⟨j, hj, rfl⟩
      · rintro ⟨j, hj, rfl⟩
        have hex : ∃ m, m < k ∧ f m = f j := ⟨j, hj, rfl⟩
        refine ⟨Nat.find hex, ⟨(Nat.find_spec hex).1, ?_⟩, (Nat.find_spec hex).2⟩
        rintro ⟨i, hi, hfi⟩
        exact Nat.find_min hex hi ⟨Nat.lt_trans hi (Nat.find_spec hex).1,
          hfi.trans (Nat.find_spec hex).2⟩
    · intro a ha b hb hab
      simp only [Finset.coe_filter, Finset.mem_range, Set.mem_setOf_eq] at ha hb
      rcases Nat.lt_trichotomy a b with h1 | h1 | h1
      · exact absurd ⟨a, h1, hab⟩ hb.2
      · exact h1
      · exact absurd ⟨b, h1, hab.symm⟩ ha.2
  rw [Finset.card_range] at hsplit
  omega

/-- The number of Identity nodes put in front of the inputs of an
HcomAllReduce node is the number of its input anchors minus the number of
distinct source output anchors. -/
theorem insertedIdentities_length {g g' : ComputeGraph} (hlg : g.linksValid = true)
    (sp : Spliced g.allreduceDuplicate g g') {n : Nat} (hn : n ∈ g.GetDirectNode 0)
    (hty : g.GetType n = HCOMALLREDUCE)
    (hsome : ∀ a ∈ g.GetAllInDataAnchors n, (g.GetPeerOutAnchor a).isSome = true) :
    (g.insertedIdentities g' n).length =
      g.inAnchorNum n - (g.inputPeers n).toFinset.card := by
  have hnold : n < g.nodes.length := lt_length_of_mem_GetDirectNode hn
  have hanch : g'.GetAllInDataAnchors n = g.GetAllInDataAnchors n :=
    GetAllInDataAnchors_of_shape (sp.ext.shape n hnold)
  have himg : (g.inputPeers n).toFinset =
      (Finset.range (g.inAnchorNum n)).image (fun j => g.GetPeerOutAnchor ⟨n, j⟩) := by
    ext v
    simp only [inputPeers, GetAllInDataAnchors, List.map_map, List.mem_toFinset, List.mem_map,
      List.mem_range, Finset.mem_image, Finset.mem_range, Function.comp]
  have hdupT : ∀ j, j < g.inAnchorNum n →
      (g.allreduceDuplicate ⟨n, j⟩ ↔
        ∃ i, i < j ∧ g.GetPeerOutAnchor ⟨n, i⟩ = g.GetPeerOutAnchor ⟨n, j⟩) := by
    intro j hj
    have hs : (g.GetPeerOutAnchor ⟨n, j⟩).isSome = true :=
      hsome ⟨n, j⟩ ((mem_GetAllInDataAnchors g n _).2 ⟨rfl, by simpa [hasInAnchor] using hj⟩)
    constructor
    · rintro ⟨_, _, i, hi, h1, _⟩
      exact ⟨i, hi, h1⟩
    · rintro ⟨i, hi, h1⟩
      exact ⟨hn, hty, i, hi, h1, hs⟩
  have hnd : (g.insertedIdentities g' n).Nodup := (List.nodup_range _).filter _
  rw [← List.toFinset_card_of_nodup hnd, himg, ← card_repeats]
  have hset : (g.insertedIdentities g' n).toFinset =
      ((Finset.range (g.inAnchorNum n)).filter (fun j =>
        ∃ i, i < j ∧ g.GetPeerOutAnchor ⟨n, i⟩ = g.GetPeerOutAnchor ⟨n, j⟩)).image
        (fun j => match g'.GetPeerOutAnchor ⟨n, j⟩ with
          | some o => o.node
          | none => 0) := by
    ext k
    simp only [insertedIdentities, hanch, List.mem_toFinset, List.mem_filter, List.mem_range,
      Bool.and_eq_true, decide_eq_true_eq, List.any_eq_true, Finset.mem_image,
      Finset.mem_filter, Finset.mem_range]
    constructor
    · rintro ⟨_, hk, a, ha, hpa⟩
      obtain ⟨han, hain⟩ := (mem_GetAllInDataAnchors g n a).1 ha
      have haj : a.idx < g.inAnchorNum n := by simpa [hasInAnchor, han] using hain
      have hae : a = ⟨n, a.idx⟩ := by
        cases a
        simp only at han
        rw [han]
      have haold : a.node < g.nodes.length := by rw [han]; exact hnold
      have hT : g.allreduceDuplicate a := by
        by_contra hT
        rw [sp.kept a haold hT] at hpa
        have := lt_length_of_hasOutAnchor ((linksValid_iff g).1 hlg a _ hpa)
        simp only at this
        omega
      rw [hae] at hT hpa
      exact ⟨a.idx, ⟨haj, (hdupT a.idx haj).1 hT⟩, by rw [hpa]⟩
    · rintro ⟨j, ⟨hj, hdup⟩, hk⟩
      have hT := (hdupT j hj).2 hdup
      obtain ⟨k', hk1, hk2, hk3, _⟩ := sp.spliced ⟨n, j⟩ hnold hT
      rw [hk3] at hk
      simp only at hk
      subst hk
      exact ⟨hk2, hk1, ⟨n, j⟩,
        (mem_GetAllInDataAnchors g n _).2 ⟨rfl, by simpa [hasInAnchor] using hj⟩, hk3⟩
  rw [hset]
  apply Finset.card_image_of_injOn
  intro j1 h1 j2 h2 heq
  simp only [Finset.coe_filter, Finset.mem_range, Set.mem_setOf_eq] at h1 h2
  obtain ⟨k1, hk1, hk1', hp1, _⟩ := sp.spliced ⟨n, j1⟩ hnold ((hdupT j1 h1.1).2 h1.2)
  obtain ⟨k2, _, _, hp2, _⟩ := sp.spliced ⟨n, j2⟩ hnold ((hdupT j2 h2.1).2 h2.2)
  simp only [hp1, hp2] at heq
  subst heq
  obtain ⟨b, _, _, hb⟩ := sp.fresh k1 hk1 hk1'
  have e1 := (hb ⟨n, j1⟩).1 hp1
  have e2 := (hb ⟨n, j2⟩).1 hp2
  have := e1.trans e2.symm
  simpa using this

/-- C22, amended: when `HandleAllreduceDuplicateInput` succeeds, every HcomAllReduce
node directly in the root graph has all its input anchors linked; on each of
its input anchors whose source output anchor already feeds a lower-indexed
input anchor of the node one new Identity is inserted, fed by that source and
feeding this anchor only; every other input anchor keeps its source; the
number of Identity nodes inserted in front of the node is the number of input
anchors minus the number of distinct source output anchors; afterwards the
input anchors are fed by pairwise distinct output anchors. With three inputs
of which anchors 0 and 2 share a source that anchor 1 does not have, one
Identity is inserted, on anchor 2. -/
theorem C22_allreduce_deduplication (s s' : PassState) (n : Nat)
    (hl : s.graph.linksValid = true)
    (h : HandleAllreduceDuplicateInput s = (.SUCCESS, s'))
    (hn : n ∈ s.graph.GetDirectNode 0) (hty : s.graph.GetType n = HCOMALLREDUCE) :
    (∀ a ∈ s.graph.GetAllInDataAnchors n, (s.graph.GetPeerOutAnchor a).isSome = true) ∧
    (∀ a ∈ s.graph.GetAllInDataAnchors n, s.graph.isDuplicateInput a →
      ∃ k, s.graph.nodes.length ≤ k ∧ k < s'.graph.nodes.length ∧
        s'.graph.GetType k = IDENTITY ∧
        s'.graph.GetPeerOutAnchor a = some ⟨k, 0⟩ ∧
        s'.graph.GetPeerOutAnchor ⟨k, 0⟩ = s.graph.GetPeerOutAnchor a ∧
        s'.graph.GetPeerInDataAnchors ⟨k, 0⟩ = [a]) ∧
    (∀ a ∈ s.graph.GetAllInDataAnchors n, ¬ s.graph.isDuplicateInput a →
      s'.graph.GetPeerOutAnchor a = s.graph.GetPeerOutAnchor a) ∧
    (s.graph.insertedIdentities s'.graph n).length =
      s.graph.inAnchorNum n - (s.graph.inputPeers n).toFinset.card ∧
    s'.graph.inputsDistinct n ∧
    (s.graph.inAnchorNum n = 3 →
      s.graph.GetPeerOutAnchor ⟨n, 0⟩ = s.graph.GetPeerOutAnchor ⟨n, 2⟩ →
      s.graph.GetPeerOutAnchor ⟨n, 1⟩ ≠ s.graph.GetPeerOutAnchor ⟨n, 0⟩ →
      (s.graph.insertedIdentities s'.graph n).length = 1 ∧
        (∃ k, s.graph.nodes.length ≤ k ∧ s'.graph.GetPeerOutAnchor ⟨n, 2⟩ = some ⟨k, 0⟩ ∧
          s'.graph.GetPeerOutAnchor ⟨k, 0⟩ = s.graph.GetPeerOutAnchor ⟨n, 2⟩) ∧
        s'.graph.GetPeerOutAnchor ⟨n, 0⟩ = s.graph.GetPeerOutAnchor ⟨n, 0⟩ ∧
        s'.graph.GetPeerOutAnchor ⟨n, 1⟩ = s.graph.GetPeerOutAnchor ⟨n, 1⟩) := by
  obtain ⟨sp, _, hsome⟩ := HandleAllreduceDuplicateInput_spliced s s' hl h
  have hsn := hsome n hn hty
  have hnold : n < s.graph.nodes.length := lt_length_of_mem_GetDirectNode hn
  have hcount := insertedIdentities_length hl sp hn hty hsn
  have hdup : ∀ a ∈ s.graph.GetAllInDataAnchors n, s.graph.isDuplicateInput a →
      ∃ k, s.graph.nodes.length ≤ k ∧ k < s'.graph.nodes.length ∧
        s'.graph.GetType k = IDENTITY ∧
        s'.graph.GetPeerOutAnchor a = some ⟨k, 0⟩ ∧
        s'.graph.GetPeerOutAnchor ⟨k, 0⟩ = s.graph.GetPeerOutAnchor a ∧
        s'.graph.GetPeerInDataAnchors ⟨k, 0⟩ = [a] := by
    intro a ha hd
    have han := ((mem_GetAllInDataAnchors _ n a).1 ha).1
    have haold : a.node < s.graph.nodes.length := by rw [han]; exact hnold
    have hT : s.graph.allreduceDuplicate a := ⟨by rw [han]; exact hn, by rw [han]; exact hty, hd⟩
    obtain ⟨k, hk1, hk2, hk3, hk4⟩ := sp.spliced a haold hT
    refine ⟨k, hk1, hk2, (Extends_new_identity sp.ext hk1 hk2).1, hk3, hk4, ?_⟩
    obtain ⟨b, _, _, hb⟩ := sp.fresh k hk1 hk2
    have hab : a = b := (hb a).1 hk3
    apply eq_singleton_of_nodup (GetPeerInDataAnchors_nodup _ _)
    intro x
    rw [mem_GetPeerInDataAnchors, hb x, hab]
  have hkeep : ∀ a ∈ s.graph.GetAllInDataAnchors n, ¬ s.graph.isDuplicateInput a →
      s'.graph.GetPeerOutAnchor a = s.graph.GetPeerOutAnchor a := by
    intro a ha hd
    have han := ((mem_GetAllInDataAnchors _ n a).1 ha).1
    exact sp.kept a (by rw [han]; exact hnold) (fun hT => hd hT.2.2)
  have hdist : s'.graph.inputsDistinct n := by
    unfold HandleAllreduceDuplicateInput at h
    exact (HandleAllreduceNodes_distinct _ s s' hl (GetDirectNode_nodup _ _)
      (fun m hm => lt_length_of_mem_GetDirectNode hm) h).2.2 n hn hty
  refine ⟨hsn, hdup, hkeep, hcount, hdist, ?_⟩
  intro h3 h02 h10
  have hmem : ∀ j, j < 3 → (⟨n, j⟩ : InDataAnchor) ∈ s.graph.GetAllInDataAnchors n := by
    intro j hj
    rw [mem_GetAllInDataAnchors]
    exact ⟨rfl, by simp only [hasInAnchor, h3, decide_eq_true_eq]; exact hj⟩
  have hcard : (s.graph.inputPeers n).toFinset.card = 2 := by
    have hp : s.graph.inputPeers n = [s.graph.GetPeerOutAnchor ⟨n, 0⟩,
        s.graph.GetPeerOutAnchor ⟨n, 1⟩, s.graph.GetPeerOutAnchor ⟨n, 2⟩] := by
      simp only [inputPeers, GetAllInDataAnchors, h3]
      rfl
    rw [hp, ← h02]
    simp only [List.toFinset_cons, List.toFinset_nil, Finset.mem_insert, Finset.mem_singleton,
      true_or, Finset.insert_eq_of_mem, or_true]
    rw [Finset.card_insert_of_not_mem (by simpa using h10)]
    rfl
  refine ⟨by rw [hcount, h3, hcard], ?_, ?_, ?_⟩
  · obtain ⟨k, hk1, _, _, hk3, hk4, _⟩ := hdup ⟨n, 2⟩ (hmem 2 (by omega))
      ⟨0, by simp, h02, hsn _ (hmem 2 (by omega))⟩
    exact ⟨k, hk1, hk3, hk4⟩
  · apply hkeep _ (hmem 0 (by omega))
    rintro ⟨i, hi, _⟩
    simp at hi
  · apply hkeep _ (hmem 1 (by omega))
    rintro ⟨i, hi, h1, _⟩
    simp only at hi h1
    have : i = 0 := by omega
    subst this
    exact h10 h1.symm

/-- Witness for C22 on the example graph: three inputs of which anchors 0 and
2 share a source. -/
theorem C22_allreduce_deduplication_witness :
    (allreduceExampleState.graph.insertedIdentities
        (HandleAllreduceDuplicateInput allreduceExampleState).2.graph 2).length =
      allreduceExampleState.graph.inAnchorNum 2 -
        (allreduceExampleState.graph.inputPeers 2).toFinset.card ∧
    allreduceExampleState.graph.insertedIdentities
        (HandleAllreduceDuplicateInput allreduceExampleState).2.graph 2 = [3] ∧
    (HandleAllreduceDuplicateInput allreduceExampleState).2.graph.GetPeerOutAnchor ⟨2, 2⟩ =
      some ⟨3, 0⟩ :=
  ⟨(C22_allreduce_deduplication allreduceExampleState
      (HandleAllreduceDuplicateInput allreduceExampleState).2 2 (by decide) (by decide)
      (by decide) (by decide)).2.2.2.1, by decide, by decide⟩

/-- C23: on a graph without subgraphs `HandleMemoryRWConflict` is
`HandleAllreduceDuplicateInput` run with a cleared registry: it returns the
status, the graph and the counter that `HandleAllreduceDuplicateInput` returns
on the state as it was, and leaves the registry empty. When it succeeds the
graph is the old graph with Identity nodes spliced onto the duplicate inputs
of the HcomAllReduce nodes of the root graph and nothing else: every old node
keeps its descriptor, its anchors and its place in its graph, every other
input anchor keeps its peer, and every new node sits on such a duplicate
input. -/
theorem C23_root_graph_shortcut (s : PassState) (h : s.graph.GetAllSubgraphs = []) :
    HandleMemoryRWConflict s = HandleAllreduceDuplicateInput (s.withRegistry []) ∧
    (HandleMemoryRWConflict s).1 = (HandleAllreduceDuplicateInput s).1 ∧
    (HandleMemoryRWConflict s).2.graph = (HandleAllreduceDuplicateInput s).2.graph ∧
    (HandleMemoryRWConflict s).2.identity_num =
      (HandleAllreduceDuplicateInput s).2.identity_num ∧
    (HandleMemoryRWConflict s).2.node_rwtype_map_ = [] ∧
    (s.graph.linksValid = true → (HandleMemoryRWConflict s).1 = .SUCCESS →
      Spliced s.graph.allreduceDuplicate s.graph (HandleMemoryRWConflict s).2.graph) := by
  have h1 : HandleMemoryRWConflict s = HandleAllreduceDuplicateInput (s.withRegistry []) := by
    unfold HandleMemoryRWConflict
    simp only [h, List.isEmpty_nil, if_true]
    rfl
  have h2 := HandleAllreduceDuplicateInput_withRegistry [] s
  refine ⟨h1, ?_, ?_, ?_, ?_, ?_⟩
  · rw [h1, h2]
  · rw [h1, h2]
    rfl
  · rw [h1, h2]
    rfl
  · rw [h1, h2]
    rfl
  · intro hl hs
    have hrun : HandleAllreduceDuplicateInput s =
        (.SUCCESS, (HandleAllreduceDuplicateInput s).2) := by
      rw [h1, h2] at hs
      exact Prod.ext hs rfl
    have hg : (HandleMemoryRWConflict s).2.graph = (HandleAllreduceDuplicateInput s).2.graph := by
      rw [h1, h2]
      rfl
    rw [hg]
    exact (HandleAllreduceDuplicateInput_spliced s _ hl hrun).1

/-- Witness for C23 on the example graph without subgraphs. -/
theorem C23_root_graph_shortcut_witness :
    allreduceExampleState.graph.GetAllSubgraphs = [] ∧
    HandleMemoryRWConflict allreduceExampleState =
      HandleAllreduceDuplicateInput (allreduceExampleState.withRegistry []) ∧
    (HandleMemoryRWConflict allreduceExampleState).1 = .SUCCESS :=
  ⟨by decide, (C23_root_graph_shortcut allreduceExampleState (by decide)).1, by decide⟩

theorem Grown_refl (g : ComputeGraph) : Grown g g :=
  ⟨Nat.le_refl _, fun _ _ => rfl, fun _ _ => rfl, rfl, fun m h1 h2 => absurd h2 (by omega)⟩

theorem Grown_opDesc_new {g g' : ComputeGraph} (e : Grown g g') {m : Nat}
    (h1 : g.nodes.length ≤ m) (h2 : m < g'.nodes.length) :
    ∃ name owner, g'.GetOpDesc m = (newIdentityNode name owner).op_desc := by
  obtain ⟨name, owner, hs⟩ := e.fresh m h1 h2
  refine ⟨name, owner, ?_⟩
  simp only [shape] at hs
  simp only [GetOpDesc]
  cases hnd : g'.nodes[m]? with
  | none => rw [hnd] at hs; cases hs
  | some nd =>
    rw [hnd] at hs
    simp only [Option.some.injEq, Prod.mk.injEq] at hs
    exact hs.1

theorem Grown_IsSubgraphInput_eq {g g' : ComputeGraph} (e : Grown g g') (m : Nat)
    (hm : m < g.nodes.length) : g'.IsSubgraphInput m = g.IsSubgraphInput m := by
  simp only [IsSubgraphInput, GetOpDesc_of_shape (e.shape m hm),
    GetOwnerComputeGraph_of_shape (e.shape m hm), GetParentNode_of_graphs e.graphs]

theorem Grown_IsSubgraphInput_new {g g' : ComputeGraph} (e : Grown g g') (m : Nat)
    (hm : g.nodes.length ≤ m) : g'.IsSubgraphInput m = false := by
  rcases Nat.lt_or_ge m g'.nodes.length with h | h
  · obtain ⟨name, owner, hd⟩ := Grown_opDesc_new e hm h
    simp only [IsSubgraphInput, hd, newIdentityNode]
    cases g'.GetOwnerComputeGraph m <;> simp
  · simp only [IsSubgraphInput, GetOpDesc_eq_none_of_length_le h]

theorem Grown_filter_GetDirectNode {g g' : ComputeGraph} (e : Grown g g') (gi : Nat)
    (Q Q' : Nat → Bool) (hold : ∀ m, m < g.nodes.length → Q' m = Q m)
    (hnew : ∀ m, g.nodes.length ≤ m → Q' m = false) :
    (g'.GetDirectNode gi).filter Q' = (g.GetDirectNode gi).filter Q := by
  rw [GetDirectNode_eq, GetDirectNode_eq, List.filter_filter, List.filter_filter]
  obtain ⟨k, hk⟩ := Nat.exists_eq_add_of_le e.len
  rw [hk]
  apply filter_range_extend
  · intro m hm
    rw [hold m hm, e.listed m hm, GetOwnerComputeGraph_of_shape (e.shape m hm)]
  · intro m hm _
    rw [hnew m hm]
    rfl

theorem Grown_subgraphsOf_eq {g g' : ComputeGraph} (e : Grown g g') (n : Nat)
    (hn : n < g.nodes.length) : g'.subgraphsOf n = g.subgraphsOf n := by
  simp only [subgraphsOf, GetOpDesc_of_shape (e.shape n hn)]
  cases g.GetOpDesc n with
  | none => rfl
  | some d =>
    simp only
    apply List.filterMap_congr
    intro nm _
    exact GetSubgraph_of_graphs e.graphs nm

theorem Grown_GetSubgraphDataNodesByIndex_eq {g g' : ComputeGraph} (e : Grown g g')
    (n index : Nat) (hn : n < g.nodes.length) :
    g'.GetSubgraphDataNodesByIndex n index = g.GetSubgraphDataNodesByIndex n index := by
  simp only [GetSubgraphDataNodesByIndex, Grown_subgraphsOf_eq e n hn]
  congr 1
  funext gi
  apply Grown_filter_GetDirectNode e gi
  · intro m hm
    rw [Grown_IsSubgraphInput_eq e m hm, GetOpDesc_of_shape (e.shape m hm)]
  · intro m hm
    rw [Grown_IsSubgraphInput_new e m hm]
    rfl

theorem collectDataRWTypes_of_grown {g g' : ComputeGraph} (e : Grown g g')
    (reg : List (String × NodeInputOutputRWType)) :
    ∀ (l : List Nat) (acc : Finset Int), (∀ m ∈ l, m < g.nodes.length) →
      collectDataRWTypes g' reg l acc = collectDataRWTypes g reg l acc := by
  intro l
  induction l with
  | nil => intro acc _; rfl
  | cons m l ih =>
    intro acc hl
    have hm := hl m (List.mem_cons_self _ _)
    have hrest : ∀ x ∈ l, x < g.nodes.length := fun x hx => hl x (List.mem_cons_of_mem _ hx)
    simp only [collectDataRWTypes, hasOutAnchor_of_shape (o := ⟨m, 0⟩) (e.shape m hm),
      GetOpDesc_of_shape (e.shape m hm)]
    split
    · exact ih acc hrest
    · cases g.GetOpDesc m with
      | none => exact ih acc hrest
      | some d =>
        simp only
        cases mapFind reg d.name with
        | none => rfl
        | some entry =>
          simp only
          cases mapFind entry.input_rw_type_map 0 with
          | none => rfl
          | some t => exact ih _ hrest

/-- The input type of an old node depends on nothing that a rewriting step
changes. -/
theorem GetInputRWTypeByIndex_of_grown {g g' : ComputeGraph} (e : Grown g g')
    (reg : List (String × NodeInputOutputRWType)) (n index : Nat) (hn : n < g.nodes.length) :
    GetInputRWTypeByIndex g' reg n index = GetInputRWTypeByIndex g reg n index := by
  simp only [GetInputRWTypeByIndex, GetOpDesc_of_shape (e.shape n hn),
    GetSingleNodeInputRWTypeByIndex_of_shape (e.shape n hn),
    Grown_GetSubgraphDataNodesByIndex_eq e n index hn]
  rw [collectDataRWTypes_of_grown e reg _ ∅
    (fun m hm => lt_length_of_mem_GetSubgraphDataNodesByIndex hm)]

theorem Grown_new_identity {g g' : ComputeGraph} (e : Grown g g') {k : Nat}
    (h1 : g.nodes.length ≤ k) (h2 : k < g'.nodes.length) :
    g'.GetType k = IDENTITY ∧ g'.inAnchorNum k = 1 ∧ g'.outAnchorNum k = 1 := by
  obtain ⟨name, owner, hs⟩ := e.fresh k h1 h2
  obtain ⟨_, hout, hin⟩ := identity_facts hs
  obtain ⟨name', owner', hd⟩ := Grown_opDesc_new e h1 h2
  refine ⟨?_, hin, hout⟩
  simp only [GetType, hd, newIdentityNode]

theorem SplitInv_nil {g : ComputeGraph} (hlg : g.linksValid = true) (s : PassState)
    (hs : s.graph = g) (p : OutDataAnchor) : SplitInv g s.node_rwtype_map_ p [] s := by
  subst hs
  exact ⟨rfl, Grown_refl _, hlg, by simp, fun _ _ _ => rfl, fun b hb => absurd hb (by simp),
    fun b hb => absurd hb (by simp), fun k h1 h2 => absurd h2 (by omega)⟩

/-- One step of the loop of `SplitIdentity` on consumer `x` of the Identity's
output anchor `o`. -/
theorem SplitIdentityAlongAnchor_inv {g : ComputeGraph}
    {reg : List (String × NodeInputOutputRWType)} {o p : OutDataAnchor} {pre_node : Nat}
    (hp : g.hasOutAnchor p = true)
    {d : List InDataAnchor} {x : InDataAnchor} (hx : g.GetPeerOutAnchor x = some o)
    (hxd : x ∉ d) (hd : ∀ b ∈ d, b.node < g.nodes.length) {t t' : PassState}
    (inv : SplitInv g reg p d t)
    (h : SplitIdentityAlongAnchor o p pre_node x t = (.SUCCESS, t')) :
    SplitInv g reg p (d ++ [x]) t' := by
  have hxold : x.node < g.nodes.length := lt_length_of_hasInAnchor (hasInAnchor_of_peer hx)
  have hpold : p.node < g.nodes.length := lt_length_of_hasOutAnchor hp
  have hle := inv.grown.len
  have hlt := (linksValid_iff t.graph).1 inv.links
  have hpt : t.graph.hasOutAnchor p = true := by
    rw [hasOutAnchor_of_shape (inv.grown.shape p.node hpold)]
    exact hp
  have hW : GetInputRWTypeByIndex t.graph t.node_rwtype_map_ x.node x.idx =
      GetInputRWTypeByIndex g reg x.node x.idx := by
    rw [inv.registry, GetInputRWTypeByIndex_of_grown inv.grown reg _ _ hxold]
  unfold SplitIdentityAlongAnchor at h
  simp only [hW] at h
  cases hu : t.graph.Unlink o x with
  | error e =>
    rw [hu] at h
    simp only [Prod.mk.injEq] at h
    exact absurd h.1 (Unlink_error hu)
  | ok g1 =>
    rw [hu] at h
    simp only at h
    obtain ⟨hc, hg1⟩ := Unlink_ok hu
    have hlen1 : g1.nodes.length = t.graph.nodes.length := by rw [hg1, length_setPeer]
    by_cases hw : writesInput g reg x
    · have hw' : GetInputRWTypeByIndex g reg x.node x.idx = .kScopeWriteable ∨
          GetInputRWTypeByIndex g reg x.node x.idx = .kWriteable := hw
      rw [if_pos hw'] at h
      cases hcr : CreateIdentityAfterSrcNode { t with graph := g1 } pre_node with
      | mk r s2 =>
        rw [hcr] at h
        cases r with
        | none => simp at h
        | some id =>
          simp only at h
          cases h3 : s2.graph.AddEdge p ⟨id, kIdentityAnchorIndex⟩ with
          | error e => rw [h3] at h; simp at h
          | ok g3 =>
            rw [h3] at h
            simp only at h
            cases h4 : g3.AddEdge ⟨id, kIdentityAnchorIndex⟩ x with
            | error e => rw [h4] at h; simp at h
            | ok g4 =>
              rw [h4] at h
              simp only [Prod.mk.injEq, true_and] at h
              subst h
              obtain ⟨hid, hreg2, name, owner, hs2⟩ := CreateIdentityAfterSrcNode_some hcr
              simp only at hid hs2 hreg2
              rw [hlen1] at hid
              subst hid
              obtain ⟨_, h3in, _, hg3⟩ := AddEdge_ok h3
              obtain ⟨_, h4in, _, hg4⟩ := AddEdge_ok h4
              rw [kIdentityAnchorIndex] at hg3 h3in hg4
              have hxN : x ≠ ⟨t.graph.nodes.length, 0⟩ := by
                intro e
                rw [e] at hxold
                simp only at hxold
                omega
              have hpeer : ∀ b : InDataAnchor, g4.GetPeerOutAnchor b =
                  if b = x then some ⟨t.graph.nodes.length, 0⟩
                  else if b = ⟨t.graph.nodes.length, 0⟩ then some p
                  else t.graph.GetPeerOutAnchor b := by
                intro b
                rw [hg4, peer_setPeer, hg3, peer_setPeer]
                by_cases hbc : b = x
                · rw [if_pos ⟨hbc, by rw [← hg3]; exact h4in⟩, if_pos hbc]
                · rw [if_neg (fun h => hbc h.1), if_neg hbc]
                  by_cases hbN : b = ⟨t.graph.nodes.length, 0⟩
                  · rw [if_pos ⟨hbN, h3in⟩, if_pos hbN]
                  · rw [if_neg (fun h => hbN h.1), if_neg hbN, hs2]
                    rcases Nat.lt_trichotomy b.node t.graph.nodes.length with h1 | h1 | h1
                    · rw [peer_AddNode_old _ _ _ (by rw [hlen1]; exact h1), hg1, peer_setPeer,
                        if_neg (fun h => hbc h.1)]
                    · obtain ⟨bn, bj⟩ := b
                      simp only at h1
                      subst h1
                      rw [← hlen1, peer_AddNode_new, hlen1,
                        peer_eq_none_of_length_le _ _ (Nat.le_refl _)]
                    · rw [peer_eq_none_of_length_le _ _ (by rw [length_AddNode, hlen1]; omega),
                        peer_eq_none_of_length_le _ _ (by omega)]
              have hlen4 : g4.nodes.length = t.graph.nodes.length + 1 := by
                rw [hg4, length_setPeer, hg3, length_setPeer, hs2, length_AddNode, hlen1]
              have hshape4 : ∀ n, g4.shape n =
                  (g1.AddNode (newIdentityNode name owner)).shape n := by
                intro n
                rw [hg4, shape_setPeer, hg3, shape_setPeer, hs2]
              have hshapeN : g4.shape t.graph.nodes.length =
                  some ((newIdentityNode name owner).op_desc, owner, 1, 1) := by
                rw [hshape4, ← hlen1, shape_AddNode_identity]
              have hshapeold : ∀ n, n < t.graph.nodes.length → g4.shape n = t.graph.shape n := by
                intro n hn
                rw [hshape4, shape_AddNode_old _ _ _ (by rw [hlen1]; exact hn), hg1,
                  shape_setPeer]
              have hlistedold : ∀ n, n < t.graph.nodes.length →
                  g4.isListed n = t.graph.isListed n := by
                intro n hn
                rw [hg4, isListed_setPeer, hg3, isListed_setPeer, hs2,
                  isListed_AddNode_old _ _ _ (by rw [hlen1]; exact hn), hg1, isListed_setPeer]
              have hpN : (some p : Option OutDataAnchor) ≠ some ⟨t.graph.nodes.length, 0⟩ := by
                intro e
                have := Option.some.inj e
                rw [this] at hpold
                simp only at hpold
                omega
              refine ⟨?_, ?_, ?_, ?_, ?_, ?_, ?_, ?_⟩
              · simp only
                rw [hreg2, inv.registry]
              · refine ⟨by simp only; omega, ?_, ?_, ?_, ?_⟩
                · intro m hm
                  simp only
                  rw [hshapeold m (by omega), inv.grown.shape m hm]
                · intro m hm
                  simp only
                  rw [hlistedold m (by omega), inv.grown.listed m hm]
                · simp only
                  rw [hg4, graphs_setPeer, hg3, graphs_setPeer, hs2, graphs_AddNode, hg1,
                    graphs_setPeer, inv.grown.graphs]
                · intro m h1 h2
                  simp only at h2 ⊢
                  rcases Nat.lt_or_ge m t.graph.nodes.length with h5 | h5
                  · obtain ⟨nm, ow, hs⟩ := inv.grown.fresh m h1 h5
                    exact ⟨nm, ow, by rw [hshapeold m h5, hs]⟩
                  · have : m = t.graph.nodes.length := by omega
                    subst this
                    exact ⟨name, owner, hshapeN⟩
              · simp only
                rw [linksValid_iff]
                intro a q hq
                rw [hpeer] at hq
                have hval : ∀ q', t.graph.hasOutAnchor q' = true → g4.hasOutAnchor q' = true := by
                  intro q' hq'
                  rw [hasOutAnchor_of_shape (hshapeold q'.node (lt_length_of_hasOutAnchor hq'))]
                  exact hq'
                by_cases ha1 : a = x
                · rw [if_pos ha1] at hq
                  cases hq
                  simp only [hasOutAnchor, (identity_facts hshapeN).2.1]
                  decide
                · rw [if_neg ha1] at hq
                  by_cases ha2 : a = ⟨t.graph.nodes.length, 0⟩
                  · rw [if_pos ha2] at hq
                    cases hq
                    exact hval _ hpt
                  · rw [if_neg ha2] at hq
                    exact hval _ (hlt a q hq)
              · simp only
                rw [hlen4, inv.count, List.filter_append]
                simp [hw]
                omega
              · intro b hb hbold
                simp only
                have hbx : b ≠ x := fun e => hb (by rw [e]; simp)
                have hbN : b ≠ ⟨t.graph.nodes.length, 0⟩ := by
                  intro e
                  rw [e] at hbold
                  simp only at hbold
                  omega
                rw [hpeer, if_neg hbx, if_neg hbN]
                exact inv.kept b (fun hbd => hb (List.mem_append_left _ hbd)) hbold
              · intro b hb hnw
                simp only
                rcases List.mem_append.1 hb with h1 | h1
                · have hbx : b ≠ x := fun e => hxd (e ▸ h1)
                  have hbN : b ≠ ⟨t.graph.nodes.length, 0⟩ := by
                    intro e
                    have := hd b h1
                    rw [e] at this
                    simp only at this
                    omega
                  rw [hpeer, if_neg hbx, if_neg hbN]
                  exact inv.direct b h1 hnw
                · rw [List.mem_singleton.1 h1] at hnw
                  exact absurd hw hnw
              · intro b hb hbw
                simp only
                rcases List.mem_append.1 hb with h1 | h1
                · have hbx : b ≠ x := fun e => hxd (e ▸ h1)
                  have hbN : b ≠ ⟨t.graph.nodes.length, 0⟩ := by
                    intro e
                    have := hd b h1
                    rw [e] at this
                    simp only at this
                    omega
                  obtain ⟨k, hk1, hk2, hk3⟩ := inv.copied b h1 hbw
                  refine ⟨k, hk1, by omega, ?_⟩
                  rw [hpeer, if_neg hbx, if_neg hbN]
                  exact hk3
                · rw [List.mem_singleton.1 h1]
                  exact ⟨t.graph.nodes.length, hle, by omega, by rw [hpeer, if_pos rfl]⟩
              · intro k hk1 hk2
                simp only at hk2 ⊢
                rcases Nat.lt_or_ge k t.graph.nodes.length with h5 | h5
                · obtain ⟨f1, b, hb, hbw, hiff⟩ := inv.fresh k hk1 h5
                  have hkx : (⟨k, 0⟩ : InDataAnchor) ≠ x := by
                    intro e
                    rw [← e] at hxold
                    simp only at hxold
                    omega
                  have hkN : (⟨k, 0⟩ : InDataAnchor) ≠ ⟨t.graph.nodes.length, 0⟩ := by
                    intro e
                    cases e
                    omega
                  refine ⟨by rw [hpeer, if_neg hkx, if_neg hkN]; exact f1, b,
                    List.mem_append_left _ hb, hbw, ?_⟩
                  intro y
                  rw [hpeer]
                  by_cases hy1 : y = x
                  · rw [if_pos hy1]
                    constructor
                    · intro e
                      have := Option.some.inj e
                      cases this
                      omega
                    · intro e
                      rw [hy1] at e
                      exact absurd hb (e ▸ hxd)
                  · rw [if_neg hy1]
                    by_cases hy2 : y = ⟨t.graph.nodes.length, 0⟩
                    · rw [if_pos hy2]
                      constructor
                      · intro e
                        have := Option.some.inj e
                        rw [this] at hpold
                        simp only at hpold
                        omega
                      · intro e
                        have := hd b hb
                        rw [← e, hy2] at this
                        simp only at this
                        omega
                    · rw [if_neg hy2]
                      exact hiff y
                · have hk : k = t.graph.nodes.length := by omega
                  subst hk
                  refine ⟨by rw [hpeer, if_neg (Ne.symm hxN), if_pos rfl], x, by simp, hw, ?_⟩
                  intro y
                  rw [hpeer]
                  by_cases hy1 : y = x
                  · rw [if_pos hy1]
                    exact ⟨fun _ => hy1, fun _ => rfl⟩
                  · rw [if_neg hy1]
                    by_cases hy2 : y = ⟨t.graph.nodes.length, 0⟩
                    · rw [if_pos hy2]
                      exact ⟨fun e => absurd e hpN, fun e => absurd e hy1⟩
                    · rw [if_neg hy2]
                      constructor
                      · intro e
                        have := lt_length_of_hasOutAnchor (hlt y _ e)
                        simp only at this
                        omega
                      · intro e
                        exact absurd e hy1
    · have hw' : ¬ (GetInputRWTypeByIndex g reg x.node x.idx = .kScopeWriteable ∨
          GetInputRWTypeByIndex g reg x.node x.idx = .kWriteable) := hw
      rw [if_neg hw'] at h
      cases h2 : g1.AddEdge p x with
      | error e => rw [h2] at h; simp at h
      | ok g2 =>
        rw [h2] at h
        simp only [Prod.mk.injEq, true_and] at h
        subst h
        obtain ⟨_, h2in, _, hg2⟩ := AddEdge_ok h2
        have hpeer : ∀ b : InDataAnchor, g2.GetPeerOutAnchor b =
            if b = x then some p else t.graph.GetPeerOutAnchor b := by
          intro b
          rw [hg2, peer_setPeer, hg1, peer_setPeer]
          by_cases hbc : b = x
          · rw [if_pos ⟨hbc, by rw [← hg1]; exact h2in⟩, if_pos hbc]
          · rw [if_neg (fun h => hbc h.1), if_neg hbc, if_neg (fun h => hbc h.1)]
        have hlen2 : g2.nodes.length = t.graph.nodes.length := by
          rw [hg2, length_setPeer, hg1, length_setPeer]
        have hshape2 : ∀ n, g2.shape n = t.graph.shape n := by
          intro n
          rw [hg2, shape_setPeer, hg1, shape_setPeer]
        have hlisted2 : ∀ n, g2.isListed n = t.graph.isListed n := by
          intro n
          rw [hg2, isListed_setPeer, hg1, isListed_setPeer]
        refine ⟨inv.registry, ?_, ?_, ?_, ?_, ?_, ?_, ?_⟩
        · refine ⟨by simp only; omega, ?_, ?_, ?_, ?_⟩
          · intro m hm
            simp only
            rw [hshape2, inv.grown.shape m hm]
          · intro m hm
            simp only
            rw [hlisted2, inv.grown.listed m hm]
          · simp only
            rw [hg2, graphs_setPeer, hg1, graphs_setPeer, inv.grown.graphs]
          · intro m h1 h5
            simp only at h5 ⊢
            obtain ⟨nm, ow, hs⟩ := inv.grown.fresh m h1 (by omega)
            exact ⟨nm, ow, by rw [hshape2, hs]⟩
        · simp only
          rw [linksValid_iff]
          intro a q hq
          rw [hpeer] at hq
          have hval : ∀ q', t.graph.hasOutAnchor q' = true → g2.hasOutAnchor q' = true := by
            intro q' hq'
            rw [hasOutAnchor_of_shape (hshape2 q'.node)]
            exact hq'
          by_cases ha1 : a = x
          · rw [if_pos ha1] at hq
            cases hq
            exact hval _ hpt
          · rw [if_neg ha1] at hq
            exact hval _ (hlt a q hq)
        · simp only
          rw [hlen2, inv.count, List.filter_append]
          simp [hw]
        · intro b hb hbold
          simp only
          have hbx : b ≠ x := fun e => hb (by rw [e]; simp)
          rw [hpeer, if_neg hbx]
          exact inv.kept b (fun hbd => hb (List.mem_append_left _ hbd)) hbold
        · intro b hb hnw
          simp only
          rcases List.mem_append.1 hb with h1 | h1
          · have hbx : b ≠ x := fun e => hxd (e ▸ h1)
            rw [hpeer, if_neg hbx]
            exact inv.direct b h1 hnw
          · rw [List.mem_singleton.1 h1, hpeer, if_pos rfl]
        · intro b hb hbw
          simp only
          rcases List.mem_append.1 hb with h1 | h1
          · have hbx : b ≠ x := fun e => hxd (e ▸ h1)
            obtain ⟨k, hk1, hk2, hk3⟩ := inv.copied b h1 hbw
            refine ⟨k, hk1, by omega, ?_⟩
            rw [hpeer, if_neg hbx]
            exact hk3
          · rw [List.mem_singleton.1 h1] at hbw
            exact absurd hbw hw
        · intro k hk1 hk2
          simp only at hk2 ⊢
          obtain ⟨f1, b, hb, hbw, hiff⟩ := inv.fresh k hk1 (by omega)
          have hkx : (⟨k, 0⟩ : InDataAnchor) ≠ x := by
            intro e
            rw [← e] at hxold
            simp only at hxold
            omega
          refine ⟨by rw [hpeer, if_neg hkx]; exact f1, b, List.mem_append_left _ hb, hbw, ?_⟩
          intro y
          rw [hpeer]
          by_cases hy1 : y = x
          · rw [if_pos hy1]
            constructor
            · intro e
              have := Option.some.inj e
              rw [this] at hpold
              simp only at hpold
              omega
            · intro e
              rw [hy1] at e
              exact absurd hb (e ▸ hxd)
          · rw [if_neg hy1]
            exact hiff y

/-- The loop of `SplitIdentity` over the consumers of the Identity's output. -/
theorem SplitIdentity_loop {g : ComputeGraph} (hlg : g.linksValid = true) {o p : OutDataAnchor}
    {pre_node : Nat} (hp : g.hasOutAnchor p = true) {s s1 : PassState} (hs : s.graph = g)
    (h : forEachM (SplitIdentityAlongAnchor o p pre_node) (g.GetPeerInDataAnchors o) s =
      (.SUCCESS, s1)) :
    SplitInv g s.node_rwtype_map_ p (g.GetPeerInDataAnchors o) s1 := by
  have hnd := GetPeerInDataAnchors_nodup g o
  have key := forEachM_inv (SplitIdentityAlongAnchor o p pre_node)
    (fun d t => SplitInv g s.node_rwtype_map_ p d t) (g.GetPeerInDataAnchors o) [] s s1
    (by
      intro d x r t t' hsplit _ hinv hstep
      simp only [List.nil_append] at hsplit
      have hmem : ∀ b, b ∈ d ++ x :: r → g.GetPeerOutAnchor b = some o := by
        intro b hb
        rw [← hsplit] at hb
        exact (mem_GetPeerInDataAnchors g o b).1 hb
      have hxd : x ∉ d := by
        rw [hsplit] at hnd
        intro hx
        exact (List.nodup_append.1 hnd).2.2 hx (List.mem_cons_self _ _)
      exact SplitIdentityAlongAnchor_inv hp (hmem x (by simp)) hxd
        (fun b hb => lt_length_of_hasInAnchor
          (hasInAnchor_of_peer (hmem b (List.mem_append_left _ hb)))) hinv hstep)
    (SplitInv_nil hlg s hs p) h
  simpa using key

/-- After the loop of `SplitIdentity` no input anchor is fed by the output of
the Identity, provided the Identity is not fed by itself. -/
theorem SplitInv_no_consumer {g : ComputeGraph} {reg : List (String × NodeInputOutputRWType)}
    {node : Nat} {p : OutDataAnchor} {t : PassState} (hnode : node < g.nodes.length)
    (hpn : p.node ≠ node) (inv : SplitInv g reg p (g.GetPeerInDataAnchors ⟨node, 0⟩) t)
    (b : InDataAnchor) : t.graph.GetPeerOutAnchor b ≠ some ⟨node, 0⟩ := by
  intro hb
  have hpo : (some p : Option OutDataAnchor) ≠ some ⟨node, 0⟩ := by
    intro e
    have := Option.some.inj e
    rw [this] at hpn
    exact hpn rfl
  rcases Nat.lt_or_ge b.node g.nodes.length with hlt | hge
  · by_cases hbP : b ∈ g.GetPeerInDataAnchors ⟨node, 0⟩
    · by_cases hw : writesInput g reg b
      · obtain ⟨k, hk1, _, hk3⟩ := inv.copied b hbP hw
        rw [hk3] at hb
        have := Option.some.inj hb
        cases this
        omega
      · rw [inv.direct b hbP hw] at hb
        exact hpo hb
    · rw [inv.kept b hbP hlt] at hb
      exact hbP ((mem_GetPeerInDataAnchors g _ b).2 hb)
  · have hbl : b.node < t.graph.nodes.length :=
      lt_length_of_hasInAnchor (hasInAnchor_of_peer hb)
    have hin := (Grown_new_identity inv.grown hge hbl).2.1
    have hbi := hasInAnchor_of_peer hb
    simp only [hasInAnchor, hin, decide_eq_true_eq] at hbi
    have hb0 : b = ⟨b.node, 0⟩ := by
      cases b
      simp only at hbi ⊢
      congr
      omega
    rw [hb0, (inv.fresh b.node hge hbl).1] at hb
    exact hpo hb

/-- What `SplitIdentity` does: nothing on a node whose output feeds at most
one input anchor; on an Identity with one input and one output anchor, fed by
another node, whose output feeds more than one input anchor, every consumer
that writes its input gets an Identity of its own, every other consumer is fed
by the producer directly, and the Identity is left without consumer and
producer and is taken off its graph. -/
theorem SplitIdentity_spec (node : Nat) (s : PassState) :
    (s.graph.GetPeerInDataNodesSize ⟨node, 0⟩ ≤ 1 →
      (SplitIdentity node s).2 = s ∧
        (s.graph.hasOutAnchor ⟨node, 0⟩ = true → SplitIdentity node s = (.SUCCESS, s))) ∧
    (∀ (s' : PassState) (p : OutDataAnchor), s.graph.linksValid = true →
      s.graph.inAnchorNum node = 1 → s.graph.outAnchorNum node = 1 →
      s.graph.GetPeerOutAnchor ⟨node, 0⟩ = some p → p.node ≠ node →
      1 < s.graph.GetPeerInDataNodesSize ⟨node, 0⟩ →
      SplitIdentity node s = (.SUCCESS, s') →
      (∀ c ∈ s.graph.GetPeerInDataAnchors ⟨node, 0⟩,
        writesInput s.graph s.node_rwtype_map_ c →
        ∃ k, s.graph.nodes.length ≤ k ∧ k < s'.graph.nodes.length ∧
          s'.graph.GetType k = IDENTITY ∧
          s'.graph.GetPeerOutAnchor c = some ⟨k, 0⟩ ∧
          s'.graph.GetPeerOutAnchor ⟨k, 0⟩ = some p ∧
          s'.graph.GetPeerInDataAnchors ⟨k, 0⟩ = [c]) ∧
      (∀ c ∈ s.graph.GetPeerInDataAnchors ⟨node, 0⟩,
        ¬ writesInput s.graph s.node_rwtype_map_ c →
        s'.graph.GetPeerOutAnchor c = some p) ∧
      s'.graph.nodes.length = s.graph.nodes.length +
        ((s.graph.GetPeerInDataAnchors ⟨node, 0⟩).filter
          (fun c => decide (writesInput s.graph s.node_rwtype_map_ c))).length ∧
      s'.graph.GetOutDataNodesSize node = 0 ∧
      s'.graph.GetInDataNodes node = [] ∧
      s'.graph.isListed node = false ∧
      ∀ gi, node ∉ s'.graph.GetDirectNode gi) := by
  constructor
  · intro hsize
    unfold SplitIdentity
    simp only [kIdentityAnchorIndex]
    by_cases ho : s.graph.hasOutAnchor ⟨node, 0⟩ = false
    · rw [if_pos ho]
      exact ⟨rfl, fun h => by rw [h] at ho; cases ho⟩
    · rw [if_neg ho, if_pos hsize]
      exact ⟨rfl, fun _ => rfl⟩
  · intro s' p hl hin hout hp hpn hsize h
    have ho : s.graph.hasOutAnchor ⟨node, 0⟩ = true := by
      simp only [hasOutAnchor, hout]
      decide
    have hi : s.graph.hasInAnchor ⟨node, 0⟩ = true := hasInAnchor_of_peer hp
    have hnode : node < s.graph.nodes.length := lt_length_of_hasOutAnchor ho
    have hpv : s.graph.hasOutAnchor p = true := (linksValid_iff _).1 hl _ _ hp
    unfold SplitIdentity at h
    simp only [kIdentityAnchorIndex] at h
    rw [if_neg (by rw [ho]; simp), if_neg (by omega), if_neg (by rw [hi]; simp)] at h
    simp only [hp] at h
    cases hrun : forEachM (SplitIdentityAlongAnchor ⟨node, 0⟩ p p.node)
        (s.graph.GetPeerInDataAnchors ⟨node, 0⟩) s with
    | mk st s1 =>
    rw [hrun] at h
    simp only at h
    by_cases hr : st = .SUCCESS
    · rw [if_neg (not_not.2 hr)] at h
      subst hr
      have inv := SplitIdentity_loop hl hpv rfl hrun
      have hno := SplitInv_no_consumer hnode hpn inv
      have hout1 : s1.graph.outAnchorNum node = 1 := by
        rw [outAnchorNum_of_shape (inv.grown.shape node hnode)]
        exact hout
      have hsz : s1.graph.GetOutDataNodesSize node = 0 := by
        rw [GetOutDataNodesSize_of_one hout1, List.length_eq_zero]
        apply List.eq_nil_iff_forall_not_mem.2
        intro b hb
        exact hno b ((mem_GetPeerInDataAnchors _ _ b).1 hb)
      rw [if_pos hsz, IsolateNode_nil_of_no_consumers hsz] at h
      simp only at h
      cases hrem : (s1.graph.UnlinkAllIn node).RemoveNodeWithoutRelink
          ((s1.graph.UnlinkAllIn node).GetOwnerComputeGraph node) node with
      | error e => rw [hrem] at h; simp at h
      | ok g3 =>
        rw [hrem] at h
        simp only [Prod.mk.injEq, true_and] at h
        subst h
        have hg3 := RemoveNodeWithoutRelink_ok hrem
        subst hg3
        have hf := UnlinkAllIn_facts s1.graph node
        have hpeer : ∀ b : InDataAnchor,
            ((s1.graph.UnlinkAllIn node).unlist node).GetPeerOutAnchor b =
              if b.node = node then none else s1.graph.GetPeerOutAnchor b := by
          intro b
          rw [peer_unlist, peer_UnlinkAllIn]
        have hshape : ∀ m, ((s1.graph.UnlinkAllIn node).unlist node).shape m =
            s1.graph.shape m := by
          intro m
          rw [shape_unlist, hf.2.1]
        have hlen : ((s1.graph.UnlinkAllIn node).unlist node).nodes.length =
            s1.graph.nodes.length := by
          rw [length_unlist, hf.1]
        have hcn : ∀ c ∈ s.graph.GetPeerInDataAnchors ⟨node, 0⟩, c.node ≠ node := by
          intro c hc e
          have hcp := (mem_GetPeerInDataAnchors _ _ c).1 hc
          have hci := hasInAnchor_of_peer hcp
          simp only [hasInAnchor, e, hin, decide_eq_true_eq] at hci
          have hc0 : c = ⟨node, 0⟩ := by
            cases c
            simp only at hci e ⊢
            congr
            omega
          rw [hc0, hp] at hcp
          have := Option.some.inj hcp
          rw [this] at hpn
          exact hpn rfl
        simp only
        refine ⟨?_, ?_, ?_, ?_, ?_, ?_, ?_⟩
        · intro c hc hw
          obtain ⟨k, hk1, hk2, hk3⟩ := inv.copied c hc hw
          obtain ⟨hf1, b, hb, _, hiff⟩ := inv.fresh k hk1 hk2
          have hcb : c = b := (hiff c).1 hk3
          have hkn : k ≠ node := by omega
          refine ⟨k, hk1, by rw [hlen]; exact hk2, ?_, ?_, ?_, ?_⟩
          · rw [GetType_of_shape (hshape k)]
            exact (Grown_new_identity inv.grown hk1 hk2).1
          · rw [hpeer, if_neg (hcn c hc)]
            exact hk3
          · rw [hpeer, if_neg hkn]
            exact hf1
          · apply eq_singleton_of_nodup (GetPeerInDataAnchors_nodup _ _)
            intro y
            rw [mem_GetPeerInDataAnchors, hpeer, hcb]
            by_cases hy : y.node = node
            · rw [if_pos hy]
              constructor
              · intro e
                cases e
              · intro e
                rw [e] at hy
                exact absurd hy (hcn b hb)
            · rw [if_neg hy]
              exact hiff y
        · intro c hc hw
          rw [hpeer, if_neg (hcn c hc)]
          exact inv.direct c hc hw
        · rw [hlen]
          exact inv.count
        · rw [GetOutDataNodesSize_of_one (by rw [outAnchorNum_of_shape (hshape node)]; exact hout1),
            List.length_eq_zero]
          apply List.eq_nil_iff_forall_not_mem.2
          intro b hb
          have hb' := (mem_GetPeerInDataAnchors _ _ b).1 hb
          rw [hpeer] at hb'
          by_cases hy : b.node = node
          · rw [if_pos hy] at hb'
            cases hb'
          · rw [if_neg hy] at hb'
            exact hno b hb'
        · unfold GetInDataNodes
          apply List.eq_nil_iff_forall_not_mem.2
          intro m hm
          rw [List.mem_filterMap] at hm
          obtain ⟨a, ha, ham⟩ := hm
          have han := ((mem_GetAllInDataAnchors _ _ a).1 ha).1
          rw [hpeer, if_pos han] at ham
          cases ham
        · rw [isListed_unlist, if_pos rfl]
        · intro gi hgi
          have := ((mem_GetDirectNode _ _ _).1 hgi).1
          rw [isListed_unlist, if_pos rfl] at this
          cases this
    · rw [if_pos hr] at h
      simp only [Prod.mk.injEq] at h
      exact absurd h.1 hr

/-- C21: `SplitIdentity` leaves the state as it is when output 0 of the node
feeds at most one input anchor (and then succeeds if the node has that output
anchor). On an Identity with one input and one output anchor, fed by output
anchor `p` of another node, whose output feeds more than one input anchor, a
successful `SplitIdentity` leaves every consumer that writes its input (input
type Writeable or ScopeWriteable) fed by a new Identity of its own, whose input
is fed by `p` and whose output feeds that consumer only; every other consumer
is fed by `p` directly; one node is created per consumer that writes its
input; and the Identity has no consumer and no producer left and is no longer
listed in any graph. -/
theorem C21_split_identity (node : Nat) (s : PassState) :
    (s.graph.GetPeerInDataNodesSize ⟨node, 0⟩ ≤ 1 →
      (SplitIdentity node s).2 = s ∧
        (s.graph.hasOutAnchor ⟨node, 0⟩ = true → SplitIdentity node s = (.SUCCESS, s))) ∧
    (∀ (s' : PassState) (p : OutDataAnchor), s.graph.linksValid = true →
      s.graph.inAnchorNum node = 1 → s.graph.outAnchorNum node = 1 →
      s.graph.GetPeerOutAnchor ⟨node, 0⟩ = some p → p.node ≠ node →
      1 < s.graph.GetPeerInDataNodesSize ⟨node, 0⟩ →
      SplitIdentity node s = (.SUCCESS, s') →
      (∀ c ∈ s.graph.GetPeerInDataAnchors ⟨node, 0⟩,
        writesInput s.graph s.node_rwtype_map_ c →
        ∃ k, s.graph.nodes.length ≤ k ∧ k < s'.graph.nodes.length ∧
          s'.graph.GetType k = IDENTITY ∧
          s'.graph.GetPeerOutAnchor c = some ⟨k, 0⟩ ∧
          s'.graph.GetPeerOutAnchor ⟨k, 0⟩ = some p ∧
          s'.graph.GetPeerInDataAnchors ⟨k, 0⟩ = [c]) ∧
      (∀ c ∈ s.graph.GetPeerInDataAnchors ⟨node, 0⟩,
        ¬ writesInput s.graph s.node_rwtype_map_ c →
        s'.graph.GetPeerOutAnchor c = some p) ∧
      s'.graph.nodes.length = s.graph.nodes.length +
        ((s.graph.GetPeerInDataAnchors ⟨node, 0⟩).filter
          (fun c => decide (writesInput s.graph s.node_rwtype_map_ c))).length ∧
      s'.graph.GetOutDataNodesSize node = 0 ∧
      s'.graph.GetInDataNodes node = [] ∧
      s'.graph.isListed node = false ∧
      ∀ gi, node ∉ s'.graph.GetDirectNode gi) :=
  SplitIdentity_spec node s

/-- Witness for C21 on the example graph: the Identity fed by the Variable
feeds the ref input of the Assign and the Relu. -/
theorem C21_split_identity_witness :
    (SplitIdentity 1 splitExampleState).1 = .SUCCESS ∧
    (SplitIdentity 1 splitExampleState).2.graph.GetPeerOutAnchor ⟨3, 0⟩ = some ⟨0, 0⟩ ∧
    (SplitIdentity 1 splitExampleState).2.graph.GetPeerOutAnchor ⟨2, 0⟩ = some ⟨6, 0⟩ ∧
    (SplitIdentity 1 splitExampleState).2.graph.nodes.length = 7 ∧
    (SplitIdentity 1 splitExampleState).2.graph.GetOutDataNodesSize 1 = 0 :=
  ⟨by decide,
    ((C21_split_identity 1 splitExampleState).2 (SplitIdentity 1 splitExampleState).2 ⟨0, 0⟩
      (by decide) (by decide) (by decide) (by decide) (by decide) (by decide) (by decide)).2.1
      ⟨3, 0⟩ (by decide) (by decide),
    by decide, by decide,
    ((C21_split_identity 1 splitExampleState).2 (SplitIdentity 1 splitExampleState).2 ⟨0, 0⟩
      (by decide) (by decide) (by decide) (by decide) (by decide) (by decide)
      (by decide)).2.2.2.1⟩

theorem CheckRWConflictPeers_true (g : ComputeGraph) (reg : List (String × NodeInputOutputRWType))
    (t : OutputRWType) (st : Status) :
    ∀ l : List InDataAnchor, CheckRWConflictPeers g reg t l = some (st, true) →
      ∃ a ∈ l, g.GetType a.node ≠ WHILE ∧
        GetConflictResultBetweenNode t (GetInputRWTypeByIndex g reg a.node a.idx) =
          .WRONG_GRAPH := by
  intro l
  induction l with
  | nil => intro h; simp [CheckRWConflictPeers] at h
  | cons a l ih =>
    intro h
    simp only [CheckRWConflictPeers] at h
    by_cases hw : g.GetType a.node = WHILE
    · rw [if_pos hw] at h
      simp at h
    · rw [if_neg hw] at h
      cases hc : GetConflictResultBetweenNode t (GetInputRWTypeByIndex g reg a.node a.idx) with
      | DO_NOTHING =>
        rw [hc] at h
        obtain ⟨b, hb, h1⟩ := ih h
        exact ⟨b, List.mem_cons_of_mem _ hb, h1⟩
      | WRONG_GRAPH => exact ⟨a, List.mem_cons_self _ _, hw, hc⟩
      | INSERT_IDENTITY =>
        rw [hc] at h
        obtain ⟨b, hb, h1⟩ := ih h
        exact ⟨b, List.mem_cons_of_mem _ hb, h1⟩

theorem CheckRWConflictAnchors_true (g : ComputeGraph)
    (reg : List (String × NodeInputOutputRWType)) (node : Nat) (st : Status) :
    ∀ l : List OutDataAnchor, CheckRWConflictAnchors g reg node l = some (st, true) →
      ∃ o ∈ l, ∃ a ∈ g.GetPeerInDataAnchors o, g.GetType a.node ≠ WHILE ∧
        GetConflictResultBetweenNode (GetOutputRWTypeByIndex g reg node o.idx)
          (GetInputRWTypeByIndex g reg a.node a.idx) = .WRONG_GRAPH := by
  intro l
  induction l with
  | nil => intro h; simp [CheckRWConflictAnchors] at h
  | cons o l ih =>
    intro h
    simp only [CheckRWConflictAnchors] at h
    cases hp : CheckRWConflictPeers g reg (GetOutputRWTypeByIndex g reg node o.idx)
        (g.GetPeerInDataAnchors o) with
    | none =>
      rw [hp] at h
      obtain ⟨o', ho', h1⟩ := ih h
      exact ⟨o', List.mem_cons_of_mem _ ho', h1⟩
    | some r =>
      rw [hp] at h
      simp only [Option.some.injEq] at h
      rw [h] at hp
      obtain ⟨a, ha, h1⟩ := CheckRWConflictPeers_true g reg _ st _ hp
      exact ⟨o, List.mem_cons_self _ _, a, ha, h1⟩

/-- When the scan of `CheckRWConflict` ends with `has_conflict` set, it has
met a data edge with conflict result WrongGraph between nodes that are not
While nodes. -/
theorem CheckRWConflictNodes_true (g : ComputeGraph)
    (reg : List (String × NodeInputOutputRWType)) :
    ∀ l : List Nat, (CheckRWConflictNodes g reg l).2 = true →
      ∃ o a, wrongEdge g reg o a := by
  intro l
  induction l with
  | nil => intro h; simp [CheckRWConflictNodes] at h
  | cons node l ih =>
    intro h
    simp only [CheckRWConflictNodes] at h
    cases hd : g.GetOpDesc node with
    | none => rw [hd] at h; simp at h
    | some d =>
      rw [hd] at h
      simp only at h
      by_cases hz : g.GetOutDataNodesSize node = 0
      · rw [if_pos hz] at h
        simp at h
      · rw [if_neg hz] at h
        by_cases hw : g.GetType node = WHILE
        · rw [if_pos hw] at h
          simp at h
        · rw [if_neg hw] at h
          cases ha : CheckRWConflictAnchors g reg node (g.GetAllOutDataAnchors node) with
          | none =>
            rw [ha] at h
            exact ih h
          | some r =>
            rw [ha] at h
            simp only at h
            have hr : r = (r.1, true) := Prod.ext rfl h
            rw [hr] at ha
            obtain ⟨o, ho, a, hao, hta, hc⟩ := CheckRWConflictAnchors_true g reg node _ _ ha
            have hon := (node_of_mem_GetAllOutDataAnchors ho).1
            refine ⟨o, a, (mem_GetPeerInDataAnchors g o a).1 hao, by rw [hon]; exact hw, hta, ?_⟩
            unfold edgeConflict
            rw [hon]
            exact hc

theorem MarkRWTypeForAllSubgraph_extends (sub_graph_vec : List Nat) (s s' : PassState)
    (h : MarkRWTypeForAllSubgraph sub_graph_vec s = (.SUCCESS, s')) :
    Extends s.graph s'.graph := by
  unfold MarkRWTypeForAllSubgraph at h
  refine forEachM_rel MarkRWTypeForAllSubgraphStep (fun t t' => Extends t.graph t'.graph)
    (fun _ => Extends_refl _) (fun _ _ _ a b => Extends_trans a b) _ s s' ?_ h
  intro x _ t t' ht
  unfold MarkRWTypeForAllSubgraphStep at ht
  cases hp : t.graph.GetParentNode x with
  | none =>
    rw [hp] at ht
    simp only [Prod.mk.injEq, true_and] at ht
    rw [← ht]
    exact Extends_refl _
  | some parent =>
    rw [hp] at ht
    simp only at ht
    by_cases hw : t.graph.GetType parent = WHILE
    · rw [if_pos hw] at ht
      simp only [Prod.mk.injEq, true_and] at ht
      rw [← ht]
      exact Extends_refl _
    · rw [if_neg hw] at ht
      exact (MarkRWTypeForSubgraphNodes_rel _ t t' ht).1

/-- C24, as stated, fails: on `exitExampleGraph`, a conditional whose branch
subgraph returns the output of a Variable, `CheckRWConflict` succeeds and
leaves a graph with one node more, in which input 0 of the NetOutput is fed by
the new node instead of the Variable. -/
theorem C24_counterexample :
    (CheckRWConflict exitExampleState false).1 = .SUCCESS ∧
    exitExampleGraph.nodes.length = 5 ∧
    (CheckRWConflict exitExampleState false).2.1.graph.nodes.length = 6 ∧
    exitExampleGraph.GetPeerOutAnchor ⟨4, 0⟩ = some ⟨2, 0⟩ ∧
    (CheckRWConflict exitExampleState false).2.1.graph.GetPeerOutAnchor ⟨4, 0⟩ = some ⟨5, 0⟩ ∧
    (CheckRWConflict exitExampleState false).2.1.graph.GetType 5 = IDENTITY ∧
    (CheckRWConflict exitExampleState false).2.1.graph ≠ exitExampleGraph := by
  decide

/-- C24, amended: the scan of `CheckRWConflict` changes nothing; the graph it
leaves is the graph left by its marking step `MarkRWTypeForAllSubgraph`, run
on the cleared registry, and the graph it was given when there are no
subgraphs. When it succeeds the graph has only grown by Identity nodes: every
old node keeps its descriptor, its anchors and its place in its graph, every
old output anchor keeps its number of consumers, and in a well-formed graph
every input anchor of an old node keeps its producer. -/
theorem C24_check_changes_graph_by_marking_only (s : PassState) (has_conflict : Bool) :
    (CheckRWConflict s has_conflict).2.1.graph =
      (if s.graph.GetAllSubgraphs.isEmpty then s.graph
       else (MarkRWTypeForAllSubgraph s.graph.GetAllSubgraphs (s.withRegistry [])).2.graph) ∧
    (s.graph.GetAllSubgraphs = [] →
      CheckRWConflict s has_conflict = (.SUCCESS, s.withRegistry [], has_conflict)) ∧
    ((CheckRWConflict s has_conflict).1 = .SUCCESS →
      Extends s.graph (CheckRWConflict s has_conflict).2.1.graph ∧
        Pres s.graph (CheckRWConflict s has_conflict).2.1.graph) := by
  refine ⟨?_, ?_, ?_⟩
  · unfold CheckRWConflict
    simp only
    by_cases he : s.graph.GetAllSubgraphs.isEmpty = true
    · rw [if_pos he, if_pos he]
    · rw [if_neg he, if_neg he]
      split <;> rfl
  · intro he
    unfold CheckRWConflict
    simp only [he, List.isEmpty_nil, if_true]
    rfl
  · intro hs
    unfold CheckRWConflict at hs ⊢
    simp only at hs ⊢
    by_cases he : s.graph.GetAllSubgraphs.isEmpty = true
    · rw [if_pos he]
      exact ⟨Extends_refl _, Pres_refl _⟩
    · rw [if_neg he] at hs ⊢
      by_cases hm : (MarkRWTypeForAllSubgraph s.graph.GetAllSubgraphs
          { s with node_rwtype_map_ := [] }).1 = .SUCCESS
      · rw [if_neg (not_not.2 hm)]
        simp only
        have hrun : MarkRWTypeForAllSubgraph s.graph.GetAllSubgraphs
            { s with node_rwtype_map_ := [] } = (.SUCCESS, (MarkRWTypeForAllSubgraph
              s.graph.GetAllSubgraphs { s with node_rwtype_map_ := [] }).2) :=
          Prod.ext hm rfl
        exact ⟨MarkRWTypeForAllSubgraph_extends _ { s with node_rwtype_map_ := [] } _ hrun,
          MarkRWTypeForAllSubgraph_pres _ { s with node_rwtype_map_ := [] } _ hrun⟩
      · rw [if_pos hm] at hs
        exact absurd hs hm

/-- C25: what the code does. When `CheckRWConflict` returns success on a graph
with subgraphs and `has_conflict` is set, the graph it leaves has a data edge
between nodes that are not While nodes with conflict result WrongGraph. The
converse fails: on `leafFirstExampleGraph` the scan returns at the first node,
which has no data output, with `has_conflict` false, although the edge from
the Const to the ref input of the Assign has conflict result WrongGraph; and
on a graph without subgraphs `has_conflict` keeps the value passed in, here
true on a graph without such an edge. -/
theorem C25_early_return_hides_wrong_graph :
    (∀ (s : PassState) (has_conflict : Bool), s.graph.GetAllSubgraphs ≠ [] →
      (CheckRWConflict s has_conflict).1 = .SUCCESS →
      (CheckRWConflict s has_conflict).2.2 = true →
      ∃ o a, wrongEdge (CheckRWConflict s has_conflict).2.1.graph
        (CheckRWConflict s has_conflict).2.1.node_rwtype_map_ o a) ∧
    (leafFirstExampleGraph.GetAllSubgraphs ≠ [] ∧
      CheckRWConflict leafFirstExampleState true = (.SUCCESS, leafFirstExampleState, false) ∧
      leafFirstExampleGraph.GetAllNodes = [0, 1, 2, 3, 4] ∧
      leafFirstExampleGraph.GetOutDataNodesSize 0 = 0 ∧
      wrongEdge leafFirstExampleGraph [] ⟨1, 0⟩ ⟨2, 0⟩) ∧
    (allreduceExampleGraph.GetAllSubgraphs = [] ∧
      CheckRWConflict allreduceExampleState true = (.SUCCESS, allreduceExampleState, true) ∧
      ∀ a ∈ allreduceExampleGraph.allInDataAnchors,
        ∀ o ∈ allreduceExampleGraph.GetPeerOutAnchor a,
          ¬ wrongEdge allreduceExampleGraph [] o a) := by
  refine ⟨?_, by decide, by decide⟩
  intro s hc he hs ht
  unfold CheckRWConflict at hs ht ⊢
  simp only at hs ht ⊢
  have he' : ¬ s.graph.GetAllSubgraphs.isEmpty = true := by
    intro h
    exact he (List.isEmpty_iff.1 h)
  rw [if_neg he'] at hs ht ⊢
  by_cases hm : (MarkRWTypeForAllSubgraph s.graph.GetAllSubgraphs
      { s with node_rwtype_map_ := [] }).1 = .SUCCESS
  · rw [if_neg (not_not.2 hm)] at ht ⊢
    simp only at ht ⊢
    exact CheckRWConflictNodes_true _ _ _ ht
  · rw [if_pos hm] at hs
    exact absurd hs hm

theorem rfind_eq_none {l : List Char} {c : Char} : rfind l c = none ↔ c ∉ l := by
  induction l with
  | nil => simp [rfind]
  | cons x xs ih =>
    simp only [rfind, List.mem_cons, not_or]
    cases h : rfind xs c with
    | some i =>
      simp only [reduceCtorEq, false_iff, not_and, not_not]
      intro _
      by_contra hc
      rw [← ih] at hc
      rw [hc] at h
      cases h
    | none =>
      simp only
      have := ih.1 h
      by_cases hx : x = c
      · simp [hx]
      · simp [hx, this, Ne.symm hx]

/-- The last occurrence: `rfind` finds the separator after which the
character does not occur again. -/
theorem rfind_append {c : Char} {b : List Char} (hb : c ∉ b) (a : List Char) :
    rfind (a ++ c :: b) c = some a.length := by
  induction a with
  | nil =>
    simp only [List.nil_append, rfind, rfind_eq_none.2 hb, if_true, List.length_nil]
  | cons x xs ih =>
    have : rfind (x :: (xs ++ c :: b)) c = some (xs.length + 1) := by
      simp only [rfind, ih]
    exact this

theorem rfind_eq_some {l : List Char} {c : Char} {i : Nat} (h : rfind l c = some i) :
    ∃ a b, l = a ++ c :: b ∧ c ∉ b ∧ i = a.length := by
  induction l generalizing i with
  | nil => simp [rfind] at h
  | cons x xs ih =>
    simp only [rfind] at h
    cases hr : rfind xs c with
    | some j =>
      rw [hr] at h
      simp only [Option.some.injEq] at h
      obtain ⟨a, b, h1, h2, h3⟩ := ih hr
      exact ⟨x :: a, b, by rw [h1]; rfl, h2, by rw [← h, h3]; rfl⟩
    | none =>
      rw [hr] at h
      simp only at h
      by_cases hx : x = c
      · rw [if_pos hx] at h
        simp only [Option.some.injEq] at h
        exact ⟨[], xs, by rw [hx]; rfl, rfind_eq_none.1 hr, by rw [← h]; rfl⟩
      · rw [if_neg hx] at h
        cases h

theorem toDigitsCore_eq_decimalDigits :
    ∀ (fuel n : Nat) (acc : List Char), n < fuel →
      Nat.toDigitsCore 10 fuel n acc = decimalDigits n ++ acc := by
  intro fuel
  induction fuel with
  | zero => intro n acc h; omega
  | succ fuel ih =>
    intro n acc h
    rw [decimalDigits]
    simp only [Nat.toDigitsCore]
    by_cases h0 : n / 10 = 0
    · have hn : n < 10 := by omega
      rw [if_pos h0, if_pos hn, Nat.mod_eq_of_lt hn]
      rfl
    · have hn : ¬ n < 10 := by omega
      rw [if_neg h0, if_neg hn, ih _ _ (by omega)]
      simp

/-- The characters of `decimal n` are the decimal digits of `n`. -/
theorem decimal_data (n : Nat) : (decimal n).data = decimalDigits n := by
  have h : (decimal n).data = Nat.toDigits 10 n := rfl
  rw [h, Nat.toDigits, toDigitsCore_eq_decimalDigits _ _ _ (Nat.lt_succ_self n),
    List.append_nil]

theorem digitValue_digitChar (d : Nat) (hd : d < 10) :
    digitValue (Nat.digitChar d) = some d ∧ isspace (Nat.digitChar d) = false ∧
      (Nat.digitChar d).toNat ≠ 45 ∧ (Nat.digitChar d).toNat ≠ 43 ∧ Nat.digitChar d ≠ ':' := by
  interval_cases d <;> decide

theorem decimalDigits_head (n : Nat) :
    ∃ d, d < 10 ∧ ∃ t, decimalDigits n = Nat.digitChar d :: t := by
  induction n using Nat.strong_induction_on with
  | _ n ih =>
    rw [decimalDigits]
    by_cases hn : n < 10
    · rw [if_pos hn]
      exact ⟨n, hn, [], rfl⟩
    · rw [if_neg hn]
      obtain ⟨d, hd, t, ht⟩ := ih (n / 10) (by omega)
      exact ⟨d, hd, t ++ [Nat.digitChar (n % 10)], by rw [ht]; rfl⟩

theorem decimalDigits_no_colon (n : Nat) : ':' ∉ decimalDigits n := by
  induction n using Nat.strong_induction_on with
  | _ n ih =>
    rw [decimalDigits]
    by_cases hn : n < 10
    · rw [if_pos hn]
      simp only [List.mem_singleton]
      exact fun e => (digitValue_digitChar n hn).2.2.2.2 e.symm
    · rw [if_neg hn]
      simp only [List.mem_append, List.mem_singleton, not_or]
      exact ⟨ih (n / 10) (by omega),
        fun e => (digitValue_digitChar (n % 10) (Nat.mod_lt _ (by decide))).2.2.2.2 e.symm⟩

theorem strtolDigits_decimalDigits (n : Nat) :
    ∀ (rest : List Char) (acc : Nat),
      strtolDigits (decimalDigits n ++ rest) acc =
        strtolDigits rest (acc * 10 ^ (decimalDigits n).length + n) := by
  induction n using Nat.strong_induction_on with
  | _ n ih =>
    intro rest acc
    rw [decimalDigits]
    by_cases hn : n < 10
    · rw [if_pos hn]
      have : strtolDigits (Nat.digitChar n :: rest) acc = strtolDigits rest (acc * 10 + n) := by
        simp only [strtolDigits, (digitValue_digitChar n hn).1]
      simpa using this
    · rw [if_neg hn, List.append_assoc, ih (n / 10) (by omega)]
      have : strtolDigits (Nat.digitChar (n % 10) :: rest)
          (acc * 10 ^ (decimalDigits (n / 10)).length + n / 10) =
          strtolDigits rest ((acc * 10 ^ (decimalDigits (n / 10)).length + n / 10) * 10 +
            n % 10) := by
        simp only [strtolDigits, (digitValue_digitChar (n % 10) (Nat.mod_lt _ (by decide))).1]
      simp only [List.singleton_append, this, List.length_append, List.length_singleton,
        pow_succ]
      congr 1
      have := Nat.div_add_mod n 10
      nlinarith [this]

/-- Reading back a decimal numeral: `strtol` gives the number, or the largest
`long` when the number is larger. -/
theorem strtol_decimalDigits (n : Nat) :
    strtol (decimalDigits n) = min (n : Int) (2 ^ 63 - 1) := by
  obtain ⟨d, hd, t, ht⟩ := decimalDigits_head n
  obtain ⟨_, h2, h3, h4, _⟩ := digitValue_digitChar d hd
  have hv := strtolDigits_decimalDigits n [] 0
  simp only [List.append_nil, Nat.zero_mul, Nat.zero_add, strtolDigits] at hv
  unfold strtol
  have hdw : (decimalDigits n).dropWhile isspace = decimalDigits n := by
    rw [ht, List.dropWhile_cons_of_neg (by rw [h2]; simp)]
  simp only [hdw]
  rw [ht] at hv ⊢
  simp only [h3, h4, decide_False, or_self, if_false, hv, Bool.false_eq_true]

theorem substr_zero_length (a b : List Char) : substr (a ++ b) 0 a.length = a := by
  simp only [substr, List.drop_zero]
  exact List.take_left _ _

theorem substrFrom_length_succ (a : List Char) (c : Char) (b : List Char) :
    substrFrom (a ++ c :: b) (a.length + 1) = b := by
  have h1 : a ++ c :: b = (a ++ [c]) ++ b := by simp
  have h2 : a.length + 1 = (a ++ [c]).length := by simp
  rw [substrFrom, h1, h2]
  exact List.drop_left _ _

/-- The steps of `ParseNameIndex` on a string with two separators after the
last of which there is no other: the name is the text before the second to
last separator, the kind the text between the two, and the index is read from
the text after the last. -/
theorem ParseNameIndex_of_split (s : String) (name mid tail : List Char)
    (hs : s.data = name ++ ':' :: (mid ++ ':' :: tail)) (hmid : ':' ∉ mid) (htail : ':' ∉ tail)
    (node_name input_or_output : String) (index : Nat) :
    ParseNameIndex s node_name input_or_output index =
      (decide (String.mk mid = kDumpInput ∨ String.mk mid = kDumpOutput), String.mk name,
        String.mk mid, castToSizeT (strtol tail)) := by
  have hs' : s.data = (name ++ ':' :: mid) ++ ':' :: tail := by
    rw [hs]
    simp
  have h1 : rfind s.data ':' = some (name ++ ':' :: mid).length := by
    rw [hs']
    exact rfind_append htail _
  have h2 : substr s.data 0 (name ++ ':' :: mid).length = name ++ ':' :: mid := by
    rw [hs']
    exact substr_zero_length _ _
  have h3 : substrFrom s.data ((name ++ ':' :: mid).length + 1) = tail := by
    rw [hs']
    exact substrFrom_length_succ _ _ _
  have h4 : rfind (name ++ ':' :: mid) ':' = some name.length := rfind_append hmid _
  have h5 : substr (name ++ ':' :: mid) 0 name.length = name := substr_zero_length _ _
  have h6 : substrFrom (name ++ ':' :: mid) (name.length + 1) = mid :=
    substrFrom_length_succ _ _ _
  unfold ParseNameIndex
  simp only [h1, h2, h3, h4, h5, h6]
  congr 1
  by_cases ha : String.mk mid = kDumpInput
  · simp [ha]
  · by_cases hb : String.mk mid = kDumpOutput
    · simp [hb]
    · simp [ha, hb]

/-- C26: for every node name, also one that contains `:`, every kind among
`input` and `output` and every natural number `n` that fits a signed 64-bit
integer, `ParseNameIndex` on `name:kind:decimal(n)` returns true and yields
the name, the kind and `n`, whatever the reference parameters held before. -/
theorem C26_dump_ref_round_trip (name kind : String) (n : Nat)
    (hkind : kind = "input" ∨ kind = "output") (hn : n < 2 ^ 63)
    (node_name input_or_output : String) (index : Nat) :
    ParseNameIndex (name ++ ":" ++ kind ++ ":" ++ decimal n) node_name input_or_output index =
      (true, name, kind, n) := by
  have hdata : (name ++ ":" ++ kind ++ ":" ++ decimal n).data =
      name.data ++ ':' :: (kind.data ++ ':' :: decimalDigits n) := by
    simp only [String.data_append, decimal_data, List.append_assoc]
    rfl
  have hk : ':' ∉ kind.data := by
    rcases hkind with h | h <;> rw [h] <;> decide
  rw [ParseNameIndex_of_split _ name.data kind.data (decimalDigits n) hdata hk
    (decimalDigits_no_colon n)]
  have h1 : decide (String.mk kind.data = kDumpInput ∨ String.mk kind.data = kDumpOutput) =
      true := by
    rcases hkind with h | h <;> rw [h] <;> decide
  have h2 : castToSizeT (strtol (decimalDigits n)) = n := by
    rw [strtol_decimalDigits]
    have : min (n : Int) (2 ^ 63 - 1) = n := by
      apply min_eq_left
      have : (n : Int) < 2 ^ 63 := by exact_mod_cast hn
      omega
    rw [this]
    unfold castToSizeT
    have h64 : (n : Int) % 2 ^ 64 = n := by
      apply Int.emod_eq_of_lt (by omega)
      have : (n : Int) < 2 ^ 63 := by exact_mod_cast hn
      omega
    rw [h64]
    simp
  rw [h1, h2]

/-- Witness for C26: a name that itself contains the separator. -/
theorem C26_dump_ref_round_trip_witness :
    ParseNameIndex ("scope:conv" ++ ":" ++ "output" ++ ":" ++ decimal 12) "" "" 0 =
      (true, "scope:conv", "output", 12) :=
  C26_dump_ref_round_trip "scope:conv" "output" 12 (Or.inr rfl) (by decide) "" "" 0

/-- C27: `ParseNameIndex` returns true exactly on the strings with at least
two `:` separators in which the text between the last two separators is
`input` or `output`; a string with fewer than two separators or with another
middle segment is rejected. -/
theorem C27_parse_accepts_iff (s : String) (node_name input_or_output : String) (index : Nat) :
    (ParseNameIndex s node_name input_or_output index).1 = true ↔ wellFormedDumpRef s := by
  constructor
  · intro h
    unfold ParseNameIndex at h
    cases h1 : rfind s.data ':' with
    | none => rw [h1] at h; simp at h
    | some sep =>
      rw [h1] at h
      simp only at h
      obtain ⟨a, tail, ha, htail, hsep⟩ := rfind_eq_some h1
      have h2 : substr s.data 0 sep = a := by
        rw [ha, hsep]
        exact substr_zero_length _ _
      rw [h2] at h
      cases h3 : rfind a ':' with
      | none => rw [h3] at h; simp at h
      | some sep1 =>
        rw [h3] at h
        simp only at h
        obtain ⟨name, mid, hname, hmid, hsep1⟩ := rfind_eq_some h3
        have h4 : substrFrom a (sep1 + 1) = mid := by
          rw [hname, hsep1]
          exact substrFrom_length_succ _ _ _
        rw [h4] at h
        refine ⟨name, mid, tail, by rw [ha, hname]; simp, hmid, htail, ?_⟩
        have hio : String.mk mid = kDumpInput ∨ String.mk mid = kDumpOutput := by
          by_contra hne
          rw [not_or] at hne
          simp [hne.1, hne.2] at h
        rcases hio with e | e
        · left
          exact congrArg String.data e
        · right
          exact congrArg String.data e
  · rintro ⟨name, mid, tail, hs, hmid, htail, hio⟩
    rw [ParseNameIndex_of_split s name mid tail hs hmid htail]
    simp only [decide_eq_true_eq]
    rcases hio with e | e
    · left
      rw [e]
      rfl
    · right
      rw [e]
      rfl

/-- A string that `ParseNameIndex` accepts has kind `input` or `output`. -/
theorem ParseNameIndex_kind {s a b name kind : String} {c index : Nat}
    (h : ParseNameIndex s a b c = (true, name, kind, index)) :
    kind = kDumpInput ∨ kind = kDumpOutput := by
  unfold ParseNameIndex at h
  cases h1 : rfind s.data ':' with
  | none => rw [h1] at h; simp at h
  | some sep =>
    rw [h1] at h
    simp only at h
    cases h2 : rfind (substr s.data 0 sep) ':' with
    | none => rw [h2] at h; simp at h
    | some sep1 =>
      rw [h2] at h
      simp only [Prod.mk.injEq] at h
      obtain ⟨h3, _, h4, _⟩ := h
      rw [h4] at h3
      by_contra hne
      rw [not_or] at hne
      simp [hne.1, hne.2] at h3

theorem addr_input_slot (B index : Nat) :
    (B + kAddrLen * index % 2 ^ 64) % 2 ^ 64 = (B + kAddrLen * index) % 2 ^ 64 := by
  omega

/-- The loop that adds the dims to a shape appends their values converted to
unsigned 64 bits, in order. -/
theorem dump.foldl_add_dim (dims : List Int) :
    ∀ shape : List Nat,
      dims.foldl dump.add_dim shape = shape ++ dims.map dump.castToUInt64 := by
  induction dims with
  | nil => intro shape; simp
  | cons d dims ih =>
    intro shape
    simp only [List.foldl_cons, ih, List.map_cons, dump.add_dim, List.append_assoc,
      List.singleton_append]

theorem addr_output_slot (B index n : Nat) :
    (B + (index + n) % 2 ^ 64 * kAddrLen % 2 ^ 64) % 2 ^ 64 =
      (B + kAddrLen * (index + n)) % 2 ^ 64 := by
  rw [Nat.add_mod B, Nat.mod_mod, Nat.mod_mul_mod, ← Nat.add_mod, Nat.mul_comm]

/-- C28: for a dump reference that parses to a node of the compute graph whose
address `B` is recorded and not null, and that names a descriptor of that
node, `DumpRefOutput` and `DumpRefInput` succeed, provided the byte size of
the descriptor can be determined, and encode the address `B + W * index` for
an input and `B + W * (index + number of inputs of the referenced op)` for an
output, computed in 64 bits, which is that number itself when the slot lies
in the 64-bit address space; the data type, format and dimensions encoded are
those of that descriptor of the referenced op. -/
theorem C28_redirected_address (d : DataDumper) (node_name_index name kind : String)
    (index : Nat) (graph : List (Option OpDescPtr)) (replace_opdesc : OpDescPtr) (B : Nat)
    (desc : GeTensorDesc)
    (hparse : ParseNameIndex node_name_index "" "" 0 = (true, name, kind, index))
    (hgraph : d.compute_graph_ = some graph)
    (hnode : FindNode graph name = some (some replace_opdesc))
    (hrec : mapFind d.ref_info_ replace_opdesc.ptr = some B) (hB : B ≠ 0)
    (hdesc : (refDescs kind replace_opdesc)[index]? = some desc)
    (output : dump.Output) (input : dump.Input) :
    (∀ sz, desc.tensor_size_in_bytes = some sz →
      ∃ out, d.DumpRefOutput output node_name_index = some (.SUCCESS, out) ∧
        out.address =
          (B + kAddrLen * refSlot kind index replace_opdesc.inputs_desc.length) % 2 ^ 64 ∧
        (B + kAddrLen * refSlot kind index replace_opdesc.inputs_desc.length < 2 ^ 64 →
          out.address = B + kAddrLen * refSlot kind index replace_opdesc.inputs_desc.length) ∧
        out.data_type = GetIrDataType desc.data_type ∧ out.format = desc.format ∧
        out.shape = output.shape ++ desc.dims.map dump.castToUInt64 ∧ out.size = sz) ∧
    (∀ sz, inputSizeOf desc = some sz →
      ∃ inp, d.DumpRefInput input node_name_index = some (.SUCCESS, inp) ∧
        inp.address =
          (B + kAddrLen * refSlot kind index replace_opdesc.inputs_desc.length) % 2 ^ 64 ∧
        (B + kAddrLen * refSlot kind index replace_opdesc.inputs_desc.length < 2 ^ 64 →
          inp.address = B + kAddrLen * refSlot kind index replace_opdesc.inputs_desc.length) ∧
        inp.data_type = GetIrDataType desc.data_type ∧ inp.format = desc.format ∧
        inp.shape = input.shape ++ desc.dims.map dump.castToUInt64 ∧ inp.size = sz) := by
  have hkind := ParseNameIndex_kind hparse
  have hio : kDumpOutput ≠ kDumpInput := by decide
  constructor
  · intro sz hsz
    unfold DataDumper.DumpRefOutput
    simp only [hparse, hgraph, hnode, hrec, if_neg hB, Bool.true_eq_false, if_false]
    rcases hkind with hk | hk
    · subst hk
      simp only [refDescs, if_true] at hdesc
      simp only [if_true, DataDumper.GenerateOutput, hdesc, hsz, refSlot, addr_input_slot]
      exact ⟨_, rfl, rfl, fun hfit => Nat.mod_eq_of_lt hfit, rfl, rfl,
        dump.foldl_add_dim _ _, rfl⟩
    · subst hk
      simp only [refDescs, if_neg hio] at hdesc
      simp only [if_neg hio, if_true, DataDumper.GenerateOutput, hdesc, hsz, refSlot,
        addr_output_slot]
      exact ⟨_, rfl, rfl, fun hfit => Nat.mod_eq_of_lt hfit, rfl, rfl,
        dump.foldl_add_dim _ _, rfl⟩
  · intro sz hsz
    unfold inputSizeOf at hsz
    unfold DataDumper.DumpRefInput
    simp only [hparse, hgraph, hnode, hrec, if_neg hB, Bool.true_eq_false, if_false]
    rcases hkind with hk | hk
    · subst hk
      simp only [refDescs, if_true] at hdesc
      simp only [if_true, DataDumper.GenerateInput, hdesc, hsz, refSlot, addr_input_slot]
      exact ⟨_, rfl, rfl, fun hfit => Nat.mod_eq_of_lt hfit, rfl, rfl,
        dump.foldl_add_dim _ _, rfl⟩
    · subst hk
      simp only [refDescs, if_neg hio] at hdesc
      simp only [if_neg hio, if_true, DataDumper.GenerateInput, hdesc, hsz, refSlot,
        addr_output_slot]
      exact ⟨_, rfl, rfl, fun hfit => Nat.mod_eq_of_lt hfit, rfl, rfl,
        dump.foldl_add_dim _ _, rfl⟩

/-- Witness for C28: the input descriptor of `relu` refers to output 0 of
`conv`, which has two inputs and the recorded address 4096. -/
theorem C28_redirected_address_witness :
    ∃ inp, exampleDumper.DumpRefInput dump.Input.empty "conv:output:0" = some (.SUCCESS, inp) ∧
      inp.address = 4096 + 8 * (0 + 2) ∧ inp.data_type = .DT_FLOAT ∧ inp.shape = [2, 3] := by
  obtain ⟨inp, h1, _, h3, h4, _, h6, _⟩ :=
    (C28_redirected_address exampleDumper "conv:output:0" "conv" "output" 0
      [some exampleConv, some exampleRelu] exampleConv 4096 exampleTensorDesc
      (by decide) (by decide) (by decide) (by decide) (by decide) (by decide)
      dump.Output.empty dump.Input.empty).2 24 (by decide)
  exact ⟨inp, h1, h3 (by decide), h4, h6.trans (by decide)⟩

/-- C30: `DumpInput` and `DumpOutputWithTask` return PARAM_INVALID and leave
the task record as it was, with no input, output or buffer added, when the
number of tensor descriptors differs from the number of resolved addresses,
or when the memory type list is present with a length other than the number
of descriptors. -/
theorem C30_count_mismatch_rejected (d : DataDumper) (inner_dump_info : InnerDumpInfo)
    (task : dump.Task) :
    ((inner_dump_info.op.inputs_desc.length ≠
          (GetInputDataAddrs d.runtime_param_ inner_dump_info.op).length ∨
        ∃ v, inner_dump_info.op.input_mem_type_list = some v ∧
          v.length ≠ inner_dump_info.op.inputs_desc.length) →
      d.DumpInput inner_dump_info task = some (.PARAM_INVALID, task)) ∧
    ((inner_dump_info.op.outputs_desc.length ≠
          (GetOutputDataAddrs d.runtime_param_ inner_dump_info.op).length ∨
        ∃ v, inner_dump_info.op.output_mem_type_list = some v ∧
          v.length ≠ inner_dump_info.op.outputs_desc.length) →
      d.DumpOutputWithTask inner_dump_info task = some (.PARAM_INVALID, task)) := by
  constructor
  · intro h
    unfold DataDumper.DumpInput
    simp only
    by_cases h1 : inner_dump_info.op.inputs_desc.length ≠
        (GetInputDataAddrs d.runtime_param_ inner_dump_info.op).length
    · rw [if_pos h1]
    · rw [if_neg h1]
      rcases h with h | ⟨v, hv, hlen⟩
      · exact absurd h h1
      · rw [if_pos (by rw [hv]; exact ⟨rfl, hlen⟩)]
  · intro h
    unfold DataDumper.DumpOutputWithTask
    simp only
    by_cases h1 : inner_dump_info.op.outputs_desc.length ≠
        (GetOutputDataAddrs d.runtime_param_ inner_dump_info.op).length
    · rw [if_pos h1]
    · rw [if_neg h1]
      rcases h with h | ⟨v, hv, hlen⟩
      · exact absurd h h1
      · rw [if_pos (by rw [hv]; exact ⟨rfl, hlen⟩)]

/-- Witness for C30: `conv` has two input descriptors and one resolved input
address. -/
theorem C30_count_mismatch_rejected_witness :
    exampleConvInfo.op.inputs_desc.length = 2 ∧
    (GetInputDataAddrs exampleDumper.runtime_param_ exampleConvInfo.op).length = 1 ∧
    exampleDumper.DumpInput exampleConvInfo exampleTask = some (.PARAM_INVALID, exampleTask) :=
  ⟨by decide, by decide,
    (C30_count_mismatch_rejected exampleDumper exampleConvInfo exampleTask).1
      (Or.inl (by decide))⟩

theorem forEachO_status {α σ : Type} (f : α → σ → Option (Status × σ))
    (hf : ∀ x t r, f x t = some r → r.1 = .SUCCESS ∨ r.1 = .PARAM_INVALID) :
    ∀ (xs : List α) (s : σ) (r : Status × σ), forEachO f xs s = some r →
      r.1 = .SUCCESS ∨ r.1 = .PARAM_INVALID := by
  intro xs
  induction xs with
  | nil =>
    intro s r h
    simp only [forEachO, Option.some.injEq] at h
    rw [← h]
    exact Or.inl rfl
  | cons x xs ih =>
    intro s r h
    simp only [forEachO] at h
    cases hx : f x s with
    | none => rw [hx] at h; cases h
    | some r1 =>
      rw [hx] at h
      simp only at h
      by_cases h1 : r1.1 = .SUCCESS
      · rw [if_pos h1] at h
        exact ih _ _ h
      · rw [if_neg h1] at h
        simp only [Option.some.injEq] at h
        rw [← h]
        exact hf x s r1 hx

/-- A loop that ends with success has run every step with success. -/
theorem forEachO_success_all {α σ : Type} (f : α → σ → Option (Status × σ)) :
    ∀ (xs : List α) (s : σ) (r : Status × σ), forEachO f xs s = some r → r.1 = .SUCCESS →
      ∀ x ∈ xs, ∃ t r1, f x t = some r1 ∧ r1.1 = .SUCCESS := by
  intro xs
  induction xs with
  | nil => intro s r _ _ x hx; cases hx
  | cons y xs ih =>
    intro s r h hr x hx
    simp only [forEachO] at h
    cases hy : f y s with
    | none => rw [hy] at h; cases h
    | some r1 =>
      rw [hy] at h
      simp only at h
      by_cases h1 : r1.1 = .SUCCESS
      · rw [if_pos h1] at h
        rcases List.mem_cons.1 hx with e | e
        · exact ⟨s, r1, by rw [e]; exact hy, h1⟩
        · exact ih _ _ h hr x e
      · rw [if_neg h1] at h
        simp only [Option.some.injEq] at h
        rw [← h] at hr
        exact absurd hr h1

/-- A loop over a list with an element whose step never succeeds and leaves
the state as it was: the loop does not succeed, and the state it returns is
the state that the loop over the elements before returns. -/
theorem forEachO_of_failing_step {α σ : Type} (f : α → σ → Option (Status × σ)) (x : α)
    (hx : ∀ t r, f x t = some r → r.1 ≠ .SUCCESS ∧ r.2 = t) (post : List α) :
    ∀ (pre : List α) (s : σ) (r : Status × σ), forEachO f (pre ++ x :: post) s = some r →
      r.1 ≠ .SUCCESS ∧ ∃ r0, forEachO f pre s = some r0 ∧ r.2 = r0.2 := by
  intro pre
  induction pre with
  | nil =>
    intro s r h
    simp only [List.nil_append, forEachO] at h
    cases hfx : f x s with
    | none => rw [hfx] at h; cases h
    | some r1 =>
      rw [hfx] at h
      simp only at h
      obtain ⟨h1, h2⟩ := hx s r1 hfx
      rw [if_neg h1] at h
      simp only [Option.some.injEq] at h
      rw [← h]
      exact ⟨h1, (.SUCCESS, s), rfl, h2⟩
  | cons y pre ih =>
    intro s r h
    simp only [List.cons_append, forEachO] at h ⊢
    cases hy : f y s with
    | none => rw [hy] at h; cases h
    | some r1 =>
      rw [hy] at h
      simp only at h ⊢
      by_cases h1 : r1.1 = .SUCCESS
      · rw [if_pos h1] at h
        rw [if_pos h1]
        exact ih _ _ h
      · rw [if_neg h1] at h
        rw [if_neg h1]
        simp only [Option.some.injEq] at h
        rw [← h]
        exact ⟨h1, r1, rfl, rfl⟩

namespace DataDumper

theorem DumpRefOutput_bad (d : DataDumper) (s : String) (output : dump.Output)
    (h : d.badDumpRef s) : d.DumpRefOutput output s = some (.PARAM_INVALID, output) := by
  unfold DumpRefOutput
  simp only
  rcases h with h | ⟨graph, hg, hn⟩ | ⟨graph, rop, hg, hn, hr⟩
  · rw [if_pos h]
  · by_cases hp : (ParseNameIndex s "" "" 0).1 = false
    · rw [if_pos hp]
    · rw [if_neg hp]
      simp only [hg, hn]
  · by_cases hp : (ParseNameIndex s "" "" 0).1 = false
    · rw [if_pos hp]
    · rw [if_neg hp]
      simp only [hg, hn, hr]

theorem DumpRefInput_bad (d : DataDumper) (s : String) (input : dump.Input)
    (h : d.badDumpRef s) : d.DumpRefInput input s = some (.PARAM_INVALID, input) := by
  unfold DumpRefInput
  simp only
  rcases h with h | ⟨graph, hg, hn⟩ | ⟨graph, rop, hg, hn, hr⟩
  · rw [if_pos h]
  · by_cases hp : (ParseNameIndex s "" "" 0).1 = false
    · rw [if_pos hp]
    · rw [if_neg hp]
      simp only [hg, hn]
  · by_cases hp : (ParseNameIndex s "" "" 0).1 = false
    · rw [if_pos hp]
    · rw [if_neg hp]
      simp only [hg, hn, hr]

theorem GenerateOutput_status {output : dump.Output} {descs : List GeTensorDesc}
    {addr index : Nat} {r : Status × dump.Output}
    (h : GenerateOutput output descs addr index = some r) :
    r.1 = .SUCCESS ∨ r.1 = .PARAM_INVALID := by
  unfold GenerateOutput at h
  cases hd : descs[index]? with
  | none => rw [hd] at h; cases h
  | some desc =>
    rw [hd] at h
    simp only at h
    cases hs : desc.tensor_size_in_bytes with
    | none =>
      rw [hs] at h
      simp only [Option.some.injEq] at h
      rw [← h]
      exact Or.inr rfl
    | some v =>
      rw [hs] at h
      simp only [Option.some.injEq] at h
      rw [← h]
      exact Or.inl rfl

theorem GenerateInput_status {input : dump.Input} {descs : List GeTensorDesc}
    {addr index : Nat} {r : Status × dump.Input}
    (h : GenerateInput input descs addr index = some r) :
    r.1 = .SUCCESS ∨ r.1 = .PARAM_INVALID := by
  unfold GenerateInput at h
  cases hd : descs[index]? with
  | none => rw [hd] at h; cases h
  | some desc =>
    rw [hd] at h
    simp only at h
    split at h
    · simp only [Option.some.injEq] at h
      rw [← h]
      exact Or.inr rfl
    · simp only [Option.some.injEq] at h
      rw [← h]
      exact Or.inl rfl

theorem DumpRefOutput_status {d : DataDumper} {output : dump.Output} {s : String}
    {r : Status × dump.Output} (h : d.DumpRefOutput output s = some r) :
    r.1 = .SUCCESS ∨ r.1 = .PARAM_INVALID := by
  have hinv : ∀ {x : Option (Status × dump.Output)},
      x = some (Status.PARAM_INVALID, output) → x = some r → r.1 = .PARAM_INVALID := by
    intro x h1 h2
    rw [h1] at h2
    rw [← Option.some.inj h2]
  unfold DumpRefOutput at h
  simp only at h
  split at h
  · exact Or.inr (hinv rfl h)
  · split at h
    · exact Or.inr (hinv rfl h)
    · split at h
      · exact Or.inr (hinv rfl h)
      · exact Or.inr (hinv rfl h)
      · split at h
        · exact Or.inr (hinv rfl h)
        · split at h
          · exact Or.inr (hinv rfl h)
          · split at h
            · exact GenerateOutput_status h
            · split at h
              · exact GenerateOutput_status h
              · simp only [Option.some.injEq] at h
                rw [← h]
                exact Or.inl rfl

theorem DumpRefInput_status {d : DataDumper} {input : dump.Input} {s : String}
    {r : Status × dump.Input} (h : d.DumpRefInput input s = some r) :
    r.1 = .SUCCESS ∨ r.1 = .PARAM_INVALID := by
  have hinv : ∀ {x : Option (Status × dump.Input)},
      x = some (Status.PARAM_INVALID, input) → x = some r → r.1 = .PARAM_INVALID := by
    intro x h1 h2
    rw [h1] at h2
    rw [← Option.some.inj h2]
  unfold DumpRefInput at h
  simp only at h
  split at h
  · exact Or.inr (hinv rfl h)
  · split at h
    · exact Or.inr (hinv rfl h)
    · split at h
      · exact Or.inr (hinv rfl h)
      · exact Or.inr (hinv rfl h)
      · split at h
        · exact Or.inr (hinv rfl h)
        · split at h
          · exact Or.inr (hinv rfl h)
          · split at h
            · exact GenerateInput_status h
            · split at h
              · exact GenerateInput_status h
              · simp only [Option.some.injEq] at h
                rw [← h]
                exact Or.inl rfl

end DataDumper

namespace DataDumper

theorem DumpOutputWithTaskStep_status {d : DataDumper} {info : InnerDumpInfo} {has : Bool}
    {v : List Int} {i : Nat} {task : dump.Task} {r : Status × dump.Task}
    (h : d.DumpOutputWithTaskStep info has v i task = some r) :
    r.1 = .SUCCESS ∨ r.1 = .PARAM_INVALID := by
  unfold DumpOutputWithTaskStep at h
  simp only at h
  cases hd : info.op.outputs_desc[i]? with
  | none => rw [hd] at h; cases h
  | some desc =>
    rw [hd] at h
    simp only at h
    cases href : desc.data_dump_ref with
    | some s =>
      rw [href] at h
      simp only at h
      cases hr : d.DumpRefOutput dump.Output.empty s with
      | none => rw [hr] at h; cases h
      | some r1 =>
        rw [hr] at h
        simp only at h
        by_cases h1 : r1.1 = .SUCCESS
        · rw [if_neg (not_not.2 h1)] at h
          simp only [Option.some.injEq] at h
          rw [← h]
          exact Or.inl rfl
        · rw [if_pos h1] at h
          simp only [Option.some.injEq] at h
          rw [← h]
          exact (DumpRefOutput_status hr).resolve_left h1 |> Or.inr
    | none =>
      rw [href] at h
      simp only at h
      by_cases hl : IsTensorDescWithSkipDumpAddrType has v i = true
      · rw [if_pos hl] at h
        cases hs : desc.tensor_size_in_bytes with
        | none =>
          rw [hs] at h
          simp only [Option.some.injEq] at h
          rw [← h]
          exact Or.inr rfl
        | some sz =>
          rw [hs] at h
          simp only [Option.some.injEq] at h
          rw [← h]
          exact Or.inl rfl
      · rw [if_neg hl] at h
        cases hg : GenerateOutput dump.Output.empty info.op.outputs_desc
            ((info.args + (i + info.op.inputs_desc.length) % 2 ^ 64 * kAddrLen % 2 ^ 64) %
              2 ^ 64) i with
        | none => rw [hg] at h; cases h
        | some r1 =>
          rw [hg] at h
          simp only at h
          by_cases h1 : r1.1 = .SUCCESS
          · rw [if_neg (not_not.2 h1)] at h
            simp only [Option.some.injEq] at h
            rw [← h]
            exact Or.inl rfl
          · rw [if_pos h1] at h
            simp only [Option.some.injEq] at h
            rw [← h]
            exact (GenerateOutput_status hg).resolve_left h1 |> Or.inr

theorem DumpInputStep_status {d : DataDumper} {info : InnerDumpInfo} {has : Bool}
    {v : List Int} {i : Nat} {task : dump.Task} {r : Status × dump.Task}
    (h : d.DumpInputStep info has v i task = some r) :
    r.1 = .SUCCESS ∨ r.1 = .PARAM_INVALID := by
  unfold DumpInputStep at h
  simp only at h
  cases hd : info.op.inputs_desc[i]? with
  | none => rw [hd] at h; cases h
  | some desc =>
    rw [hd] at h
    simp only at h
    cases href : desc.data_dump_ref with
    | some s =>
      rw [href] at h
      simp only at h
      cases hr : d.DumpRefInput dump.Input.empty s with
      | none => rw [hr] at h; cases h
      | some r1 =>
        rw [hr] at h
        simp only at h
        by_cases h1 : r1.1 = .SUCCESS
        · rw [if_neg (not_not.2 h1)] at h
          simp only [Option.some.injEq] at h
          rw [← h]
          exact Or.inl rfl
        · rw [if_pos h1] at h
          simp only [Option.some.injEq] at h
          rw [← h]
          exact (DumpRefInput_status hr).resolve_left h1 |> Or.inr
    | none =>
      rw [href] at h
      simp only at h
      by_cases hl : IsTensorDescWithSkipDumpAddrType has v i = true
      · rw [if_pos hl] at h
        split at h
        · simp only [Option.some.injEq] at h
          rw [← h]
          exact Or.inr rfl
        · simp only [Option.some.injEq] at h
          rw [← h]
          exact Or.inl rfl
      · rw [if_neg hl] at h
        cases hg : GenerateInput dump.Input.empty info.op.inputs_desc
            ((info.args + kAddrLen * i % 2 ^ 64) % 2 ^ 64) i with
        | none => rw [hg] at h; cases h
        | some r1 =>
          rw [hg] at h
          simp only at h
          by_cases h1 : r1.1 = .SUCCESS
          · rw [if_neg (not_not.2 h1)] at h
            simp only [Option.some.injEq] at h
            rw [← h]
            exact Or.inl rfl
          · rw [if_pos h1] at h
            simp only [Option.some.injEq] at h
            rw [← h]
            exact (GenerateInput_status hg).resolve_left h1 |> Or.inr

/-- `DumpOutputWithTask` fails with no other status than PARAM_INVALID. -/
theorem DumpOutputWithTask_status {d : DataDumper} {info : InnerDumpInfo} {task : dump.Task}
    {r : Status × dump.Task} (h : d.DumpOutputWithTask info task = some r) :
    r.1 = .SUCCESS ∨ r.1 = .PARAM_INVALID := by
  unfold DumpOutputWithTask at h
  simp only at h
  split at h
  · simp only [Option.some.injEq] at h
    rw [← h]
    exact Or.inr rfl
  · split at h
    · simp only [Option.some.injEq] at h
      rw [← h]
      exact Or.inr rfl
    · exact forEachO_status _ (fun _ _ _ hs => DumpOutputWithTaskStep_status hs) _ _ _ h

/-- `DumpInput` fails with no other status than PARAM_INVALID. -/
theorem DumpInput_status {d : DataDumper} {info : InnerDumpInfo} {task : dump.Task}
    {r : Status × dump.Task} (h : d.DumpInput info task = some r) :
    r.1 = .SUCCESS ∨ r.1 = .PARAM_INVALID := by
  unfold DumpInput at h
  simp only at h
  split at h
  · simp only [Option.some.injEq] at h
    rw [← h]
    exact Or.inr rfl
  · split at h
    · simp only [Option.some.injEq] at h
      rw [← h]
      exact Or.inr rfl
    · exact forEachO_status _ (fun _ _ _ hs => DumpInputStep_status hs) _ _ _ h

/-- An output descriptor with a dump reference that cannot be followed makes
`DumpOutputWithTask` return PARAM_INVALID, if it returns. -/
theorem DumpOutputWithTask_bad {d : DataDumper} {info : InnerDumpInfo} {task : dump.Task}
    {desc : GeTensorDesc} {s : String} (hmem : desc ∈ info.op.outputs_desc)
    (href : desc.data_dump_ref = some s) (hbad : d.badDumpRef s)
    {r : Status × dump.Task} (h : d.DumpOutputWithTask info task = some r) :
    r.1 = .PARAM_INVALID := by
  rcases DumpOutputWithTask_status h with hs | hs
  · exfalso
    unfold DumpOutputWithTask at h
    simp only at h
    split at h
    · simp only [Option.some.injEq] at h
      rw [← h] at hs
      cases hs
    · split at h
      · simp only [Option.some.injEq] at h
        rw [← h] at hs
        cases hs
      · obtain ⟨j, hj, hdj⟩ := List.mem_iff_getElem.1 hmem
        obtain ⟨t, r1, hstep, hr1⟩ := forEachO_success_all _ _ _ _ h hs j (List.mem_range.2 hj)
        unfold DumpOutputWithTaskStep at hstep
        simp only [List.getElem?_eq_getElem hj, hdj, href, DumpRefOutput_bad d s _ hbad] at hstep
        simp only [ne_eq, reduceCtorEq, not_false_eq_true, if_true, Option.some.injEq] at hstep
        rw [← hstep] at hr1
        cases hr1
  · exact hs

/-- An input descriptor with a dump reference that cannot be followed makes
`DumpInput` return PARAM_INVALID, if it returns. -/
theorem DumpInput_bad {d : DataDumper} {info : InnerDumpInfo} {task : dump.Task}
    {desc : GeTensorDesc} {s : String} (hmem : desc ∈ info.op.inputs_desc)
    (href : desc.data_dump_ref = some s) (hbad : d.badDumpRef s)
    {r : Status × dump.Task} (h : d.DumpInput info task = some r) :
    r.1 = .PARAM_INVALID := by
  rcases DumpInput_status h with hs | hs
  · exfalso
    unfold DumpInput at h
    simp only at h
    split at h
    · simp only [Option.some.injEq] at h
      rw [← h] at hs
      cases hs
    · split at h
      · simp only [Option.some.injEq] at h
        rw [← h] at hs
        cases hs
      · obtain ⟨j, hj, hdj⟩ := List.mem_iff_getElem.1 hmem
        obtain ⟨t, r1, hstep, hr1⟩ := forEachO_success_all _ _ _ _ h hs j (List.mem_range.2 hj)
        unfold DumpInputStep at hstep
        simp only [List.getElem?_eq_getElem hj, hdj, href, DumpRefInput_bad d s _ hbad] at hstep
        simp only [ne_eq, reduceCtorEq, not_false_eq_true, if_true, Option.some.injEq] at hstep
        rw [← hstep] at hr1
        cases hr1
  · exact hs

end DataDumper

/-- The record of an op with a task is not added by `BuildTaskInfo` when a
dump function that the mode calls meets a dump reference that cannot be
followed: the step returns PARAM_INVALID and the message as it was, if it
returns. -/
theorem BuildTaskInfoStep_bad {d : DataDumper} {op_iter : InnerDumpInfo}
    (htask : op_iter.is_task = true)
    (hbad : (d.runsDumpOutput ∧ ∃ desc ∈ op_iter.op.outputs_desc, ∃ s,
        desc.data_dump_ref = some s ∧ d.badDumpRef s) ∨
      (d.runsDumpInput ∧ ∃ desc ∈ op_iter.op.inputs_desc, ∃ s,
        desc.data_dump_ref = some s ∧ d.badDumpRef s))
    (m : dump.OpMappingInfo) (r : Status × dump.OpMappingInfo)
    (h : d.BuildTaskInfoStep op_iter m = some r) : r = (.PARAM_INVALID, m) := by
  have hne : Status.PARAM_INVALID ≠ Status.SUCCESS := by decide
  -- the two calls
  have hout : ∀ (task : dump.Task) (r1 : Status × dump.Task),
      d.DumpOutput op_iter task = some r1 → r1.1 = .SUCCESS ∨ r1.1 = .PARAM_INVALID := by
    intro task r1 h1
    unfold DataDumper.DumpOutput at h1
    rw [if_pos htask] at h1
    exact DataDumper.DumpOutputWithTask_status h1
  have houtbad : (∃ desc ∈ op_iter.op.outputs_desc, ∃ s,
      desc.data_dump_ref = some s ∧ d.badDumpRef s) →
      ∀ (task : dump.Task) (r1 : Status × dump.Task),
        d.DumpOutput op_iter task = some r1 → r1.1 = .PARAM_INVALID := by
    rintro ⟨desc, hmem, s, href, hb⟩ task r1 h1
    unfold DataDumper.DumpOutput at h1
    rw [if_pos htask] at h1
    exact DataDumper.DumpOutputWithTask_bad hmem href hb h1
  have hinbad : (∃ desc ∈ op_iter.op.inputs_desc, ∃ s,
      desc.data_dump_ref = some s ∧ d.badDumpRef s) →
      ∀ (task : dump.Task) (r1 : Status × dump.Task),
        d.DumpInput op_iter task = some r1 → r1.1 = .PARAM_INVALID := by
    rintro ⟨desc, hmem, s, href, hb⟩ task r1 h1
    exact DataDumper.DumpInput_bad hmem href hb h1
  have hfail : ∀ {st : Status}, st = .PARAM_INVALID →
      (if st ≠ .SUCCESS then some (st, m) else (none : Option (Status × dump.OpMappingInfo))) =
        some r → r = (.PARAM_INVALID, m) := by
    intro st hst hr
    rw [hst, if_pos hne] at hr
    exact (Option.some.inj hr).symm
  unfold DataDumper.BuildTaskInfoStep at h
  simp only at h
  by_cases hmo : d.dump_mode = kDumpOutput
  · rw [if_pos hmo] at h
    have hb : ∃ desc ∈ op_iter.op.outputs_desc, ∃ s,
        desc.data_dump_ref = some s ∧ d.badDumpRef s := by
      rcases hbad with ⟨_, hb⟩ | ⟨hrun, _⟩
      · exact hb
      · exact absurd hmo hrun.1
    cases h1 : d.DumpOutput op_iter
        { end_graph := false, task_id := op_iter.task_id, stream_id := op_iter.stream_id,
          op_name := op_iter.op.name, op_type := op_iter.op.type, output := [], input := [],
          buffer := [] } with
    | none => rw [h1] at h; cases h
    | some r1 =>
      rw [h1] at h
      simp only at h
      have hs := houtbad hb _ _ h1
      rw [hs, if_pos hne] at h
      exact (Option.some.inj h).symm
  · rw [if_neg hmo] at h
    by_cases hmi : d.dump_mode = kDumpInput
    · rw [if_pos hmi, if_pos htask] at h
      have hb : ∃ desc ∈ op_iter.op.inputs_desc, ∃ s,
          desc.data_dump_ref = some s ∧ d.badDumpRef s := by
        rcases hbad with ⟨hrun, _⟩ | ⟨_, hb⟩
        · rcases hrun with h0 | h0
          · exact absurd h0 hmo
          · exact absurd hmi h0.1
        · exact hb
      cases h1 : d.DumpInput op_iter
          { end_graph := false, task_id := op_iter.task_id, stream_id := op_iter.stream_id,
            op_name := op_iter.op.name, op_type := op_iter.op.type, output := [], input := [],
            buffer := [] } with
      | none => rw [h1] at h; cases h
      | some r1 =>
        rw [h1] at h
        simp only at h
        have hs := hinbad hb _ _ h1
        rw [hs, if_pos hne] at h
        exact (Option.some.inj h).symm
    · rw [if_neg hmi] at h
      have hall : d.dump_mode = kDumpAll ∨ d.is_op_debug_ = true := by
        rcases hbad with ⟨hrun, _⟩ | ⟨hrun, _⟩
        · rcases hrun with h0 | h0
          · exact absurd h0 hmo
          · exact h0.2
        · rcases hrun.2 with h0 | h0 | h0
          · exact absurd h0 hmi
          · exact Or.inl h0
          · exact Or.inr h0
      rw [if_pos hall] at h
      cases h1 : d.DumpOutput op_iter
          { end_graph := false, task_id := op_iter.task_id, stream_id := op_iter.stream_id,
            op_name := op_iter.op.name, op_type := op_iter.op.type, output := [], input := [],
            buffer := [] } with
      | none => rw [h1] at h; cases h
      | some r1 =>
        rw [h1] at h
        simp only at h
        by_cases hs1 : r1.1 = .SUCCESS
        · rw [if_neg (not_not.2 hs1), if_pos htask] at h
          have hb : ∃ desc ∈ op_iter.op.inputs_desc, ∃ s,
              desc.data_dump_ref = some s ∧ d.badDumpRef s := by
            rcases hbad with ⟨_, hb⟩ | ⟨_, hb⟩
            · have := houtbad hb _ _ h1
              rw [hs1] at this
              cases this
            · exact hb
          cases h2 : d.DumpInput op_iter r1.2 with
          | none => rw [h2] at h; cases h
          | some r2 =>
            rw [h2] at h
            simp only at h
            have hs := hinbad hb _ _ h2
            rw [hs, if_pos hne] at h
            exact (Option.some.inj h).symm
        · rw [if_pos hs1] at h
          have hs := (hout _ _ h1).resolve_left hs1
          rw [hs] at h
          exact (Option.some.inj h).symm

/-- C29: `DumpRefOutput` and `DumpRefInput` return PARAM_INVALID, leaving the
message they were given as it was, whenever the dump reference does not parse,
names a node that is not in the compute graph, or names a node whose address
is not in the ref-address table. When a descriptor of an op with a task
carries such a reference and the dump mode makes `BuildTaskInfo` call the dump
function for that kind of descriptor, the step for the op returns
PARAM_INVALID with the op-mapping message as it was, and `BuildTaskInfo` does
not return success and returns the message reached after the ops before this
one: the record of the op is not added. -/
theorem C29_redirection_failures (d : DataDumper) :
    (∀ (s : String) (output : dump.Output), d.badDumpRef s →
      d.DumpRefOutput output s = some (.PARAM_INVALID, output)) ∧
    (∀ (s : String) (input : dump.Input), d.badDumpRef s →
      d.DumpRefInput input s = some (.PARAM_INVALID, input)) ∧
    (∀ (pre post : List InnerDumpInfo) (op_iter : InnerDumpInfo) (m : dump.OpMappingInfo),
      d.op_list_ = pre ++ op_iter :: post → op_iter.is_task = true →
      ((d.runsDumpOutput ∧ ∃ desc ∈ op_iter.op.outputs_desc, ∃ s,
          desc.data_dump_ref = some s ∧ d.badDumpRef s) ∨
        (d.runsDumpInput ∧ ∃ desc ∈ op_iter.op.inputs_desc, ∃ s,
          desc.data_dump_ref = some s ∧ d.badDumpRef s)) →
      (∀ m1 r, d.BuildTaskInfoStep op_iter m1 = some r → r = (.PARAM_INVALID, m1)) ∧
      (∀ r, d.BuildTaskInfo m = some r →
        r.1 ≠ .SUCCESS ∧ ∃ r0, forEachO d.BuildTaskInfoStep pre m = some r0 ∧ r.2 = r0.2)) := by
  refine ⟨fun s output h => DataDumper.DumpRefOutput_bad d s output h,
    fun s input h => DataDumper.DumpRefInput_bad d s input h, ?_⟩
  intro pre post op_iter m hlist htask hbad
  have hstep := fun m1 r => BuildTaskInfoStep_bad htask hbad m1 r
  refine ⟨hstep, ?_⟩
  intro r hr
  unfold DataDumper.BuildTaskInfo at hr
  rw [hlist] at hr
  refine forEachO_of_failing_step d.BuildTaskInfoStep op_iter ?_ post pre m r hr
  intro t r1 h1
  have := hstep t r1 h1
  rw [this]
  exact ⟨fun h => Status.noConfusion h, rfl⟩

/-- Witness for C29: the output descriptor of `relu` refers to a node `gone`
that is not in the graph; in mode `all` the record of `relu` is not added. -/
theorem C29_redirection_failures_witness :
    exampleDumper.DumpRefOutput dump.Output.empty "gone:output:0" =
      some (.PARAM_INVALID, dump.Output.empty) ∧
    exampleDumper.BuildTaskInfo ⟨[]⟩ = some (.PARAM_INVALID, ⟨[]⟩) ∧
    ∀ r, exampleDumper.BuildTaskInfoStep exampleReluInfo ⟨[]⟩ = some r →
      r = (.PARAM_INVALID, ⟨[]⟩) :=
  ⟨(C29_redirection_failures exampleDumper).1 "gone:output:0" dump.Output.empty
      (Or.inr (Or.inl ⟨[some exampleConv, some exampleRelu], by decide, by decide⟩)),
    by decide,
    ((C29_redirection_failures exampleDumper).2.2 [] [] exampleReluInfo ⟨[]⟩ (by decide)
      (by decide)
      (Or.inl ⟨Or.inr ⟨by decide, Or.inl (by decide)⟩,
        ⟨_, List.mem_singleton.2 rfl, "gone:output:0", rfl,
          Or.inr (Or.inl ⟨[some exampleConv, some exampleRelu], by decide, by decide⟩)⟩⟩)).1
      ⟨[]⟩⟩

/-! ## Completion codes and dispatch in the hybrid executor -/

/-- C34: for every completion code `c` in the range of a 32-bit signed value,
`Synchronize` returns EndOfSequence when `c` is 0x0704000a or 507005, success
when `c` is 0, 0x0704000e or 507024, and the failure status for every other
`c`; the end of sequence flag is set exactly in the first case. -/
theorem C34_completion_code_translation (ctx : hybrid.GraphExecutionContext) (c : Int)
    (hc : -2 ^ 31 ≤ c ∧ c < 2 ^ 31) :
    (ctx.Synchronize c).1 = hybrid.translateSpec c ∧
    ((ctx.Synchronize c).1 = .END_OF_SEQUENCE ↔ c = 0x0704000a ∨ c = 507005) ∧
    ((ctx.Synchronize c).1 = .SUCCESS ↔ c = 0 ∨ c = 0x0704000e ∨ c = 507024) ∧
    ((ctx.Synchronize c).1 = .RT_FAILED ↔
      ¬ (c = 0x0704000a ∨ c = 507005 ∨ c = 0 ∨ c = 0x0704000e ∨ c = 507024)) ∧
    (ctx.Synchronize c).2 =
      (if c = 0x0704000a ∨ c = 507005 then { ctx with is_eos_ := true } else ctx) := by
  obtain ⟨h1, h2⟩ := hc
  have h1 : -2147483648 ≤ c := by norm_num at h1; exact h1
  have h2 : c < 2147483648 := by norm_num at h2; exact h2
  have hu : hybrid.toUInt32 c = if 0 ≤ c then c else c + 4294967296 := by
    unfold hybrid.toUInt32
    split
    · norm_num; omega
    · norm_num; omega
  unfold hybrid.GraphExecutionContext.Synchronize hybrid.translateSpec
  simp only [hu, RT_ERROR_NONE, hybrid.kEndOfSequence, hybrid.kEndOfSequenceNew,
    hybrid.kModelAbortNormal, hybrid.kModelAbortNormalNew]
  by_cases e0 : c = 0
  · subst e0; simp
  by_cases e1 : c = 0x0704000a
  · subst e1; simp
  by_cases e2 : c = 507005
  · subst e2; simp
  by_cases e3 : c = 0x0704000e
  · subst e3; simp
  by_cases e4 : c = 507024
  · subst e4; simp
  have n1 : ¬ ((if 0 ≤ c then c else c + 4294967296) = 0x0704000a ∨
      (if 0 ≤ c then c else c + 4294967296) = 507005) := by
    split <;> omega
  simp only [e0, e1, e2, e3, e4, n1, if_false, or_self, not_false_eq_true, iff_true, iff_false,
    reduceCtorEq, true_and, not_true_eq_false, and_self]

/-- Witness for C34 at the newer end of sequence code. -/
theorem C34_completion_code_translation_witness :
    ((⟨false⟩ : hybrid.GraphExecutionContext).Synchronize 507005).1 = .END_OF_SEQUENCE :=
  ((C34_completion_code_translation ⟨false⟩ 507005 (by decide)).2.1).2 (Or.inr rfl)

/-- C35 as stated fails: for a node of type Identity whose task object cannot
be allocated `LoadTask` returns PARAM_INVALID, not success, and leaves a null
task. -/
theorem C35_counterexample :
    hybrid.RtsNodeExecutor.LoadTask IDENTITY false none = (.PARAM_INVALID, none) ∧
    (IDENTITY = IDENTITY ∨ IDENTITY = hybrid.IDENTITYN) ∧
    ¬ ((hybrid.RtsNodeExecutor.LoadTask IDENTITY false none).1 = .SUCCESS ↔
      (IDENTITY = IDENTITY ∨ IDENTITY = hybrid.IDENTITYN)) := by
  decide

/-- C35, amended: `LoadTask` returns success exactly when the op type is
Identity or IdentityN and the task object could be allocated, and the task is
then an Identity task, respectively an IdentityN task. For every other op type
it returns INTERNAL_ERROR and leaves the task parameter as it was; for one of
the two types without memory for the object it returns PARAM_INVALID and the
task is null. -/
theorem C35_dispatch_closed_set (op_type : String) (allocated : Bool)
    (task : Option hybrid.NodeTask) :
    ((hybrid.RtsNodeExecutor.LoadTask op_type allocated task).1 = .SUCCESS ↔
      (op_type = IDENTITY ∨ op_type = hybrid.IDENTITYN) ∧ allocated = true) ∧
    (op_type = IDENTITY → allocated = true →
      hybrid.RtsNodeExecutor.LoadTask op_type allocated task =
        (.SUCCESS, some .IdentityNodeTask)) ∧
    (op_type = hybrid.IDENTITYN → allocated = true →
      hybrid.RtsNodeExecutor.LoadTask op_type allocated task =
        (.SUCCESS, some .IdentityNNodeTask)) ∧
    (¬ (op_type = IDENTITY ∨ op_type = hybrid.IDENTITYN) →
      hybrid.RtsNodeExecutor.LoadTask op_type allocated task = (.INTERNAL_ERROR, task)) ∧
    ((op_type = IDENTITY ∨ op_type = hybrid.IDENTITYN) → allocated = false →
      hybrid.RtsNodeExecutor.LoadTask op_type allocated task = (.PARAM_INVALID, none)) := by
  have hne : IDENTITY ≠ hybrid.IDENTITYN := by decide
  unfold hybrid.RtsNodeExecutor.LoadTask hybrid.MakeShared
  by_cases h1 : op_type = IDENTITY
  · subst h1
    cases allocated <;> simp [hne]
  · by_cases h2 : op_type = hybrid.IDENTITYN
    · subst h2
      cases allocated <;> simp [h1]
    · simp [h1, h2]

/-! ## Shape ranges of the single op parser -/

namespace SingleOpParser

theorem negativeDims_cons (d : Int) (ds : List Int) :
    negativeDims (d :: ds) = (if d < 0 then 1 else 0) + negativeDims ds := by
  unfold negativeDims
  by_cases h : d < 0
  · simp [h]; omega
  · simp [h]

theorem negativeDims_nil : negativeDims [] = 0 := rfl

theorem rangesFrom_length (dim_ranges : List (List Int)) :
    ∀ (rest : List Int) (k : Nat), (rangesFrom dim_ranges rest k).length = rest.length := by
  intro rest
  induction rest with
  | nil => intro k; rfl
  | cons d ds ih =>
    intro k
    unfold rangesFrom
    split <;> simp [ih]

/-- What the loop computes: it succeeds exactly when there are enough ranges
for the negative dims that are left and each of those ranges has two items,
and then it has used one range per negative dim and added `rangesFrom`. -/
theorem SetShapeRangeLoop_eq (dim_ranges : List (List Int)) :
    ∀ (rest : List Int) (k : Nat) (acc : List (Int × Int)), k ≤ dim_ranges.length →
      SetShapeRangeLoop dim_ranges rest k acc =
        if k + negativeDims rest ≤ dim_ranges.length ∧
            ∀ j, k ≤ j → j < k + negativeDims rest → (dim_ranges.getD j []).length = 2 then
          .ok (k + negativeDims rest, acc ++ rangesFrom dim_ranges rest k)
        else .error .PARAM_INVALID := by
  intro rest
  induction rest with
  | nil =>
    intro k acc hk0
    have hc : k + 0 ≤ dim_ranges.length ∧
        ∀ j, k ≤ j → j < k + 0 → (dim_ranges.getD j []).length = 2 :=
      ⟨hk0, fun j h1 h2 => by omega⟩
    rw [SetShapeRangeLoop, negativeDims_nil, if_pos hc, rangesFrom, List.append_nil]
    rfl
  | cons d ds ih =>
    intro k acc hk0
    unfold SetShapeRangeLoop
    rw [negativeDims_cons]
    by_cases hd : d ≥ 0
    · have hd' : ¬ d < 0 := by omega
      rw [if_pos hd, ih _ _ hk0, if_neg hd']
      simp only [Nat.zero_add]
      have hr : rangesFrom dim_ranges (d :: ds) k = (d, d) :: rangesFrom dim_ranges ds k := by
        rw [rangesFrom, if_pos hd]
      rw [hr]
      simp only [List.append_assoc, List.singleton_append]
    · have hd' : d < 0 := by omega
      rw [if_neg hd, if_pos hd']
      have hr : rangesFrom dim_ranges (d :: ds) k =
          ((dim_ranges.getD k []).getD 0 0, (dim_ranges.getD k []).getD 1 0) ::
            rangesFrom dim_ranges ds (k + 1) := by
        rw [rangesFrom, if_neg hd]
      by_cases hk : k ≥ dim_ranges.length
      · rw [if_pos hk, if_neg]
        intro h
        omega
      · rw [if_neg hk]
        simp only [kShapeRangePairSize, kShapeRangeLow, kShapeRangeHigh]
        by_cases hlen : (dim_ranges.getD k []).length ≠ 2
        · rw [if_pos hlen, if_neg]
          intro h
          exact hlen (h.2 k (le_refl _) (by omega))
        · rw [if_neg hlen, ih _ _ (by omega), hr]
          have hlen' : (dim_ranges.getD k []).length = 2 := by
            by_contra hc
            exact hlen hc
          have hiff : (k + 1 + negativeDims ds ≤ dim_ranges.length ∧
              ∀ j, k + 1 ≤ j → j < k + 1 + negativeDims ds → (dim_ranges.getD j []).length = 2) ↔
              (k + (1 + negativeDims ds) ≤ dim_ranges.length ∧
              ∀ j, k ≤ j → j < k + (1 + negativeDims ds) →
                (dim_ranges.getD j []).length = 2) := by
            constructor
            · rintro ⟨h1, h2⟩
              refine ⟨by omega, ?_⟩
              intro j hj1 hj2
              by_cases hjk : j = k
              · rw [hjk]; exact hlen'
              · exact h2 j (by omega) (by omega)
            · rintro ⟨h1, h2⟩
              exact ⟨by omega, fun j hj1 hj2 => h2 j (by omega) (by omega)⟩
          by_cases hc : k + 1 + negativeDims ds ≤ dim_ranges.length ∧
              ∀ j, k + 1 ≤ j → j < k + 1 + negativeDims ds → (dim_ranges.getD j []).length = 2
          · rw [if_pos hc, if_pos (hiff.1 hc)]
            simp only [List.append_assoc, List.singleton_append]
            congr 2
            omega
          · rw [if_neg hc, if_neg (fun h => hc (hiff.2 h))]

/-- The pairs that the loop adds, dim by dim. -/
theorem rangesFrom_getElem (dim_ranges : List (List Int)) :
    ∀ (rest : List Int) (k i : Nat) (d : Int), rest[i]? = some d →
      (0 ≤ d → (rangesFrom dim_ranges rest k)[i]? = some (d, d)) ∧
      (d < 0 → (rangesFrom dim_ranges rest k)[i]? =
        some ((dim_ranges.getD (k + negativeDims (rest.take i)) []).getD 0 0,
          (dim_ranges.getD (k + negativeDims (rest.take i)) []).getD 1 0)) := by
  intro rest
  induction rest with
  | nil => intro k i d h; simp at h
  | cons x xs ih =>
    intro k i d h
    cases i with
    | zero =>
      simp only [List.getElem?_cons_zero, Option.some.injEq] at h
      subst h
      unfold rangesFrom
      constructor
      · intro hx
        rw [if_pos hx]
        exact List.getElem?_cons_zero
      · intro hx
        rw [if_neg (by omega)]
        simp [negativeDims_nil]
    | succ i =>
      simp only [List.getElem?_cons_succ] at h
      have hi := ih
      unfold rangesFrom
      by_cases hx : x ≥ 0
      · rw [if_pos hx]
        simp only [List.getElem?_cons_succ, List.take_succ_cons]
        rw [negativeDims_cons, if_neg (by omega), Nat.zero_add]
        exact ih k i d h
      · rw [if_neg hx]
        simp only [List.getElem?_cons_succ, List.take_succ_cons]
        rw [negativeDims_cons, if_pos (by omega)]
        have := ih (k + 1) i d h
        rw [show k + (1 + negativeDims (List.take i xs)) = k + 1 + negativeDims (List.take i xs)
          by omega]
        exact this

theorem negativeDims_take_lt {dims : List Int} {i : Nat} {d : Int} (h : dims[i]? = some d)
    (hd : d < 0) : negativeDims (dims.take i) < negativeDims dims := by
  induction dims generalizing i with
  | nil => simp at h
  | cons x xs ih =>
    cases i with
    | zero =>
      simp only [List.getElem?_cons_zero, Option.some.injEq] at h
      subst h
      rw [List.take_zero, negativeDims_nil, negativeDims_cons, if_pos hd]
      omega
    | succ i =>
      simp only [List.getElem?_cons_succ] at h
      rw [List.take_succ_cons, negativeDims_cons, negativeDims_cons]
      have := ih h
      omega

theorem pair_of_length_two (r : List Int) (h : r.length = 2) : r = [r.getD 0 0, r.getD 1 0] := by
  match r, h with
  | [a, b], _ => rfl

end SingleOpParser

/-- C40: for dims without the unknown rank marker `SetShapeRange` succeeds
exactly when the number of supplied ranges is the number of negative dims and
every supplied range has two items. On success with a negative dim the range
list set on the descriptor has one pair per dim, `(d, d)` for a dim `d` that
is not negative and the low and high item of the k-th supplied range for the
k-th negative dim; on success without a negative dim, and on every failure,
the descriptor is left as it was. For dims with the marker it succeeds
exactly when the dims are the one dim of the unknown rank shape and no range
is supplied, and it leaves the descriptor as it was. -/
theorem C40_shape_range_validation (tensor_desc : SingleOpParser.SingleOpTensorDesc)
    (ge_tensor_desc : Option (List (Int × Int))) :
    (SingleOpParser.UNKNOWN_DIM_NUM ∉ tensor_desc.dims →
      ((SingleOpParser.SetShapeRange tensor_desc ge_tensor_desc).1 = .SUCCESS ↔
        tensor_desc.dim_ranges.length = SingleOpParser.negativeDims tensor_desc.dims ∧
          ∀ r ∈ tensor_desc.dim_ranges, r.length = 2) ∧
      ((SingleOpParser.SetShapeRange tensor_desc ge_tensor_desc).1 = .SUCCESS →
        0 < SingleOpParser.negativeDims tensor_desc.dims →
        ∃ shape_range,
          (SingleOpParser.SetShapeRange tensor_desc ge_tensor_desc).2 = some shape_range ∧
          SingleOpParser.isRangeListOf tensor_desc shape_range) ∧
      ((SingleOpParser.SetShapeRange tensor_desc ge_tensor_desc).1 = .SUCCESS →
        SingleOpParser.negativeDims tensor_desc.dims = 0 →
        (SingleOpParser.SetShapeRange tensor_desc ge_tensor_desc).2 = ge_tensor_desc) ∧
      ((SingleOpParser.SetShapeRange tensor_desc ge_tensor_desc).1 ≠ .SUCCESS →
        SingleOpParser.SetShapeRange tensor_desc ge_tensor_desc =
          (.PARAM_INVALID, ge_tensor_desc))) ∧
    (SingleOpParser.UNKNOWN_DIM_NUM ∈ tensor_desc.dims →
      ((SingleOpParser.SetShapeRange tensor_desc ge_tensor_desc).1 = .SUCCESS ↔
        tensor_desc.dims = SingleOpParser.UNKNOWN_RANK ∧ tensor_desc.dim_ranges = []) ∧
      (SingleOpParser.SetShapeRange tensor_desc ge_tensor_desc).2 = ge_tensor_desc ∧
      ((SingleOpParser.SetShapeRange tensor_desc ge_tensor_desc).1 ≠ .SUCCESS →
        (SingleOpParser.SetShapeRange tensor_desc ge_tensor_desc).1 = .PARAM_INVALID)) := by
  constructor
  · intro hno
    have hrun : SingleOpParser.SetShapeRange tensor_desc ge_tensor_desc =
        if tensor_desc.dim_ranges.length = SingleOpParser.negativeDims tensor_desc.dims ∧
            ∀ j, j < SingleOpParser.negativeDims tensor_desc.dims →
              (tensor_desc.dim_ranges.getD j []).length = 2 then
          if SingleOpParser.negativeDims tensor_desc.dims > 0 then
            (.SUCCESS, some (SingleOpParser.rangesFrom tensor_desc.dim_ranges tensor_desc.dims 0))
          else (.SUCCESS, ge_tensor_desc)
        else (.PARAM_INVALID, ge_tensor_desc) := by
      unfold SingleOpParser.SetShapeRange
      rw [if_neg hno, SingleOpParser.SetShapeRangeLoop_eq _ _ _ _ (Nat.zero_le _)]
      simp only [Nat.zero_add, Nat.zero_le, true_implies, List.nil_append]
      by_cases hc : SingleOpParser.negativeDims tensor_desc.dims ≤ tensor_desc.dim_ranges.length ∧
          ∀ j, j < SingleOpParser.negativeDims tensor_desc.dims →
            (tensor_desc.dim_ranges.getD j []).length = 2
      · rw [if_pos hc]
        simp only
        by_cases he : tensor_desc.dim_ranges.length = SingleOpParser.negativeDims tensor_desc.dims
        · have hc2 : tensor_desc.dim_ranges.length =
              SingleOpParser.negativeDims tensor_desc.dims ∧
              ∀ j, j < SingleOpParser.negativeDims tensor_desc.dims →
                (tensor_desc.dim_ranges.getD j []).length = 2 := ⟨he, hc.2⟩
          rw [if_neg (not_not.2 he)]
          simp only [if_pos hc2]
        · have hc2 : ¬ (tensor_desc.dim_ranges.length =
              SingleOpParser.negativeDims tensor_desc.dims ∧
              ∀ j, j < SingleOpParser.negativeDims tensor_desc.dims →
                (tensor_desc.dim_ranges.getD j []).length = 2) := fun h => he h.1
          rw [if_pos he]
          simp only [if_neg hc2]
      · have hc2 : ¬ (tensor_desc.dim_ranges.length =
            SingleOpParser.negativeDims tensor_desc.dims ∧
            ∀ j, j < SingleOpParser.negativeDims tensor_desc.dims →
              (tensor_desc.dim_ranges.getD j []).length = 2) :=
          fun h => hc ⟨by omega, h.2⟩
        rw [if_neg hc]
        simp only [if_neg hc2]
    have hall : (tensor_desc.dim_ranges.length = SingleOpParser.negativeDims tensor_desc.dims ∧
        ∀ j, j < SingleOpParser.negativeDims tensor_desc.dims →
          (tensor_desc.dim_ranges.getD j []).length = 2) ↔
        (tensor_desc.dim_ranges.length = SingleOpParser.negativeDims tensor_desc.dims ∧
          ∀ r ∈ tensor_desc.dim_ranges, r.length = 2) := by
      constructor
      · rintro ⟨h1, h2⟩
        refine ⟨h1, ?_⟩
        intro r hr
        obtain ⟨j, hj, hjr⟩ := List.getElem_of_mem hr
        have := h2 j (by omega)
        rw [List.getD_eq_getElem _ _ hj, hjr] at this
        exact this
      · rintro ⟨h1, h2⟩
        refine ⟨h1, ?_⟩
        intro j hj
        have hj' : j < tensor_desc.dim_ranges.length := by omega
        rw [List.getD_eq_getElem _ _ hj']
        exact h2 _ (List.getElem_mem _)
    by_cases hc : tensor_desc.dim_ranges.length = SingleOpParser.negativeDims tensor_desc.dims ∧
        ∀ j, j < SingleOpParser.negativeDims tensor_desc.dims →
          (tensor_desc.dim_ranges.getD j []).length = 2
    · rw [if_pos hc] at hrun
      by_cases hpos : SingleOpParser.negativeDims tensor_desc.dims > 0
      · rw [if_pos hpos] at hrun
        rw [hrun]
        refine ⟨⟨fun _ => hall.1 hc, fun _ => rfl⟩, ?_, ?_, ?_⟩
        · intro _ _
          refine ⟨_, rfl, SingleOpParser.rangesFrom_length _ _ _, ?_⟩
          intro i d hid
          have hget := SingleOpParser.rangesFrom_getElem tensor_desc.dim_ranges tensor_desc.dims 0
            i d hid
          refine ⟨hget.1, ?_⟩
          intro hd
          have hlt := SingleOpParser.negativeDims_take_lt hid hd
          have hlt' : SingleOpParser.negativeDims (tensor_desc.dims.take i) <
              tensor_desc.dim_ranges.length := by omega
          have h2 := hc.2 _ hlt
          rw [List.getD_eq_getElem _ _ hlt'] at h2
          refine ⟨(tensor_desc.dim_ranges[SingleOpParser.negativeDims
              (tensor_desc.dims.take i)]).getD 0 0,
            (tensor_desc.dim_ranges[SingleOpParser.negativeDims
              (tensor_desc.dims.take i)]).getD 1 0, ?_, ?_⟩
          · rw [List.getElem?_eq_getElem hlt', Option.some.injEq]
            exact SingleOpParser.pair_of_length_two _ h2
          · have := hget.2 hd
            rw [Nat.zero_add, List.getD_eq_getElem _ _ hlt'] at this
            exact this
        · intro _ h0
          omega
        · intro h
          exact absurd rfl h
      · rw [if_neg hpos] at hrun
        rw [hrun]
        refine ⟨⟨fun _ => hall.1 hc, fun _ => rfl⟩, ?_, ?_, ?_⟩
        · intro _ h0
          exact absurd h0 hpos
        · intro _ _
          rfl
        · intro h
          exact absurd rfl h
    · rw [if_neg hc] at hrun
      rw [hrun]
      refine ⟨⟨(fun h => by cases h), fun h => absurd (hall.2 h) hc⟩, ?_, ?_, ?_⟩
      · intro h
        cases h
      · intro h
        cases h
      · intro _
        rfl
  · intro hmem
    unfold SingleOpParser.SetShapeRange
    simp only [if_pos hmem]
    by_cases h1 : tensor_desc.dims ≠ SingleOpParser.UNKNOWN_RANK
    · rw [if_pos h1]
      refine ⟨⟨(fun h => by cases h), fun h => absurd h.1 h1⟩, rfl, fun _ => rfl⟩
    · rw [if_neg h1]
      have h1' : tensor_desc.dims = SingleOpParser.UNKNOWN_RANK := by
        by_contra hc
        exact h1 hc
      by_cases h2 : ¬ tensor_desc.dim_ranges.isEmpty
      · rw [if_pos h2]
        refine ⟨⟨(fun h => by cases h), fun h => ?_⟩, rfl, fun _ => rfl⟩
        rw [h.2] at h2
        simp at h2
      · rw [if_neg h2]
        refine ⟨⟨fun _ => ⟨h1', ?_⟩, fun _ => rfl⟩, rfl, fun h => absurd rfl h⟩
        simpa using h2

/-- Witness for C40: two negative dims and two ranges of two items. -/
theorem C40_shape_range_validation_witness :
    (SingleOpParser.SetShapeRange SingleOpParser.exampleTensor none).1 = .SUCCESS ∧
    SingleOpParser.SetShapeRange SingleOpParser.exampleTensor none =
      (.SUCCESS, some [(3, 3), (1, 10), (5, 5), (2, 20)]) :=
  ⟨(((C40_shape_range_validation SingleOpParser.exampleTensor none).1 (by decide)).1).2
      ⟨by decide, by decide⟩, by decide⟩

/-! ## Shapes in the encoded records, loading and unloading -/

namespace DataDumper

theorem ExecuteUnLoadDumpInfo_flag (m : LoadMembers) (dev : Device) (o : Outcome)
    (h : (ExecuteUnLoadDumpInfo m dev o).1 = .status .SUCCESS) :
    (ExecuteUnLoadDumpInfo m dev o).2.1.load_flag_ = false := by
  unfold ExecuteUnLoadDumpInfo at h ⊢
  simp only at h ⊢
  split_ifs at h ⊢ <;> simp_all

theorem ExecuteLoadDumpInfo_flag (m : LoadMembers) (dev : Device) (o : Outcome)
    (h : (ExecuteLoadDumpInfo m dev o).1 ≠ .status .SUCCESS) :
    (ExecuteLoadDumpInfo m dev o).2.1.load_flag_ = m.load_flag_ := by
  unfold ExecuteLoadDumpInfo at h ⊢
  simp only at h ⊢
  split_ifs at h ⊢ <;> simp_all

end DataDumper

/-- C32: with the load flag false `UnloadDumpInfo` returns success, makes no
call of the device and leaves the members of the dumper as they were. The
flag is false in a dumper as constructed and after every unload that returns
success, and a load that does not return success leaves it as it was. -/
theorem C32_unload_without_load (d : DataDumper) (m : LoadMembers) (dev : Device) (o : Outcome) :
    (m.load_flag_ = false →
      d.UnloadDumpInfo m dev o = (.status .SUCCESS, m, dev) ∧
      (d.UnloadDumpInfo m dev o).2.2.calls = dev.calls ∧
      (d.UnloadDumpInfo m dev o).2.1 = m) ∧
    LoadMembers.init.load_flag_ = false ∧
    ((d.UnloadDumpInfo m dev o).1 = .status .SUCCESS →
      (d.UnloadDumpInfo m dev o).2.1.load_flag_ = false) ∧
    (∀ r, d.LoadDumpInfo m dev o = some r → r.1 ≠ .status .SUCCESS →
      r.2.1.load_flag_ = m.load_flag_) := by
  refine ⟨?_, rfl, ?_, ?_⟩
  · intro hflag
    have h : d.UnloadDumpInfo m dev o = (.status .SUCCESS, m, dev) := by
      unfold DataDumper.UnloadDumpInfo
      rw [if_pos hflag]
      cases m
      simp only at hflag
      subst hflag
      rfl
    rw [h]
    exact ⟨rfl, rfl, rfl⟩
  · intro h
    unfold DataDumper.UnloadDumpInfo at h ⊢
    simp only at h ⊢
    split_ifs at h ⊢ with h1 h2
    · rfl
    · exact absurd h h2
    · exact DataDumper.ExecuteUnLoadDumpInfo_flag m dev o (not_not.1 h2)
  · intro r hr hne
    unfold DataDumper.LoadDumpInfo at hr
    simp only at hr
    cases hb : d.BuildTaskInfo { task := [] } with
    | none => rw [hb] at hr; cases hr
    | some built =>
      rw [hb] at hr
      simp only at hr
      have hend : (d.SetEndGraphIdToAicpu m built.2).1.load_flag_ = m.load_flag_ := by
        unfold DataDumper.SetEndGraphIdToAicpu
        split <;> rfl
      split_ifs at hr with h1 h2 h3
      · cases hr; rfl
      · cases hr
        rw [DataDumper.ExecuteLoadDumpInfo_flag _ dev o h3, hend]
      · cases hr
        exact absurd rfl hne
      · cases hr
        exact absurd rfl hne

/-- Witness for C32: a dumper as constructed, on a device without calls. -/
theorem C32_unload_without_load_witness :
    exampleDumper.UnloadDumpInfo LoadMembers.init Device.init exampleOutcome =
      (.status .SUCCESS, LoadMembers.init, Device.init) :=
  ((C32_unload_without_load exampleDumper LoadMembers.init Device.init exampleOutcome).1 rfl).1


/-! ## Output types in the registry -/

/-- A property of the state that every step keeps, whatever its status, holds
after the loop, whatever its status. -/
theorem forEachM_keeps {α σ : Type} (f : α → σ → Status × σ) (P : σ → Prop)
    (hstep : ∀ x t, P t → P (f x t).2) :
    ∀ (xs : List α) (s : σ), P s → P (forEachM f xs s).2 := by
  intro xs
  induction xs with
  | nil => intro s h; exact h
  | cons x xs ih =>
    intro s h
    simp only [forEachM]
    split
    · exact ih _ (hstep x s h)
    · exact hstep x s h

theorem CreateIdentityAfterSrcNode_registry (s : PassState) (src_node : Nat) :
    (CreateIdentityAfterSrcNode s src_node).2.node_rwtype_map_ = s.node_rwtype_map_ := by
  unfold CreateIdentityAfterSrcNode
  cases s.graph.GetOpDesc src_node with
  | none => rfl
  | some d =>
    simp only
    cases s.graph.GetOwnerComputeGraph src_node <;> rfl

/-- The handling of one input anchor of a NetOutput node leaves the registry
as it was and adds SoftRead to the map of the node, if anything. -/
theorem MarkNetOutputAnchor_soft (a : InDataAnchor) (st : PassState × List (Nat × OutputRWType))
    (reg : List (String × NodeInputOutputRWType))
    (h : st.1.node_rwtype_map_ = reg ∧
      ∀ i t, mapFind st.2 i = some t → t = OutputRWType.kSoftRead) :
    (MarkNetOutputAnchor a st).2.1.node_rwtype_map_ = reg ∧
      ∀ i t, mapFind (MarkNetOutputAnchor a st).2.2 i = some t → t = OutputRWType.kSoftRead := by
  obtain ⟨hreg, hsoft⟩ := h
  have hem : ∀ i t, mapFind (mapEmplace st.2 a.idx OutputRWType.kSoftRead) i = some t →
      t = OutputRWType.kSoftRead := by
    intro i t ht
    rcases mapFind_mapEmplace_cases _ _ _ _ _ ht with h1 | ⟨_, _, h3⟩
    · exact hsoft i t h1
    · exact h3
  unfold MarkNetOutputAnchor
  simp only
  cases st.1.graph.GetPeerOutAnchor a with
  | none => exact ⟨hreg, hsoft⟩
  | some p =>
    simp only
    split
    · have hc := CreateIdentityAfterSrcNode_registry st.1 p.node
      rcases hcr : CreateIdentityAfterSrcNode st.1 p.node with ⟨_ | k, s1⟩
      · rw [hcr] at hc
        simp only at hc ⊢
        exact ⟨hc.trans hreg, hsoft⟩
      · rw [hcr] at hc
        simp only at hc ⊢
        cases s1.graph.InsertNodeBetweenDataAnchors p a k with
        | error e => exact ⟨hc.trans hreg, hsoft⟩
        | ok g2 => exact ⟨hc.trans hreg, hem⟩
    · exact ⟨hreg, hem⟩

theorem softOutputs_mapEmplace {reg : List (String × NodeInputOutputRWType)} (h : softOutputs reg)
    (k : String) (v : NodeInputOutputRWType)
    (hv : ∀ i t, mapFind v.output_rw_type_map i = some t → t = OutputRWType.kSoftRead) :
    softOutputs (mapEmplace reg k v) := by
  intro k' v' hk
  rcases mapFind_mapEmplace_cases _ _ _ _ _ hk with h1 | ⟨_, _, h3⟩
  · exact h k' v' h1
  · rw [h3]
    exact hv

theorem MarkNetOutputNode_soft (node : Nat) (s : PassState) (h : softOutputs s.node_rwtype_map_) :
    softOutputs (MarkNetOutputNode node s).2.node_rwtype_map_ := by
  have hloop := forEachM_keeps MarkNetOutputAnchor
    (fun st => st.1.node_rwtype_map_ = s.node_rwtype_map_ ∧
      ∀ i t, mapFind st.2 i = some t → t = OutputRWType.kSoftRead)
    (fun a st hst => MarkNetOutputAnchor_soft a st _ hst)
    (s.graph.GetAllInDataAnchors node) (s, [])
    ⟨rfl, fun i t ht => by simp [mapFind] at ht⟩
  unfold MarkNetOutputNode
  simp only
  generalize forEachM MarkNetOutputAnchor (s.graph.GetAllInDataAnchors node) (s, []) = r
    at hloop ⊢
  obtain ⟨st, s2, m⟩ := r
  simp only at hloop ⊢
  obtain ⟨h1, h2⟩ := hloop
  split
  · simp only
    rw [h1]
    exact softOutputs_mapEmplace h _ _ h2
  · simp only
    rw [h1]
    exact h

theorem MarkDataNode_soft (node : Nat) (s : PassState) (h : softOutputs s.node_rwtype_map_) :
    softOutputs (MarkDataNode node s).node_rwtype_map_ := by
  unfold MarkDataNode
  simp only
  exact softOutputs_mapEmplace h _ _ (fun i t ht => by simp [mapFind] at ht)

theorem MarkRWTypeForSubgraphNode_soft (node : Nat) (s : PassState)
    (h : softOutputs s.node_rwtype_map_) :
    softOutputs (MarkRWTypeForSubgraphNode node s).2.node_rwtype_map_ := by
  unfold MarkRWTypeForSubgraphNode
  cases s.graph.GetOpDesc node with
  | none => exact h
  | some d =>
    simp only
    have h1 : softOutputs
        (if s.graph.GetType node = DATA then MarkDataNode node s else s).node_rwtype_map_ := by
      split
      · exact MarkDataNode_soft node s h
      · exact h
    generalize (if s.graph.GetType node = DATA then MarkDataNode node s else s) = s1 at h1 ⊢
    split
    · exact MarkNetOutputNode_soft node s1 h1
    · exact h1

theorem MarkRWTypeForSubgraph_soft (sub_graph : Nat) (s : PassState)
    (h : softOutputs s.node_rwtype_map_) :
    softOutputs (MarkRWTypeForSubgraph sub_graph s).2.node_rwtype_map_ :=
  forEachM_keeps MarkRWTypeForSubgraphNode (fun t => softOutputs t.node_rwtype_map_)
    (fun x t ht => MarkRWTypeForSubgraphNode_soft x t ht) _ s h

theorem MarkRWTypeForAllSubgraph_soft (sub_graph_vec : List Nat) (s : PassState)
    (h : softOutputs s.node_rwtype_map_) :
    softOutputs (MarkRWTypeForAllSubgraph sub_graph_vec s).2.node_rwtype_map_ := by
  refine forEachM_keeps MarkRWTypeForAllSubgraphStep (fun t => softOutputs t.node_rwtype_map_)
    ?_ _ s h
  intro x t ht
  unfold MarkRWTypeForAllSubgraphStep
  cases t.graph.GetParentNode x with
  | none => exact ht
  | some parent =>
    simp only
    split
    · exact ht
    · exact MarkRWTypeForSubgraph_soft x t ht

theorem softOutputs_nil : softOutputs [] := by
  intro k v h
  simp [mapFind] at h

/-- With SoftRead as the only output type in the registry, the output type of
a node with subgraphs that is not a While node is not Writeable. -/
theorem GetOutputRWTypeByIndex_of_soft (g : ComputeGraph)
    {reg : List (String × NodeInputOutputRWType)} (h : softOutputs reg) (node index : Nat)
    (d : OpDesc) (hd : g.GetOpDesc node = some d) (hw : d.type ≠ WHILE)
    (hs : d.subgraph_instance_names ≠ []) :
    GetOutputRWTypeByIndex g reg node index = .kReadOnly ∨
      GetOutputRWTypeByIndex g reg node index = .kSoftRead ∨
      GetOutputRWTypeByIndex g reg node index = .kInvalidRWType := by
  have hs' : d.subgraph_instance_names.isEmpty = false := by
    cases hn : d.subgraph_instance_names with
    | nil => exact absurd hn hs
    | cons a l => rfl
  unfold GetOutputRWTypeByIndex
  simp only [hd, if_neg hw, hs', Bool.false_eq_true, if_false]
  have hfin : ∀ t : OutputRWType, t = .kSoftRead →
      ((if g.hasOutAnchor ⟨node, index⟩ = false then OutputRWType.kInvalidRWType
        else if g.GetPeerInDataNodesSize ⟨node, index⟩ > 1 then .kReadOnly else t) =
          .kReadOnly ∨
       (if g.hasOutAnchor ⟨node, index⟩ = false then OutputRWType.kInvalidRWType
        else if g.GetPeerInDataNodesSize ⟨node, index⟩ > 1 then .kReadOnly else t) =
          .kSoftRead ∨
       (if g.hasOutAnchor ⟨node, index⟩ = false then OutputRWType.kInvalidRWType
        else if g.GetPeerInDataNodesSize ⟨node, index⟩ > 1 then .kReadOnly else t) =
          .kInvalidRWType) := by
    intro t ht
    subst ht
    split
    · exact Or.inr (Or.inr rfl)
    · split
      · exact Or.inl rfl
      · exact Or.inr (Or.inl rfl)
  rcases hv : g.GetSubgraphOutputNodes node with _ | ⟨m, _ | ⟨m2, l⟩⟩
  · simp only
    exact hfin _ rfl
  · simp only
    cases he : mapFind reg (g.GetName m) with
    | none => exact Or.inr (Or.inr rfl)
    | some entry =>
      simp only
      cases ht : mapFind entry.output_rw_type_map index with
      | none => exact Or.inr (Or.inr rfl)
      | some t => exact hfin t (h _ _ he _ _ ht)
  · simp only
    exact hfin _ rfl

/-- C36: the propagator keeps the registry free of output types other than
SoftRead, whatever status it returns: this holds for `MarkRWTypeForSubgraph`
on one subgraph and for `MarkRWTypeForAllSubgraph` on the cleared registry, and
an entry that a successful run adds has SoftRead outputs only. With such a
registry `GetOutputRWTypeByIndex` on a node with subgraphs that is not a While
node returns ReadOnly, SoftRead or Invalid, never Writeable; so it does in the
state that the propagator leaves when it starts from the cleared registry. -/
theorem C36_registry_outputs_soft_read (s : PassState) :
    (∀ sub_graph, softOutputs s.node_rwtype_map_ →
      softOutputs (MarkRWTypeForSubgraph sub_graph s).2.node_rwtype_map_) ∧
    (∀ sub_graph s', MarkRWTypeForSubgraph sub_graph s = (.SUCCESS, s') →
      RegGrows s.node_rwtype_map_ s'.node_rwtype_map_) ∧
    (∀ sub_graph_vec,
      softOutputs (MarkRWTypeForAllSubgraph sub_graph_vec
        { s with node_rwtype_map_ := [] }).2.node_rwtype_map_) ∧
    (∀ (g : ComputeGraph) (reg : List (String × NodeInputOutputRWType)) (node index : Nat)
      (d : OpDesc), softOutputs reg → g.GetOpDesc node = some d → d.type ≠ WHILE →
      d.subgraph_instance_names ≠ [] →
      (GetOutputRWTypeByIndex g reg node index = .kReadOnly ∨
        GetOutputRWTypeByIndex g reg node index = .kSoftRead ∨
        GetOutputRWTypeByIndex g reg node index = .kInvalidRWType) ∧
      GetOutputRWTypeByIndex g reg node index ≠ .kWriteable) ∧
    (∀ (sub_graph_vec : List Nat) (node index : Nat) (d : OpDesc),
      (MarkRWTypeForAllSubgraph sub_graph_vec
        { s with node_rwtype_map_ := [] }).2.graph.GetOpDesc node = some d →
      d.type ≠ WHILE → d.subgraph_instance_names ≠ [] →
      GetOutputRWTypeByIndex
        (MarkRWTypeForAllSubgraph sub_graph_vec { s with node_rwtype_map_ := [] }).2.graph
        (MarkRWTypeForAllSubgraph sub_graph_vec
          { s with node_rwtype_map_ := [] }).2.node_rwtype_map_ node index ≠ .kWriteable) := by
  have key : ∀ (g : ComputeGraph) (reg : List (String × NodeInputOutputRWType))
      (node index : Nat) (d : OpDesc), softOutputs reg → g.GetOpDesc node = some d →
      d.type ≠ WHILE → d.subgraph_instance_names ≠ [] →
      (GetOutputRWTypeByIndex g reg node index = .kReadOnly ∨
        GetOutputRWTypeByIndex g reg node index = .kSoftRead ∨
        GetOutputRWTypeByIndex g reg node index = .kInvalidRWType) ∧
      GetOutputRWTypeByIndex g reg node index ≠ .kWriteable := by
    intro g reg node index d hsoft hd hw hs
    have h := GetOutputRWTypeByIndex_of_soft g hsoft node index d hd hw hs
    refine ⟨h, ?_⟩
    intro hc
    rw [hc] at h
    rcases h with h | h | h <;> cases h
  refine ⟨fun sub_graph h => MarkRWTypeForSubgraph_soft sub_graph s h, ?_, ?_, key, ?_⟩
  · intro sub_graph s' h
    unfold MarkRWTypeForSubgraph at h
    exact (MarkRWTypeForSubgraphNodes_rel _ s s' h).2
  · intro sub_graph_vec
    exact MarkRWTypeForAllSubgraph_soft sub_graph_vec _ softOutputs_nil
  · intro sub_graph_vec node index d hd hw hs
    exact (key _ _ node index d
      (MarkRWTypeForAllSubgraph_soft sub_graph_vec _ softOutputs_nil) hd hw hs).2

/-- Witness for C36: in `exitExampleGraph` a Variable feeds the NetOutput of
the branch; after the propagator the output of the conditional node is
SoftRead. -/
theorem C36_registry_outputs_soft_read_witness :
    GetOutputRWTypeByIndex
        (MarkRWTypeForAllSubgraph [1] exitExampleState).2.graph
        (MarkRWTypeForAllSubgraph [1] exitExampleState).2.node_rwtype_map_ 0 0 ≠ .kWriteable ∧
    GetOutputRWTypeByIndex
        (MarkRWTypeForAllSubgraph [1] exitExampleState).2.graph
        (MarkRWTypeForAllSubgraph [1] exitExampleState).2.node_rwtype_map_ 0 0 = .kSoftRead :=
  ⟨(C36_registry_outputs_soft_read exitExampleState).2.2.2.2 [1] 0 0
      { name := "cond", type := "If", input_names := ["x"], output_names := ["y", "z"],
        framework_original_type := none, parent_node_index := none,
        input_desc_parent_index := false, subgraph_instance_names := ["then"] }
      (by decide) (by decide) (by decide), by decide⟩

/-! ## The edge that a removed Identity leaves -/

/-- What `RemoveNoUseIdentity` does on a listed node with one input and one
output anchor: under the removal condition the node is taken off its graph,
unlinked and bypassed, and otherwise the state is unchanged. -/
theorem RemoveNoUseIdentity_spec (node : Nat) (s : PassState)
    (hin : s.graph.inAnchorNum node = 1) (hout : s.graph.outAnchorNum node = 1)
    (hmem : ∃ gi, node ∈ s.graph.GetDirectNode gi) :
    (removalConditionSpec s.graph s.node_rwtype_map_ node →
      ∃ s' p, RemoveNoUseIdentity node s = (.SUCCESS, s') ∧
        s.graph.GetPeerOutAnchor ⟨node, 0⟩ = some p ∧
        s'.graph.isListed node = false ∧
        (∀ j, s'.graph.GetPeerOutAnchor ⟨node, j⟩ = none) ∧
        (∀ a : InDataAnchor, a.node ≠ node → s.graph.GetPeerOutAnchor a = some ⟨node, 0⟩ →
          s'.graph.GetPeerOutAnchor a = some p) ∧
        (∀ a : InDataAnchor, a.node ≠ node → s.graph.GetPeerOutAnchor a ≠ some ⟨node, 0⟩ →
          s'.graph.GetPeerOutAnchor a = s.graph.GetPeerOutAnchor a) ∧
        (∀ m, m ≠ node → s'.graph.isListed m = s.graph.isListed m) ∧
        (∀ m, s'.graph.shape m = s.graph.shape m) ∧
        s'.graph.nodes.length = s.graph.nodes.length ∧
        s'.graph.graphs = s.graph.graphs ∧
        s'.node_rwtype_map_ = s.node_rwtype_map_ ∧ s'.identity_num = s.identity_num) ∧
    (¬ removalConditionSpec s.graph s.node_rwtype_map_ node →
      RemoveNoUseIdentity node s = (.SUCCESS, s)) := by
  have hanchor : s.graph.hasInAnchor ⟨node, kIdentityAnchorIndex⟩ = true := by
    simp [hasInAnchor, hin, kIdentityAnchorIndex]
  cases hp : s.graph.GetPeerOutAnchor ⟨node, 0⟩ with
  | none =>
    have hempty : s.graph.GetInDataNodes node = [] := by
      rw [GetInDataNodes_of_one hin, hp]
    have hstep : RemoveNoUseIdentity node s = (.SUCCESS, s) := by
      unfold RemoveNoUseIdentity
      simp only [hempty, List.isEmpty_nil, true_or, if_true]
    refine ⟨fun hc => absurd hempty hc.1, fun _ => hstep⟩
  | some p =>
    have hin1 : ¬ (s.graph.GetInDataNodes node).isEmpty = true := by
      rw [GetInDataNodes_of_one hin, hp]
      simp
    have hiff := removalConditionSpec_iff s.node_rwtype_map_ hin hout hp
    constructor
    · intro hc
      have hchk := hiff.1 hc
      obtain ⟨gd, hgd, hlen, hshape, hlist, hselfpeer, hcon, hoth⟩ :=
        isolate_zero_peers s.graph node p
      obtain ⟨gi, hgi⟩ := hmem
      have hgi' := (mem_GetDirectNode s.graph gi node).1 hgi
      have hown : gd.GetOwnerComputeGraph node = some gi := by
        rw [GetOwnerComputeGraph_of_shape (hshape node)]
        exact hgi'.2
      have hdirect : node ∈ gd.GetDirectNode gi := by
        rw [mem_GetDirectNode, hlist, hown]
        exact ⟨hgi'.1, rfl⟩
      have hrem : gd.RemoveNodeWithoutRelink (gd.GetOwnerComputeGraph node) node =
          .ok (gd.unlist node) := by
        rw [hown]
        unfold RemoveNodeWithoutRelink
        simp only [hdirect, if_true]
      have hstep : RemoveNoUseIdentity node s = (.SUCCESS, { s with graph := gd.unlist node }) := by
        unfold RemoveNoUseIdentity
        simp only
        split
        · rename_i h
          exfalso
          rcases h with h | h
          · exact hin1 h
          · exact absurd hchk.1 (by omega)
        · split
          · rename_i h
            exact absurd h hchk.2.1
          · split
            · rename_i h
              rw [hchk.2.2.1] at h
              cases h
            · rw [hanchor]
              simp only [Bool.true_eq_false, if_false]
              have hp' : s.graph.GetPeerOutAnchor ⟨node, kIdentityAnchorIndex⟩ = some p := hp
              rw [hp']
              simp only
              split
              · rename_i h
                exact absurd hchk.2.2.2 h
              · rw [IsolateNode_zero hout hp, ← hgd]
                simp only [hrem]
      refine ⟨_, p, hstep, rfl, ?_, ?_, ?_, ?_, ?_, ?_, ?_, ?_, rfl, rfl⟩
      · simp only [isListed_unlist, if_true]
      · intro j
        rw [peer_unlist, hselfpeer]
      · intro a ha hpa
        rw [peer_unlist, hcon a ha hpa]
        by_cases hpn : p = ⟨node, 0⟩
        · exfalso
          have h1 : (⟨node, 0⟩ : InDataAnchor) ∈ s.graph.GetPeerInDataAnchors ⟨node, 0⟩ := by
            rw [mem_GetPeerInDataAnchors, hp, hpn]
          have h2 : a ∈ s.graph.GetPeerInDataAnchors ⟨node, 0⟩ :=
            (mem_GetPeerInDataAnchors _ _ _).2 hpa
          have hle : (s.graph.GetPeerInDataAnchors ⟨node, 0⟩).length ≤ 1 := by
            rw [← GetOutDataNodesSize_of_one hout]
            exact (hiff.1 hc).1
          have := eq_of_mem_of_length_le_one hle h1 h2
          rw [← this] at ha
          exact ha rfl
        · rw [if_neg hpn]
      · intro a ha hpa
        rw [peer_unlist, hoth a ha hpa]
      · intro m hm
        rw [isListed_unlist, if_neg hm, hlist]
      · intro m
        rw [shape_unlist, hshape]
      · rw [length_unlist, hlen]
      · rw [graphs_unlist, hgd, (UnlinkAllOut_facts _ _).2.2.2, (UnlinkAllIn_facts _ _).2.2.2,
          (ReplaceOutDataAnchor_facts _ _ _).2.2.2, graphs_setPeer]
    · intro hc
      have hnot := fun h => hc (hiff.2 h)
      unfold RemoveNoUseIdentity
      simp only
      split
      · rfl
      · rename_i h1
        split
        · rfl
        · rename_i h2
          split
          · rfl
          · rename_i h3
            rw [hanchor]
            simp only [Bool.true_eq_false, if_false]
            have hp' : s.graph.GetPeerOutAnchor ⟨node, kIdentityAnchorIndex⟩ = some p := hp
            rw [hp']
            simp only
            split
            · rfl
            · rename_i h4
              exfalso
              apply hnot
              refine ⟨?_, h2, ?_, ?_⟩
              · by_contra hgt
                exact h1 (Or.inr (by omega))
              · simpa using h3
              · simpa using h4

/-- The number of consumers of an output anchor is the same when one input
anchor it fed is unlinked and one input anchor it did not feed is linked to
it, and nothing else changes for it. -/
theorem GetPeerInDataNodesSize_swap {g g' : ComputeGraph} {p : OutDataAnchor}
    {x a : InDataAnchor} (hx : g.GetPeerOutAnchor x = some p) (ha : g.GetPeerOutAnchor a ≠ some p)
    (hx' : g'.GetPeerOutAnchor x ≠ some p) (ha' : g'.GetPeerOutAnchor a = some p)
    (hoth : ∀ b, b ≠ x → b ≠ a → (g'.GetPeerOutAnchor b = some p ↔ g.GetPeerOutAnchor b = some p)) :
    g'.GetPeerInDataNodesSize p = g.GetPeerInDataNodesSize p := by
  rw [GetPeerInDataNodesSize_eq_card, GetPeerInDataNodesSize_eq_card]
  have hset : (g'.GetPeerInDataAnchors p).toFinset =
      insert a ((g.GetPeerInDataAnchors p).toFinset.erase x) := by
    ext b
    simp only [List.mem_toFinset, mem_GetPeerInDataAnchors, Finset.mem_insert, Finset.mem_erase]
    by_cases hba : b = a
    · subst hba
      simp [ha']
    · by_cases hbx : b = x
      · subst hbx
        simp [hx', hba]
      · simp [hba, hbx, hoth b hbx hba]
  have hxa : x ≠ a := by
    intro h
    rw [h] at hx
    exact ha hx
  have hmem : x ∈ (g.GetPeerInDataAnchors p).toFinset := by
    simp only [List.mem_toFinset, mem_GetPeerInDataAnchors]
    exact hx
  have hnot : a ∉ (g.GetPeerInDataAnchors p).toFinset.erase x := by
    simp only [Finset.mem_erase, List.mem_toFinset, mem_GetPeerInDataAnchors]
    exact fun h => ha h.2
  rw [hset, Finset.card_insert_of_not_mem hnot, Finset.card_erase_of_mem hmem]
  have hpos : 0 < (g.GetPeerInDataAnchors p).toFinset.card := Finset.card_pos.2 ⟨x, hmem⟩
  omega

/-- The output type of a node without subgraphs depends on the descriptor of
the node, the existence of the anchor and the number of its consumers. -/
theorem GetOutputRWTypeByIndex_of_same {g g' : ComputeGraph}
    (reg : List (String × NodeInputOutputRWType)) {o : OutDataAnchor}
    (hshape : g'.shape o.node = g.shape o.node) (hown : g.ownsSubgraphs o.node = false)
    (hsize : g'.GetPeerInDataNodesSize o = g.GetPeerInDataNodesSize o) :
    GetOutputRWTypeByIndex g' reg o.node o.idx = GetOutputRWTypeByIndex g reg o.node o.idx := by
  have hanchor : g'.hasOutAnchor ⟨o.node, o.idx⟩ = g.hasOutAnchor ⟨o.node, o.idx⟩ :=
    hasOutAnchor_of_shape (o := ⟨o.node, o.idx⟩) hshape
  unfold GetOutputRWTypeByIndex
  rw [GetOpDesc_of_shape hshape]
  cases hd : g.GetOpDesc o.node with
  | none => rfl
  | some d =>
    simp only
    split
    · rfl
    · have hempty : d.subgraph_instance_names.isEmpty = true := by
        unfold ownsSubgraphs at hown
        rw [hd] at hown
        simpa using hown
      rw [if_pos hempty, if_pos hempty]
      unfold GetSingleNodeOutputRWTypeByIndex
      rw [GetOpDesc_of_shape hshape, GetType_of_shape hshape, hanchor]
      have hs : g'.GetPeerInDataNodesSize ⟨o.node, o.idx⟩ =
          g.GetPeerInDataNodesSize ⟨o.node, o.idx⟩ := hsize
      rw [hs]

/-- The input type of a node without subgraphs depends on the descriptor of
the node only. -/
theorem GetInputRWTypeByIndex_of_same {g g' : ComputeGraph}
    (reg : List (String × NodeInputOutputRWType)) {n : Nat} (index : Nat)
    (hshape : g'.shape n = g.shape n) (hown : g.ownsSubgraphs n = false) :
    GetInputRWTypeByIndex g' reg n index = GetInputRWTypeByIndex g reg n index := by
  unfold GetInputRWTypeByIndex
  rw [GetOpDesc_of_shape hshape]
  cases hd : g.GetOpDesc n with
  | none => rfl
  | some d =>
    simp only
    split
    · rfl
    · have hempty : d.subgraph_instance_names.isEmpty = true := by
        unfold ownsSubgraphs at hown
        rw [hd] at hown
        simpa using hown
      rw [if_pos hempty, if_pos hempty, GetSingleNodeInputRWTypeByIndex_of_shape hshape]

/-- C37: when `RemoveNoUseIdentity` deletes a node with one input and one
output anchor that fed an input anchor of another node, that input anchor is
fed afterwards by the output anchor that fed the deleted node, the output
type of that output anchor and the input type of that input anchor are the
same on the resulting graph as before, and the conflict result of the edge,
evaluated on the resulting graph, is DoNothing. -/
theorem C37_removal_leaves_safe_edge (node : Nat) (s s' : PassState) (st : Status)
    (a : InDataAnchor)
    (hin : s.graph.inAnchorNum node = 1) (hout : s.graph.outAnchorNum node = 1)
    (hmem : ∃ gi, node ∈ s.graph.GetDirectNode gi)
    (hrun : RemoveNoUseIdentity node s = (st, s'))
    (hdel : s'.graph.isListed node = false)
    (hsucc : s.graph.GetPeerOutAnchor a = some ⟨node, 0⟩) (hother : a.node ≠ node) :
    ∃ p, s.graph.GetPeerOutAnchor ⟨node, 0⟩ = some p ∧
      st = .SUCCESS ∧
      s'.graph.GetPeerOutAnchor a = some p ∧
      GetOutputRWTypeByIndex s'.graph s'.node_rwtype_map_ p.node p.idx =
        GetOutputRWTypeByIndex s.graph s.node_rwtype_map_ p.node p.idx ∧
      GetInputRWTypeByIndex s'.graph s'.node_rwtype_map_ a.node a.idx =
        GetInputRWTypeByIndex s.graph s.node_rwtype_map_ a.node a.idx ∧
      edgeConflict s.graph s.node_rwtype_map_ p a = .DO_NOTHING ∧
      edgeConflict s'.graph s'.node_rwtype_map_ p a = .DO_NOTHING := by
  have hspec := RemoveNoUseIdentity_spec node s hin hout hmem
  have hlisted : s.graph.isListed node = true := by
    obtain ⟨gi, hgi⟩ := hmem
    exact ((mem_GetDirectNode s.graph gi node).1 hgi).1
  by_cases hc : removalConditionSpec s.graph s.node_rwtype_map_ node
  · obtain ⟨s1, p, hrun1, hp, _, hself, hcon, hoth, _, hshape, _, _, hreg, _⟩ := hspec.1 hc
    rw [hrun1] at hrun
    simp only [Prod.mk.injEq] at hrun
    obtain ⟨hst, hs⟩ := hrun
    subst hs
    have ha' : s1.graph.GetPeerOutAnchor a = some p := hcon a hother hsucc
    -- the node feeds `a` only
    have hle : (s.graph.GetPeerInDataAnchors ⟨node, 0⟩).length ≤ 1 := by
      rw [← GetOutDataNodesSize_of_one hout]
      exact hc.2.1
    have hamem : a ∈ s.graph.GetPeerInDataAnchors ⟨node, 0⟩ :=
      (mem_GetPeerInDataAnchors _ _ _).2 hsucc
    have honly : ∀ b, s.graph.GetPeerOutAnchor b = some ⟨node, 0⟩ → b = a := by
      intro b hb
      exact eq_of_mem_of_length_le_one hle ((mem_GetPeerInDataAnchors _ _ _).2 hb) hamem
    have hpne : p ≠ ⟨node, 0⟩ := by
      intro h
      rw [h] at hp
      have := honly _ hp
      rw [← this] at hother
      exact hother rfl
    have hap : s.graph.GetPeerOutAnchor a ≠ some p := by
      rw [hsucc]
      intro h
      exact hpne (Option.some.inj h).symm
    have hxs : s1.graph.GetPeerOutAnchor ⟨node, 0⟩ ≠ some p := by
      rw [hself 0]
      exact fun h => Option.noConfusion h
    have hsize : s1.graph.GetPeerInDataNodesSize p = s.graph.GetPeerInDataNodesSize p := by
      refine GetPeerInDataNodesSize_swap hp hap hxs ha' ?_
      intro b hbx hba
      by_cases hbn : b.node = node
      · -- another anchor of the node: never linked
        have hb' : s1.graph.GetPeerOutAnchor b = none := by
          have := hself b.idx
          rw [← hbn] at this
          exact this
        have hb : s.graph.GetPeerOutAnchor b = none := by
          apply peer_eq_none_of_not_hasInAnchor
          simp only [hasInAnchor, hbn, hin, decide_eq_false_iff_not]
          intro hlt
          apply hbx
          obtain ⟨bn, bi⟩ := b
          simp only at hbn hlt
          subst hbn
          have : bi = 0 := by omega
          rw [this]
        rw [hb, hb']
      · have hne : s.graph.GetPeerOutAnchor b ≠ some ⟨node, 0⟩ := fun h => hba (honly b h)
        rw [hoth b hbn hne]
    have hpin : p.node ∈ s.graph.GetInDataNodes node := by
      rw [GetInDataNodes_of_one hin, hp]
      exact List.mem_singleton.2 rfl
    have haout : a.node ∈ s.graph.GetOutDataNodes node := by
      rw [GetOutDataNodes_of_one hout]
      exact List.mem_map.2 ⟨a, hamem, rfl⟩
    have hout_eq := GetOutputRWTypeByIndex_of_same s.node_rwtype_map_ (o := p)
      (hshape p.node) (hc.2.2.2.1 p.node hpin).2 hsize
    have hin_eq := GetInputRWTypeByIndex_of_same s.node_rwtype_map_ a.idx
      (hshape a.node) (hc.2.2.2.2.1 a.node haout).2
    have hconf : edgeConflict s.graph s.node_rwtype_map_ p a = .DO_NOTHING :=
      hc.2.2.2.2.2 p hp a hamem
    refine ⟨p, hp, hst.symm, ha', ?_, ?_, hconf, ?_⟩
    · rw [hreg]
      exact hout_eq
    · rw [hreg]
      exact hin_eq
    · unfold edgeConflict at hconf ⊢
      rw [hreg, hout_eq, hin_eq]
      exact hconf
  · rw [hspec.2 hc] at hrun
    simp only [Prod.mk.injEq] at hrun
    rw [← hrun.2, hlisted] at hdel
    cases hdel

/-- Witness for C37: the Identity of `removeExampleGraph` between two Relu
nodes is removed and the edge from the first to the second has conflict result
DoNothing on the resulting graph. -/
theorem C37_removal_leaves_safe_edge_witness :
    ∃ p, removeExampleGraph.GetPeerOutAnchor ⟨2, 0⟩ = some p ∧
      (RemoveNoUseIdentity 2 removeExampleState).2.graph.GetPeerOutAnchor ⟨3, 0⟩ = some p ∧
      edgeConflict (RemoveNoUseIdentity 2 removeExampleState).2.graph
        (RemoveNoUseIdentity 2 removeExampleState).2.node_rwtype_map_ p ⟨3, 0⟩ = .DO_NOTHING := by
  obtain ⟨p, h1, _, h3, _, _, _, h7⟩ :=
    C37_removal_leaves_safe_edge 2 removeExampleState
      (RemoveNoUseIdentity 2 removeExampleState).2 (RemoveNoUseIdentity 2 removeExampleState).1
      ⟨3, 0⟩ (by decide) (by decide) ⟨0, by decide⟩ rfl (by decide) (by decide) (by decide)
  exact ⟨p, h1, h3, h7⟩

/-! ## The format transfer from C1HWNCoC0 to HWCN -/

namespace formats

theorem radix_lt {a b A B : Int} (ha : 0 ≤ a) (haA : a < A) (hb : 0 ≤ b) (hbB : b < B) :
    0 ≤ a * B + b ∧ a * B + b < A * B := by
  have hB : 0 < B := by omega
  constructor
  · have := mul_nonneg ha (le_of_lt hB)
    omega
  · have h1 : (a + 1) * B ≤ A * B := by
      apply mul_le_mul_of_nonneg_right _ (le_of_lt hB)
      omega
    have h2 : (a + 1) * B = a * B + B := by ring
    omega

theorem radix_inj {a b a' b' B : Int} (hb : 0 ≤ b) (hbB : b < B) (hb' : 0 ≤ b') (hbB' : b' < B)
    (h : a * B + b = a' * B + b') : a = a' ∧ b = b' := by
  have hB : 0 < B := by omega
  have ha : a = a' := by
    rcases lt_trichotomy a a' with hlt | heq | hgt
    · exfalso
      have h1 : (a + 1) * B ≤ a' * B := by
        apply mul_le_mul_of_nonneg_right _ (le_of_lt hB)
        omega
      have h2 : (a + 1) * B = a * B + B := by ring
      omega
    · exact heq
    · exfalso
      have h1 : (a' + 1) * B ≤ a * B := by
        apply mul_le_mul_of_nonneg_right _ (le_of_lt hB)
        omega
      have h2 : (a' + 1) * B = a' * B + B := by ring
      omega
  subst ha
  exact ⟨rfl, by omega⟩

/-- What a passed argument check says of the arguments. -/
theorem CheckArgs_success {args : TransArgs}
    (h : CheckArgsForC1hwncoc0ToHwcn args = some .SUCCESS) :
    ∃ C1 H W N Co C0 C : Int, args.src_shape = [C1, H, W, N, Co, C0] ∧
      args.dst_shape = [H, W, C, N] ∧ GetC0Value args ≠ 0 ∧
      C1 = (C - 1).tdiv (GetC0Value args) + 1 ∧ Co = GetC0Value args ∧ C0 = GetC0Value args ∧
      IsShapeValid args.src_shape = true ∧ IsShapeValid args.dst_shape = true ∧
      CheckDataTypeSupportedForC1hwncoc0ToHwcn args.src_data_type = true := by
  unfold CheckArgsForC1hwncoc0ToHwcn at h
  simp only at h
  split_ifs at h with h1 h2 h3 h4 h5 h6
  all_goals try (cases h; done)
  have h3' : CheckShapeValid args.src_shape kC1hwncoc0DimsNum = true := h3
  have h4' : CheckShapeValid args.dst_shape kHwcnDimsNum = true := h4
  have h2' : CheckDataTypeSupportedForC1hwncoc0ToHwcn args.src_data_type = true := h2
  unfold CheckShapeValid at h3' h4'
  have hs : args.src_shape.length = 6 ∧ IsShapeValid args.src_shape = true := by
    by_cases hl : kC1hwncoc0DimsNum = 0 ∨ args.src_shape.length ≠ kC1hwncoc0DimsNum
    · rw [if_pos hl] at h3'
      cases h3'
    · rw [if_neg hl] at h3'
      simp only [kC1hwncoc0DimsNum, not_or, ne_eq, not_not] at hl
      exact ⟨hl.2, h3'⟩
  have hd : args.dst_shape.length = 4 ∧ IsShapeValid args.dst_shape = true := by
    by_cases hl : kHwcnDimsNum = 0 ∨ args.dst_shape.length ≠ kHwcnDimsNum
    · rw [if_pos hl] at h4'
      cases h4'
    · rw [if_neg hl] at h4'
      simp only [kHwcnDimsNum, not_or, ne_eq, not_not] at hl
      exact ⟨hl.2, h4'⟩
  obtain ⟨hsl, hsv⟩ := hs
  obtain ⟨hdl, hsv2⟩ := hd
  match hsrc : args.src_shape, hsl with
  | [C1, H, W, N, Co, C0], _ =>
    match hdst : args.dst_shape, hdl with
    | [H', W', C, N'], _ =>
      rw [hsrc, hdst] at h6
      simp only [shapeAt, kC1hwncoc0C1, kC1hwncoc0H, kC1hwncoc0W, kC1hwncoc0N, kC1hwncoc0Co,
        kC1hwncoc0C0, kHwcnH, kHwcnW, kHwcnC, kHwcnN, List.getD_cons_zero, List.getD_cons_succ,
        not_or, ne_eq, not_not] at h6
      obtain ⟨e1, e2, e3, e4, e5, e6⟩ := h6
      subst e2 e3 e4
      exact ⟨C1, H, W, N, Co, C0, C, rfl, rfl, h5, e1, e5, e6, hsrc ▸ hsv, hdst ▸ hsv2, h2'⟩

theorem IsShapeValidLoop_bound :
    ∀ (dims : List Int) (num : Int), 0 ≤ num → num ≤ kShapeItemNumMAX →
      IsShapeValidLoop dims num = true →
      dims.foldl (fun a dim => a * dim) num ≤ kShapeItemNumMAX ∧
        0 ≤ dims.foldl (fun a dim => a * dim) num := by
  intro dims
  induction dims with
  | nil => intro num h0 h1 _; exact ⟨h1, h0⟩
  | cons d ds ih =>
    intro num h0 h1 h
    unfold IsShapeValidLoop at h
    split_ifs at h with hneg hover
    simp only [List.foldl_cons]
    have hd0 : 0 ≤ d := by omega
    refine ih (num * d) (mul_nonneg h0 hd0) ?_ h
    by_cases hz : d = 0
    · subst hz
      simp [kShapeItemNumMAX]
    · have hdpos : 0 < d := by omega
      have hq : num ≤ kShapeItemNumMAX.tdiv d := by
        by_contra hc
        exact hover ⟨hz, by omega⟩
      rw [Int.tdiv_eq_ediv (by simp [kShapeItemNumMAX]) hd0] at hq
      calc num * d ≤ (kShapeItemNumMAX / d) * d :=
            mul_le_mul_of_nonneg_right hq hd0
        _ ≤ kShapeItemNumMAX := Int.ediv_mul_le _ (by omega)

theorem GetItemNumByShape_le {shape : List Int} (h : IsShapeValid shape = true) :
    GetItemNumByShape shape ≤ kShapeItemNumMAX := by
  unfold IsShapeValid at h
  split_ifs at h
  exact (IsShapeValidLoop_bound shape 1 (by decide) (by decide) h).1

/-- The two indices in mixed radix form. -/
theorem dstIndex_eq (args : TransArgs) {C1 H W N Co C0 C : Int}
    (hs : args.src_shape = [C1, H, W, N, Co, C0]) (hd : args.dst_shape = [H, W, C, N])
    (h w c n : Int) : dstIndex args h w c n = ((h * W + w) * C + c) * N + n := by
  simp only [dstIndex, hs, hd, shapeAt, kC1hwncoc0W, kC1hwncoc0N, kHwcnC, List.getD_cons_zero,
    List.getD_cons_succ]
  ring

theorem srcIndex_eq (args : TransArgs) {C1 H W N Co C0 : Int}
    (hs : args.src_shape = [C1, H, W, N, Co, C0]) (h w c n : Int) (hc : 0 ≤ c)
    (hcube : 0 < GetC0Value args) :
    srcIndex args h w c n =
      ((((c / GetC0Value args * H + h) * W + w) * N + n) * Co + c % GetC0Value args) * C0 +
        c % GetC0Value args := by
  simp only [srcIndex, hs, shapeAt, kC1hwncoc0H, kC1hwncoc0W, kC1hwncoc0N, kC1hwncoc0Co,
    kC1hwncoc0C0, List.getD_cons_zero, List.getD_cons_succ,
    Int.tdiv_eq_ediv hc (le_of_lt hcube), Int.tmod_eq_emod hc (le_of_lt hcube)]
  ring

theorem example_run : TransFormat exampleTransArgs ⟨none, 0⟩ true =
    some (.SUCCESS, ⟨some [0, 4, 3, 7, 8, 12], 6⟩) := by
  decide

end formats

/-- C39: when the argument check passes, the source dims are `C1`, `H`, `W`,
`N`, `Co`, `C0` and the destination dims `H`, `W`, `C`, `N` with
`C1 = (C - 1) div cube + 1` and `Co = C0 = cube`, and both item numbers are at
most 2^40, so that no index leaves the range of `int64_t`. When moreover all
dims are positive, for every `h < H`, `w < W`, `c < C`, `n < N` the source
index that the loop computes is smaller than `C1 * H * W * N * Co * C0`, the
destination index is smaller than `H * W * C * N`, and two tuples with the
same destination index are the same tuple. -/
theorem C39_index_safety (args : formats.TransArgs)
    (hcheck : formats.CheckArgsForC1hwncoc0ToHwcn args = some .SUCCESS)
    (hpos : ∀ d ∈ args.src_shape ++ args.dst_shape, 0 < d) :
    ∃ C1 H W N C cube : Int,
      args.src_shape = [C1, H, W, N, cube, cube] ∧ args.dst_shape = [H, W, C, N] ∧
      cube = formats.GetC0Value args ∧ C1 = (C - 1) / cube + 1 ∧
      formats.GetItemNumByShape args.src_shape = C1 * H * W * N * cube * cube ∧
      formats.GetItemNumByShape args.dst_shape = H * W * C * N ∧
      C1 * H * W * N * cube * cube ≤ 2 ^ 40 ∧ H * W * C * N ≤ 2 ^ 40 ∧
      ∀ h w c n : Nat, (h : Int) < H → (w : Int) < W → (c : Int) < C → (n : Int) < N →
        0 ≤ formats.srcIndex args h w c n ∧
        formats.srcIndex args h w c n < C1 * H * W * N * cube * cube ∧
        0 ≤ formats.dstIndex args h w c n ∧
        formats.dstIndex args h w c n < H * W * C * N ∧
        ∀ h1 w1 c1 n1 : Nat, (h1 : Int) < H → (w1 : Int) < W → (c1 : Int) < C →
          (n1 : Int) < N →
          formats.dstIndex args h w c n = formats.dstIndex args h1 w1 c1 n1 →
          h = h1 ∧ w = w1 ∧ c = c1 ∧ n = n1 := by
  obtain ⟨C1, H, W, N, Co, C0, C, hs, hd, hcube, hC1, hCo, hC0, hsv, hdv, _⟩ :=
    formats.CheckArgs_success hcheck
  have hmax : formats.kShapeItemNumMAX = 2 ^ 40 := by
    unfold formats.kShapeItemNumMAX
    norm_num
  have hsl := formats.GetItemNumByShape_le hsv
  have hdl := formats.GetItemNumByShape_le hdv
  rw [hmax] at hsl hdl
  rw [hs, hd] at hpos
  have pC1 : 0 < C1 := hpos C1 (by simp)
  have pH : 0 < H := hpos H (by simp)
  have pW : 0 < W := hpos W (by simp)
  have pN : 0 < N := hpos N (by simp)
  have pCo : 0 < Co := hpos Co (by simp)
  have pC : 0 < C := hpos C (by simp)
  have pcube : 0 < formats.GetC0Value args := by rw [← hCo]; exact pCo
  subst hCo
  subst hC0
  have hC1' : C1 = (C - 1) / (formats.GetC0Value args) + 1 := by
    rw [hC1, Int.tdiv_eq_ediv (by omega) (le_of_lt pcube)]
  have hsn : formats.GetItemNumByShape args.src_shape =
      C1 * H * W * N * (formats.GetC0Value args) * (formats.GetC0Value args) := by
    rw [hs]
    simp only [formats.GetItemNumByShape, List.foldl_cons, List.foldl_nil]
    ring
  have hdn : formats.GetItemNumByShape args.dst_shape = H * W * C * N := by
    rw [hd]
    simp only [formats.GetItemNumByShape, List.foldl_cons, List.foldl_nil]
    ring
  rw [hsn] at hsl
  rw [hdn] at hdl
  refine ⟨C1, H, W, N, C, (formats.GetC0Value args), hs, hd, rfl, hC1', hsn, hdn, hsl, hdl, ?_⟩
  intro h w c n hh hw hc hn
  have h0 : (0 : Int) ≤ h := Int.ofNat_nonneg h
  have w0 : (0 : Int) ≤ w := Int.ofNat_nonneg w
  have c0 : (0 : Int) ≤ c := Int.ofNat_nonneg c
  have n0 : (0 : Int) ≤ n := Int.ofNat_nonneg n
  rw [formats.srcIndex_eq args hs h w c n c0 pcube, formats.dstIndex_eq args hs hd]
  have e0 : 0 ≤ (c : Int) / (formats.GetC0Value args) := Int.ediv_nonneg c0 (le_of_lt pcube)
  have e1 : (c : Int) / (formats.GetC0Value args) < C1 := by
    rw [hC1']
    have : (c : Int) / (formats.GetC0Value args) ≤ (C - 1) / (formats.GetC0Value args) :=
      Int.ediv_le_ediv pcube (by omega)
    omega
  have r0 : 0 ≤ (c : Int) % (formats.GetC0Value args) := Int.emod_nonneg _ (by omega)
  have r1 : (c : Int) % (formats.GetC0Value args) < (formats.GetC0Value args) :=
    Int.emod_lt_of_pos _ pcube
  have s1 := formats.radix_lt e0 e1 h0 hh
  have s2 := formats.radix_lt s1.1 s1.2 w0 hw
  have s3 := formats.radix_lt s2.1 s2.2 n0 hn
  have s4 := formats.radix_lt s3.1 s3.2 r0 r1
  have s5 := formats.radix_lt s4.1 s4.2 r0 r1
  have d1 := formats.radix_lt h0 hh w0 hw
  have d2 := formats.radix_lt d1.1 d1.2 c0 hc
  have d3 := formats.radix_lt d2.1 d2.2 n0 hn
  refine ⟨s5.1, s5.2, d3.1, d3.2, ?_⟩
  intro h1 w1 c1 n1 hh1 hw1 hc1 hn1 heq
  rw [formats.dstIndex_eq args hs hd] at heq
  have i1 := formats.radix_inj n0 hn (Int.ofNat_nonneg n1) hn1 heq
  have i2 := formats.radix_inj c0 hc (Int.ofNat_nonneg c1) hc1 i1.1
  have i3 := formats.radix_inj w0 hw (Int.ofNat_nonneg w1) hw1 i2.1
  exact ⟨by exact_mod_cast i3.1, by exact_mod_cast i3.2, by exact_mod_cast i2.2,
    by exact_mod_cast i1.2⟩

/-- Witness for C39: three channels in cubes of two. -/
theorem C39_index_safety_witness :
    formats.srcIndex formats.exampleTransArgs 0 0 2 1 = 12 ∧
    formats.dstIndex formats.exampleTransArgs 0 0 2 1 = 5 ∧
    ∃ C1 H W N C cube : Int,
      formats.exampleTransArgs.src_shape = [C1, H, W, N, cube, cube] ∧
      formats.exampleTransArgs.dst_shape = [H, W, C, N] ∧
      formats.srcIndex formats.exampleTransArgs 0 0 2 1 < C1 * H * W * N * cube * cube := by
  obtain ⟨C1, H, W, N, C, cube, h1, h2, _, _, _, _, _, _, h9⟩ :=
    C39_index_safety formats.exampleTransArgs (by decide) (by decide)
  refine ⟨by decide, by decide, C1, H, W, N, C, cube, h1, h2, ?_⟩
  have hd : formats.exampleTransArgs.dst_shape = [1, 1, 3, 2] := rfl
  rw [hd] at h2
  simp only [List.cons.injEq, and_true] at h2
  obtain ⟨e1, e2, e3, e4⟩ := h2
  have := h9 0 0 2 1 (by rw [← e1]; decide) (by rw [← e2]; decide) (by rw [← e3]; decide)
    (by rw [← e4]; decide)
  exact this.2.1

namespace formats

/-! lists of bytes -/

theorem writeAt_length (dst : List Nat) (off : Nat) (bytes : List Nat)
    (h : off + bytes.length ≤ dst.length) : (writeAt dst off bytes).length = dst.length := by
  simp only [writeAt, List.length_append, List.length_take, List.length_drop]
  omega

theorem writeAt_getElem_opt (dst : List Nat) (off : Nat) (bytes : List Nat)
    (h : off + bytes.length ≤ dst.length) (k : Nat) :
    (writeAt dst off bytes)[k]? =
      if k < off then dst[k]? else if k < off + bytes.length then bytes[k - off]? else dst[k]? := by
  have hl : (dst.take off).length = off := by
    rw [List.length_take]
    omega
  unfold writeAt
  by_cases h1 : k < off
  · rw [if_pos h1, List.append_assoc, List.getElem?_append_left (by omega),
      List.getElem?_take_of_lt h1]
  · rw [if_neg h1, List.append_assoc, List.getElem?_append_right (by omega), hl]
    by_cases h2 : k < off + bytes.length
    · rw [if_pos h2, List.getElem?_append_left (by omega)]
    · rw [if_neg h2, List.getElem?_append_right (by omega), List.getElem?_drop]
      congr 1
      omega

theorem element_getElem_opt (buf : List Nat) (size i j : Nat) :
    (element buf size i)[j]? = if j < size then buf[i * size + j]? else none := by
  unfold element
  by_cases h : j < size
  · rw [if_pos h, List.getElem?_take_of_lt h, List.getElem?_drop]
  · rw [if_neg h, List.getElem?_eq_none]
    rw [List.length_take]
    omega

theorem element_length (buf : List Nat) (size i : Nat) (h : i * size + size ≤ buf.length) :
    (element buf size i).length = size := by
  unfold element
  rw [List.length_take, List.length_drop]
  omega

theorem mul_size_disjoint {e e0 : Nat} (size : Nat) (h : e < e0) : e * size + size ≤ e0 * size := by
  have := Nat.mul_le_mul_right size (Nat.succ_le_of_lt h)
  rw [Nat.succ_mul] at this
  exact this

/-- The written element is read back. -/
theorem element_writeAt_same (dst bytes : List Nat) (size e : Nat) (hb : bytes.length = size)
    (h : e * size + size ≤ dst.length) : element (writeAt dst (e * size) bytes) size e = bytes := by
  apply List.ext_getElem?
  intro j
  rw [element_getElem_opt, writeAt_getElem_opt dst _ bytes (by omega)]
  by_cases hj : j < size
  · rw [if_pos hj, if_neg (by omega), if_pos (by omega)]
    congr 1
    omega
  · rw [if_neg hj]
    symm
    rw [List.getElem?_eq_none]
    omega

/-- Writing one element leaves every other element as it was. -/
theorem element_writeAt_other (dst bytes : List Nat) (size e e0 : Nat) (hb : bytes.length = size)
    (h : e * size + size ≤ dst.length) (hne : e ≠ e0) :
    element (writeAt dst (e * size) bytes) size e0 = element dst size e0 := by
  apply List.ext_getElem?
  intro j
  rw [element_getElem_opt, element_getElem_opt]
  by_cases hj : j < size
  · rw [if_pos hj, if_pos hj, writeAt_getElem_opt dst _ bytes (by omega)]
    rcases Nat.lt_or_gt_of_ne hne with hlt | hgt
    · have := mul_size_disjoint size hlt
      rw [if_neg (by omega), if_neg (by omega)]
    · have := mul_size_disjoint size hgt
      rw [if_pos (by omega)]
  · rw [if_neg hj, if_neg hj]

/-! folds -/

theorem foldl_keeps {ι σ : Type} (g : ι → σ → σ) (P : σ → Prop) (xs : List ι)
    (hstep : ∀ x ∈ xs, ∀ s, P s → P (g x s)) :
    ∀ s, P s → P (xs.foldl (fun t x => g x t) s) := by
  induction xs with
  | nil => intro s h; exact h
  | cons x xs ih =>
    intro s h
    simp only [List.foldl_cons]
    exact ih (fun y hy => hstep y (List.mem_cons_of_mem _ hy)) _
      (hstep x (List.mem_cons_self _ _) s h)

/-- A property that the step for `x0` brings about and every step keeps holds
after the loop. -/
theorem foldl_point {ι σ : Type} (g : ι → σ → σ) (I P : σ → Prop) (xs : List ι) (x0 : ι)
    (hx0 : x0 ∈ xs) (hI : ∀ x ∈ xs, ∀ s, I s → I (g x s))
    (hkeep : ∀ x ∈ xs, ∀ s, I s → P s → P (g x s))
    (hmake : ∀ s, I s → P (g x0 s)) :
    ∀ s, I s → P (xs.foldl (fun t x => g x t) s) := by
  induction xs with
  | nil => cases hx0
  | cons x xs ih =>
    intro s hs
    simp only [List.foldl_cons]
    have hIx := hI x (List.mem_cons_self _ _) s hs
    rcases List.mem_cons.1 hx0 with heq | hmem
    · subst heq
      have hboth := foldl_keeps g (fun t => I t ∧ P t) xs
        (fun y hy t ht =>
          ⟨hI y (List.mem_cons_of_mem _ hy) t ht.1,
            hkeep y (List.mem_cons_of_mem _ hy) t ht.1 ht.2⟩)
        (g x0 s) ⟨hIx, hmake s hs⟩
      exact hboth.2
    · exact ih hmem (fun y hy => hI y (List.mem_cons_of_mem _ hy))
        (fun y hy => hkeep y (List.mem_cons_of_mem _ hy)) _ hIx

/-- A loop whose body always succeeds is the fold of the results. -/
theorem forRange_ok {σ : Type} (f : Nat → σ → Option (Except Status σ)) (g : Nat → σ → σ)
    (I : σ → Prop) (xs : List Nat)
    (hstep : ∀ i ∈ xs, ∀ s, I s → f i s = some (.ok (g i s)) ∧ I (g i s)) :
    ∀ s, I s → forRange f xs s = some (.ok (xs.foldl (fun t i => g i t) s)) ∧
      I (xs.foldl (fun t i => g i t) s) := by
  induction xs with
  | nil => intro s h; exact ⟨rfl, h⟩
  | cons x xs ih =>
    intro s h
    have hx := hstep x (List.mem_cons_self _ _) s h
    simp only [forRange, hx.1, List.foldl_cons]
    exact ih (fun y hy => hstep y (List.mem_cons_of_mem _ hy)) _ hx.2

end formats

namespace formats

theorem radix_lt_nat {a b A B : Nat} (ha : a < A) (hb : b < B) : a * B + b < A * B := by
  have h1 : (a + 1) * B ≤ A * B := Nat.mul_le_mul_right B ha
  rw [Nat.succ_mul] at h1
  omega

theorem positionHWCN_lt {H W C N h w c n : Nat} (hh : h < H) (hw : w < W) (hc : c < C)
    (hn : n < N) : positionHWCN W C N h w c n < H * W * C * N := by
  unfold positionHWCN
  exact radix_lt_nat (radix_lt_nat (radix_lt_nat hh hw) hc) hn

theorem positionC1HWNCoC0_lt {C1 H W N Co C0 c1 h w n co c0 : Nat} (h1 : c1 < C1) (hh : h < H)
    (hw : w < W) (hn : n < N) (hco : co < Co) (hc0 : c0 < C0) :
    positionC1HWNCoC0 H W N Co C0 c1 h w n co c0 < C1 * H * W * N * Co * C0 := by
  unfold positionC1HWNCoC0
  exact radix_lt_nat (radix_lt_nat (radix_lt_nat (radix_lt_nat (radix_lt_nat h1 hh) hw) hn) hco)
    hc0

theorem positionHWCN_inj {W C N h w c n h1 w1 c1 n1 : Nat} (hw : w < W) (hc : c < C)
    (hn : n < N) (hw1 : w1 < W) (hc1 : c1 < C) (hn1 : n1 < N)
    (heq : positionHWCN W C N h w c n = positionHWCN W C N h1 w1 c1 n1) :
    h = h1 ∧ w = w1 ∧ c = c1 ∧ n = n1 := by
  unfold positionHWCN at heq
  have key : ∀ {a b a' b' B : Nat}, b < B → b' < B → a * B + b = a' * B + b' →
      a = a' ∧ b = b' := by
    intro a b a' b' B hb hb' h
    have h1 : ((a : Int) * B + b) = (a' : Int) * B + b' := by exact_mod_cast h
    have := radix_inj (Int.ofNat_nonneg b) (by exact_mod_cast hb) (Int.ofNat_nonneg b')
      (by exact_mod_cast hb') h1
    exact ⟨by exact_mod_cast this.1, by exact_mod_cast this.2⟩
  have i1 := key hn hn1 heq
  have i2 := key hc hc1 i1.1
  have i3 := key hw hw1 i2.1
  exact ⟨i3.1, i3.2, i2.2, i1.2⟩

theorem div_cube_lt {C cube c : Nat} (hc : c < C) :
    c / cube < (C - 1) / cube + 1 := by
  have : c / cube ≤ (C - 1) / cube := Nat.div_le_div_right (by omega)
  omega

/-- The body of the innermost loop copies one element when the buffers have
the lengths of the two tensors. -/
theorem copyElement_ok (args : TransArgs) (C1 H W N C cube size : Nat)
    (hs : args.src_shape = [(C1 : Int), H, W, N, cube, cube])
    (hd : args.dst_shape = [(H : Int), W, C, N]) (hcube : GetC0Value args = cube)
    (hcpos : 0 < cube) (hC1 : C1 = (C - 1) / cube + 1) (hsz : 0 < size) (hsz4 : size ≤ 4)
    (hdata : C1 * H * W * N * cube * cube * size ≤ args.data.length)
    (h w c n : Nat) (hh : h < H) (hw : w < W) (hc : c < C) (hn : n < N) (dst : List Nat)
    (hlen : dst.length = H * W * C * N * size) :
    copyElement args size ((H * W * C * N * size : Nat) : Int) h w c n dst =
      some (.ok (copied args.data size H W C N cube h w c n dst)) ∧
    (copied args.data size H W C N cube h w c n dst).length = H * W * C * N * size := by
  have e1 : dstIndex args (h : Int) w c n = ((positionHWCN W C N h w c n : Nat) : Int) := by
    rw [dstIndex_eq args hs hd]
    unfold positionHWCN
    push_cast
    ring
  have e2 : srcIndex args (h : Int) w c n =
      ((positionC1HWNCoC0 H W N cube cube (c / cube) h w n (c % cube) (c % cube) : Nat) :
        Int) := by
    rw [srcIndex_eq args hs _ _ _ _ (Int.ofNat_nonneg c) (by rw [hcube]; exact_mod_cast hcpos),
      hcube]
    unfold positionC1HWNCoC0
    push_cast
    ring
  have b1 := positionHWCN_lt hh hw hc hn
  have b2 : positionC1HWNCoC0 H W N cube cube (c / cube) h w n (c % cube) (c % cube) <
      C1 * H * W * N * cube * cube :=
    positionC1HWNCoC0_lt (by rw [hC1]; exact div_cube_lt hc) hh hw hn
      (Nat.mod_lt _ hcpos) (Nat.mod_lt _ hcpos)
  have d1 : positionHWCN W C N h w c n * size + size ≤ H * W * C * N * size := by
    have := Nat.mul_le_mul_right size (Nat.succ_le_of_lt b1)
    rw [Nat.succ_mul] at this
    exact this
  have d2 : positionC1HWNCoC0 H W N cube cube (c / cube) h w n (c % cube) (c % cube) * size +
      size ≤ args.data.length := by
    have := Nat.mul_le_mul_right size (Nat.succ_le_of_lt b2)
    rw [Nat.succ_mul] at this
    omega
  have hel := element_length args.data size _ d2
  constructor
  · unfold copyElement
    simp only [e1, e2]
    unfold copied writeElement writeAt
    rw [hel]
    unfold element
    generalize positionHWCN W C N h w c n = dI at d1 ⊢
    generalize positionC1HWNCoC0 H W N cube cube (c / cube) h w n (c % cube) (c % cube) = sI
      at d2 ⊢
    have o1 : ((dI : Int) * (size : Int)) = ((dI * size : Nat) : Int) := by push_cast; rfl
    have o2 : ((sI : Int) * (size : Int)) = ((sI * size : Nat) : Int) := by push_cast; rfl
    rw [o1, o2]
    generalize dI * size = doff at d1 ⊢
    generalize sI * size = soff at d2 ⊢
    generalize H * W * C * N * size = T at d1 hlen ⊢
    have hmaxv : SECUREC_MEM_MAX_LEN = 2147483647 := by
      unfold SECUREC_MEM_MAX_LEN
      norm_num
    unfold memcpy_s
    simp only [hmaxv, hlen]
    split_ifs <;> first | omega | simp
  · unfold copied writeElement
    rw [writeAt_length _ _ _ (by rw [hel, hlen]; exact d1), hlen]

/-- One copy keeps the length of the destination, keeps the correct content
of the element of any tuple, and brings about the correct content of the
element of its own tuple. -/
theorem copied_facts (data : List Nat) (size H W C N cube C1 : Nat) (hcpos : 0 < cube)
    (hC1 : C1 = (C - 1) / cube + 1)
    (hdata : C1 * H * W * N * cube * cube * size ≤ data.length)
    (h w c n : Nat) (hh : h < H) (hw : w < W) (hc : c < C) (hn : n < N) (dst : List Nat)
    (hlen : dst.length = H * W * C * N * size) :
    (copied data size H W C N cube h w c n dst).length = H * W * C * N * size ∧
    element (copied data size H W C N cube h w c n dst) size (positionHWCN W C N h w c n) =
      element data size
        (positionC1HWNCoC0 H W N cube cube (c / cube) h w n (c % cube) (c % cube)) ∧
    ∀ h0 w0 c0 n0 : Nat, w0 < W → c0 < C → n0 < N →
      element dst size (positionHWCN W C N h0 w0 c0 n0) =
        element data size
          (positionC1HWNCoC0 H W N cube cube (c0 / cube) h0 w0 n0 (c0 % cube) (c0 % cube)) →
      element (copied data size H W C N cube h w c n dst) size (positionHWCN W C N h0 w0 c0 n0) =
        element data size
          (positionC1HWNCoC0 H W N cube cube (c0 / cube) h0 w0 n0 (c0 % cube) (c0 % cube)) := by
  have b1 := positionHWCN_lt hh hw hc hn
  have b2 : positionC1HWNCoC0 H W N cube cube (c / cube) h w n (c % cube) (c % cube) <
      C1 * H * W * N * cube * cube :=
    positionC1HWNCoC0_lt (by rw [hC1]; exact div_cube_lt hc) hh hw hn
      (Nat.mod_lt _ hcpos) (Nat.mod_lt _ hcpos)
  have d1 : positionHWCN W C N h w c n * size + size ≤ dst.length := by
    have := Nat.mul_le_mul_right size (Nat.succ_le_of_lt b1)
    rw [Nat.succ_mul] at this
    omega
  have d2 : positionC1HWNCoC0 H W N cube cube (c / cube) h w n (c % cube) (c % cube) * size +
      size ≤ data.length := by
    have := Nat.mul_le_mul_right size (Nat.succ_le_of_lt b2)
    rw [Nat.succ_mul] at this
    omega
  have hel := element_length data size _ d2
  have hmake : element (copied data size H W C N cube h w c n dst) size
      (positionHWCN W C N h w c n) =
      element data size
        (positionC1HWNCoC0 H W N cube cube (c / cube) h w n (c % cube) (c % cube)) := by
    unfold copied writeElement
    exact element_writeAt_same dst _ size _ hel d1
  refine ⟨?_, hmake, ?_⟩
  · unfold copied writeElement
    rw [writeAt_length _ _ _ (by rw [hel]; exact d1), hlen]
  · intro h0 w0 c0 n0 hw0 hc0 hn0 hP
    by_cases heq : positionHWCN W C N h w c n = positionHWCN W C N h0 w0 c0 n0
    · obtain ⟨rfl, rfl, rfl, rfl⟩ := positionHWCN_inj hw hc hn hw0 hc0 hn0 heq
      exact hmake
    · unfold copied writeElement
      rw [element_writeAt_other dst _ size _ _ hel d1 heq]
      exact hP

/-- The content of the destination after the four loops. -/
theorem copiedH_facts (data : List Nat) (size H W C N cube C1 : Nat) (hcpos : 0 < cube)
    (hC1 : C1 = (C - 1) / cube + 1)
    (hdata : C1 * H * W * N * cube * cube * size ≤ data.length) (dst : List Nat)
    (hlen : dst.length = H * W * C * N * size) :
    ∀ h0 w0 c0 n0 : Nat, h0 < H → w0 < W → c0 < C → n0 < N →
      element (copiedH data size H W C N cube dst) size (positionHWCN W C N h0 w0 c0 n0) =
        element data size
          (positionC1HWNCoC0 H W N cube cube (c0 / cube) h0 w0 n0 (c0 % cube) (c0 % cube)) := by
  intro h0 w0 c0 n0 hh0 hw0 hc0 hn0
  have base := copied_facts data size H W C N cube C1 hcpos hC1 hdata
  -- the innermost loop
  have nI : ∀ h w c, h < H → w < W → c < C → ∀ d, d.length = H * W * C * N * size →
      (copiedN data size H W C N cube h w c d).length = H * W * C * N * size := by
    intro h w c hh hw hc
    exact foldl_keeps (fun n d => copied data size H W C N cube h w c n d)
      (fun d => d.length = H * W * C * N * size) (List.range N)
      (fun n hn d hd => (base h w c n hh hw hc (List.mem_range.1 hn) d hd).1)
  have nK : ∀ h w c, h < H → w < W → c < C → ∀ d,
      (d.length = H * W * C * N * size ∧
        element d size (positionHWCN W C N h0 w0 c0 n0) =
          element data size
            (positionC1HWNCoC0 H W N cube cube (c0 / cube) h0 w0 n0 (c0 % cube) (c0 % cube))) →
      (copiedN data size H W C N cube h w c d).length = H * W * C * N * size ∧
        element (copiedN data size H W C N cube h w c d) size
          (positionHWCN W C N h0 w0 c0 n0) =
          element data size
            (positionC1HWNCoC0 H W N cube cube (c0 / cube) h0 w0 n0 (c0 % cube)
              (c0 % cube)) := by
    intro h w c hh hw hc
    exact foldl_keeps (fun n d => copied data size H W C N cube h w c n d) _ (List.range N)
      (fun n hn d hd =>
        ⟨(base h w c n hh hw hc (List.mem_range.1 hn) d hd.1).1,
          (base h w c n hh hw hc (List.mem_range.1 hn) d hd.1).2.2 h0 w0 c0 n0 hw0 hc0 hn0
            hd.2⟩)
  have nM : ∀ d, d.length = H * W * C * N * size →
      element (copiedN data size H W C N cube h0 w0 c0 d) size
        (positionHWCN W C N h0 w0 c0 n0) =
        element data size
          (positionC1HWNCoC0 H W N cube cube (c0 / cube) h0 w0 n0 (c0 % cube) (c0 % cube)) :=
    foldl_point (fun n d => copied data size H W C N cube h0 w0 c0 n d)
      (fun d => d.length = H * W * C * N * size) _ (List.range N) n0 (List.mem_range.2 hn0)
      (fun n hn d hd => (base h0 w0 c0 n hh0 hw0 hc0 (List.mem_range.1 hn) d hd).1)
      (fun n hn d hd hP =>
        (base h0 w0 c0 n hh0 hw0 hc0 (List.mem_range.1 hn) d hd).2.2 h0 w0 c0 n0 hw0 hc0 hn0 hP)
      (fun d hd => (base h0 w0 c0 n0 hh0 hw0 hc0 hn0 d hd).2.1)
  -- the loop over c
  have cI : ∀ h w, h < H → w < W → ∀ d, d.length = H * W * C * N * size →
      (copiedC data size H W C N cube h w d).length = H * W * C * N * size := by
    intro h w hh hw
    exact foldl_keeps (fun c d => copiedN data size H W C N cube h w c d)
      (fun d => d.length = H * W * C * N * size) (List.range C)
      (fun c hc d hd => nI h w c hh hw (List.mem_range.1 hc) d hd)
  have cK : ∀ h w, h < H → w < W → ∀ d,
      (d.length = H * W * C * N * size ∧
        element d size (positionHWCN W C N h0 w0 c0 n0) =
          element data size
            (positionC1HWNCoC0 H W N cube cube (c0 / cube) h0 w0 n0 (c0 % cube) (c0 % cube))) →
      (copiedC data size H W C N cube h w d).length = H * W * C * N * size ∧
        element (copiedC data size H W C N cube h w d) size
          (positionHWCN W C N h0 w0 c0 n0) =
          element data size
            (positionC1HWNCoC0 H W N cube cube (c0 / cube) h0 w0 n0 (c0 % cube)
              (c0 % cube)) := by
    intro h w hh hw
    exact foldl_keeps (fun c d => copiedN data size H W C N cube h w c d) _ (List.range C)
      (fun c hc d hd => nK h w c hh hw (List.mem_range.1 hc) d hd)
  have cM : ∀ d, d.length = H * W * C * N * size →
      element (copiedC data size H W C N cube h0 w0 d) size
        (positionHWCN W C N h0 w0 c0 n0) =
        element data size
          (positionC1HWNCoC0 H W N cube cube (c0 / cube) h0 w0 n0 (c0 % cube) (c0 % cube)) :=
    foldl_point (fun c d => copiedN data size H W C N cube h0 w0 c d)
      (fun d => d.length = H * W * C * N * size) _ (List.range C) c0 (List.mem_range.2 hc0)
      (fun c hc d hd => nI h0 w0 c hh0 hw0 (List.mem_range.1 hc) d hd)
      (fun c hc d hd hP => (nK h0 w0 c hh0 hw0 (List.mem_range.1 hc) d ⟨hd, hP⟩).2)
      (fun d hd => nM d hd)
  -- the loop over w
  have wI : ∀ h, h < H → ∀ d, d.length = H * W * C * N * size →
      (copiedW data size H W C N cube h d).length = H * W * C * N * size := by
    intro h hh
    exact foldl_keeps (fun w d => copiedC data size H W C N cube h w d)
      (fun d => d.length = H * W * C * N * size) (List.range W)
      (fun w hw d hd => cI h w hh (List.mem_range.1 hw) d hd)
  have wK : ∀ h, h < H → ∀ d,
      (d.length = H * W * C * N * size ∧
        element d size (positionHWCN W C N h0 w0 c0 n0) =
          element data size
            (positionC1HWNCoC0 H W N cube cube (c0 / cube) h0 w0 n0 (c0 % cube) (c0 % cube))) →
      (copiedW data size H W C N cube h d).length = H * W * C * N * size ∧
        element (copiedW data size H W C N cube h d) size (positionHWCN W C N h0 w0 c0 n0) =
          element data size
            (positionC1HWNCoC0 H W N cube cube (c0 / cube) h0 w0 n0 (c0 % cube)
              (c0 % cube)) := by
    intro h hh
    exact foldl_keeps (fun w d => copiedC data size H W C N cube h w d) _ (List.range W)
      (fun w hw d hd => cK h w hh (List.mem_range.1 hw) d hd)
  have wM : ∀ d, d.length = H * W * C * N * size →
      element (copiedW data size H W C N cube h0 d) size (positionHWCN W C N h0 w0 c0 n0) =
        element data size
          (positionC1HWNCoC0 H W N cube cube (c0 / cube) h0 w0 n0 (c0 % cube) (c0 % cube)) :=
    foldl_point (fun w d => copiedC data size H W C N cube h0 w d)
      (fun d => d.length = H * W * C * N * size) _ (List.range W) w0 (List.mem_range.2 hw0)
      (fun w hw d hd => cI h0 w hh0 (List.mem_range.1 hw) d hd)
      (fun w hw d hd hP => (cK h0 w hh0 (List.mem_range.1 hw) d ⟨hd, hP⟩).2)
      (fun d hd => cM d hd)
  -- the loop over h
  exact foldl_point (fun h d => copiedW data size H W C N cube h d)
    (fun d => d.length = H * W * C * N * size) _ (List.range H) h0 (List.mem_range.2 hh0)
    (fun h hh d hd => wI h (List.mem_range.1 hh) d hd)
    (fun h hh d hd hP => (wK h (List.mem_range.1 hh) d ⟨hd, hP⟩).2)
    (fun d hd => wM d hd) dst hlen

end formats

namespace formats

theorem IsShapeValidLoop_nonneg :
    ∀ (dims : List Int) (num : Int), IsShapeValidLoop dims num = true → ∀ d ∈ dims, 0 ≤ d := by
  intro dims
  induction dims with
  | nil => intro num _ d hd; cases hd
  | cons x xs ih =>
    intro num h d hd
    unfold IsShapeValidLoop at h
    split_ifs at h with hneg hover
    rcases List.mem_cons.1 hd with rfl | hmem
    · omega
    · exact ih _ h d hmem

theorem IsShapeValid_nonneg {shape : List Int} (h : IsShapeValid shape = true) :
    ∀ d ∈ shape, 0 ≤ d := by
  unfold IsShapeValid at h
  split_ifs at h
  exact IsShapeValidLoop_nonneg shape 1 h

/-- The four loops run to the end and make the copies in turn. -/
theorem loops_ok (args : TransArgs) (C1 H W N C cube size : Nat)
    (hs : args.src_shape = [(C1 : Int), H, W, N, cube, cube])
    (hd : args.dst_shape = [(H : Int), W, C, N]) (hcube : GetC0Value args = cube)
    (hcpos : 0 < cube) (hC1 : C1 = (C - 1) / cube + 1) (hsz : 0 < size) (hsz4 : size ≤ 4)
    (hdata : C1 * H * W * N * cube * cube * size ≤ args.data.length) (dst : List Nat)
    (hlen : dst.length = H * W * C * N * size) :
    forRange (fun h_idx d1 =>
        forRange (fun w_idx d2 =>
          forRange (fun c_idx d3 =>
            forRange (fun n_idx d4 =>
                copyElement args size ((H * W * C * N * size : Nat) : Int) h_idx w_idx c_idx
                  n_idx d4)
              (List.range N) d3)
            (List.range C) d2)
          (List.range W) d1)
        (List.range H) dst =
      some (.ok (copiedH args.data size H W C N cube dst)) ∧
    (copiedH args.data size H W C N cube dst).length = H * W * C * N * size := by
  have base := copyElement_ok args C1 H W N C cube size hs hd hcube hcpos hC1 hsz hsz4 hdata
  have nS : ∀ h w c, h < H → w < W → c < C → ∀ d, d.length = H * W * C * N * size →
      forRange (fun n_idx d4 =>
          copyElement args size ((H * W * C * N * size : Nat) : Int) h w c n_idx d4)
        (List.range N) d = some (.ok (copiedN args.data size H W C N cube h w c d)) ∧
      (copiedN args.data size H W C N cube h w c d).length = H * W * C * N * size := by
    intro h w c hh hw hc
    exact forRange_ok _ (fun n d => copied args.data size H W C N cube h w c n d)
      (fun d => d.length = H * W * C * N * size) (List.range N)
      (fun n hn d hd1 => base h w c n hh hw hc (List.mem_range.1 hn) d hd1)
  have cS : ∀ h w, h < H → w < W → ∀ d, d.length = H * W * C * N * size →
      forRange (fun c_idx d3 =>
          forRange (fun n_idx d4 =>
              copyElement args size ((H * W * C * N * size : Nat) : Int) h w c_idx n_idx d4)
            (List.range N) d3)
        (List.range C) d = some (.ok (copiedC args.data size H W C N cube h w d)) ∧
      (copiedC args.data size H W C N cube h w d).length = H * W * C * N * size := by
    intro h w hh hw
    exact forRange_ok _ (fun c d => copiedN args.data size H W C N cube h w c d)
      (fun d => d.length = H * W * C * N * size) (List.range C)
      (fun c hc d hd1 => nS h w c hh hw (List.mem_range.1 hc) d hd1)
  have wS : ∀ h, h < H → ∀ d, d.length = H * W * C * N * size →
      forRange (fun w_idx d2 =>
          forRange (fun c_idx d3 =>
            forRange (fun n_idx d4 =>
                copyElement args size ((H * W * C * N * size : Nat) : Int) h w_idx c_idx n_idx
                  d4)
              (List.range N) d3)
            (List.range C) d2)
        (List.range W) d = some (.ok (copiedW args.data size H W C N cube h d)) ∧
      (copiedW args.data size H W C N cube h d).length = H * W * C * N * size := by
    intro h hh
    exact forRange_ok _ (fun w d => copiedC args.data size H W C N cube h w d)
      (fun d => d.length = H * W * C * N * size) (List.range W)
      (fun w hw d hd1 => cS h w hh (List.mem_range.1 hw) d hd1)
  exact forRange_ok _ (fun h d => copiedW args.data size H W C N cube h d)
    (fun d => d.length = H * W * C * N * size) (List.range H)
    (fun h hh d hd1 => wS h (List.mem_range.1 hh) d hd1) dst hlen

theorem supported_size {data_type : DataType}
    (h : CheckDataTypeSupportedForC1hwncoc0ToHwcn data_type = true) :
    ∃ size : Nat, GetSizeByDataType data_type = size ∧ 0 < size ∧ size ≤ 4 := by
  unfold CheckDataTypeSupportedForC1hwncoc0ToHwcn at h
  simp only [Bool.or_eq_true, decide_eq_true_eq] at h
  rcases h with (h | h) | h
  · exact ⟨4, by rw [h]; rfl, by omega, by omega⟩
  · exact ⟨2, by rw [h]; rfl, by omega, by omega⟩
  · exact ⟨1, by rw [h]; rfl, by omega, by omega⟩

end formats

/-- C38: for arguments that pass the argument check, with a positive
destination size, a source buffer that holds the source tensor and memory for
the destination, `TransFormat` returns success; the result has the length
`H * W * C * N` times the element size, and its element at HWCN position
`(h, w, c, n)` is the source element at C1HWNCoC0 position
`(c div C0, h, w, n, c mod C0, c mod C0)`, for every `h < H`, `w < W`,
`c < C`, `n < N`, where `C0` is the cube size. Without memory for the
destination it returns the allocation status and leaves the result as it
was. -/
theorem C38_element_mapping (args : formats.TransArgs) (result : formats.TransResult)
    (hcheck : formats.CheckArgsForC1hwncoc0ToHwcn args = some .SUCCESS)
    (hsize : 0 < formats.GetItemNumByShape args.dst_shape *
      formats.GetSizeByDataType args.src_data_type)
    (hdata : formats.GetItemNumByShape args.src_shape *
      formats.GetSizeByDataType args.src_data_type ≤ args.data.length) :
    ∃ (H W C N cube size : Nat) (out : List Nat),
      args.dst_shape = [(H : Int), W, C, N] ∧
      args.src_shape = [(((C - 1) / cube + 1 : Nat) : Int), H, W, N, cube, cube] ∧
      formats.GetC0Value args = cube ∧ 0 < cube ∧
      formats.GetSizeByDataType args.src_data_type = size ∧
      formats.TransFormat args result true =
        some (.SUCCESS, { data := some out, length := H * W * C * N * size }) ∧
      formats.TransFormat args result false = some (.ACL_ERROR_GE_MEMORY_ALLOCATION, result) ∧
      out.length = H * W * C * N * size ∧
      ∀ h w c n : Nat, h < H → w < W → c < C → n < N →
        formats.element out size (formats.positionHWCN W C N h w c n) =
          formats.element args.data size
            (formats.positionC1HWNCoC0 H W N cube cube (c / cube) h w n (c % cube)
              (c % cube)) := by
  obtain ⟨C1, H, W, N, Co, C0, C, hs, hd, hcube, hC1, hCo, hC0, hsv, hdv, hdt⟩ :=
    formats.CheckArgs_success hcheck
  obtain ⟨size, hsz, hsz0, hsz4⟩ := formats.supported_size hdt
  have hsn := formats.IsShapeValid_nonneg hsv
  have hdn := formats.IsShapeValid_nonneg hdv
  rw [hs] at hsn
  rw [hd] at hdn
  have nC1 : 0 ≤ C1 := hsn C1 (by simp)
  have nH : 0 ≤ H := hdn H (by simp)
  have nW : 0 ≤ W := hdn W (by simp)
  have nC : 0 ≤ C := hdn C (by simp)
  have nN : 0 ≤ N := hdn N (by simp)
  have nCo : 0 ≤ Co := hsn Co (by simp)
  lift H to ℕ using nH
  lift W to ℕ using nW
  lift C to ℕ using nC
  lift N to ℕ using nN
  lift Co to ℕ using nCo
  lift C1 to ℕ using nC1
  have hC0' : C0 = (Co : Int) := by rw [hC0, hCo]
  subst hC0'
  have hcpos : 0 < Co := by
    rcases Nat.eq_zero_or_pos Co with h0 | hp
    · exfalso
      apply hcube
      rw [← hCo, h0]
      rfl
    · exact hp
  have hprod : formats.GetItemNumByShape args.dst_shape = ((H * W * C * N : Nat) : Int) := by
    rw [hd]
    simp only [formats.GetItemNumByShape, List.foldl_cons, List.foldl_nil]
    push_cast
    ring
  have hsprod : formats.GetItemNumByShape args.src_shape =
      ((C1 * H * W * N * Co * Co : Nat) : Int) := by
    rw [hs]
    simp only [formats.GetItemNumByShape, List.foldl_cons, List.foldl_nil]
    push_cast
    ring
  rw [hprod, hsz] at hsize
  rw [hsprod, hsz] at hdata
  have htot : 0 < H * W * C * N * size := by exact_mod_cast hsize
  have hdata' : C1 * H * W * N * Co * Co * size ≤ args.data.length := by exact_mod_cast hdata
  have pC : 0 < C := by
    rcases Nat.eq_zero_or_pos C with h0 | hp
    · rw [h0] at htot
      simp at htot
    · exact hp
  have hC1n : C1 = (C - 1) / Co + 1 := by
    have h1 : ((C : Int) - 1).tdiv (formats.GetC0Value args) = (((C - 1) / Co : Nat) : Int) := by
      rw [← hCo, Int.tdiv_eq_ediv (by omega) (Int.ofNat_nonneg Co)]
      have : ((C : Int) - 1) = ((C - 1 : Nat) : Int) := by omega
      rw [this]
      norm_cast
    rw [h1] at hC1
    exact_mod_cast hC1
  have hlen0 : (List.replicate (H * W * C * N * size) 0).length = H * W * C * N * size :=
    List.length_replicate _ _
  have hloops := formats.loops_ok args C1 H W N C Co size hs hd hCo.symm hcpos hC1n hsz0 hsz4
    hdata' _ hlen0
  have hpoint := formats.copiedH_facts args.data size H W C N Co C1 hcpos hC1n hdata' _ hlen0
  have htotal : formats.GetItemNumByShape args.dst_shape *
      formats.GetSizeByDataType args.src_data_type = ((H * W * C * N * size : Nat) : Int) := by
    rw [hprod, hsz]
    push_cast
    rfl
  have hnot : ¬ ((H * W * C * N * size : Nat) : Int) ≤ 0 := by
    have : (0 : Int) < ((H * W * C * N * size : Nat) : Int) := by exact_mod_cast htot
    omega
  refine ⟨H, W, C, N, Co, size,
    formats.copiedH args.data size H W C N Co (List.replicate (H * W * C * N * size) 0),
    hd, ?_, hCo.symm, hcpos, hsz, ?_, ?_, hloops.2, hpoint⟩
  · rw [hs, hC1n]
  · unfold formats.TransFormat
    simp only [hcheck, ne_eq, not_true_eq_false, if_false, htotal, if_neg hnot]
    unfold formats.GetDstDataAfterTransForC1hwncoc0ToHwcn
    simp only [Bool.true_eq_false, if_false, hs, hd, hsz, formats.shapeAt,
      formats.kC1hwncoc0H, formats.kC1hwncoc0W, formats.kC1hwncoc0N, formats.kHwcnC,
      List.getD_cons_zero, List.getD_cons_succ, Int.toNat_ofNat]
    rw [hloops.1]
  · unfold formats.TransFormat
    simp only [hcheck, ne_eq, not_true_eq_false, if_false, htotal, if_neg hnot]
    unfold formats.GetDstDataAfterTransForC1hwncoc0ToHwcn
    simp only [if_true]

/-- Witness for C38: three channels in cubes of two; element `(0, 0, 2, 1)` of
the result is source element 12. -/
theorem C38_element_mapping_witness :
    formats.TransFormat formats.exampleTransArgs ⟨none, 0⟩ true =
      some (.SUCCESS, ⟨some [0, 4, 3, 7, 8, 12], 6⟩) ∧
    ∃ (H W C N size : Nat) (out : List Nat),
      formats.exampleTransArgs.dst_shape = [(H : Int), W, C, N] ∧
      formats.TransFormat formats.exampleTransArgs ⟨none, 0⟩ true =
        some (.SUCCESS, { data := some out, length := H * W * C * N * size }) := by
  obtain ⟨H, W, C, N, _, size, out, h1, _, _, _, _, h6, _⟩ :=
    C38_element_mapping formats.exampleTransArgs ⟨none, 0⟩ (by decide) (by decide) (by decide)
  exact ⟨by decide, H, W, C, N, size, out, h1, h6⟩

/-! ## Shapes in the encoded records -/

/-- A dimension that is not negative is stored as it is. -/
theorem dump.castToUInt64_of_nonneg (d : Int) (h1 : 0 ≤ d) (h2 : d < 2 ^ 64) :
    (dump.castToUInt64 d : Int) = d := by
  unfold dump.castToUInt64
  rw [Int.toNat_of_nonneg (Int.emod_nonneg _ (by norm_num))]
  exact Int.emod_eq_of_lt h1 h2

/-- A negative dimension is stored as its distance from 2^64. -/
theorem dump.castToUInt64_of_neg (d : Int) (h1 : -2 ^ 63 ≤ d) (h2 : d < 0) :
    (dump.castToUInt64 d : Int) = d + 2 ^ 64 := by
  unfold dump.castToUInt64
  rw [Int.toNat_of_nonneg (Int.emod_nonneg _ (by norm_num))]
  norm_num at h1 ⊢
  omega

/-- A stored dimension read back as a signed 64-bit integer is the dimension. -/
theorem dump.castToInt64_castToUInt64 (d : Int) (h1 : -2 ^ 63 ≤ d) (h2 : d < 2 ^ 63) :
    dump.castToInt64 (dump.castToUInt64 d) = d := by
  have hlt : dump.castToUInt64 d < 2 ^ 64 := by
    unfold dump.castToUInt64
    have h := Int.emod_lt_of_pos d (show (0 : Int) < 2 ^ 64 by norm_num)
    have h0 := Int.emod_nonneg d (show (2 : Int) ^ 64 ≠ 0 by norm_num)
    zify
    rw [Int.toNat_of_nonneg h0]
    exact_mod_cast h
  unfold dump.castToInt64
  rw [Nat.mod_eq_of_lt hlt]
  by_cases hd : 0 ≤ d
  · have hc := dump.castToUInt64_of_nonneg d hd (by norm_num at h2 ⊢; omega)
    have hs : dump.castToUInt64 d < 2 ^ 63 := by
      zify
      rw [hc]
      exact_mod_cast h2
    rw [if_pos hs]
    exact hc
  · have hc := dump.castToUInt64_of_neg d h1 (by omega)
    have hs : ¬ dump.castToUInt64 d < 2 ^ 63 := by
      zify
      rw [hc]
      norm_num at h1 ⊢
      omega
    rw [if_neg hs, hc]
    ring

/-- What the list of the converted dims has of the dims. -/
theorem dump.map_castToUInt64_facts (dims : List Int) :
    (dims.map dump.castToUInt64).length = dims.length ∧
    (∀ (i : Nat) (d : Int), dims[i]? = some d →
      (dims.map dump.castToUInt64)[i]? = some (dump.castToUInt64 d)) ∧
    ((∀ d ∈ dims, 0 ≤ d ∧ d < 2 ^ 64) →
      (dims.map dump.castToUInt64).map Int.ofNat = dims) ∧
    ((∀ d ∈ dims, -2 ^ 63 ≤ d ∧ d < 2 ^ 63) →
      (dims.map dump.castToUInt64).map dump.castToInt64 = dims) ∧
    (dims = [] → dims.map dump.castToUInt64 = []) := by
  refine ⟨List.length_map _ _, ?_, ?_, ?_, ?_⟩
  · intro i d h
    rw [List.getElem?_map, h]
    rfl
  · intro h
    rw [List.map_map]
    conv_rhs => rw [← List.map_id dims]
    apply List.map_congr_left
    intro d hd
    exact dump.castToUInt64_of_nonneg d (h d hd).1 (h d hd).2
  · intro h
    rw [List.map_map]
    conv_rhs => rw [← List.map_id dims]
    apply List.map_congr_left
    intro d hd
    exact dump.castToInt64_castToUInt64 d (h d hd).1 (h d hd).2
  · intro h
    rw [h]
    rfl

/-- C31, as stated, fails: for a descriptor of unknown rank, whose dims are
the marker -2, `GenerateOutput` and `GenerateInput` succeed and the dim list
of the record holds 18446744073709551614, which is not the value of the
descriptor. -/
theorem C31_counterexample :
    unknownRankTensorDesc.dims = [-2] ∧
    (DataDumper.GenerateOutput dump.Output.empty [unknownRankTensorDesc] 4096 0).map
      (fun r => (r.1, r.2.shape)) = some (.SUCCESS, [18446744073709551614]) ∧
    (DataDumper.GenerateInput dump.Input.empty [unknownRankTensorDesc] 4096 0).map
      (fun r => (r.1, r.2.shape)) = some (.SUCCESS, [18446744073709551614]) ∧
    (DataDumper.GenerateOutput dump.Output.empty [unknownRankTensorDesc] 4096 0).map
      (fun r => r.2.shape.map Int.ofNat) ≠ some unknownRankTensorDesc.dims ∧
    (DataDumper.GenerateInput dump.Input.empty [unknownRankTensorDesc] 4096 0).map
      (fun r => r.2.shape.map Int.ofNat) ≠ some unknownRankTensorDesc.dims := by
  decide

/-- C31, amended: for every descriptor of the list, the dim list that
`GenerateOutput` and `GenerateInput` write into a new record has the length
and the order of the dims of the descriptor and holds each dim converted to
unsigned 64 bits, whatever status they return; it is the list of the dims
itself when no dim is negative; read back as signed 64-bit integers it is the
list of the dims; a descriptor without dims gives a record without dims. Into
a record that holds dims already the converted dims are appended. -/
theorem C31_shape_round_trip_modulo (tensor_descs : List GeTensorDesc) (index : Nat)
    (desc : GeTensorDesc) (addr : Nat) (hdesc : tensor_descs[index]? = some desc) :
    (∃ r, DataDumper.GenerateOutput dump.Output.empty tensor_descs addr index = some r ∧
      r.2.shape = desc.dims.map dump.castToUInt64 ∧ r.2.shape.length = desc.dims.length ∧
      (∀ (i : Nat) (d : Int), desc.dims[i]? = some d →
        r.2.shape[i]? = some (dump.castToUInt64 d)) ∧
      ((∀ d ∈ desc.dims, 0 ≤ d ∧ d < 2 ^ 64) → r.2.shape.map Int.ofNat = desc.dims) ∧
      ((∀ d ∈ desc.dims, -2 ^ 63 ≤ d ∧ d < 2 ^ 63) →
        r.2.shape.map dump.castToInt64 = desc.dims) ∧
      (desc.dims = [] → r.2.shape = []) ∧
      (desc.tensor_size_in_bytes.isSome → r.1 = .SUCCESS)) ∧
    (∃ r, DataDumper.GenerateInput dump.Input.empty tensor_descs addr index = some r ∧
      r.2.shape = desc.dims.map dump.castToUInt64 ∧ r.2.shape.length = desc.dims.length ∧
      (∀ (i : Nat) (d : Int), desc.dims[i]? = some d →
        r.2.shape[i]? = some (dump.castToUInt64 d)) ∧
      ((∀ d ∈ desc.dims, 0 ≤ d ∧ d < 2 ^ 64) → r.2.shape.map Int.ofNat = desc.dims) ∧
      ((∀ d ∈ desc.dims, -2 ^ 63 ≤ d ∧ d < 2 ^ 63) →
        r.2.shape.map dump.castToInt64 = desc.dims) ∧
      (desc.dims = [] → r.2.shape = []) ∧
      ((inputSizeOf desc).isSome → r.1 = .SUCCESS)) ∧
    (∀ output : dump.Output,
      ∃ r, DataDumper.GenerateOutput output tensor_descs addr index = some r ∧
        r.2.shape = output.shape ++ desc.dims.map dump.castToUInt64) ∧
    (∀ input : dump.Input,
      ∃ r, DataDumper.GenerateInput input tensor_descs addr index = some r ∧
        r.2.shape = input.shape ++ desc.dims.map dump.castToUInt64) ∧
    (∀ d : Int, 0 ≤ d → d < 2 ^ 64 → (dump.castToUInt64 d : Int) = d) ∧
    (∀ d : Int, -2 ^ 63 ≤ d → d < 0 → (dump.castToUInt64 d : Int) = d + 2 ^ 64) := by
  obtain ⟨f1, f2, f3, f4, f5⟩ := dump.map_castToUInt64_facts desc.dims
  have hout : ∀ output : dump.Output,
      ∃ r, DataDumper.GenerateOutput output tensor_descs addr index = some r ∧
        r.2.shape = output.shape ++ desc.dims.map dump.castToUInt64 ∧
        (desc.tensor_size_in_bytes.isSome → r.1 = .SUCCESS) := by
    intro output
    unfold DataDumper.GenerateOutput
    simp only [hdesc]
    cases hs : desc.tensor_size_in_bytes with
    | none => exact ⟨_, rfl, dump.foldl_add_dim _ _, fun h => by simp at h⟩
    | some v => exact ⟨_, rfl, dump.foldl_add_dim _ _, fun _ => rfl⟩
  have hinp : ∀ input : dump.Input,
      ∃ r, DataDumper.GenerateInput input tensor_descs addr index = some r ∧
        r.2.shape = input.shape ++ desc.dims.map dump.castToUInt64 ∧
        ((inputSizeOf desc).isSome → r.1 = .SUCCESS) := by
    intro input
    unfold DataDumper.GenerateInput inputSizeOf
    simp only [hdesc]
    cases ho : desc.input_origin_size with
    | some v => exact ⟨_, rfl, dump.foldl_add_dim _ _, fun _ => rfl⟩
    | none =>
      cases hs : desc.tensor_size_in_bytes with
      | none => exact ⟨_, rfl, dump.foldl_add_dim _ _, fun h => by simp at h⟩
      | some v => exact ⟨_, rfl, dump.foldl_add_dim _ _, fun _ => rfl⟩
  refine ⟨?_, ?_, ?_, ?_, dump.castToUInt64_of_nonneg, dump.castToUInt64_of_neg⟩
  · obtain ⟨r, h1, h2, h3⟩ := hout dump.Output.empty
    have hsh : r.2.shape = desc.dims.map dump.castToUInt64 := by
      rw [h2]
      rfl
    exact ⟨r, h1, hsh, hsh ▸ f1, hsh ▸ f2, hsh ▸ f3, hsh ▸ f4, hsh ▸ f5, h3⟩
  · obtain ⟨r, h1, h2, h3⟩ := hinp dump.Input.empty
    have hsh : r.2.shape = desc.dims.map dump.castToUInt64 := by
      rw [h2]
      rfl
    exact ⟨r, h1, hsh, hsh ▸ f1, hsh ▸ f2, hsh ▸ f3, hsh ▸ f4, hsh ▸ f5, h3⟩
  · intro output
    obtain ⟨r, h1, h2, _⟩ := hout output
    exact ⟨r, h1, h2⟩
  · intro input
    obtain ⟨r, h1, h2, _⟩ := hinp input
    exact ⟨r, h1, h2⟩

/-- Witness for the amended C31: the descriptor of the examples, with the dims
2 and 3, which the record holds as they are. -/
theorem C31_shape_round_trip_modulo_witness :
    ∃ r, DataDumper.GenerateOutput dump.Output.empty [exampleTensorDesc] 4096 0 = some r ∧
      r.2.shape = [2, 3] ∧ r.2.shape.map Int.ofNat = exampleTensorDesc.dims := by
  obtain ⟨r, h1, h2, _, _, h5, _⟩ :=
    (C31_shape_round_trip_modulo [exampleTensorDesc] 0 exampleTensorDesc 4096 rfl).1
  exact ⟨r, h1, h2, h5 (by decide)⟩

/-! ## Device buffers of the dumper -/

namespace DataDumper

/-- What releasing the held buffer, if there is one, does: the pointer is null
afterwards, the record of calls grows, and a buffer that is still allocated
was allocated before and is not the held one, unless `rtFree` failed. -/
theorem released_facts (ptr : Nat) (dev : Device) (ret : Int) :
    (if ptr ≠ 0 then ReleaseDevMem ptr dev ret else (ptr, dev)).1 = 0 ∧
    (∀ c ∈ dev.calls,
      c ∈ (if ptr ≠ 0 then ReleaseDevMem ptr dev ret else (ptr, dev)).2.calls) ∧
    (∀ p ∈ (if ptr ≠ 0 then ReleaseDevMem ptr dev ret else (ptr, dev)).2.allocated,
      p ∈ dev.allocated ∧ (p ≠ ptr ∨ ptr = 0 ∨ (ret ≠ RT_ERROR_NONE ∧
        DeviceCall.rtFree p ∈
          (if ptr ≠ 0 then ReleaseDevMem ptr dev ret else (ptr, dev)).2.calls))) := by
  by_cases hp : ptr ≠ 0
  · simp only [if_pos hp, ReleaseDevMem, rtFree]
    by_cases hr : ret = RT_ERROR_NONE
    · simp only [if_pos hr]
      refine ⟨trivial, fun c hc => List.mem_append_left _ hc, fun p hm => ?_⟩
      simp only [List.mem_filter, decide_eq_true_eq] at hm
      exact ⟨hm.1, Or.inl hm.2⟩
    · simp only [if_neg hr]
      refine ⟨trivial, fun c hc => List.mem_append_left _ hc, fun p hm => ⟨hm, ?_⟩⟩
      by_cases hpp : p = ptr
      · subst hpp
        exact Or.inr (Or.inr ⟨hr, by simp⟩)
      · exact Or.inl hpp
  · simp only [if_neg hp]
    have h0 : ptr = 0 := by omega
    exact ⟨h0, fun c hc => hc, fun p hm => ⟨hm, Or.inr (Or.inl h0)⟩⟩

/-- What `ExecuteLoadDumpInfo` does to the buffers: the unload pointer is
kept, the record of calls grows, and a buffer allocated afterwards is the new
load buffer, or was allocated before and is not the old load buffer, unless no
load buffer was held, the load pointer is as it was, or the old load buffer
was handed to an `rtFree` that failed. -/
theorem ExecuteLoadDumpInfo_buffers (m : LoadMembers) (dev : Device) (o : Outcome) :
    (ExecuteLoadDumpInfo m dev o).2.1.dev_mem_unload_ = m.dev_mem_unload_ ∧
    (∀ c ∈ dev.calls, c ∈ (ExecuteLoadDumpInfo m dev o).2.2.calls) ∧
    ∀ p ∈ (ExecuteLoadDumpInfo m dev o).2.2.allocated,
      (p = (ExecuteLoadDumpInfo m dev o).2.1.dev_mem_load_ ∧ p ≠ 0) ∨
      (p ∈ dev.allocated ∧ (p ≠ m.dev_mem_load_ ∨ m.dev_mem_load_ = 0 ∨
        (ExecuteLoadDumpInfo m dev o).2.1.dev_mem_load_ = m.dev_mem_load_ ∨
        (o.rt_free ≠ RT_ERROR_NONE ∧
          DeviceCall.rtFree p ∈ (ExecuteLoadDumpInfo m dev o).2.2.calls))) := by
  unfold ExecuteLoadDumpInfo
  simp only
  by_cases hearly : o.serialize_ok = false ∨ o.proto_size = 0
  · rw [if_pos hearly]
    exact ⟨rfl, fun c hc => hc, fun p hp => Or.inr ⟨hp, Or.inr (Or.inr (Or.inl rfl))⟩⟩
  · rw [if_neg hearly]
    obtain ⟨f1, f2, f3⟩ := released_facts m.dev_mem_load_ dev o.rt_free
    generalize (if m.dev_mem_load_ ≠ 0 then ReleaseDevMem m.dev_mem_load_ dev o.rt_free
      else (m.dev_mem_load_, dev)) = rel at f1 f2 f3 ⊢
    obtain ⟨rp, rdev⟩ := rel
    simp only at f1 f2 f3
    subst f1
    have hold : ∀ p ∈ rdev.allocated, ∀ calls2 : List DeviceCall,
        (∀ c ∈ rdev.calls, c ∈ calls2) →
        p ∈ dev.allocated ∧ (p ≠ m.dev_mem_load_ ∨ m.dev_mem_load_ = 0 ∨
          (o.rt_free ≠ RT_ERROR_NONE ∧ DeviceCall.rtFree p ∈ calls2)) := by
      intro p hp calls2 hc
      obtain ⟨h1, h2⟩ := f3 p hp
      refine ⟨h1, ?_⟩
      rcases h2 with h2 | h2 | ⟨h2, h3⟩
      · exact Or.inl h2
      · exact Or.inr (Or.inl h2)
      · exact Or.inr (Or.inr ⟨h2, hc _ h3⟩)
    have hfin : ∀ (p : Nat) (load : Nat) (calls2 : List DeviceCall),
        p ∈ dev.allocated ∧ (p ≠ m.dev_mem_load_ ∨ m.dev_mem_load_ = 0 ∨
          (o.rt_free ≠ RT_ERROR_NONE ∧ DeviceCall.rtFree p ∈ calls2)) →
        (p = load ∧ p ≠ 0) ∨
        (p ∈ dev.allocated ∧ (p ≠ m.dev_mem_load_ ∨ m.dev_mem_load_ = 0 ∨
          load = m.dev_mem_load_ ∨
          (o.rt_free ≠ RT_ERROR_NONE ∧ DeviceCall.rtFree p ∈ calls2))) := by
      intro p load calls2 h
      tauto
    unfold rtMalloc
    by_cases hm : o.rt_malloc = RT_ERROR_NONE
    · simp only [if_pos hm]
      have hnew : ∀ p ∈ rdev.allocated ++ [rdev.next + 1], ∀ calls2 : List DeviceCall,
          (∀ c ∈ rdev.calls, c ∈ calls2) →
          (p = rdev.next + 1 ∧ p ≠ 0) ∨
          (p ∈ dev.allocated ∧ (p ≠ m.dev_mem_load_ ∨ m.dev_mem_load_ = 0 ∨
            rdev.next + 1 = m.dev_mem_load_ ∨
            (o.rt_free ≠ RT_ERROR_NONE ∧ DeviceCall.rtFree p ∈ calls2))) := by
        intro p hp calls2 hc
        rcases List.mem_append.1 hp with h | h
        · exact hfin p _ calls2 (hold p h calls2 hc)
        · rw [List.mem_singleton] at h
          exact Or.inl ⟨h, by omega⟩
      unfold rtMemcpy rtDatadumpInfoLoad
      simp only [ne_eq, not_true_eq_false, if_false]
      split_ifs
      · exact ⟨rfl, fun c hc => by simp [f2 c hc], fun p hp => hnew p hp _ (fun c hc => by
          simp [hc])⟩
      · exact ⟨rfl, fun c hc => by simp [f2 c hc], fun p hp => hnew p hp _ (fun c hc => by
          simp [hc])⟩
      · exact ⟨rfl, fun c hc => by simp [f2 c hc], fun p hp => hnew p hp _ (fun c hc => by
          simp [hc])⟩
    · simp only [hm, if_false, ne_eq, not_false_eq_true, if_true]
      exact ⟨trivial, fun c hc => by simp [f2 c hc], fun p hp =>
        hfin p _ _ (hold p hp _ (fun c hc => by simp [hc]))⟩

/-- What `ExecuteUnLoadDumpInfo` does to the buffers: the same with the load
and the unload pointer exchanged. -/
theorem ExecuteUnLoadDumpInfo_buffers (m : LoadMembers) (dev : Device) (o : Outcome) :
    (ExecuteUnLoadDumpInfo m dev o).2.1.dev_mem_load_ = m.dev_mem_load_ ∧
    (∀ c ∈ dev.calls, c ∈ (ExecuteUnLoadDumpInfo m dev o).2.2.calls) ∧
    ∀ p ∈ (ExecuteUnLoadDumpInfo m dev o).2.2.allocated,
      (p = (ExecuteUnLoadDumpInfo m dev o).2.1.dev_mem_unload_ ∧ p ≠ 0) ∨
      (p ∈ dev.allocated ∧ (p ≠ m.dev_mem_unload_ ∨ m.dev_mem_unload_ = 0 ∨
        (ExecuteUnLoadDumpInfo m dev o).2.1.dev_mem_unload_ = m.dev_mem_unload_ ∨
        (o.rt_free ≠ RT_ERROR_NONE ∧
          DeviceCall.rtFree p ∈ (ExecuteUnLoadDumpInfo m dev o).2.2.calls))) := by
  unfold ExecuteUnLoadDumpInfo
  simp only
  by_cases hearly : o.serialize_ok = false ∨ o.proto_size = 0
  · rw [if_pos hearly]
    exact ⟨rfl, fun c hc => hc, fun p hp => Or.inr ⟨hp, Or.inr (Or.inr (Or.inl rfl))⟩⟩
  · rw [if_neg hearly]
    obtain ⟨f1, f2, f3⟩ := released_facts m.dev_mem_unload_ dev o.rt_free
    generalize (if m.dev_mem_unload_ ≠ 0 then ReleaseDevMem m.dev_mem_unload_ dev o.rt_free
      else (m.dev_mem_unload_, dev)) = rel at f1 f2 f3 ⊢
    obtain ⟨rp, rdev⟩ := rel
    simp only at f1 f2 f3
    subst f1
    have hold : ∀ p ∈ rdev.allocated, ∀ calls2 : List DeviceCall,
        (∀ c ∈ rdev.calls, c ∈ calls2) →
        p ∈ dev.allocated ∧ (p ≠ m.dev_mem_unload_ ∨ m.dev_mem_unload_ = 0 ∨
          (o.rt_free ≠ RT_ERROR_NONE ∧ DeviceCall.rtFree p ∈ calls2)) := by
      intro p hp calls2 hc
      obtain ⟨h1, h2⟩ := f3 p hp
      refine ⟨h1, ?_⟩
      rcases h2 with h2 | h2 | ⟨h2, h3⟩
      · exact Or.inl h2
      · exact Or.inr (Or.inl h2)
      · exact Or.inr (Or.inr ⟨h2, hc _ h3⟩)
    have hfin : ∀ (p : Nat) (unload : Nat) (calls2 : List DeviceCall),
        p ∈ dev.allocated ∧ (p ≠ m.dev_mem_unload_ ∨ m.dev_mem_unload_ = 0 ∨
          (o.rt_free ≠ RT_ERROR_NONE ∧ DeviceCall.rtFree p ∈ calls2)) →
        (p = unload ∧ p ≠ 0) ∨
        (p ∈ dev.allocated ∧ (p ≠ m.dev_mem_unload_ ∨ m.dev_mem_unload_ = 0 ∨
          unload = m.dev_mem_unload_ ∨
          (o.rt_free ≠ RT_ERROR_NONE ∧ DeviceCall.rtFree p ∈ calls2))) := by
      intro p load calls2 h
      tauto
    unfold rtMalloc
    by_cases hm : o.rt_malloc = RT_ERROR_NONE
    · simp only [if_pos hm]
      have hnew : ∀ p ∈ rdev.allocated ++ [rdev.next + 1], ∀ calls2 : List DeviceCall,
          (∀ c ∈ rdev.calls, c ∈ calls2) →
          (p = rdev.next + 1 ∧ p ≠ 0) ∨
          (p ∈ dev.allocated ∧ (p ≠ m.dev_mem_unload_ ∨ m.dev_mem_unload_ = 0 ∨
            rdev.next + 1 = m.dev_mem_unload_ ∨
            (o.rt_free ≠ RT_ERROR_NONE ∧ DeviceCall.rtFree p ∈ calls2))) := by
        intro p hp calls2 hc
        rcases List.mem_append.1 hp with h | h
        · exact hfin p _ calls2 (hold p h calls2 hc)
        · rw [List.mem_singleton] at h
          exact Or.inl ⟨h, by omega⟩
      unfold rtMemcpy rtDatadumpInfoLoad
      simp only [ne_eq, not_true_eq_false, if_false]
      split_ifs
      · exact ⟨rfl, fun c hc => by simp [f2 c hc], fun p hp => hnew p hp _ (fun c hc => by
          simp [hc])⟩
      · exact ⟨rfl, fun c hc => by simp [f2 c hc], fun p hp => hnew p hp _ (fun c hc => by
          simp [hc])⟩
      · exact ⟨rfl, fun c hc => by simp [f2 c hc], fun p hp => hnew p hp _ (fun c hc => by
          simp [hc])⟩
    · simp only [hm, if_false, ne_eq, not_false_eq_true, if_true]
      exact ⟨trivial, fun c hc => by simp [f2 c hc], fun p hp =>
        hfin p _ _ (hold p hp _ (fun c hc => by simp [hc]))⟩


/-- The invariant of the two pointer members: a buffer that is allocated is
held, or, if some `rtFree` has failed, was handed to `rtFree`; and no buffer is
null. One call of an entry point keeps it. -/
theorem call_buffers (d : DataDumper) (c : DumpCall) (s : LoadMembers × Device) (ok : Prop)
    (h : ∀ p ∈ s.2.allocated, p = s.1.dev_mem_load_ ∨ p = s.1.dev_mem_unload_ ∨
      (¬ ok ∧ DeviceCall.rtFree p ∈ s.2.calls))
    (h0 : 0 ∉ s.2.allocated) :
    (∀ p ∈ (d.call c s).2.allocated,
      p = (d.call c s).1.dev_mem_load_ ∨ p = (d.call c s).1.dev_mem_unload_ ∨
        (¬ (ok ∧ c.outcome.rt_free = RT_ERROR_NONE) ∧
          DeviceCall.rtFree p ∈ (d.call c s).2.calls)) ∧
    0 ∉ (d.call c s).2.allocated := by
  obtain ⟨m, dev⟩ := s
  simp only at h h0
  have hsame : (∀ p ∈ dev.allocated, p = m.dev_mem_load_ ∨ p = m.dev_mem_unload_ ∨
      (¬ (ok ∧ c.outcome.rt_free = RT_ERROR_NONE) ∧ DeviceCall.rtFree p ∈ dev.calls)) ∧
      0 ∉ dev.allocated := by
    refine ⟨fun p hp => ?_, h0⟩
    rcases h p hp with e | e | ⟨e1, e2⟩
    · exact Or.inl e
    · exact Or.inr (Or.inl e)
    · exact Or.inr (Or.inr ⟨fun a => e1 a.1, e2⟩)
  have hload : ∀ (m1 : LoadMembers) (o : Outcome), o = c.outcome →
      m1.dev_mem_load_ = m.dev_mem_load_ → m1.dev_mem_unload_ = m.dev_mem_unload_ →
      (∀ p ∈ (ExecuteLoadDumpInfo m1 dev o).2.2.allocated,
        p = (ExecuteLoadDumpInfo m1 dev o).2.1.dev_mem_load_ ∨
        p = (ExecuteLoadDumpInfo m1 dev o).2.1.dev_mem_unload_ ∨
        (¬ (ok ∧ c.outcome.rt_free = RT_ERROR_NONE) ∧
          DeviceCall.rtFree p ∈ (ExecuteLoadDumpInfo m1 dev o).2.2.calls)) ∧
      0 ∉ (ExecuteLoadDumpInfo m1 dev o).2.2.allocated := by
    intro m1 o ho hl hu
    obtain ⟨b1, b2, b3⟩ := ExecuteLoadDumpInfo_buffers m1 dev o
    rw [hl] at b3
    rw [hu] at b1
    subst ho
    refine ⟨fun p hp => ?_, fun hp => ?_⟩
    · rw [b1]
      rcases b3 p hp with ⟨e, _⟩ | ⟨hin, hcase⟩
      · exact Or.inl e
      · rcases h p hin with e | e | ⟨e1, e2⟩
        · rcases hcase with c1 | c1 | c1 | ⟨c1, c2⟩
          · exact absurd e c1
          · exact absurd hin ((e.trans c1) ▸ h0)
          · exact Or.inl (e.trans c1.symm)
          · exact Or.inr (Or.inr ⟨fun a => c1 a.2, c2⟩)
        · exact Or.inr (Or.inl e)
        · exact Or.inr (Or.inr ⟨fun a => e1 a.1, b2 _ e2⟩)
    · rcases b3 0 hp with ⟨_, e⟩ | ⟨hin, _⟩
      · exact e rfl
      · exact h0 hin
  have hunload : ∀ (o : Outcome), o = c.outcome →
      (∀ p ∈ (ExecuteUnLoadDumpInfo m dev o).2.2.allocated,
        p = (ExecuteUnLoadDumpInfo m dev o).2.1.dev_mem_load_ ∨
        p = (ExecuteUnLoadDumpInfo m dev o).2.1.dev_mem_unload_ ∨
        (¬ (ok ∧ c.outcome.rt_free = RT_ERROR_NONE) ∧
          DeviceCall.rtFree p ∈ (ExecuteUnLoadDumpInfo m dev o).2.2.calls)) ∧
      0 ∉ (ExecuteUnLoadDumpInfo m dev o).2.2.allocated := by
    intro o ho
    obtain ⟨b1, b2, b3⟩ := ExecuteUnLoadDumpInfo_buffers m dev o
    subst ho
    refine ⟨fun p hp => ?_, fun hp => ?_⟩
    · rw [b1]
      rcases b3 p hp with ⟨e, _⟩ | ⟨hin, hcase⟩
      · exact Or.inr (Or.inl e)
      · rcases h p hin with e | e | ⟨e1, e2⟩
        · exact Or.inl e
        · rcases hcase with c1 | c1 | c1 | ⟨c1, c2⟩
          · exact absurd e c1
          · exact absurd hin ((e.trans c1) ▸ h0)
          · exact Or.inr (Or.inl (e.trans c1.symm))
          · exact Or.inr (Or.inr ⟨fun a => c1 a.2, c2⟩)
        · exact Or.inr (Or.inr ⟨fun a => e1 a.1, b2 _ e2⟩)
    · rcases b3 0 hp with ⟨_, e⟩ | ⟨hin, _⟩
      · exact e rfl
      · exact h0 hin
  cases c with
  | LoadDumpInfo o =>
    unfold call
    simp only
    cases hl : d.LoadDumpInfo m dev o with
    | none => exact hsame
    | some r =>
      simp only
      unfold LoadDumpInfo at hl
      simp only at hl
      cases hb : d.BuildTaskInfo { task := [] } with
      | none => rw [hb] at hl; cases hl
      | some built =>
        rw [hb] at hl
        simp only at hl
        have hend : (d.SetEndGraphIdToAicpu m built.2).1.dev_mem_load_ = m.dev_mem_load_ ∧
            (d.SetEndGraphIdToAicpu m built.2).1.dev_mem_unload_ = m.dev_mem_unload_ := by
          unfold SetEndGraphIdToAicpu
          split <;> exact ⟨rfl, rfl⟩
        split_ifs at hl with h1 h2 h3
        · cases hl; exact hsame
        · cases hl
          exact hload _ o rfl hend.1 hend.2
        · cases hl
          exact hload _ o rfl hend.1 hend.2
        · cases hl
          rw [hend.1, hend.2]
          exact hsame
  | UnloadDumpInfo o =>
    unfold call UnloadDumpInfo
    simp only
    split_ifs with h1 h2
    · exact hsame
    · exact hunload o rfl
    · exact hunload o rfl

/-- A sequence of calls keeps the invariant of the two pointer members. -/
theorem calls_buffers (d : DataDumper) (cs : List DumpCall) :
    ∀ (s : LoadMembers × Device) (ok : Prop),
      (∀ p ∈ s.2.allocated, p = s.1.dev_mem_load_ ∨ p = s.1.dev_mem_unload_ ∨
        (¬ ok ∧ DeviceCall.rtFree p ∈ s.2.calls)) →
      0 ∉ s.2.allocated →
      (∀ p ∈ (d.calls cs s).2.allocated,
        p = (d.calls cs s).1.dev_mem_load_ ∨ p = (d.calls cs s).1.dev_mem_unload_ ∨
          (¬ (ok ∧ freesSucceed cs) ∧ DeviceCall.rtFree p ∈ (d.calls cs s).2.calls)) ∧
      0 ∉ (d.calls cs s).2.allocated := by
  induction cs with
  | nil =>
    intro s ok h h0
    refine ⟨fun p hp => ?_, h0⟩
    have := h p hp
    simp only [calls, List.foldl_nil] at hp ⊢
    tauto
  | cons c cs ih =>
    intro s ok h h0
    obtain ⟨h1, h2⟩ := call_buffers d c s ok h h0
    obtain ⟨h3, h4⟩ := ih (d.call c s) _ h1 h2
    refine ⟨fun p hp => ?_, h4⟩
    have := h3 p hp
    have hf : freesSucceed (c :: cs) → c.outcome.rt_free = RT_ERROR_NONE ∧ freesSucceed cs :=
      fun hfs => ⟨hfs c (List.mem_cons_self _ _), fun x hx => hfs x (List.mem_cons_of_mem _ hx)⟩
    simp only [calls, List.foldl_cons] at this hp ⊢
    tauto

/-- A load in which serialization and the three runtime calls succeed. -/
theorem ExecuteLoadDumpInfo_good (m : LoadMembers) (dev : Device) (o : Outcome)
    (hgood : o.good) :
    ExecuteLoadDumpInfo m dev o =
      (.status .SUCCESS, { m with dev_mem_load_ := dev.next + 1, load_flag_ := true },
        { allocated :=
            (if m.dev_mem_load_ ≠ 0 ∧ o.rt_free = RT_ERROR_NONE then
              dev.allocated.filter (fun p => decide (p ≠ m.dev_mem_load_))
            else dev.allocated) ++ [dev.next + 1],
          next := dev.next + 1,
          calls := dev.calls ++
            (if m.dev_mem_load_ ≠ 0 then [DeviceCall.rtFree m.dev_mem_load_] else []) ++
            [.rtMalloc o.proto_size, .rtMemcpy (dev.next + 1) o.proto_size,
              .rtDatadumpInfoLoad (dev.next + 1) o.proto_size] }) := by
  obtain ⟨h1, h2, h3, h4, h5⟩ := hgood
  unfold ExecuteLoadDumpInfo ReleaseDevMem rtMalloc rtMemcpy rtDatadumpInfoLoad rtFree
  by_cases hp : m.dev_mem_load_ ≠ 0
  · by_cases hf : o.rt_free = RT_ERROR_NONE
    · simp [h1, h2, h3, h4, h5, hp, hf]
    · simp [h1, h2, h3, h4, h5, hp, hf]
  · simp [h1, h2, h3, h4, h5, hp]

end DataDumper

/-- C33, as stated, fails: on a dumper without ops in mode `all`, a load
followed by a second load during which `rtFree` fails leaves the first buffer
allocated while the load pointer holds the second buffer: `ReleaseDevMem`
logs the failure and drops the pointer. Both loads return success. -/
theorem C33_counterexample :
    (emptyDumper.LoadDumpInfo LoadMembers.init Device.init exampleOutcome).map (fun r => r.1) =
      some (.status .SUCCESS) ∧
    (emptyDumper.LoadDumpInfo
        (emptyDumper.calls [.LoadDumpInfo exampleOutcome] (LoadMembers.init, Device.init)).1
        (emptyDumper.calls [.LoadDumpInfo exampleOutcome] (LoadMembers.init, Device.init)).2
        failingFreeOutcome).map (fun r => r.1) = some (.status .SUCCESS) ∧
    (emptyDumper.calls [.LoadDumpInfo exampleOutcome, .LoadDumpInfo failingFreeOutcome]
      (LoadMembers.init, Device.init)).2.allocated = [1, 2] ∧
    (emptyDumper.calls [.LoadDumpInfo exampleOutcome, .LoadDumpInfo failingFreeOutcome]
      (LoadMembers.init, Device.init)).1.dev_mem_load_ = 2 ∧
    (emptyDumper.calls [.LoadDumpInfo exampleOutcome, .LoadDumpInfo failingFreeOutcome]
      (LoadMembers.init, Device.init)).1.dev_mem_unload_ = 0 ∧
    ¬ heldOnly (emptyDumper.calls
      [.LoadDumpInfo exampleOutcome, .LoadDumpInfo failingFreeOutcome]
      (LoadMembers.init, Device.init)) := by
  refine ⟨by decide, by decide, by decide, by decide, by decide, ?_⟩
  intro h
  have h1 := h 1 (by decide)
  revert h1
  decide

/-- C33, amended: after every sequence of calls of `LoadDumpInfo` and
`UnloadDumpInfo` during which every `rtFree` succeeds, on a dumper as
constructed and whatever else the libraries answer, every buffer that the
dumper has allocated and the device has not freed is the one held as load
buffer or the one held as unload buffer, and the same holds from every state
in which it holds and no buffer is null. Whatever `rtFree` answers, such a
buffer is held or is one that the dumper has handed to `rtFree`. A load that
finds a load buffer held hands it to `rtFree` before it allocates the new one:
when serialization and the other runtime calls succeed it returns success, the
device sees `rtFree` of the old buffer, then `rtMalloc`, `rtMemcpy` and
`rtDatadumpInfoLoad`, and the old buffer is no longer allocated when `rtFree`
succeeded. The status of a load does not depend on whether a load buffer is
held. -/
theorem C33_no_stale_buffer_when_free_succeeds (d : DataDumper) :
    (∀ cs : List DumpCall, freesSucceed cs →
      heldOnly (d.calls cs (LoadMembers.init, Device.init))) ∧
    (∀ (cs : List DumpCall) (s : LoadMembers × Device), heldOnly s → 0 ∉ s.2.allocated →
      freesSucceed cs → heldOnly (d.calls cs s)) ∧
    (∀ cs : List DumpCall, heldOrHandedToFree (d.calls cs (LoadMembers.init, Device.init))) ∧
    (∀ (m : LoadMembers) (dev : Device) (o : Outcome), m.dev_mem_load_ ≠ 0 → o.good →
      ∃ m1 dev1, DataDumper.ExecuteLoadDumpInfo m dev o = (.status .SUCCESS, m1, dev1) ∧
        m1.dev_mem_load_ = dev.next + 1 ∧ m1.load_flag_ = true ∧
        dev1.calls = dev.calls ++ [.rtFree m.dev_mem_load_, .rtMalloc o.proto_size,
          .rtMemcpy (dev.next + 1) o.proto_size,
          .rtDatadumpInfoLoad (dev.next + 1) o.proto_size] ∧
        (o.rt_free = RT_ERROR_NONE → dev1.allocated =
          dev.allocated.filter (fun p => decide (p ≠ m.dev_mem_load_)) ++ [dev.next + 1]) ∧
        (o.rt_free ≠ RT_ERROR_NONE → dev1.allocated = dev.allocated ++ [dev.next + 1])) ∧
    (∀ (m : LoadMembers) (dev : Device) (o : Outcome) (ptr : Nat),
      (DataDumper.ExecuteLoadDumpInfo { m with dev_mem_load_ := ptr } dev o).1 =
        (DataDumper.ExecuteLoadDumpInfo m dev o).1) ∧
    (∀ (m : LoadMembers) (dev : Device) (o : Outcome) (built : Status × dump.OpMappingInfo),
      m.dev_mem_load_ ≠ 0 → o.good → d.BuildTaskInfo { task := [] } = some built →
      built.1 = .SUCCESS →
      (¬ d.op_list_.isEmpty ∨ d.is_op_debug_ = true ∨
        (d.SetEndGraphIdToAicpu m built.2).1.is_end_graph_ = true) →
      ∃ m1 dev1, d.LoadDumpInfo m dev o = some (.status .SUCCESS, m1, dev1) ∧
        m1.dev_mem_load_ = dev.next + 1 ∧
        dev1.calls = dev.calls ++ [.rtFree m.dev_mem_load_, .rtMalloc o.proto_size,
          .rtMemcpy (dev.next + 1) o.proto_size,
          .rtDatadumpInfoLoad (dev.next + 1) o.proto_size]) := by
  have hinit : ∀ ok : Prop, ∀ p ∈ (LoadMembers.init, Device.init).2.allocated,
      p = (LoadMembers.init, Device.init).1.dev_mem_load_ ∨
      p = (LoadMembers.init, Device.init).1.dev_mem_unload_ ∨
      (¬ ok ∧ DeviceCall.rtFree p ∈ (LoadMembers.init, Device.init).2.calls) := by
    intro ok p hp
    cases hp
  have hinit0 : 0 ∉ (LoadMembers.init, Device.init).2.allocated := by
    intro hp
    cases hp
  refine ⟨?_, ?_, ?_, ?_, ?_, ?_⟩
  · intro cs hcs p hp
    rcases (DataDumper.calls_buffers d cs _ True (hinit True) hinit0).1 p hp with e | e | ⟨e, _⟩
    · exact Or.inl e
    · exact Or.inr e
    · exact absurd ⟨trivial, hcs⟩ e
  · intro cs s h h0 hcs p hp
    have hs : ∀ p ∈ s.2.allocated, p = s.1.dev_mem_load_ ∨ p = s.1.dev_mem_unload_ ∨
        (¬ True ∧ DeviceCall.rtFree p ∈ s.2.calls) := by
      intro q hq
      rcases h q hq with e | e
      · exact Or.inl e
      · exact Or.inr (Or.inl e)
    rcases (DataDumper.calls_buffers d cs s True hs h0).1 p hp with e | e | ⟨e, _⟩
    · exact Or.inl e
    · exact Or.inr e
    · exact absurd ⟨trivial, hcs⟩ e
  · intro cs p hp
    rcases (DataDumper.calls_buffers d cs _ False (hinit False) hinit0).1 p hp with
      e | e | ⟨_, e⟩
    · exact Or.inl e
    · exact Or.inr (Or.inl e)
    · exact Or.inr (Or.inr e)
  · intro m dev o hp hgood
    rw [DataDumper.ExecuteLoadDumpInfo_good m dev o hgood]
    refine ⟨_, _, rfl, rfl, rfl, ?_, ?_, ?_⟩
    · simp [hp]
    · intro hf
      simp [hp, hf]
    · intro hf
      simp [hf]
  · intro m dev o ptr
    unfold DataDumper.ExecuteLoadDumpInfo
    simp only
    by_cases hearly : o.serialize_ok = false ∨ o.proto_size = 0
    · rw [if_pos hearly, if_pos hearly]
    · rw [if_neg hearly, if_neg hearly]
      generalize (if ptr ≠ 0 then DataDumper.ReleaseDevMem ptr dev o.rt_free
        else (ptr, dev)) = rel1
      generalize (if m.dev_mem_load_ ≠ 0 then
        DataDumper.ReleaseDevMem m.dev_mem_load_ dev o.rt_free
        else (m.dev_mem_load_, dev)) = rel2
      unfold rtMalloc rtMemcpy rtDatadumpInfoLoad
      by_cases hm : o.rt_malloc = RT_ERROR_NONE
      · simp only [if_pos hm, ne_eq, not_true_eq_false, if_false]
        split_ifs <;> rfl
      · simp only [hm, if_false, ne_eq, not_false_eq_true, if_true]
  · intro m dev o built hp hgood hb hs hexec
    have hload : (d.SetEndGraphIdToAicpu m built.2).1.dev_mem_load_ = m.dev_mem_load_ := by
      unfold DataDumper.SetEndGraphIdToAicpu
      split <;> rfl
    unfold DataDumper.LoadDumpInfo
    simp only [hb, hs, ne_eq, not_true_eq_false, if_false]
    rw [if_pos hexec, DataDumper.ExecuteLoadDumpInfo_good _ dev o hgood]
    simp only [ne_eq, not_true_eq_false, if_false, hload]
    refine ⟨_, _, rfl, rfl, ?_⟩
    simp [hp]

/-- Witness for the amended C33: two loads in a row on a dumper without ops in
mode `all`; the first buffer is freed and the second is the only one
allocated. -/
theorem C33_no_stale_buffer_when_free_succeeds_witness :
    freesSucceed [.LoadDumpInfo exampleOutcome, .LoadDumpInfo exampleOutcome] ∧
    heldOnly (emptyDumper.calls [.LoadDumpInfo exampleOutcome, .LoadDumpInfo exampleOutcome]
      (LoadMembers.init, Device.init)) ∧
    (emptyDumper.calls [.LoadDumpInfo exampleOutcome, .LoadDumpInfo exampleOutcome]
      (LoadMembers.init, Device.init)).2.allocated = [2] ∧
    (emptyDumper.calls [.LoadDumpInfo exampleOutcome, .LoadDumpInfo exampleOutcome]
      (LoadMembers.init, Device.init)).1.dev_mem_load_ = 2 :=
  ⟨by decide, (C33_no_stale_buffer_when_free_succeeds emptyDumper).1 _ (by decide),
    by decide, by decide⟩

/-- C16, as stated, fails: `clashExampleGraph` has two subgraphs whose
NetOutput nodes, 4 and 6, bear the same name. Marking the second subgraph and then the
first, as `MarkRWTypeForAllSubgraph` does from the cleared registry, succeeds
on both; the entry made for the NetOutput of the second subgraph, which has
one input, is kept by `emplace` when the NetOutput of the first subgraph is
recorded, so no type is recorded for input anchor 1 of that node. -/
theorem C16_counterexample :
    clashExampleState.graph.GetAllSubgraphs = [1, 2] ∧
    (MarkRWTypeForSubgraph 2 clashExampleState).1 = .SUCCESS ∧
    (MarkRWTypeForSubgraph 1 (MarkRWTypeForSubgraph 2 clashExampleState).2).1 = .SUCCESS ∧
    MarkRWTypeForAllSubgraph [1, 2] clashExampleState =
      MarkRWTypeForSubgraph 1 (MarkRWTypeForSubgraph 2 clashExampleState).2 ∧
    4 ∈ (MarkRWTypeForSubgraph 2 clashExampleState).2.graph.GetDirectNode 1 ∧
    (MarkRWTypeForSubgraph 2 clashExampleState).2.graph.GetType 4 = NETOUTPUT ∧
    (MarkRWTypeForSubgraph 2 clashExampleState).2.graph.GetName 4 = "out" ∧
    1 < (MarkRWTypeForSubgraph 2 clashExampleState).2.graph.inAnchorNum 4 ∧
    (mapFind (MarkRWTypeForSubgraph 1
        (MarkRWTypeForSubgraph 2 clashExampleState).2).2.node_rwtype_map_ "out").map
      (fun entry => mapFind entry.output_rw_type_map 1) = some none := by
  decide

/-- C22, as stated, fails: in `abortExampleGraph` both input anchors of the
second HcomAllReduce node are connected and input 1 has the source of input
0, but the first HcomAllReduce node has an unlinked input, at which
`HandleAllreduceDuplicateInput` returns PARAM_INVALID before it reaches the
second node: no Identity is inserted and the graph is as it was. -/
theorem C22_counterexample :
    abortExampleState.graph.GetDirectNode 0 = [0, 1, 2] ∧
    abortExampleState.graph.GetType 2 = HCOMALLREDUCE ∧
    (∀ a ∈ abortExampleState.graph.GetAllInDataAnchors 2,
      (abortExampleState.graph.GetPeerOutAnchor a).isSome = true) ∧
    abortExampleState.graph.isDuplicateInput ⟨2, 1⟩ ∧
    (HandleAllreduceDuplicateInput abortExampleState).1 = .PARAM_INVALID ∧
    (HandleAllreduceDuplicateInput abortExampleState).2.graph = abortExampleState.graph ∧
    (HandleAllreduceDuplicateInput abortExampleState).2.graph.GetPeerOutAnchor ⟨2, 1⟩ =
      some ⟨0, 0⟩ ∧
    (HandleMemoryRWConflict abortExampleState).1 = .PARAM_INVALID ∧
    (HandleMemoryRWConflict abortExampleState).2.graph = abortExampleState.graph := by
  decide

/-! ## Resolved graphs -/

/-- A loop whose every step succeeds and keeps a property of the state, from
every state that has it, succeeds and keeps it. -/
theorem forEachM_success_keeps {α σ : Type} (f : α → σ → Status × σ) (P : σ → Prop) :
    ∀ (xs : List α), (∀ x ∈ xs, ∀ t, P t → (f x t).1 = .SUCCESS ∧ P (f x t).2) →
      ∀ s, P s → (forEachM f xs s).1 = .SUCCESS ∧ P (forEachM f xs s).2 := by
  intro xs
  induction xs with
  | nil => intro _ s hs; exact ⟨rfl, hs⟩
  | cons x xs ih =>
    intro h s hs
    obtain ⟨h1, h2⟩ := h x (List.mem_cons_self _ _) s hs
    simp only [forEachM, h1, if_true]
    exact ih (fun y hy => h y (List.mem_cons_of_mem _ hy)) _ h2

/-- Whether an output is Writeable does not depend on the registry as long as
the registry holds SoftRead outputs only. -/
theorem GetOutputRWTypeByIndex_writeable_of_soft (g : ComputeGraph)
    {reg reg' : List (String × NodeInputOutputRWType)} (h : softOutputs reg)
    (h' : softOutputs reg') (n index : Nat) :
    GetOutputRWTypeByIndex g reg n index = .kWriteable ↔
      GetOutputRWTypeByIndex g reg' n index = .kWriteable := by
  cases hd : g.GetOpDesc n with
  | none => simp [GetOutputRWTypeByIndex, hd]
  | some d =>
    by_cases hw : d.type = WHILE
    · simp [GetOutputRWTypeByIndex, hd, hw]
    · by_cases hs : d.subgraph_instance_names = []
      · simp [GetOutputRWTypeByIndex, hd, hw, hs]
      · have h1 := GetOutputRWTypeByIndex_of_soft g h n index d hd hw hs
        have h2 := GetOutputRWTypeByIndex_of_soft g h' n index d hd hw hs
        constructor
        · intro e
          rw [e] at h1
          rcases h1 with h1 | h1 | h1 <;> cases h1
        · intro e
          rw [e] at h2
          rcases h2 with h2 | h2 | h2 <;> cases h2

/-- On a linked input whose producer is not Writeable the marking of a
NetOutput input records SoftRead and leaves the state as it is. -/
theorem MarkNetOutputAnchor_settled (a : InDataAnchor)
    (st : PassState × List (Nat × OutputRWType))
    (hp : (st.1.graph.GetPeerOutAnchor a).isSome = true)
    (hw : ∀ p ∈ st.1.graph.GetPeerOutAnchor a,
      GetOutputRWTypeByIndex st.1.graph st.1.node_rwtype_map_ p.node p.idx ≠ .kWriteable) :
    MarkNetOutputAnchor a st =
      (.SUCCESS, (st.1, mapEmplace st.2 a.idx OutputRWType.kSoftRead)) := by
  cases hpe : st.1.graph.GetPeerOutAnchor a with
  | none => rw [hpe] at hp; cases hp
  | some p =>
    have hne := hw p (by rw [hpe]; exact rfl)
    simp only [MarkNetOutputAnchor, hpe, if_neg hne]

/-- Marking a node of a subgraph whose exits are settled succeeds and leaves
graph and counter as they are, and the registry holds SoftRead outputs only
afterwards. -/
theorem MarkRWTypeForSubgraphNode_settled (g : ComputeGraph)
    (reg : List (String × NodeInputOutputRWType)) (hreg : softOutputs reg) (k : Nat)
    (node : Nat) (hd : (g.GetOpDesc node).isSome = true)
    (hx : g.GetType node = NETOUTPUT → ∀ a ∈ g.GetAllInDataAnchors node,
      (g.GetPeerOutAnchor a).isSome = true ∧
      ∀ p ∈ g.GetPeerOutAnchor a, GetOutputRWTypeByIndex g reg p.node p.idx ≠ .kWriteable)
    (t : PassState)
    (ht : t.graph = g ∧ t.identity_num = k ∧ softOutputs t.node_rwtype_map_) :
    (MarkRWTypeForSubgraphNode node t).1 = .SUCCESS ∧
      (MarkRWTypeForSubgraphNode node t).2.graph = g ∧
      (MarkRWTypeForSubgraphNode node t).2.identity_num = k ∧
      softOutputs (MarkRWTypeForSubgraphNode node t).2.node_rwtype_map_ := by
  obtain ⟨hg, hk, hsoft⟩ := ht
  have hsoft2 := MarkRWTypeForSubgraphNode_soft node t hsoft
  refine ⟨?_, ?_, ?_, hsoft2⟩
  all_goals
    unfold MarkRWTypeForSubgraphNode
    rw [hg]
    cases hde : g.GetOpDesc node with
    | none => rw [hde] at hd; cases hd
    | some d =>
      simp only
      have h1 : (if g.GetType node = DATA then MarkDataNode node t else t).graph = g ∧
          (if g.GetType node = DATA then MarkDataNode node t else t).identity_num = k ∧
          softOutputs
            (if g.GetType node = DATA then MarkDataNode node t else t).node_rwtype_map_ := by
        split
        · exact ⟨hg, hk, MarkDataNode_soft node t hsoft⟩
        · exact ⟨hg, hk, hsoft⟩
      generalize (if g.GetType node = DATA then MarkDataNode node t else t) = s1 at h1 ⊢
      obtain ⟨hg1, hk1, hsoft1⟩ := h1
      rw [hg1]
      by_cases hn : g.GetType node = NETOUTPUT
      · rw [if_pos hn]
        have hloop := forEachM_success_keeps MarkNetOutputAnchor (fun st => st.1 = s1)
          (s1.graph.GetAllInDataAnchors node)
          (fun a ha st hst => by
            have hst' : st.1 = s1 := hst
            have ha' : a ∈ g.GetAllInDataAnchors node := hg1 ▸ ha
            obtain ⟨c1, c2⟩ := hx hn a ha'
            have hstep := MarkNetOutputAnchor_settled a st
              (by rw [hst', hg1]; exact c1)
              (by
                rw [hst', hg1]
                intro p hp
                exact fun e => c2 p hp
                  ((GetOutputRWTypeByIndex_writeable_of_soft g hsoft1 hreg _ _).1 e))
            rw [hstep]
            exact ⟨rfl, hst'⟩) (s1, []) rfl
        unfold MarkNetOutputNode
        simp only
        generalize forEachM MarkNetOutputAnchor (s1.graph.GetAllInDataAnchors node) (s1, []) = r
          at hloop ⊢
        obtain ⟨st, s2, mp⟩ := r
        simp only at hloop
        obtain ⟨c1, c2⟩ := hloop
        subst c1 c2
        simp only [if_true] <;> first | rfl | exact hg1 | exact hk1
      · rw [if_neg hn] <;> first | rfl | exact hg1 | exact hk1

/-- Marking the subgraphs of a graph whose exits are settled succeeds and
leaves graph and counter as they are. -/
theorem MarkRWTypeForAllSubgraph_settled (s : PassState)
    (hx : exitsSettled s.graph (markedRegistry s)) :
    MarkRWTypeForAllSubgraph s.graph.GetAllSubgraphs { s with node_rwtype_map_ := [] } =
      (.SUCCESS, { s with node_rwtype_map_ := markedRegistry s }) := by
  have hR : softOutputs (markedRegistry s) :=
    MarkRWTypeForAllSubgraph_soft _ _ softOutputs_nil
  have key := forEachM_success_keeps MarkRWTypeForAllSubgraphStep
    (fun t => t.graph = s.graph ∧ t.identity_num = s.identity_num ∧
      softOutputs t.node_rwtype_map_)
    s.graph.GetAllSubgraphs.reverse
    (fun gi hgi t ht => by
      have hgi' : gi ∈ s.graph.GetAllSubgraphs := List.mem_reverse.1 hgi
      unfold MarkRWTypeForAllSubgraphStep
      rw [ht.1]
      cases hp : s.graph.GetParentNode gi with
      | none => exact ⟨rfl, ht⟩
      | some parent =>
        simp only
        by_cases hw : s.graph.GetType parent = WHILE
        · rw [if_pos hw]
          exact ⟨rfl, ht⟩
        · rw [if_neg hw]
          have hm : s.graph.isMarked gi = true := by
            simp [isMarked, hp, hw]
          unfold MarkRWTypeForSubgraph
          rw [ht.1]
          exact forEachM_success_keeps MarkRWTypeForSubgraphNode
            (fun t => t.graph = s.graph ∧ t.identity_num = s.identity_num ∧
              softOutputs t.node_rwtype_map_)
            (s.graph.GetDirectNode gi)
            (fun n hn u hu =>
              MarkRWTypeForSubgraphNode_settled s.graph (markedRegistry s) hR s.identity_num n
                (hx gi hgi' hm n hn).1 (hx gi hgi' hm n hn).2 u hu) t ht)
    { s with node_rwtype_map_ := [] } ⟨rfl, rfl, softOutputs_nil⟩
  obtain ⟨k1, k2, k3, _⟩ := key
  have hreg : (MarkRWTypeForAllSubgraph s.graph.GetAllSubgraphs
      { s with node_rwtype_map_ := [] }).2.node_rwtype_map_ = markedRegistry s := rfl
  unfold MarkRWTypeForAllSubgraph at hreg ⊢
  generalize forEachM MarkRWTypeForAllSubgraphStep s.graph.GetAllSubgraphs.reverse
    { s with node_rwtype_map_ := [] } = r at k1 k2 k3 hreg ⊢
  obtain ⟨st, ⟨g1, reg1, n1⟩⟩ := r
  simp only at k1 k2 k3 hreg
  subst k1 k2 k3 hreg
  rfl

/-- Every node that `GetAllNodes` lists is a direct node of some graph. -/
theorem ComputeGraph.mem_AllGraphNodes (g : ComputeGraph) :
    ∀ (fuel : Nat) (cands : List Nat), (∀ c ∈ cands, ∃ gi, c ∈ g.GetDirectNode gi) →
      ∀ n ∈ g.AllGraphNodes fuel cands, ∃ gi, n ∈ g.GetDirectNode gi := by
  intro fuel
  induction fuel with
  | zero =>
    intro cands _ n hn
    simp [AllGraphNodes] at hn
  | succ fuel ih =>
    intro cands hc n hn
    cases cands with
    | nil => simp [AllGraphNodes] at hn
    | cons c rest =>
      simp only [AllGraphNodes, List.mem_cons] at hn
      rcases hn with hn | hn
      · rw [hn]
        exact hc c (List.mem_cons_self _ _)
      · refine ih _ ?_ n hn
        intro x hx
        rcases List.mem_append.1 hx with h1 | h1
        · rw [List.mem_flatMap] at h1
          obtain ⟨gi, _, h2⟩ := h1
          exact ⟨gi, h2⟩
        · exact hc x (List.mem_cons_of_mem _ h1)

theorem ComputeGraph.mem_GetAllNodes (g : ComputeGraph) (n : Nat) (h : n ∈ g.GetAllNodes) :
    ∃ gi, n ∈ g.GetDirectNode gi :=
  g.mem_AllGraphNodes _ _ (fun _ hc => ⟨0, hc⟩) n h

/-- `InsertIdentityAsNeeded` leaves the state as it is on a node with a
descriptor none of whose outgoing data edges has the result InsertIdentity. -/
theorem InsertIdentityAsNeeded_settled (node : Nat) (s : PassState)
    (hd : (s.graph.GetOpDesc node).isSome = true)
    (h : ∀ o ∈ s.graph.GetAllOutDataAnchors node, ∀ a ∈ s.graph.GetPeerInDataAnchors o,
      edgeConflict s.graph s.node_rwtype_map_ o a ≠ .INSERT_IDENTITY) :
    InsertIdentityAsNeeded node s = (.SUCCESS, s) := by
  unfold InsertIdentityAsNeeded
  cases hde : s.graph.GetOpDesc node with
  | none => rw [hde] at hd; cases hd
  | some d =>
    simp only
    split
    · rfl
    · apply forEachM_same
      intro o ho
      unfold InsertIdentityOnAnchor
      apply forEachM_same
      intro a ha
      have hon := (node_of_mem_GetAllOutDataAnchors ho).1
      have hc := h o ho a ha
      unfold edgeConflict at hc
      rw [hon] at hc
      unfold InsertIdentityOnPeer
      simp only
      split
      · rfl
      · rfl
      · rename_i e
        exact absurd e hc

/-- The body of the loop of the driver, with its three tests for skipping a
node gathered in `isWalked`. -/
theorem HandleMemoryRWConflictNode_walked (node : Nat) (s : PassState) :
    HandleMemoryRWConflictNode node s =
      if s.graph.isWalked node = true then
        if s.graph.GetType node = IDENTITY ∨ s.graph.GetType node = READVARIABLEOP then
          if (SplitIdentity node s).1 ≠ .SUCCESS then SplitIdentity node s
          else if (RemoveNoUseIdentity node (SplitIdentity node s).2).1 ≠ .SUCCESS then
            RemoveNoUseIdentity node (SplitIdentity node s).2
          else InsertIdentityAsNeeded node (RemoveNoUseIdentity node (SplitIdentity node s).2).2
        else InsertIdentityAsNeeded node s
      else (.SUCCESS, s) := by
  unfold HandleMemoryRWConflictNode isWalked
  simp only
  rcases ho : s.graph.GetOwnerComputeGraph node with _ | gi
  · rcases hd : s.graph.GetOpDesc node with _ | d
    · by_cases hD : s.graph.GetType node = DATA <;>
        by_cases hN : s.graph.GetType node = NETOUTPUT <;> simp [hD, hN]
    · rcases hi : d.parent_node_index with _ | i <;>
        by_cases hD : s.graph.GetType node = DATA <;>
        by_cases hN : s.graph.GetType node = NETOUTPUT <;> simp [hD, hN, hi]
  · rcases hp : s.graph.GetParentNode gi with _ | p
    · rcases hd : s.graph.GetOpDesc node with _ | d
      · by_cases hD : s.graph.GetType node = DATA <;>
          by_cases hN : s.graph.GetType node = NETOUTPUT <;> simp [hD, hN, hp]
      · rcases hi : d.parent_node_index with _ | i <;>
          by_cases hD : s.graph.GetType node = DATA <;>
          by_cases hN : s.graph.GetType node = NETOUTPUT <;> simp [hD, hN, hi, hp]
    · by_cases hW : s.graph.GetType p ∈ kWhileOpTypes
      · rcases hd : s.graph.GetOpDesc node with _ | d
        · by_cases hD : s.graph.GetType node = DATA <;>
            by_cases hN : s.graph.GetType node = NETOUTPUT <;> simp [hD, hN, hp, hW]
        · rcases hi : d.parent_node_index with _ | i <;>
            by_cases hD : s.graph.GetType node = DATA <;>
            by_cases hN : s.graph.GetType node = NETOUTPUT <;> simp [hD, hN, hi, hp, hW]
      · rcases hd : s.graph.GetOpDesc node with _ | d
        · by_cases hD : s.graph.GetType node = DATA <;>
            by_cases hN : s.graph.GetType node = NETOUTPUT <;> simp [hD, hN, hp, hW]
        · rcases hi : d.parent_node_index with _ | i <;>
            by_cases hD : s.graph.GetType node = DATA <;>
            by_cases hN : s.graph.GetType node = NETOUTPUT <;> simp [hD, hN, hi, hp, hW]

/-- The body of the loop of the driver leaves the state as it is on a node
that is not walked or is settled. -/
theorem HandleMemoryRWConflictNode_settled (node : Nat) (s : PassState)
    (hmem : ∃ gi, node ∈ s.graph.GetDirectNode gi)
    (h : s.graph.isWalked node = true → nodeSettled s.graph s.node_rwtype_map_ node) :
    HandleMemoryRWConflictNode node s = (.SUCCESS, s) := by
  rw [HandleMemoryRWConflictNode_walked]
  by_cases hwk : s.graph.isWalked node = true
  · rw [if_pos hwk]
    obtain ⟨hd, hpt, hedge⟩ := h hwk
    have hins := InsertIdentityAsNeeded_settled node s hd hedge
    by_cases h4 : s.graph.GetType node = IDENTITY ∨ s.graph.GetType node = READVARIABLEOP
    · rw [if_pos h4]
      obtain ⟨hin, hout, hsize, hrem⟩ := hpt (by
        simp only [isPassThrough, Bool.or_eq_true, decide_eq_true_eq]
        exact h4)
      have hsplit : SplitIdentity node s = (.SUCCESS, s) := by
        unfold SplitIdentity
        simp only [kIdentityAnchorIndex]
        rw [if_neg (by simp [hasOutAnchor, hout]), if_pos hsize]
      have hremove : RemoveNoUseIdentity node s = (.SUCCESS, s) :=
        (RemoveNoUseIdentity_spec node s hin hout hmem).2 hrem
      simp only [hsplit, hremove, ne_eq, not_true_eq_false, if_false]
      exact hins
    · rw [if_neg h4]
      exact hins
  · rw [if_neg hwk]

/-- Linked inputs with pairwise distinct sources, in the words of
`inputsDistinct`. -/
theorem ComputeGraph.inputsDistinct_iff (g : ComputeGraph) (n : Nat) :
    g.inputsDistinct n ↔
      (∀ a ∈ g.GetAllInDataAnchors n, (g.GetPeerOutAnchor a).isSome = true) ∧
        (g.inputPeers n).Nodup := by
  unfold inputsDistinct inputPeers
  constructor
  · rintro ⟨l, hl, hnd⟩
    constructor
    · intro a ha
      have : g.GetPeerOutAnchor a ∈ (g.GetAllInDataAnchors n).map g.GetPeerOutAnchor :=
        List.mem_map_of_mem _ ha
      rw [hl, List.mem_map] at this
      obtain ⟨o, _, ho⟩ := this
      rw [← ho]
      rfl
    · rw [hl]
      exact hnd.map (fun x y e => Option.some.inj e)
  · rintro ⟨h1, h2⟩
    have hall : ∀ x ∈ (g.GetAllInDataAnchors n).map g.GetPeerOutAnchor, x.isSome = true := by
      intro x hx
      rw [List.mem_map] at hx
      obtain ⟨a, ha, rfl⟩ := hx
      exact h1 a ha
    generalize (g.GetAllInDataAnchors n).map g.GetPeerOutAnchor = L at h2 hall
    have hex : ∀ L : List (Option OutDataAnchor), (∀ x ∈ L, x.isSome = true) →
        ∃ l : List OutDataAnchor, L = l.map some := by
      intro L
      induction L with
      | nil => intro _; exact ⟨[], rfl⟩
      | cons x L ih =>
        intro hx
        obtain ⟨l, hl⟩ := ih (fun y hy => hx y (List.mem_cons_of_mem _ hy))
        cases x with
        | none => exact absurd (hx none (List.mem_cons_self _ _)) (by simp)
        | some o => exact ⟨o :: l, by rw [hl]; rfl⟩
    obtain ⟨l, hl⟩ := hex L hall
    refine ⟨l, hl, ?_⟩
    rw [hl] at h2
    exact List.Nodup.of_map _ h2

/-- After a successful run of the allreduce pass the HcomAllReduce nodes of the
root graph are settled. -/
theorem HandleAllreduceDuplicateInput_settled (s s' : PassState)
    (hl : s.graph.linksValid = true)
    (h : HandleAllreduceDuplicateInput s = (.SUCCESS, s')) :
    allreduceSettled s'.graph ∧ s'.graph.graphs = s.graph.graphs := by
  unfold HandleAllreduceDuplicateInput at h
  have hmemlt : ∀ n ∈ s.graph.GetDirectNode 0, n < s.graph.nodes.length := by
    intro n hn
    exact lt_length_of_isListed ((mem_GetDirectNode _ _ _).1 hn).1
  obtain ⟨hg, _, hd⟩ :=
    HandleAllreduceNodes_distinct _ s s' hl (GetDirectNode_nodup _ _) hmemlt h
  refine ⟨?_, hg.graphs⟩
  intro n hn hty
  have hlt : n < s.graph.nodes.length := by
    by_contra hge
    exact hg.fresh n (Nat.le_of_not_lt hge) hty
  obtain ⟨hlisted, howner⟩ := (mem_GetDirectNode _ _ _).1 hn
  rw [← inputsDistinct_iff]
  apply hd n
  · rw [mem_GetDirectNode]
    rw [hg.listed n hlt] at hlisted
    rw [GetOwnerComputeGraph_of_shape (hg.shape n hlt)] at howner
    exact ⟨hlisted, howner⟩
  · rw [← GetType_of_shape (hg.shape n hlt)]
    exact hty

/-- On a resolved graph the driver succeeds and leaves the graph and the
counter as they are; the registry afterwards is the one that marking the
subgraphs records. -/
theorem HandleMemoryRWConflict_of_resolved (s : PassState) (h : resolved s) :
    HandleMemoryRWConflict s =
      (.SUCCESS, { s with node_rwtype_map_ := markedRegistry s }) := by
  obtain ⟨h1, h2⟩ := h
  unfold HandleMemoryRWConflict
  simp only
  by_cases hsub : s.graph.GetAllSubgraphs = []
  · have hreg : markedRegistry s = [] := by
      unfold markedRegistry
      rw [hsub]
      rfl
    rw [hreg]
    simp only [hsub, List.isEmpty_nil, if_true]
    unfold HandleAllreduceDuplicateInput
    apply HandleAllreduceNode_noop
    intro n hn hty
    exact (inputsDistinct_iff _ n).2 (h1 hsub n hn hty)
  · have hne : s.graph.GetAllSubgraphs.isEmpty = false := by
      cases hl : s.graph.GetAllSubgraphs with
      | nil => exact absurd hl hsub
      | cons a l => rfl
    obtain ⟨hx, hw⟩ := h2 hsub
    simp only [hne, Bool.false_eq_true, if_false, MarkRWTypeForAllSubgraph_settled s hx, ne_eq,
      not_true_eq_false]
    apply forEachM_same
    intro n hn
    exact HandleMemoryRWConflictNode_settled n _ (mem_GetAllNodes _ n hn) (hw n hn)

/-! ## A run that leaves the graph as it is found nothing to do -/

theorem ComputeGraph.passThroughShaped_iff (g : ComputeGraph) :
    g.passThroughShaped = true ↔
      ∀ n, n < g.nodes.length → g.isPassThrough n = true →
        g.inAnchorNum n = 1 ∧ ∀ p, g.GetPeerOutAnchor ⟨n, 0⟩ = some p → p.node ≠ n := by
  unfold passThroughShaped
  simp only [List.all_eq_true, List.mem_range, Bool.or_eq_true, Bool.not_eq_true',
    Bool.and_eq_true, decide_eq_true_eq]
  constructor
  · intro h n hn hpt
    rcases h n hn with h1 | ⟨h1, h2⟩
    · rw [hpt] at h1
      cases h1
    · refine ⟨h1, ?_⟩
      intro p hp
      rw [hp] at h2
      simpa using h2
  · intro h n hn
    cases hpt : g.isPassThrough n with
    | false => exact Or.inl rfl
    | true =>
      obtain ⟨h1, h2⟩ := h n hn hpt
      refine Or.inr ⟨h1, ?_⟩
      cases hp : g.GetPeerOutAnchor ⟨n, 0⟩ with
      | none => rfl
      | some p => simpa using h2 p hp

theorem ComputeGraph.noLarger_refl (g : ComputeGraph) : g.noLarger g :=
  ⟨Nat.le_refl _, fun _ _ h => h⟩

theorem ComputeGraph.noLarger_trans {a b c : ComputeGraph} (h1 : a.noLarger b)
    (h2 : b.noLarger c) : a.noLarger c :=
  ⟨Nat.le_trans h1.1 h2.1,
    fun n hn hl => h1.2 n hn (h2.2 n (Nat.lt_of_lt_of_le hn h1.1) hl)⟩

theorem ComputeGraph.sameNodes_refl (g : ComputeGraph) : g.sameNodes g :=
  ⟨rfl, fun _ _ => rfl⟩

/-- Between two graphs with the same nodes, a graph that is no smaller than
the first and no larger than the second has the same nodes as both. -/
theorem ComputeGraph.sameNodes_between {a b c : ComputeGraph} (h1 : a.noLarger b)
    (h2 : b.noLarger c) (h : a.sameNodes c) : a.sameNodes b ∧ b.sameNodes c := by
  have hlen : b.nodes.length = a.nodes.length :=
    Nat.le_antisymm (h.1 ▸ h2.1) h1.1
  have hab : ∀ n, n < a.nodes.length → b.isListed n = a.isListed n := by
    intro n hn
    cases ha : a.isListed n with
    | true =>
      have hc : c.isListed n = true := by rw [h.2 n hn]; exact ha
      exact h2.2 n (hlen ▸ hn) hc
    | false =>
      cases hb : b.isListed n with
      | false => rfl
      | true =>
        rw [h1.2 n hn hb] at ha
        cases ha
  refine ⟨⟨hlen, hab⟩, ⟨by rw [h.1, hlen], ?_⟩⟩
  intro n hn
  rw [hlen] at hn
  rw [h.2 n hn, hab n hn]

theorem ComputeGraph.noLarger_of_presFacts {g g' : ComputeGraph} (h : PresFacts g g') :
    g.noLarger g' :=
  ⟨h.len, h.listed⟩

theorem ComputeGraph.noLarger_of_extends {g g' : ComputeGraph} (h : Extends g g') :
    g.noLarger g' :=
  ⟨h.len, fun n hn hl => by rw [← h.listed n hn]; exact hl⟩

/-- A loop whose steps only ever enlarge the graph and that ends with the
nodes it started with has found nothing to do at any of its elements: every
step left the key `key` of the state as it was and has the property `Q` that
a step without effect has. -/
theorem forEachM_fixed {α σ κ : Type} (f : α → σ → Status × σ) (gr : σ → ComputeGraph)
    (key : σ → κ) (P : σ → Prop) (Q : α → Prop) (k0 : κ) :
    ∀ (xs : List α),
      (∀ x ∈ xs, ∀ t t', P t → f x t = (.SUCCESS, t') →
        P t' ∧ (gr t).noLarger (gr t') ∧
          (key t = k0 → (gr t).sameNodes (gr t') → key t' = k0 ∧ Q x)) →
      ∀ s s', P s → forEachM f xs s = (.SUCCESS, s') →
        P s' ∧ (gr s).noLarger (gr s') ∧
          (key s = k0 → (gr s).sameNodes (gr s') → key s' = k0 ∧ ∀ x ∈ xs, Q x) := by
  intro xs
  induction xs with
  | nil =>
    intro _ s s' hP h
    simp only [forEachM, Prod.mk.injEq, true_and] at h
    subst h
    exact ⟨hP, noLarger_refl _, fun hk _ => ⟨hk, fun x hx => by cases hx⟩⟩
  | cons x xs ih =>
    intro hstep s s' hP h
    simp only [forEachM] at h
    by_cases hx : (f x s).1 = .SUCCESS
    · rw [if_pos hx] at h
      have hfx : f x s = (.SUCCESS, (f x s).2) := Prod.ext hx rfl
      obtain ⟨hP1, hle1, hfix1⟩ := hstep x (List.mem_cons_self _ _) s _ hP hfx
      obtain ⟨hP2, hle2, hfix2⟩ :=
        ih (fun y hy => hstep y (List.mem_cons_of_mem _ hy)) _ s' hP1 h
      refine ⟨hP2, noLarger_trans hle1 hle2, ?_⟩
      intro hk hsame
      obtain ⟨hs1, hs2⟩ := sameNodes_between hle1 hle2 hsame
      obtain ⟨hk1, hq⟩ := hfix1 hk hs1
      obtain ⟨hk2, hqs⟩ := hfix2 hk1 hs2
      refine ⟨hk2, ?_⟩
      intro y hy
      rcases List.mem_cons.1 hy with e | e
      · rw [e]; exact hq
      · exact hqs y e
    · rw [if_neg hx] at h
      rw [h] at hx
      exact absurd rfl hx

/-- A successful `MarkRWTypeForSubgraph` that adds no node found every node
of the subgraph with a descriptor and every input of a NetOutput node linked
to an output that is not Writeable, and left the graph as it was. -/
theorem MarkRWTypeForSubgraph_fixed (gi : Nat) (u u' : PassState)
    (hl : u.graph.linksValid = true) (hsoft : softOutputs u.node_rwtype_map_)
    (h : MarkRWTypeForSubgraph gi u = (.SUCCESS, u'))
    (hlen : u'.graph.nodes.length = u.graph.nodes.length)
    (R : List (String × NodeInputOutputRWType)) (hR : softOutputs R) :
    (∀ n ∈ u.graph.GetDirectNode gi,
      (u.graph.GetOpDesc n).isSome = true ∧
      (u.graph.GetType n = NETOUTPUT → ∀ a ∈ u.graph.GetAllInDataAnchors n,
        (u.graph.GetPeerOutAnchor a).isSome = true ∧
        ∀ p ∈ u.graph.GetPeerOutAnchor a,
          GetOutputRWTypeByIndex u.graph R p.node p.idx ≠ .kWriteable)) ∧
      u'.graph = u.graph := by
  obtain ⟨sp, hlinked⟩ := MarkRWTypeForSubgraph_spliced gi u u' hl h
  have hset : ∀ n ∈ u.graph.GetDirectNode gi,
      (u.graph.GetOpDesc n).isSome = true ∧
      (u.graph.GetType n = NETOUTPUT → ∀ a ∈ u.graph.GetAllInDataAnchors n,
        (u.graph.GetPeerOutAnchor a).isSome = true ∧
        ∀ p ∈ u.graph.GetPeerOutAnchor a,
          GetOutputRWTypeByIndex u.graph R p.node p.idx ≠ .kWriteable) := by
    intro n hn
    have hlt : n < u.graph.nodes.length :=
      lt_length_of_isListed ((mem_GetDirectNode _ _ _).1 hn).1
    constructor
    · obtain ⟨pre, post, hsplit⟩ := List.append_of_mem hn
      have h' := h
      unfold MarkRWTypeForSubgraph at h'
      rw [hsplit] at h'
      obtain ⟨s1, h1, h2, _⟩ := forEachM_split _ pre post n u u' h'
      have e := (MarkRWTypeForSubgraphNodes_rel pre u _ h1).1
      rw [← GetOpDesc_of_shape (e.shape n hlt)]
      generalize (forEachM MarkRWTypeForSubgraphNode pre u).2 = w at h2 ⊢
      unfold MarkRWTypeForSubgraphNode at h2
      cases hd : w.graph.GetOpDesc n with
      | none =>
        rw [hd] at h2
        simp at h2
      | some d => rfl
    · intro hty a ha
      obtain ⟨han, hin⟩ := (mem_GetAllInDataAnchors _ _ _).1 ha
      have hna : a.node ∈ u.graph.GetDirectNode gi := by rw [han]; exact hn
      have htya : u.graph.GetType a.node = NETOUTPUT := by rw [han]; exact hty
      obtain ⟨p, hp⟩ := hlinked a hna htya hin
      refine ⟨by rw [hp]; rfl, ?_⟩
      intro q hq habs
      have hw := (GetOutputRWTypeByIndex_writeable_of_soft u.graph hR hsoft _ _).1 habs
      obtain ⟨k, hk1, hk2, _⟩ := sp.spliced a (by rw [han]; exact hlt)
        ⟨⟨htya, q, hq, hw⟩, hna⟩
      omega
  refine ⟨hset, ?_⟩
  have key := forEachM_success_keeps MarkRWTypeForSubgraphNode
    (fun t => t.graph = u.graph ∧ t.identity_num = u.identity_num ∧
      softOutputs t.node_rwtype_map_)
    (u.graph.GetDirectNode gi)
    (fun n hn t ht =>
      MarkRWTypeForSubgraphNode_settled u.graph R hR u.identity_num n
        (hset n hn).1 (hset n hn).2 t ht) u ⟨rfl, rfl, hsoft⟩
  unfold MarkRWTypeForSubgraph at h
  rw [h] at key
  exact key.2.1

/-- A successful `InsertIdentityAsNeeded` that adds no node found a
descriptor and no outgoing data edge with the result InsertIdentity, and left
the state as it was. -/
theorem InsertIdentityAsNeeded_fixed (node : Nat) (u u' : PassState)
    (hl : u.graph.linksValid = true)
    (h : InsertIdentityAsNeeded node u = (.SUCCESS, u'))
    (hlen : u'.graph.nodes.length = u.graph.nodes.length) :
    (u.graph.GetOpDesc node).isSome = true ∧
      (∀ o ∈ u.graph.GetAllOutDataAnchors node, ∀ a ∈ u.graph.GetPeerInDataAnchors o,
        edgeConflict u.graph u.node_rwtype_map_ o a ≠ .INSERT_IDENTITY) ∧
      u' = u := by
  obtain ⟨sp, _⟩ := InsertIdentityAsNeeded_spliced node u u' hl h
  have hd : (u.graph.GetOpDesc node).isSome = true := by
    unfold InsertIdentityAsNeeded at h
    cases hd : u.graph.GetOpDesc node with
    | none =>
      rw [hd] at h
      simp at h
    | some d => rfl
  have hedge : ∀ o ∈ u.graph.GetAllOutDataAnchors node,
      ∀ a ∈ u.graph.GetPeerInDataAnchors o,
        edgeConflict u.graph u.node_rwtype_map_ o a ≠ .INSERT_IDENTITY := by
    intro o ho a ha hc
    have hp := (mem_GetPeerInDataAnchors _ o a).1 ha
    obtain ⟨k, hk1, hk2, _⟩ := sp.spliced a (lt_length_of_hasInAnchor (hasInAnchor_of_peer hp))
      ⟨o, hp, (node_of_mem_GetAllOutDataAnchors ho).1, hc⟩
    omega
  refine ⟨hd, hedge, ?_⟩
  have hs := InsertIdentityAsNeeded_settled node u hd hedge
  rw [hs] at h
  simp only [Prod.mk.injEq, true_and] at h
  exact h.symm

/-- A successful `SplitIdentity` on a listed pass-through node with one input
anchor that is not fed by itself, after which the same nodes are listed,
found one output anchor with at most one consumer and left the state as it
was. -/
theorem SplitIdentity_fixed (node : Nat) (u u' : PassState)
    (hwf : u.graph.wellFormed = true) (hpt : u.graph.isPassThrough node = true)
    (hin : u.graph.inAnchorNum node = 1)
    (hself : ∀ p, u.graph.GetPeerOutAnchor ⟨node, 0⟩ = some p → p.node ≠ node)
    (hlisted : u.graph.isListed node = true)
    (h : SplitIdentity node u = (.SUCCESS, u'))
    (hsame : u.graph.sameNodes u'.graph) :
    u.graph.outAnchorNum node = 1 ∧ u.graph.GetPeerInDataNodesSize ⟨node, 0⟩ ≤ 1 ∧
      u' = u := by
  obtain ⟨hlinks, hone⟩ := (wellFormed_iff _).1 hwf
  have hl : u.graph.linksValid = true := (linksValid_iff _).2 hlinks
  have ho : u.graph.hasOutAnchor ⟨node, 0⟩ = true := by
    cases hoa : u.graph.hasOutAnchor ⟨node, 0⟩ with
    | true => rfl
    | false =>
      unfold SplitIdentity at h
      simp only [kIdentityAnchorIndex, hoa, if_true] at h
      simp at h
  have hout : u.graph.outAnchorNum node = 1 := by
    have h1 := hone node hpt
    have h2 : 0 < u.graph.outAnchorNum node := by
      simpa [hasOutAnchor] using ho
    omega
  by_cases hsize : u.graph.GetPeerInDataNodesSize ⟨node, 0⟩ ≤ 1
  · have hs := ((SplitIdentity_spec node u).1 hsize).2 ho
    rw [hs] at h
    simp only [Prod.mk.injEq, true_and] at h
    exact ⟨hout, hsize, h.symm⟩
  · exfalso
    cases hp : u.graph.GetPeerOutAnchor ⟨node, 0⟩ with
    | none =>
      unfold SplitIdentity at h
      simp only [kIdentityAnchorIndex, ho, Bool.true_eq_false, if_false, if_neg hsize, hp] at h
      split at h <;> simp at h
    | some p =>
      have hfacts := (SplitIdentity_spec node u).2 u' p hl hin hout hp (hself p hp)
        (by omega) h
      have hunl := hfacts.2.2.2.2.2.1
      rw [hsame.2 node (lt_length_of_isListed hlisted), hlisted] at hunl
      cases hunl

/-- A successful `RemoveNoUseIdentity` on a listed node with one input and one
output anchor, after which the same nodes are listed, did not find the
removal condition and left the state as it was. -/
theorem RemoveNoUseIdentity_fixed (node : Nat) (u u' : PassState)
    (hin : u.graph.inAnchorNum node = 1) (hout : u.graph.outAnchorNum node = 1)
    (hmem : ∃ gi, node ∈ u.graph.GetDirectNode gi)
    (h : RemoveNoUseIdentity node u = (.SUCCESS, u'))
    (hsame : u.graph.sameNodes u'.graph) :
    ¬ removalConditionSpec u.graph u.node_rwtype_map_ node ∧ u' = u := by
  obtain ⟨gi, hgi⟩ := hmem
  have hlisted : u.graph.isListed node = true := ((mem_GetDirectNode _ _ _).1 hgi).1
  have hspec := RemoveNoUseIdentity_spec node u hin hout ⟨gi, hgi⟩
  have hnot : ¬ removalConditionSpec u.graph u.node_rwtype_map_ node := by
    intro hc
    obtain ⟨s', p, hr, _, hunl, _⟩ := hspec.1 hc
    rw [hr] at h
    simp only [Prod.mk.injEq, true_and] at h
    subst h
    rw [hsame.2 node (lt_length_of_isListed hlisted), hlisted] at hunl
    cases hunl
  refine ⟨hnot, ?_⟩
  have hs := hspec.2 hnot
  rw [hs] at h
  simp only [Prod.mk.injEq, true_and] at h
  exact h.symm

/-- A successful step of the loop of the driver on a listed node, after which
the same nodes are listed, found the node not walked or settled and left the
state as it was. -/
theorem HandleMemoryRWConflictNode_fixed (node : Nat) (u u' : PassState)
    (hwf : u.graph.wellFormed = true) (hsh : u.graph.passThroughShaped = true)
    (hmem : ∃ gi, node ∈ u.graph.GetDirectNode gi)
    (h : HandleMemoryRWConflictNode node u = (.SUCCESS, u'))
    (hsame : u.graph.sameNodes u'.graph) :
    u' = u ∧
      (u.graph.isWalked node = true → nodeSettled u.graph u.node_rwtype_map_ node) := by
  obtain ⟨hlinks, _⟩ := (wellFormed_iff _).1 hwf
  have hl : u.graph.linksValid = true := (linksValid_iff _).2 hlinks
  obtain ⟨gi, hgi⟩ := hmem
  have hlisted : u.graph.isListed node = true := ((mem_GetDirectNode _ _ _).1 hgi).1
  have hlt : node < u.graph.nodes.length := lt_length_of_isListed hlisted
  rw [HandleMemoryRWConflictNode_walked] at h
  by_cases hwk : u.graph.isWalked node = true
  · rw [if_pos hwk] at h
    by_cases h4 : u.graph.GetType node = IDENTITY ∨ u.graph.GetType node = READVARIABLEOP
    · rw [if_pos h4] at h
      have hpt : u.graph.isPassThrough node = true := by
        simp only [isPassThrough, Bool.or_eq_true, decide_eq_true_eq]
        exact h4
      obtain ⟨hin, hself⟩ := (passThroughShaped_iff _).1 hsh node hlt hpt
      by_cases hr1 : (SplitIdentity node u).1 = .SUCCESS
      · rw [if_neg (by simp [hr1])] at h
        have e1 : SplitIdentity node u = (.SUCCESS, (SplitIdentity node u).2) :=
          Prod.ext hr1 rfl
        generalize (SplitIdentity node u).2 = u1 at e1 h
        by_cases hr2 : (RemoveNoUseIdentity node u1).1 = .SUCCESS
        · rw [if_neg (by simp [hr2])] at h
          have e2 : RemoveNoUseIdentity node u1 =
              (.SUCCESS, (RemoveNoUseIdentity node u1).2) := Prod.ext hr2 rfl
          generalize (RemoveNoUseIdentity node u1).2 = u2 at e2 h
          have f1 := SplitIdentity_pres node u u1 hpt e1 hwf
          have f2 := RemoveNoUseIdentity_pres node u1 u2 (PresFacts_isPassThrough f1 hpt) e2
            f1.wf
          have f3 := InsertIdentityAsNeeded_pres node u2 u' h f2.wf
          have n1 := noLarger_of_presFacts f1
          have n2 := noLarger_of_presFacts f2
          have n3 := noLarger_of_presFacts f3
          have s1 := (sameNodes_between n1 (noLarger_trans n2 n3) hsame).1
          obtain ⟨hout, hsize, hu1⟩ := SplitIdentity_fixed node u u1 hwf hpt hin hself hlisted
            e1 s1
          subst hu1
          have s2 := (sameNodes_between n2 n3 hsame).1
          obtain ⟨hrem, hu2⟩ := RemoveNoUseIdentity_fixed node u1 u2 hin hout ⟨gi, hgi⟩ e2 s2
          subst hu2
          obtain ⟨hd, hedge, hu3⟩ := InsertIdentityAsNeeded_fixed node u2 u' hl h hsame.1
          exact ⟨hu3, fun _ => ⟨hd, fun _ => ⟨hin, hout, hsize, hrem⟩, hedge⟩⟩
        · rw [if_pos hr2] at h
          rw [h] at hr2
          exact absurd rfl hr2
      · rw [if_pos hr1] at h
        rw [h] at hr1
        exact absurd rfl hr1
    · rw [if_neg h4] at h
      obtain ⟨hd, hedge, hu3⟩ := InsertIdentityAsNeeded_fixed node u u' hl h hsame.1
      refine ⟨hu3, fun _ => ⟨hd, fun hpt => ?_, hedge⟩⟩
      simp only [isPassThrough, Bool.or_eq_true, decide_eq_true_eq] at hpt
      exact absurd hpt h4
  · rw [if_neg hwk] at h
    simp only [Prod.mk.injEq, true_and] at h
    exact ⟨h.symm, fun hw => absurd hw hwk⟩

/-- A run of the driver that succeeds and leaves the graph as it was found
the graph resolved, on a well-formed graph whose Identity and ReadVariableOp
nodes have one input anchor and do not feed themselves. -/
theorem resolved_of_fixed (s : PassState) (hwf : s.graph.wellFormed = true)
    (hsh : s.graph.passThroughShaped = true)
    (h : (HandleMemoryRWConflict s).1 = .SUCCESS)
    (hg : (HandleMemoryRWConflict s).2.graph = s.graph) : resolved s := by
  obtain ⟨hlinks, _⟩ := (wellFormed_iff _).1 hwf
  have hl : s.graph.linksValid = true := (linksValid_iff _).2 hlinks
  constructor
  · intro hsub
    have hrun : HandleMemoryRWConflict s =
        HandleAllreduceDuplicateInput { s with node_rwtype_map_ := [] } := by
      unfold HandleMemoryRWConflict
      simp only [hsub, List.isEmpty_nil, if_true]
    rw [hrun] at h hg
    have hset := (HandleAllreduceDuplicateInput_settled { s with node_rwtype_map_ := [] } _ hl
      (Prod.ext h rfl)).1
    rw [hg] at hset
    exact hset
  · intro hsub
    have hne : s.graph.GetAllSubgraphs.isEmpty = false := by
      cases hl : s.graph.GetAllSubgraphs with
      | nil => exact absurd hl hsub
      | cons a l => rfl
    have hR : softOutputs (markedRegistry s) :=
      MarkRWTypeForAllSubgraph_soft _ _ softOutputs_nil
    unfold HandleMemoryRWConflict at h hg
    simp only [hne, Bool.false_eq_true, if_false] at h hg
    have hreg : (MarkRWTypeForAllSubgraph s.graph.GetAllSubgraphs
        { s with node_rwtype_map_ := [] }).2.node_rwtype_map_ = markedRegistry s := rfl
    by_cases hr : (MarkRWTypeForAllSubgraph s.graph.GetAllSubgraphs
        { s with node_rwtype_map_ := [] }).1 = .SUCCESS
    · rw [if_neg (by simp [hr])] at h hg
      have hmark : MarkRWTypeForAllSubgraph s.graph.GetAllSubgraphs
          { s with node_rwtype_map_ := [] } = (.SUCCESS,
            (MarkRWTypeForAllSubgraph s.graph.GetAllSubgraphs
              { s with node_rwtype_map_ := [] }).2) := Prod.ext hr rfl
      generalize (MarkRWTypeForAllSubgraph s.graph.GetAllSubgraphs
          { s with node_rwtype_map_ := [] }).2 = t at hmark h hg hreg
      have hwalk : forEachM HandleMemoryRWConflictNode t.graph.GetAllNodes t =
          (.SUCCESS, (forEachM HandleMemoryRWConflictNode t.graph.GetAllNodes t).2) :=
        Prod.ext h rfl
      generalize (forEachM HandleMemoryRWConflictNode t.graph.GetAllNodes t).2 = s2
        at hwalk hg
      -- the marking
      have hmark' := hmark
      unfold MarkRWTypeForAllSubgraph at hmark'
      have km := forEachM_fixed MarkRWTypeForAllSubgraphStep (fun v => v.graph)
        (fun v => v.graph)
        (fun v => v.graph.linksValid = true ∧ softOutputs v.node_rwtype_map_)
        (fun gi => s.graph.isMarked gi = true → ∀ n ∈ s.graph.GetDirectNode gi,
          (s.graph.GetOpDesc n).isSome = true ∧
          (s.graph.GetType n = NETOUTPUT → ∀ a ∈ s.graph.GetAllInDataAnchors n,
            (s.graph.GetPeerOutAnchor a).isSome = true ∧
            ∀ p ∈ s.graph.GetPeerOutAnchor a,
              GetOutputRWTypeByIndex s.graph (markedRegistry s) p.node p.idx ≠ .kWriteable))
        s.graph s.graph.GetAllSubgraphs.reverse
        (by
          intro gi _ v v' hP hv
          obtain ⟨hvl, hvs⟩ := hP
          unfold MarkRWTypeForAllSubgraphStep at hv
          cases hp : v.graph.GetParentNode gi with
          | none =>
            rw [hp] at hv
            simp only [Prod.mk.injEq, true_and] at hv
            subst hv
            refine ⟨⟨hvl, hvs⟩, noLarger_refl _, fun hk _ => ⟨hk, ?_⟩⟩
            intro hm
            rw [← hk] at hm
            simp [isMarked, hp] at hm
          | some parent =>
            rw [hp] at hv
            simp only at hv
            by_cases hw : v.graph.GetType parent = WHILE
            · rw [if_pos hw] at hv
              simp only [Prod.mk.injEq, true_and] at hv
              subst hv
              refine ⟨⟨hvl, hvs⟩, noLarger_refl _, fun hk _ => ⟨hk, ?_⟩⟩
              intro hm
              rw [← hk] at hm
              simp [isMarked, hp, hw] at hm
            · rw [if_neg hw] at hv
              obtain ⟨sp, _⟩ := MarkRWTypeForSubgraph_spliced gi v v' hvl hv
              have hsoft' : softOutputs v'.node_rwtype_map_ := by
                have := MarkRWTypeForSubgraph_soft gi v hvs
                rw [hv] at this
                exact this
              refine ⟨⟨sp.links, hsoft'⟩, noLarger_of_extends sp.ext, ?_⟩
              intro hk hsame
              obtain ⟨hset, hgeq⟩ := MarkRWTypeForSubgraph_fixed gi v v' hvl hvs hv hsame.1
                (markedRegistry s) hR
              refine ⟨hgeq.trans hk, fun _ => ?_⟩
              rw [← hk]
              exact hset)
        { s with node_rwtype_map_ := [] } t ⟨hl, softOutputs_nil⟩ hmark'
      obtain ⟨⟨htl, _⟩, nm, fixm⟩ := km
      simp only at nm fixm
      have hwft : t.graph.wellFormed = true :=
        (MarkRWTypeForAllSubgraph_pres _ _ _ hmark hwf).wf
      have nw : t.graph.noLarger s2.graph :=
        noLarger_of_presFacts (forEachM_pres HandleMemoryRWConflictNode _ t s2
          (fun x _ v v' hv => HandleMemoryRWConflictNode_pres x v v' hv) hwalk hwft)
      have hss : s.graph.sameNodes s2.graph := by
        rw [hg]
        exact sameNodes_refl _
      obtain ⟨sm, sw⟩ := sameNodes_between nm nw hss
      obtain ⟨htg, hexits⟩ := fixm trivial sm
      have hx : exitsSettled s.graph (markedRegistry s) := by
        intro gi hgi hm
        exact hexits gi (List.mem_reverse.2 hgi) hm
      refine ⟨hx, ?_⟩
      -- the walk
      have kw := forEachM_fixed HandleMemoryRWConflictNode (fun v => v.graph) (fun v => v)
        (fun v => v.graph.wellFormed = true)
        (fun n => t.graph.isWalked n = true → nodeSettled t.graph t.node_rwtype_map_ n)
        t t.graph.GetAllNodes
        (by
          intro n hn v v' hP hv
          have pf := HandleMemoryRWConflictNode_pres n v v' hv hP
          refine ⟨pf.wf, noLarger_of_presFacts pf, ?_⟩
          intro hk hsame
          have hk' : v = t := hk
          subst hk'
          have hfix := HandleMemoryRWConflictNode_fixed n v v' hP (by rw [htg]; exact hsh)
            (mem_GetAllNodes _ n hn) hv hsame
          exact ⟨hfix.1, hfix.2⟩)
        t s2 hwft hwalk
      obtain ⟨_, _, fixw⟩ := kw
      obtain ⟨_, hnodes⟩ := fixw rfl sw
      intro n hn hwk
      have := hnodes n (by rw [htg]; exact hn) (by rw [htg]; exact hwk)
      rw [htg, hreg] at this
      exact this
    · rw [if_pos (by simpa using hr)] at h
      exact absurd h hr

end ge
